import Mathlib

/-!
# ab25-dashboard: ingestion store and milestone evaluator

A shallow embedding of `backend/internal/store/store.go` and of the parts of
`backend/internal/ingest/poller.go` that feed it.

Modelling conventions.

* The SQLite database behind `Store` is a record of tables; every table is the
  list of its rows in rowid order (insertion order: rowids only grow).
* A `time.Time` value is an instant, in nanoseconds since the Unix epoch,
  together with the offset and the abbreviation of its zone and the reading of
  the monotonic clock, if it has one.  The SQLite driver writes such a value
  into a column as the text of Go's `Time.String`, and reads the text of a
  column back into a time of that instant and zone; `timeString` models the
  text from the published source of package `time`.
* `int64` columns are integers.  The one place where the 64-bit range decides
  what the program does, `SUM(amount_sats)`, is modelled with the range check
  SQLite performs on the running sum.
* Every call into the storage layer can fail for reasons outside the program
  (I/O, cancelled context).  Operations therefore take `fault : Option Nat`,
  the index of the storage call (counted from 0 inside the operation) that
  reports an error; `none` means that no call fails.  A failed operation
  returns `Except.error` and, being rolled back, leaves the caller with the
  store it had.
* The schema declares foreign keys, but the connection string built by `New`
  never enables `PRAGMA foreign_keys`, so they are not enforced.
* The primary keys of the schema (`merchants.id`, `products(merchant_id,
  product_id)`) appear as hypotheses that the key columns of a table hold
  distinct values.
* Time columns hold text, and SQL compares and orders them, like every text
  column, as SQLite's `BINARY` collation does: byte by byte.  Where SQL leaves
  the order of rows open (ties of an `ORDER BY`, the order of a join), the
  model keeps the order of the tables.
* `float64` values are the rationals they stand for, and an operation on them
  rounds to the nearest value with a significand of 53 bits.
* The decimal library used by `parseSats` is modelled from its published
  source.
* A poll cycle (`pollAll`) is a transition system: each worker goroutine takes
  one merchant at a time from the work channel and runs its unit one storage
  call per step, and a schedule says which worker moves next.  Nothing outside
  the cycle writes to the store while it runs.
-/

namespace Dashboard

/-! ## Times and the text the database holds for them (Go's package `time`) -/

/-- Go: `time.Time`: the instant, in nanoseconds since the Unix epoch; the
offset, in seconds east of UTC, and the abbreviation of the zone the value is
in at that instant (the empty string for a location that `time.Parse` made up
for an offset); and the reading of the monotonic clock that a value of
`time.Now()` carries. -/
structure Time where
  unixNano : Int
  offset : Int
  zone : String
  mono : Option Int
deriving DecidableEq, Repr

/-- A numeral stands for the UTC value that many nanoseconds after the epoch. -/
instance (n : Nat) : OfNat Time n :=
  ⟨{ unixNano := n, offset := 0, zone := "UTC", mono := none }⟩

/-- The UTC value of an instant given in nanoseconds since the epoch. -/
def utc (unixNano : Int) : Time :=
  { unixNano := unixNano, offset := 0, zone := "UTC", mono := none }

/-- Go: `Time.UTC`: the same instant in UTC, without the monotonic reading. -/
def Time.UTC (t : Time) : Time :=
  { unixNano := t.unixNano, offset := 0, zone := "UTC", mono := none }

/-- Go: `Time.Add`, for a value of a zone with a fixed offset, as UTC is: both
clock readings move by the duration. -/
def Time.Add (t : Time) (d : Int) : Time :=
  { t with unixNano := t.unixNano + d, mono := t.mono.map (fun m => m + d) }

/-- A calendar date. -/
structure Date where
  year : Int
  month : Int
  day : Int
deriving DecidableEq, Repr

/-- The year that starts on 1 March and the day of that year, for a number of
days since 1 March of the year 0: the days are cut into cycles of 400 years,
centuries, cycles of 4 years and years. -/
def marchYear (z : Int) : Int × Int :=
  let era := z / 146097
  let doe := z % 146097
  let c := min (doe / 36524) 3
  let d1 := doe - 36524 * c
  let q := d1 / 1461
  let d2 := d1 % 1461
  let a := min (d2 / 365) 3
  (400 * era + 100 * c + 4 * q + a, d2 - 365 * a)

/-- The date of the proleptic Gregorian calendar that lies `days` days after
1 January 1970 (Go: `Time.Date`). -/
def civil (days : Int) : Date :=
  let y := (marchYear (days + 719468)).1
  let doy := (marchYear (days + 719468)).2
  let mp := (5 * doy + 2) / 153
  let m := if mp < 10 then mp + 3 else mp - 9
  { year := if m ≤ 2 then y + 1 else y, month := m, day := doy - (153 * mp + 2) / 5 + 1 }

/-- The seconds on the wall clock of the value's zone, counted from
1970-01-01 00:00:00 on that clock. -/
def Time.wallSeconds (t : Time) : Int := t.unixNano / 1000000000 + t.offset

/-- Go: `Time.Date`. -/
def Time.date (t : Time) : Date := civil (t.wallSeconds / 86400)

/-- Go: `Time.Hour`. -/
def Time.hour (t : Time) : Int := t.wallSeconds % 86400 / 3600

/-- Go: `Time.Minute`. -/
def Time.minute (t : Time) : Int := t.wallSeconds % 3600 / 60

/-- Go: `Time.Second`. -/
def Time.second (t : Time) : Int := t.wallSeconds % 60

/-- Go: `Time.Nanosecond`. -/
def Time.nanosecond (t : Time) : Int := t.unixNano % 1000000000

/-- The `w` lowest decimal digits of `n`, the highest first. -/
def lowDigits : Nat → Nat → List Char
  | 0, _ => []
  | w + 1, n => Nat.digitChar (n / 10 ^ w % 10) :: lowDigits w (n % 10 ^ w)

/-- Go: `appendInt` of package `time`: a minus sign for a negative `x`, then
the decimal digits of its magnitude, padded with zeros to `width` digits: the
`width` lowest digits when the magnitude has no more than that, else all its
digits. -/
def appendInt (x : Int) (width : Nat) : List Char :=
  (if x < 0 then ['-'] else []) ++
    (if width ≠ 0 ∧ x.natAbs < 10 ^ width then lowDigits width x.natAbs
     else Nat.toDigits 10 x.natAbs)

/-- A text without the zeros at its end. -/
def trimZeros : List Char → List Char
  | [] => []
  | c :: l => if trimZeros l = [] ∧ c = '0' then [] else c :: trimZeros l

/-- Go: `appendNano` for the layout `.999999999`: nothing for zero
nanoseconds, else a point and the nine digits without the zeros at their end. -/
def fracText (nanosec : Int) : List Char :=
  if nanosec = 0 then [] else '.' :: trimZeros (appendInt nanosec 9)

/-- Go: the layout `-0700`: the sign, the hours and the minutes of an offset
given in seconds (the division by 60 truncates). -/
def offsetText (offset : Int) : List Char :=
  (if Int.tdiv offset 60 < 0 then ['-'] else ['+']) ++
    appendInt (((Int.tdiv offset 60).natAbs / 60 : Nat) : Int) 2 ++
    appendInt (((Int.tdiv offset 60).natAbs % 60 : Nat) : Int) 2

/-- Go: the layout `MST`: the abbreviation of the zone, or the offset in the
form `-0700` when the zone has none. -/
def zoneText (t : Time) : List Char :=
  if t.zone = "" then offsetText t.offset else t.zone.toList

/-- Go: the monotonic reading as `Time.String` writes it, ` m=±ddd.nnnnnnnnn`. -/
def monoText : Option Int → List Char
  | none => []
  | some m =>
    [' ', 'm', '='] ++ [if m < 0 then '-' else '+'] ++
      (if m.natAbs / 1000000000 / 1000000000 ≠ 0 then
        appendInt ((m.natAbs / 1000000000 / 1000000000 : Nat) : Int) 0 ++
          appendInt ((m.natAbs / 1000000000 % 1000000000 : Nat) : Int) 9
      else appendInt ((m.natAbs / 1000000000 % 1000000000 : Nat) : Int) 0) ++
      ['.'] ++ appendInt ((m.natAbs % 1000000000 : Nat) : Int) 9

/-- Go: `Time.String`, the layout `2006-01-02 15:04:05.999999999 -0700 MST`
followed by the monotonic reading.  The SQLite driver binds a `time.Time`
argument as this text: the connection string of `New` sets no `_time_format`. -/
def timeString (t : Time) : List Char :=
  appendInt t.date.year 4 ++ ['-'] ++ appendInt t.date.month 2 ++ ['-'] ++
    appendInt t.date.day 2 ++ [' '] ++ appendInt t.hour 2 ++ [':'] ++
    appendInt t.minute 2 ++ [':'] ++ appendInt t.second 2 ++ fracText t.nanosecond ++
    [' '] ++ offsetText t.offset ++ [' '] ++ zoneText t ++ monoText t.mono

/-- The order of the `BINARY` collation on two texts: the order of their UTF-8
bytes, which is the lexicographic order of their code points. -/
def bytesLE : List Char → List Char → Bool
  | [], _ => true
  | _ :: _, [] => false
  | a :: as, b :: bs => decide (a.toNat < b.toNat) || (decide (a.toNat = b.toNat) && bytesLE as bs)

/-- SQLite's `a <= b` on two stored times: the comparison of their texts. -/
def timeLE (a b : Time) : Bool := bytesLE (timeString a) (timeString b)

/-- Text `x` sorts before text `y` at a position that both have: whatever
follows them, the text that starts with `x` is strictly before the other. -/
def bytesBefore (x y : List Char) : Prop :=
  ∀ r1 r2, bytesLE (x ++ r1) (y ++ r2) = true ∧ bytesLE (y ++ r2) (x ++ r1) = false

/-- A UTC value the way `time.Now().UTC()` and `time.Parse` of a timestamp with
the zone `Z` make it, in a year that is written with four digits. -/
def Time.plainUTC (t : Time) : Prop :=
  t.offset = 0 ∧ t.zone = "UTC" ∧ t.mono = none ∧ 0 ≤ t.date.year ∧ t.date.year ≤ 9999

instance (t : Time) : Decidable t.plainUTC :=
  inferInstanceAs (Decidable (_ ∧ _ ∧ _ ∧ _ ∧ _))

/-! ## Data model (`store.go`, lines 14-118 and 147-210) -/

/-- Errors surfaced by the store. -/
inductive StoreError where
  | persistence
  | integerOverflow
  | invalidMilestoneType
  | errNoRows
deriving DecidableEq, Repr

/-- Go: `type Merchant struct`, also the row type of table `merchants`. -/
structure Merchant where
  ID : String
  PublicKey : String
  Alias : String
  Enabled : Bool
  LastPolledAt : Option Time
  CreatedAt : Time
  UpdatedAt : Time
deriving DecidableEq, Repr

/-- Go: `type TransactionInput struct`. -/
structure TransactionInput where
  SaleID : Int
  SaleOrigin : String
  SaleDate : Time
  AmountSats : Int
deriving DecidableEq, Repr

/-- A row of table `transactions`.  The surrogate `id` column is never read
back by the program (only counted), so a row is identified by its position. -/
structure TransactionRow where
  merchant_id : String
  sale_id : Int
  sale_origin : String
  sale_date : Time
  amount_sats : Int
  created_at : Time
deriving DecidableEq, Repr

/-- Go: `type ProductSnapshot struct`. -/
structure ProductSnapshot where
  ProductID : Int
  Name : String
  Currency : String
  Price : String
  TotalTransactions : Int
  TotalRevenueSats : Int
  Active : Bool
deriving DecidableEq, Repr

/-- A row of table `products`. -/
structure ProductRow where
  merchant_id : String
  product_id : Int
  name : String
  currency : String
  price : String
  total_transactions : Int
  total_revenue_sats : Int
  active : Bool
  updated_at : Time
deriving DecidableEq, Repr

/-- Go: `type Milestone struct` (field `Type` is spelled `Typ`) as passed to `UpsertMilestone` and
`UpdateMilestone` and returned by `GetMilestone`. -/
structure Milestone where
  ID : Int
  Name : String
  Typ : String
  Threshold : Int
  Enabled : Bool
  Triggered : Bool
  TriggeredAt : Option Time
  CreatedAt : Time
  UpdatedAt : Time
deriving DecidableEq, Repr

/-- A row of table `milestones`; `triggered_at = none` is SQL `NULL`. -/
structure MilestoneRow where
  id : Int
  name : String
  typ : String
  threshold : Int
  enabled : Bool
  triggered_at : Option Time
  created_at : Time
  updated_at : Time
deriving DecidableEq, Repr

/-- Go: `type MilestoneTrigger struct` (field `Type` is spelled `Typ`), also the row type of table
`milestone_triggers`. -/
structure MilestoneTrigger where
  ID : Int
  MilestoneID : Int
  Name : String
  Typ : String
  Threshold : Int
  TriggeredAt : Time
  TotalTransactions : Int
  TotalVolumeSats : Int
deriving DecidableEq, Repr

/-- The database: one list of rows per table, and the `sqlite_sequence`
counters of the two `AUTOINCREMENT` tables whose ids the program reads (the
largest rowid ever handed out in the table; the next `INSERT` gets the
counter plus one). -/
structure Store where
  merchants : List Merchant
  transactions : List TransactionRow
  products : List ProductRow
  milestones : List MilestoneRow
  triggers : List MilestoneTrigger
  milestoneSeq : Int
  triggerSeq : Int
deriving DecidableEq, Repr

/-- Go: `New` followed by `Init` on a fresh database: every table is empty. -/
def Store.empty : Store :=
  { merchants := [], transactions := [], products := [], milestones := [],
    triggers := [], milestoneSeq := 0, triggerSeq := 0 }

/-- Does storage call number `step` of the running operation report an error? -/
def failsAt (fault : Option Nat) (step : Nat) : Bool :=
  fault == some step

/-! ## RecordTransactions (`store.go`, lines 307-343) -/

/-- The conflict target of the insert: is there a row with this
`(merchant_id, sale_id)`?  (`UNIQUE(merchant_id, sale_id)`.) -/
def hasSale (rows : List TransactionRow) (merchantID : String) (saleID : Int) : Bool :=
  rows.any (fun r => r.merchant_id == merchantID && r.sale_id == saleID)

/-- The row written by one execution of the prepared `INSERT`. -/
def newTransactionRow (merchantID : String) (now : Time) (t : TransactionInput) :
    TransactionRow :=
  { merchant_id := merchantID, sale_id := t.SaleID, sale_origin := t.SaleOrigin,
    sale_date := t.SaleDate, amount_sats := t.AmountSats, created_at := now }

/-- The `for _, t := range txns` loop: one
`INSERT ... ON CONFLICT(merchant_id, sale_id) DO NOTHING` per input, counting
the rows affected.  `step` is the index of the next storage call. -/
def insertLoop (fault : Option Nat) (merchantID : String) (now : Time) :
    List TransactionInput → Nat → List TransactionRow → Int →
      Except StoreError (List TransactionRow × Int)
  | [], step, rows, inserted =>
    -- tx.Commit()
    if failsAt fault step then .error .persistence else .ok (rows, inserted)
  | t :: rest, step, rows, inserted =>
    if failsAt fault step then .error .persistence
    else if hasSale rows merchantID t.SaleID then
      insertLoop fault merchantID now rest (step + 1) rows inserted
    else
      insertLoop fault merchantID now rest (step + 1)
        (rows ++ [newTransactionRow merchantID now t]) (inserted + 1)

/-- Go: `(*Store).RecordTransactions`.  Storage calls: 0 `BeginTx`,
1 `PrepareContext`, 2.. one `ExecContext` per input, then `Commit`. -/
def RecordTransactions (s : Store) (now : Time) (merchantID : String)
    (txns : List TransactionInput) (fault : Option Nat) :
    Except StoreError (Int × Store) :=
  if txns.length = 0 then .ok (0, s)
  else if failsAt fault 0 then .error .persistence
  else if failsAt fault 1 then .error .persistence
  else
    match insertLoop fault merchantID now txns 2 s.transactions 0 with
    | .error e => .error e
    | .ok (rows, inserted) => .ok (inserted, { s with transactions := rows })

/-! ## UpsertProducts (`store.go`, lines 345-390) -/

/-- One execution of the prepared
`INSERT ... ON CONFLICT(merchant_id, product_id) DO UPDATE SET ...`. -/
def upsertProductRow (rows : List ProductRow) (merchantID : String) (now : Time)
    (p : ProductSnapshot) : List ProductRow :=
  if rows.any (fun r => r.merchant_id == merchantID && r.product_id == p.ProductID) then
    rows.map (fun r =>
      if r.merchant_id == merchantID && r.product_id == p.ProductID then
        { r with name := p.Name, currency := p.Currency, price := p.Price,
                 total_transactions := p.TotalTransactions,
                 total_revenue_sats := p.TotalRevenueSats,
                 active := p.Active, updated_at := now }
      else r)
  else
    rows ++ [{ merchant_id := merchantID, product_id := p.ProductID, name := p.Name,
               currency := p.Currency, price := p.Price,
               total_transactions := p.TotalTransactions,
               total_revenue_sats := p.TotalRevenueSats,
               active := p.Active, updated_at := now }]

/-- The `for _, p := range products` loop followed by `tx.Commit()`. -/
def upsertLoop (fault : Option Nat) (merchantID : String) (now : Time) :
    List ProductSnapshot → Nat → List ProductRow → Except StoreError (List ProductRow)
  | [], step, rows => if failsAt fault step then .error .persistence else .ok rows
  | p :: rest, step, rows =>
    if failsAt fault step then .error .persistence
    else upsertLoop fault merchantID now rest (step + 1) (upsertProductRow rows merchantID now p)

/-- Go: `(*Store).UpsertProducts`.  Storage calls: 0 `BeginTx`,
1 `PrepareContext`, 2.. one `ExecContext` per snapshot, then `Commit`. -/
def UpsertProducts (s : Store) (now : Time) (merchantID : String)
    (products : List ProductSnapshot) (fault : Option Nat) : Except StoreError Store :=
  if products.length = 0 then .ok s
  else if failsAt fault 0 then .error .persistence
  else if failsAt fault 1 then .error .persistence
  else
    match upsertLoop fault merchantID now products 2 s.products with
    | .error e => .error e
    | .ok rows => .ok { s with products := rows }

/-! ## Merchants (`store.go`, lines 212-252) -/

/-- Go: `(*Store).UpsertMerchant`: a single `INSERT ... ON CONFLICT(id) DO
UPDATE SET public_key, alias, enabled, updated_at`. -/
def UpsertMerchant (s : Store) (now : Time) (m : Merchant) (fault : Option Nat) :
    Except StoreError Store :=
  if failsAt fault 0 then .error .persistence
  else if s.merchants.any (fun r => r.ID == m.ID) then
    .ok { s with merchants := s.merchants.map (fun r =>
      if r.ID == m.ID then
        { r with PublicKey := m.PublicKey, Alias := m.Alias, Enabled := m.Enabled,
                 UpdatedAt := now }
      else r) }
  else
    .ok { s with merchants := s.merchants ++
      [{ ID := m.ID, PublicKey := m.PublicKey, Alias := m.Alias, Enabled := m.Enabled,
         LastPolledAt := none, CreatedAt := now, UpdatedAt := now }] }

/-- Go: `(*Store).UpdateMerchantPollTime`: a single `UPDATE merchants SET
last_polled_at=?, updated_at=? WHERE id=?`. -/
def UpdateMerchantPollTime (s : Store) (merchantID : String) (ts : Time)
    (fault : Option Nat) : Except StoreError Store :=
  if failsAt fault 0 then .error .persistence
  else .ok { s with merchants := s.merchants.map (fun m =>
      if m.ID == merchantID then { m with LastPolledAt := some ts, UpdatedAt := ts } else m) }

/-! ## Milestone configuration (`store.go`, lines 571-635 and 766-773) -/

/-- Go: `unicode.ToLower` on the runes that matter when the result is compared
with an ASCII word: the ASCII capitals, and the two non-ASCII runes whose
lower case is an ASCII letter (U+0130 and U+212A).  Every other rune is either
its own lower case or maps to a non-ASCII rune, and is kept as it is. -/
def toLowerRune (c : Char) : Char :=
  if c.toNat = 0x130 then 'i'
  else if c.toNat = 0x212A then 'k'
  else c.toLower

/-- Go: `strings.ToLower`. -/
def ToLower (v : String) : String :=
  String.mk (v.toList.map toLowerRune)

/-- Go: `const MilestoneTransactions`. -/
def MilestoneTransactions : String := "transactions"

/-- Go: `const MilestoneVolume`. -/
def MilestoneVolume : String := "volume"

/-- Go: `validateMilestoneType`; `true` when the type is accepted. -/
def validateMilestoneType (mt : String) : Bool :=
  ToLower mt == MilestoneTransactions || ToLower mt == MilestoneVolume

/-- Go: `(*Store).UpsertMilestone`: validation, then a single `INSERT` whose
rowid is read back with `LastInsertId`. -/
def UpsertMilestone (s : Store) (now : Time) (m : Milestone) (fault : Option Nat) :
    Except StoreError (Milestone × Store) :=
  if !validateMilestoneType m.Typ then .error .invalidMilestoneType
  else if failsAt fault 0 then .error .persistence
  else
    let id := s.milestoneSeq + 1
    .ok ({ m with Typ := ToLower m.Typ, CreatedAt := now, UpdatedAt := now, ID := id },
         { s with
           milestones := s.milestones ++
             [{ id := id, name := m.Name, typ := ToLower m.Typ, threshold := m.Threshold,
                enabled := m.Enabled, triggered_at := none,
                created_at := now, updated_at := now }],
           milestoneSeq := id })

/-- Go: `(*Store).GetMilestone`, on the row found (or `sql.ErrNoRows`). -/
def GetMilestone (s : Store) (id : Int) (fault : Option Nat) : Except StoreError Milestone :=
  if failsAt fault 0 then .error .persistence
  else
    match s.milestones.find? (fun r => r.id == id) with
    | none => .error .errNoRows
    | some r =>
      .ok { ID := r.id, Name := r.name, Typ := ToLower r.typ, Threshold := r.threshold,
            Enabled := r.enabled, Triggered := r.triggered_at.isSome,
            TriggeredAt := r.triggered_at, CreatedAt := r.created_at,
            UpdatedAt := r.updated_at }

/-- Go: `(*Store).UpdateMilestone`.  Storage calls: 0 the `UPDATE`, 1 the
`SELECT` of `GetMilestone`.  The `UPDATE` is committed on its own, so a failure
of the read-back leaves the row updated. -/
def UpdateMilestone (s : Store) (now : Time) (id : Int) (update : Milestone) (reset : Bool)
    (fault : Option Nat) : Store × Except StoreError Milestone :=
  if !validateMilestoneType update.Typ then (s, .error .invalidMilestoneType)
  else if failsAt fault 0 then (s, .error .persistence)
  else if !(s.milestones.any (fun r => r.id == id)) then (s, .error .errNoRows)
  else
    let s1 := { s with milestones := s.milestones.map (fun r =>
      if r.id == id then
        { r with name := update.Name, typ := ToLower update.Typ,
                 threshold := update.Threshold, enabled := update.Enabled,
                 updated_at := now,
                 triggered_at := if reset then none else r.triggered_at }
      else r) }
    (s1, GetMilestone s1 id (if failsAt fault 1 then some 0 else none))

/-! ## Totals and the milestone evaluator (`store.go`, lines 637-757) -/

/-- Does the value fit a signed 64-bit integer? -/
def fitsInt64 (x : Int) : Bool :=
  decide (-(2 : Int) ^ 63 ≤ x) && decide (x ≤ (2 : Int) ^ 63 - 1)

/-- SQLite `SUM` over an `INTEGER` column, row by row: it raises
"integer overflow" as soon as the running sum leaves the 64-bit range. -/
def sumInt64 : List Int → Int → Option Int
  | [], acc => some acc
  | x :: xs, acc => if fitsInt64 (acc + x) then sumInt64 xs (acc + x) else none

/-- Go: `(*Store).currentTotals`:
`SELECT COUNT(*), COALESCE(SUM(amount_sats),0) FROM transactions`
(storage call 0). -/
def currentTotals (s : Store) (fault : Option Nat) : Except StoreError (Int × Int) :=
  if failsAt fault 0 then .error .persistence
  else
    match sumInt64 (s.transactions.map (fun r => r.amount_sats)) 0 with
    | none => .error .integerOverflow
    | some totalVol => .ok ((s.transactions.length : Int), totalVol)

/-- Go: the local `type candidate struct` of `ProcessMilestones`. -/
structure candidate where
  id : Int
  name : String
  typ : String
  threshold : Int
deriving DecidableEq, Repr

/-- The columns `id, name, type, threshold` of a milestone row, as scanned
into a `candidate`. -/
def candidateOf (r : MilestoneRow) : candidate :=
  { id := r.id, name := r.name, typ := r.typ, threshold := r.threshold }

/-- The rows of `SELECT id, name, type, threshold FROM milestones WHERE
enabled=1 AND triggered_at IS NULL`. -/
def selectCandidates (s : Store) : List candidate :=
  (s.milestones.filter (fun r => r.enabled && r.triggered_at.isNone)).map candidateOf

/-- The `switch MilestoneType(c.typ)` of the loop body: `none` is the
`default: continue` branch, otherwise the value of `condition`. -/
def condition (totalTx totalVol : Int) (c : candidate) : Option Bool :=
  if c.typ = MilestoneTransactions then some (decide (totalTx ≥ c.threshold))
  else if c.typ = MilestoneVolume then some (decide (totalVol ≥ c.threshold))
  else none

/-- Does the loop body reach its two statements for this candidate? -/
def fires (totalTx totalVol : Int) (c : candidate) : Bool :=
  condition totalTx totalVol c == some true

/-- `UPDATE milestones SET triggered_at=? WHERE id=? AND triggered_at IS NULL`,
on the table as it is when the statement runs. -/
def markTriggered (rows : List MilestoneRow) (id : Int) (now : Time) : List MilestoneRow :=
  rows.map (fun r =>
    if r.id == id && r.triggered_at.isNone then { r with triggered_at := some now } else r)

/-- The trigger built for a candidate; `triggerID` is the rowid reported by
`LastInsertId` for the `INSERT INTO milestone_triggers`. -/
def newTrigger (triggerID : Int) (now : Time) (totalTx totalVol : Int) (c : candidate) :
    MilestoneTrigger :=
  { ID := triggerID, MilestoneID := c.id, Name := c.name, Typ := c.typ,
    Threshold := c.threshold, TriggeredAt := now,
    TotalTransactions := totalTx, TotalVolumeSats := totalVol }

/-- The `for _, c := range candidates` loop inside the write transaction,
followed by `tx.Commit()`.  The result of the `UPDATE` is discarded by the
code (`if _, err := tx.ExecContext(...)`), so the `INSERT` and the `append`
follow whenever the `UPDATE` raises no error. -/
def triggerLoop (fault : Option Nat) (now : Time) (totalTx totalVol : Int) :
    List candidate → Nat → Store → List MilestoneTrigger →
      Except StoreError (List MilestoneTrigger × Store)
  | [], step, s, triggered =>
    if failsAt fault step then .error .persistence else .ok (triggered, s)
  | c :: rest, step, s, triggered =>
    if fires totalTx totalVol c then
      if failsAt fault step then .error .persistence
      else if failsAt fault (step + 1) then .error .persistence
      else
        let trig := newTrigger (s.triggerSeq + 1) now totalTx totalVol c
        triggerLoop fault now totalTx totalVol rest (step + 2)
          { s with milestones := markTriggered s.milestones c.id now,
                   triggers := s.triggers ++ [trig],
                   triggerSeq := s.triggerSeq + 1 }
          (triggered ++ [trig])
    else
      triggerLoop fault now totalTx totalVol rest step s triggered

/-- First half of `ProcessMilestones` (lines 639-669): the two reads, each a
statement of its own outside any transaction.  Storage calls: 0 the totals,
1 the candidate query. -/
def readCandidates (s : Store) (fault : Option Nat) :
    Except StoreError (Int × Int × List candidate) :=
  match currentTotals s fault with
  | .error e => .error e
  | .ok (totalTx, totalVol) =>
    if failsAt fault 1 then .error .persistence
    else .ok (totalTx, totalVol, selectCandidates s)

/-- Second half of `ProcessMilestones` (lines 671-723): the write transaction,
run on the store as it is when the transaction begins.  Storage calls:
2 `BeginTx`, 3.. two statements per firing candidate, then `Commit`. -/
def writeTriggers (s : Store) (now : Time) (fault : Option Nat)
    (r : Int × Int × List candidate) : Except StoreError (List MilestoneTrigger × Store) :=
  if r.2.2.length = 0 then .ok ([], s)
  else if failsAt fault 2 then .error .persistence
  else triggerLoop fault now r.1 r.2.1 r.2.2 3 s []

/-- Go: `(*Store).ProcessMilestones`, run without another writer in between. -/
def ProcessMilestones (s : Store) (now : Time) (fault : Option Nat) :
    Except StoreError (List MilestoneTrigger × Store) :=
  match readCandidates s fault with
  | .error e => .error e
  | .ok r => writeTriggers s now fault r

/-- Go: `(*Store).MilestoneTriggersSince`: the rows with
`triggered_at >= since`, `ORDER BY triggered_at DESC`, both on the stored
texts (rows with equal texts keep their table order). -/
def MilestoneTriggersSince (s : Store) (since : Time) : List MilestoneTrigger :=
  List.insertionSort (fun a b => timeLE b.TriggeredAt a.TriggeredAt = true)
    (s.triggers.filter (fun t => timeLE since t.TriggeredAt))

/-! ## Normalisation (`poller.go`, lines 145-202 and 234-272) -/

/-- Errors returned by the per-merchant unit of work. -/
inductive PollError where
  | fetch
  | parseSaleDate
  | parseSats
  | parseProductRevenue
  | store (e : StoreError)
deriving DecidableEq, Repr

/-- Go: `unicode.IsSpace`, the predicate used by `strings.TrimSpace`. -/
def isSpace (c : Char) : Bool :=
  let n := c.toNat
  n == 0x20 || (0x09 ≤ n && n ≤ 0x0D) || n == 0x85 || n == 0xA0 || n == 0x1680 ||
  (0x2000 ≤ n && n ≤ 0x200A) || n == 0x2028 || n == 0x2029 || n == 0x202F ||
  n == 0x205F || n == 0x3000

/-- Go: `strings.TrimSpace`, on the list of runes. -/
def TrimSpace (v : List Char) : List Char :=
  ((v.dropWhile isSpace).reverse.dropWhile isSpace).reverse

/-- Go: `decimal.Decimal` of `github.com/shopspring/decimal`: the number
`value * 10 ^ exp`. -/
structure Decimal where
  value : Int
  exp : Int
deriving DecidableEq, Repr

/-- A run of decimal digits, read left to right. -/
def parseDigits : List Char → Nat → Option Nat
  | [], acc => some acc
  | c :: cs, acc =>
    if '0' ≤ c ∧ c ≤ '9' then parseDigits cs (acc * 10 + (c.toNat - '0'.toNat)) else none

/-- Base-10 integer syntax shared by `strconv.ParseInt(s, 10, _)` and
`(*big.Int).SetString(s, 10)`: an optional sign and at least one digit. -/
def parseSigned (v : List Char) : Option Int :=
  match v with
  | [] => none
  | c :: cs =>
    if c = '+' then (if cs.isEmpty then none else (parseDigits cs 0).map Int.ofNat)
    else if c = '-' then
      (if cs.isEmpty then none else (parseDigits cs 0).map (fun n => -Int.ofNat n))
    else (parseDigits (c :: cs) 0).map Int.ofNat

/-- Library `decimal.NewFromString` (shopspring/decimal), `none` on error:
the text after the first `E`/`e` is a 32-bit exponent, at most one `.` is
allowed, and the remaining characters with the `.` taken out are a base-10
integer. -/
def NewFromString (value : List Char) : Option Decimal :=
  let mant := value.takeWhile (fun c => c != 'E' && c != 'e')
  let expo : Option Int :=
    if mant.length < value.length then
      (parseSigned (value.drop (mant.length + 1))).bind (fun e =>
        if -(2 : Int) ^ 31 ≤ e ∧ e ≤ (2 : Int) ^ 31 - 1 then some e else none)
    else some 0
  match expo with
  | none => none
  | some e =>
    if mant.count '.' > 1 then none
    else
      let whole := mant.takeWhile (fun c => c != '.')
      let frac := (mant.dropWhile (fun c => c != '.')).drop 1
      match parseSigned (whole ++ frac) with
      | none => none
      | some v =>
        let exp := e - (frac.length : Int)
        if exp < -(2 : Int) ^ 31 ∨ exp > (2 : Int) ^ 31 - 1 then none
        else some { value := v, exp := exp }

/-- Library `Decimal.rescale`: the same number at exponent `exp`, truncating
toward zero when digits are dropped. -/
def Decimal.rescale (d : Decimal) (exp : Int) : Decimal :=
  if d.exp = exp then d
  else if exp > d.exp then
    { value := Int.tdiv d.value ((10 : Int) ^ (exp - d.exp).toNat), exp := exp }
  else { value := d.value * (10 : Int) ^ (d.exp - exp).toNat, exp := exp }

/-- Library `Decimal.Round(0)`: nearest integer, halves away from zero. -/
def Decimal.Round0 (d : Decimal) : Decimal :=
  if d.exp = 0 then d
  else
    let ret := d.rescale (-1)
    let v := if ret.value < 0 then ret.value - 5 else ret.value + 5
    let q := Int.ediv v 10
    let m := Int.emod v 10
    { value := if q < 0 ∧ m ≠ 0 then q + 1 else q, exp := 0 }

/-- Library `Decimal.IntPart`: the integer part, converted with
`(*big.Int).Int64` (the low 64 bits, two-complement). -/
def Decimal.IntPart (d : Decimal) : Int :=
  Int.emod ((d.rescale 0).value + (2 : Int) ^ 63) ((2 : Int) ^ 64) - (2 : Int) ^ 63

/-- Go: `parseSats`. -/
def parseSats (val : String) : Except PollError Int :=
  let v := TrimSpace val.toList
  if v.isEmpty then .ok 0
  else
    match NewFromString v with
    | none => .error .parseSats
    | some dec => .ok dec.Round0.IntPart

/-- Go: `type sourceSale struct`. -/
structure sourceSale where
  SaleId : Int
  SaleOrigin : String
  SaleDate : String
  TotalCostSats : String
deriving DecidableEq, Repr

/-- Go: `type sourceProduct struct`. -/
structure sourceProduct where
  ProductID : Int
  Name : String
  Currency : String
  Price : String
  TotalTransactions : Int
  TotalRevenueSats : String
  ActiveStatus : Bool
deriving DecidableEq, Repr

/-- Go: `type sourceData struct`. -/
structure sourceData where
  ID : Int
  Name : String
  Products : List sourceProduct
  Sales : List sourceSale
deriving DecidableEq, Repr

/-- The first loop of `pollMerchant` (lines 152-169).  `parseTime` stands for
`time.Parse(time.RFC3339Nano, ·)`.  The `Source` field that the loop also
sets has no counterpart in `store.TransactionInput` nor in the `INSERT`. -/
def normalizeSales (parseTime : String → Option Time) :
    List sourceSale → Except PollError (List TransactionInput)
  | [] => .ok []
  | sale :: rest =>
    match parseTime sale.SaleDate with
    | none => .error .parseSaleDate
    | some saleDate =>
      match parseSats sale.TotalCostSats with
      | .error _ => .error .parseSats
      | .ok amount =>
        match normalizeSales parseTime rest with
        | .error e => .error e
        | .ok txs =>
          .ok ({ SaleID := sale.SaleId, SaleOrigin := sale.SaleOrigin,
                 SaleDate := saleDate, AmountSats := amount } :: txs)

/-- The second loop of `pollMerchant` (lines 175-190). -/
def normalizeProducts : List sourceProduct → Except PollError (List ProductSnapshot)
  | [] => .ok []
  | prod :: rest =>
    match parseSats prod.TotalRevenueSats with
    | .error _ => .error .parseProductRevenue
    | .ok revenue =>
      match normalizeProducts rest with
      | .error e => .error e
      | .ok snapshots =>
        .ok ({ ProductID := prod.ProductID, Name := prod.Name, Currency := prod.Currency,
               Price := prod.Price, TotalTransactions := prod.TotalTransactions,
               TotalRevenueSats := revenue, Active := prod.ActiveStatus } :: snapshots)

/-- What one run of `pollMerchant` gets from outside the program: the result
of `fetch`, the clock reading taken by each store call, and the storage fault
(if any) met by each store call. -/
structure PollRun where
  fetched : Except PollError sourceData
  recordNow : Time
  recordFault : Option Nat
  upsertNow : Time
  upsertFault : Option Nat
  pollTime : Time
  pollTimeFault : Option Nat
  milestoneNow : Time
  milestoneFault : Option Nat

/-- Go: `(*Poller).pollMerchant`: the store it leaves behind and the error it
returns (`none` for `nil`). -/
def pollMerchant (parseTime : String → Option Time) (s : Store) (merchant : Merchant)
    (run : PollRun) : Store × Option PollError :=
  match run.fetched with
  | .error e => (s, some e)
  | .ok payload =>
    match normalizeSales parseTime payload.Sales with
    | .error e => (s, some e)
    | .ok txs =>
      match RecordTransactions s run.recordNow merchant.ID txs run.recordFault with
      | .error e => (s, some (.store e))
      | .ok (_, s1) =>
        match normalizeProducts payload.Products with
        | .error e => (s1, some e)
        | .ok snapshots =>
          match UpsertProducts s1 run.upsertNow merchant.ID snapshots run.upsertFault with
          | .error e => (s1, some (.store e))
          | .ok s2 =>
            match UpdateMerchantPollTime s2 merchant.ID run.pollTime run.pollTimeFault with
            | .error e => (s2, some (.store e))
            | .ok s3 =>
              match ProcessMilestones s3 run.milestoneNow run.milestoneFault with
              | .error e => (s3, some (.store e))
              | .ok (_, s4) => (s4, none)

/-! ## Derived quantities and call sequences used by the statements -/

deriving instance DecidableEq for Except

/-- The total volume `sum(amountSats)` over all stored transactions. -/
def totalVolume (s : Store) : Int :=
  (s.transactions.map (fun r => r.amount_sats)).sum

/-- The number of records of the trigger log that carry milestone `id`. -/
def triggerCount (log : List MilestoneTrigger) (id : Int) : Nat :=
  log.countP (fun t => t.MilestoneID == id)

/-- The rows appended to `rows` by the insert loop for a batch: one per input
whose `(merchantID, SaleID)` is not there yet when its turn comes. -/
def freshRows (merchantID : String) (now : Time) :
    List TransactionRow → List TransactionInput → List TransactionRow
  | _, [] => []
  | rows, t :: rest =>
    if hasSale rows merchantID t.SaleID then freshRows merchantID now rows rest
    else
      newTransactionRow merchantID now t ::
        freshRows merchantID now (rows ++ [newTransactionRow merchantID now t]) rest

/-- The store a caller holds after a `RecordTransactions` call: the new one
when the call succeeded, the old one when it failed and was rolled back. -/
def afterRecord (s : Store) (r : Except StoreError (Int × Store)) : Store :=
  match r with
  | .ok (_, s1) => s1
  | .error _ => s

/-- One `RecordTransactions` call: its clock reading, arguments and fault. -/
structure RecordCall where
  now : Time
  merchantID : String
  txns : List TransactionInput
  fault : Option Nat

/-- The store after a sequence of `RecordTransactions` calls. -/
def runRecordCalls (s : Store) : List RecordCall → Store
  | [] => s
  | c :: rest =>
    runRecordCalls (afterRecord s (RecordTransactions s c.now c.merchantID c.txns c.fault)) rest

/-- Is the milestone row one that a run with these totals triggers: enabled,
Pending, and with a firing predicate? -/
def eligible (totalTx totalVol : Int) (r : MilestoneRow) : Bool :=
  r.enabled && r.triggered_at.isNone && fires totalTx totalVol (candidateOf r)

/-- The triggers the loop of `ProcessMilestones` builds for a candidate list,
when the trigger table's sequence stands at `seq`. -/
def firedTriggers (seq : Int) (now : Time) (totalTx totalVol : Int) :
    List candidate → List MilestoneTrigger
  | [] => []
  | c :: rest =>
    if fires totalTx totalVol c then
      newTrigger (seq + 1) now totalTx totalVol c ::
        firedTriggers (seq + 1) now totalTx totalVol rest
    else firedTriggers seq now totalTx totalVol rest

/-- The milestone table after the loop of `ProcessMilestones` has run its
`UPDATE` for every firing candidate. -/
def firedRows (now : Time) (totalTx totalVol : Int) :
    List candidate → List MilestoneRow → List MilestoneRow
  | [], rows => rows
  | c :: rest, rows =>
    if fires totalTx totalVol c then
      firedRows now totalTx totalVol rest (markTriggered rows c.id now)
    else firedRows now totalTx totalVol rest rows

/-- The store a caller holds after a `ProcessMilestones` call: the new one
when the call succeeded, the old one when it failed and was rolled back. -/
def afterProcess (s : Store) (r : Except StoreError (List MilestoneTrigger × Store)) : Store :=
  match r with
  | .ok (_, s1) => s1
  | .error _ => s

/-- The triggers a `ProcessMilestones` call hands to its caller (none when
it returns an error). -/
def returnedTriggers (r : Except StoreError (List MilestoneTrigger × Store)) :
    List MilestoneTrigger :=
  match r with
  | .ok (trigs, _) => trigs
  | .error _ => []

/-- The type-specific predicate of a milestone, in the words of the
specification: type `transactions` compares the total transaction count with
the threshold, type `volume` the total volume. -/
def predicateHolds (s : Store) (r : MilestoneRow) : Prop :=
  (r.typ = MilestoneTransactions ∧ (s.transactions.length : Int) ≥ r.threshold) ∨
  (r.typ = MilestoneVolume ∧ totalVolume s ≥ r.threshold)

/-- The milestones a run should trigger, in the words of the specification:
enabled, Pending, and with a predicate that holds. -/
def shouldTrigger (s : Store) (r : MilestoneRow) : Prop :=
  r.enabled = true ∧ r.triggered_at = none ∧ predicateHolds s r

/-- The store a caller holds after an `UpsertProducts` call. -/
def afterUpsertProducts (s : Store) (r : Except StoreError Store) : Store :=
  match r with
  | .ok s1 => s1
  | .error _ => s

/-- The store a caller holds after an `UpsertMilestone` call. -/
def afterUpsertMilestone (s : Store) (r : Except StoreError (Milestone × Store)) : Store :=
  match r with
  | .ok (_, s1) => s1
  | .error _ => s

/-- One call on the store, with what it gets from outside: its arguments,
its clock reading and the storage fault it meets (if any). -/
inductive Op where
  | recordTransactions (now : Time) (merchantID : String) (txns : List TransactionInput)
      (fault : Option Nat)
  | upsertProducts (now : Time) (merchantID : String) (products : List ProductSnapshot)
      (fault : Option Nat)
  | upsertMilestone (now : Time) (m : Milestone) (fault : Option Nat)
  | processMilestones (now : Time) (fault : Option Nat)

/-- Is the call an `UpsertMilestone`? -/
def Op.isUpsertMilestone : Op → Bool
  | .upsertMilestone _ _ _ => true
  | _ => false

/-- The store after a call, and the triggers the call returned (a call other
than `ProcessMilestones` returns none). -/
def Op.run (s : Store) : Op → Store × List MilestoneTrigger
  | .recordTransactions now merchantID txns fault =>
    (afterRecord s (RecordTransactions s now merchantID txns fault), [])
  | .upsertProducts now merchantID products fault =>
    (afterUpsertProducts s (UpsertProducts s now merchantID products fault), [])
  | .upsertMilestone now m fault =>
    (afterUpsertMilestone s (UpsertMilestone s now m fault), [])
  | .processMilestones now fault =>
    (afterProcess s (ProcessMilestones s now fault),
     returnedTriggers (ProcessMilestones s now fault))

/-- A sequence of calls, one after the other: the final store and, call by
call, the triggers returned. -/
def runOps (s : Store) : List Op → Store × List (List MilestoneTrigger)
  | [] => (s, [])
  | o :: rest => ((runOps (o.run s).1 rest).1, (o.run s).2 :: (runOps (o.run s).1 rest).2)

/-- The 1:1 relation between Triggered milestones and trigger records, with
the bookkeeping that keeps it inductive: milestone ids are distinct and never
above the table's sequence, and no trigger record points above it. -/
structure TriggerInv (s : Store) : Prop where
  nodup : (s.milestones.map (fun r => r.id)).Nodup
  ids_le : ∀ r ∈ s.milestones, r.id ≤ s.milestoneSeq
  trig_le : ∀ t ∈ s.triggers, t.MilestoneID ≤ s.milestoneSeq
  pending : ∀ r ∈ s.milestones, r.triggered_at = none → triggerCount s.triggers r.id = 0
  triggered : ∀ r ∈ s.milestones, ∀ ts : Time, r.triggered_at = some ts →
    triggerCount s.triggers r.id = 1 ∧
      ∀ t ∈ s.triggers, t.MilestoneID = r.id → t.TriggeredAt = ts

/-- Two `ProcessMilestones` runs A and B interleaved as two workers of one
poll cycle can interleave them: both do their reads on the same store, then
A runs its write transaction, then B runs its own on the store A left. -/
def interleavedRuns (s : Store) (nowA nowB : Time) :
    Except StoreError (List MilestoneTrigger × List MilestoneTrigger × Store) :=
  match readCandidates s none with
  | .error e => .error e
  | .ok readA =>
    match readCandidates s none with
    | .error e => .error e
    | .ok readB =>
      match writeTriggers s nowA none readA with
      | .error e => .error e
      | .ok (trigsA, sA) =>
        match writeTriggers sA nowB none readB with
        | .error e => .error e
        | .ok (trigsB, sB) => .ok (trigsA, trigsB, sB)

/-! ## Concrete stores and inputs (after `store_test.go`) -/

/-- The merchant of `TestMilestonesTriggerOnce`. -/
def merchantM2 : Merchant :=
  { ID := "m2", PublicKey := "pk", Alias := "Merchant2", Enabled := true,
    LastPolledAt := none, CreatedAt := 0, UpdatedAt := 0 }

/-- The milestone of `TestMilestonesTriggerOnce`: volume, threshold 500. -/
def volume500 : Milestone :=
  { ID := 0, Name := "Volume 500", Typ := "volume", Threshold := 500, Enabled := true,
    Triggered := false, TriggeredAt := none, CreatedAt := 0, UpdatedAt := 0 }

/-- The first batch of `TestMilestonesTriggerOnce`: 250 and 300 sats. -/
def sales250and300 : List TransactionInput :=
  [{ SaleID := 1, SaleOrigin := "", SaleDate := 100, AmountSats := 250 },
   { SaleID := 2, SaleOrigin := "", SaleDate := 100, AmountSats := 300 }]

/-- The second batch of `TestMilestonesTriggerOnce`: 1000 sats. -/
def sale1000 : List TransactionInput :=
  [{ SaleID := 3, SaleOrigin := "", SaleDate := 200, AmountSats := 1000 }]

/-- An initialised store holding merchant `m2`. -/
def storeM2 : Store :=
  match UpsertMerchant Store.empty 1 merchantM2 none with
  | .ok s => s
  | .error _ => Store.empty

/-- Store `storeM2` after the milestone was created and the first batch
recorded: the milestone is Pending and the volume is 550. -/
def storePending : Store :=
  (runOps storeM2 [.upsertMilestone 2 volume500 none,
                   .recordTransactions 3 "m2" sales250and300 none]).1

/-- Store `storePending` after one evaluator run: the milestone is Triggered. -/
def storeTriggered : Store :=
  (runOps storePending [.processMilestones 4 none]).1

/-- Store `storeTriggered` after the administrative reset
`UpdateMilestone(1, ..., reset = true)`: the milestone is Pending again and
its trigger record is still in the log. -/
def storeReset : Store :=
  (UpdateMilestone storeTriggered 5 1 volume500 true none).1

/-- A reading of `time.Parse(time.RFC3339Nano, ·)` that knows the one
timestamp used in the concrete snapshots below. -/
def parseTimeEpoch (v : String) : Option Time :=
  if v = "1970-01-01T00:00:00Z" then some 0 else none

/-- A snapshot with one sale of 250 sats. -/
def snapshotSale : sourceData :=
  { ID := 7, Name := "Merchant2", Products := [],
    Sales := [{ SaleId := 9, SaleOrigin := "pos", SaleDate := "1970-01-01T00:00:00Z",
                TotalCostSats := "250" }] }

/-- A snapshot with one sale whose amount is the decimal string `-100`. -/
def snapshotNegative : sourceData :=
  { ID := 7, Name := "Merchant2", Products := [],
    Sales := [{ SaleId := 9, SaleOrigin := "pos", SaleDate := "1970-01-01T00:00:00Z",
                TotalCostSats := "-100" }] }

/-- A run of `pollMerchant` that fetched `payload` and met no storage fault. -/
def cleanRun (payload : sourceData) : PollRun :=
  { fetched := .ok payload, recordNow := 10, recordFault := none, upsertNow := 11,
    upsertFault := none, pollTime := 12, pollTimeFault := none, milestoneNow := 13,
    milestoneFault := none }

/-- The row of milestone 1 in `storePending`. -/
def pendingRow : MilestoneRow :=
  { id := 1, name := "Volume 500", typ := "volume", threshold := 500, enabled := true,
    triggered_at := none, created_at := 2, updated_at := 2 }

/-- The calls of `TestMilestonesTriggerOnce` after the first batch: a run of
the evaluator, a further sale of 1000 sats, a second run. -/
def laterCalls : List Op :=
  [.processMilestones 4 none, .recordTransactions 5 "m2" sale1000 none,
   .processMilestones 6 none]

/-- The calls of `TestMilestonesTriggerOnce` on the store: the milestone, the
first batch, a run of the evaluator, the second batch, a second run. -/
def testCalls : List Op :=
  [.upsertMilestone 2 volume500 none, .recordTransactions 3 "m2" sales250and300 none,
   .processMilestones 4 none, .recordTransactions 5 "m2" sale1000 none,
   .processMilestones 6 none]

/-- A batch for merchant `m1` that names sale id 1 twice (with different
amounts) and sale id 5 once; sale id 1 is stored under merchant `m2`. -/
def batchM1 : List TransactionInput :=
  [{ SaleID := 1, SaleOrigin := "pos", SaleDate := 300, AmountSats := 70 },
   { SaleID := 1, SaleOrigin := "web", SaleDate := 301, AmountSats := 80 },
   { SaleID := 5, SaleOrigin := "pos", SaleDate := 302, AmountSats := 90 }]

/-- A store with two transactions (volume 550) and five milestones: volume
500 (eligible), transactions 100 (predicate false), volume 100 but disabled,
volume 550 (eligible, equality), and volume 10 already Triggered. -/
def storeMixed : Store :=
  { storePending with
    milestones :=
      [pendingRow,
       { id := 2, name := "100 tx", typ := "transactions", threshold := 100, enabled := true,
         triggered_at := none, created_at := 2, updated_at := 2 },
       { id := 3, name := "Volume 100", typ := "volume", threshold := 100, enabled := false,
         triggered_at := none, created_at := 2, updated_at := 2 },
       { id := 4, name := "Volume 550", typ := "volume", threshold := 550, enabled := true,
         triggered_at := none, created_at := 2, updated_at := 2 },
       { id := 5, name := "Volume 10", typ := "volume", threshold := 10, enabled := true,
         triggered_at := some 3, created_at := 2, updated_at := 2 }],
    triggers :=
      [{ ID := 1, MilestoneID := 5, Name := "Volume 10", Typ := "volume", Threshold := 10,
         TriggeredAt := 3, TotalTransactions := 1, TotalVolumeSats := 250 }],
    milestoneSeq := 5,
    triggerSeq := 1 }

/-- The trigger of milestone 1 built by a run at instant `now` that gets
trigger rowid `triggerID`, with the totals of `storePending`. -/
def trigger550 (triggerID : Int) (now : Time) : MilestoneTrigger :=
  { ID := triggerID, MilestoneID := 1, Name := "Volume 500", Typ := "volume",
    Threshold := 500, TriggeredAt := now, TotalTransactions := 2, TotalVolumeSats := 550 }

/-! ## Concrete snapshots with malformed records -/

/-- A snapshot of three sales in which the second has an unparsable
timestamp and the third a non-numeric amount; the first is well-formed. -/
def snapshotBadSale : sourceData :=
  { ID := 7, Name := "Merchant2", Products := [],
    Sales := [{ SaleId := 21, SaleOrigin := "pos", SaleDate := "1970-01-01T00:00:00Z",
                TotalCostSats := "250" },
              { SaleId := 22, SaleOrigin := "pos", SaleDate := "yesterday",
                TotalCostSats := "300" },
              { SaleId := 23, SaleOrigin := "pos", SaleDate := "1970-01-01T00:00:00Z",
                TotalCostSats := "12abc" }] }

/-- A snapshot with one well-formed sale of 250 sats and one product whose
cumulative revenue string is not numeric. -/
def snapshotBadProduct : sourceData :=
  { ID := 7, Name := "Merchant2",
    Products := [{ ProductID := 1, Name := "Coffee", Currency := "EUR", Price := "2.50",
                   TotalTransactions := 4, TotalRevenueSats := "n/a",
                   ActiveStatus := true }],
    Sales := [{ SaleId := 21, SaleOrigin := "pos", SaleDate := "1970-01-01T00:00:00Z",
                TotalCostSats := "250" }] }

/-- A snapshot with one sale, whose amount is not numeric. -/
def snapshotBadAmount : sourceData :=
  { ID := 7, Name := "Merchant2", Products := [],
    Sales := [{ SaleId := 23, SaleOrigin := "pos", SaleDate := "1970-01-01T00:00:00Z",
                TotalCostSats := "12abc" }] }

/-- A snapshot of two sales whose amounts are a decimal point followed by a
signed number, and a blank. -/
def snapshotOddAmounts : sourceData :=
  { ID := 7, Name := "Merchant2", Products := [],
    Sales := [{ SaleId := 31, SaleOrigin := "pos", SaleDate := "1970-01-01T00:00:00Z",
                TotalCostSats := ".-5e3" },
              { SaleId := 32, SaleOrigin := "pos", SaleDate := "1970-01-01T00:00:00Z",
                TotalCostSats := " " }] }

/-- A snapshot with one well-formed sale of 250 sats and one product whose
cumulative revenue string is a decimal point followed by a signed number. -/
def snapshotOddRevenue : sourceData :=
  { ID := 7, Name := "Merchant2",
    Products := [{ ProductID := 1, Name := "Coffee", Currency := "EUR", Price := "2.50",
                   TotalTransactions := 4, TotalRevenueSats := ".-5e3",
                   ActiveStatus := true }],
    Sales := [{ SaleId := 21, SaleOrigin := "pos", SaleDate := "1970-01-01T00:00:00Z",
                TotalCostSats := "250" }] }

/-! ## Decimal numerals, in the words of the specification -/

/-- The optional sign of a numeral. -/
inductive NumSign where
  | none
  | plus
  | minus
deriving DecidableEq, Repr

/-- The characters of a sign. -/
def NumSign.chars : NumSign → List Char
  | .none => []
  | .plus => ['+']
  | .minus => ['-']

/-- The factor a sign stands for. -/
def NumSign.factor : NumSign → Int
  | .minus => -1
  | _ => 1

/-- Is the character one of `0` .. `9`? -/
def isDigit (c : Char) : Bool :=
  decide ('0' ≤ c ∧ c ≤ '9')

/-- The natural number written by a string of decimal digits. -/
def digitsValue (ds : List Char) : Nat :=
  ds.foldl (fun acc c => acc * 10 + (c.toNat - '0'.toNat)) 0

/-- The text of a decimal numeral: an optional sign, the digits `whole`, and,
when `frac` is not empty, a decimal point followed by the digits `frac`. -/
def numeralChars (sg : NumSign) (whole frac : List Char) : List Char :=
  sg.chars ++ whole ++ (if frac.isEmpty then [] else '.' :: frac)

/-- The value of the numeral `numeralChars sg whole frac`. -/
def numeralValue (sg : NumSign) (whole frac : List Char) : ℚ :=
  (sg.factor : ℚ) * (digitsValue (whole ++ frac) : ℚ) / (10 : ℚ) ^ frac.length

/-- Rounding to zero decimal places: the nearest integer, halves away from
zero. -/
def roundHalfAway (q : ℚ) : Int :=
  if 0 ≤ q then ⌊q + 1 / 2⌋ else -⌊-q + 1 / 2⌋

/-- An exponent part: nothing, or `e`/`E` followed by an optionally signed,
non-empty string of digits. -/
def IsExponentPart (expo : List Char) : Prop :=
  expo = [] ∨
  ∃ (c : Char) (sg : NumSign) (ds : List Char),
    expo = c :: (sg.chars ++ ds) ∧ (c = 'e' ∨ c = 'E') ∧ ds ≠ [] ∧ ∀ d ∈ ds, isDigit d = true

/-- A numeric decimal string: an optional sign, digits with an optional
decimal point among them (at least one digit in all), and an optional
exponent part. -/
def IsNumericDecimal (cs : List Char) : Prop :=
  ∃ (sg : NumSign) (whole frac expo : List Char) (dot : Bool),
    cs = sg.chars ++ whole ++ (if dot then '.' :: frac else []) ++ expo ∧
    (∀ c ∈ whole, isDigit c = true) ∧ (∀ c ∈ frac, isDigit c = true) ∧
    (dot = false → frac = []) ∧ (whole ≠ [] ∨ frac ≠ []) ∧ IsExponentPart expo

/-- The strings that are not numeric but that `decimal.NewFromString` reads
all the same: a decimal point directly followed by a sign, digits and an
optional exponent part, such as `.-5` (read as `-0.05`). -/
def IsDotSignedDecimal (cs : List Char) : Prop :=
  ∃ (c : Char) (ds expo : List Char),
    cs = '.' :: c :: (ds ++ expo) ∧ (c = '+' ∨ c = '-') ∧ ds ≠ [] ∧
    (∀ d ∈ ds, isDigit d = true) ∧ IsExponentPart expo

/-- The numeral `0.11...1` with `n` digits after the decimal point. -/
def longFraction (n : Nat) : List Char :=
  '0' :: '.' :: List.replicate n '1'

/-! ## Product snapshots, in the words of the specification -/

/-- The last snapshot of the list with product id `pid`, if any. -/
def lastWith (pid : Int) : List ProductSnapshot → Option ProductSnapshot
  | [] => none
  | p :: rest =>
    match lastWith pid rest with
    | some q => some q
    | none => if p.ProductID = pid then some p else none

/-- The product data of a stored row: every column but `updated_at`. -/
def ProductRow.data (r : ProductRow) :
    String × Int × String × String × String × Int × Int × Bool :=
  (r.merchant_id, r.product_id, r.name, r.currency, r.price, r.total_transactions,
   r.total_revenue_sats, r.active)

/-- The row carries the name, currency, price, transaction count, revenue
and active flag of the snapshot. -/
def sameData (r : ProductRow) (q : ProductSnapshot) : Prop :=
  r.name = q.Name ∧ r.currency = q.Currency ∧ r.price = q.Price ∧
  r.total_transactions = q.TotalTransactions ∧ r.total_revenue_sats = q.TotalRevenueSats ∧
  r.active = q.Active

/-- The product table after the statements of the loop of `UpsertProducts`
have run for every snapshot of the list. -/
def upsertAll (merchantID : String) (now : Time) :
    List ProductSnapshot → List ProductRow → List ProductRow
  | [], rows => rows
  | p :: rest, rows => upsertAll merchantID now rest (upsertProductRow rows merchantID now p)

/-- Two snapshots of product 1 (the later one renamed) and one of product 2. -/
def coffeeSnapshots : List ProductSnapshot :=
  [{ ProductID := 1, Name := "Coffee", Currency := "EUR", Price := "2.50",
     TotalTransactions := 4, TotalRevenueSats := 1000, Active := true },
   { ProductID := 2, Name := "Tea", Currency := "EUR", Price := "2.00",
     TotalTransactions := 1, TotalRevenueSats := 200, Active := true },
   { ProductID := 1, Name := "Espresso", Currency := "EUR", Price := "2.80",
     TotalTransactions := 5, TotalRevenueSats := 1300, Active := false }]

/-! ## Every writing call of the store (`store.go`, lines 212-252, 307-390, 571-723) -/

/-- Go: `(*Store).UpdateMerchant`: a single `UPDATE merchants SET public_key,
alias, enabled, updated_at WHERE id=?`; `sql.ErrNoRows` when no row was
affected. -/
def UpdateMerchant (s : Store) (now : Time) (m : Merchant) (fault : Option Nat) :
    Except StoreError Store :=
  if failsAt fault 0 then .error .persistence
  else if !(s.merchants.any (fun r => r.ID == m.ID)) then .error .errNoRows
  else
    .ok { s with merchants := s.merchants.map (fun r =>
      if r.ID == m.ID then
        { r with PublicKey := m.PublicKey, Alias := m.Alias, Enabled := m.Enabled,
                 UpdatedAt := now }
      else r) }

/-- The store a caller holds after a call that returns only an error. -/
def afterCall (s : Store) (r : Except StoreError Store) : Store :=
  match r with
  | .ok s1 => s1
  | .error _ => s

/-- One call of a method of the store that writes, with what it gets from
outside: its arguments, its clock reading and the storage fault it meets. -/
inductive Call where
  | upsertMerchant (now : Time) (m : Merchant) (fault : Option Nat)
  | updateMerchant (now : Time) (m : Merchant) (fault : Option Nat)
  | updateMerchantPollTime (merchantID : String) (ts : Time) (fault : Option Nat)
  | recordTransactions (now : Time) (merchantID : String) (txns : List TransactionInput)
      (fault : Option Nat)
  | upsertProducts (now : Time) (merchantID : String) (products : List ProductSnapshot)
      (fault : Option Nat)
  | upsertMilestone (now : Time) (m : Milestone) (fault : Option Nat)
  | updateMilestone (now : Time) (id : Int) (update : Milestone) (reset : Bool)
      (fault : Option Nat)
  | processMilestones (now : Time) (fault : Option Nat)

/-- The store after a call. -/
def Call.run (s : Store) : Call → Store
  | .upsertMerchant now m fault => afterCall s (UpsertMerchant s now m fault)
  | .updateMerchant now m fault => afterCall s (UpdateMerchant s now m fault)
  | .updateMerchantPollTime merchantID ts fault =>
    afterCall s (UpdateMerchantPollTime s merchantID ts fault)
  | .recordTransactions now merchantID txns fault =>
    afterRecord s (RecordTransactions s now merchantID txns fault)
  | .upsertProducts now merchantID products fault =>
    afterUpsertProducts s (UpsertProducts s now merchantID products fault)
  | .upsertMilestone now m fault => afterUpsertMilestone s (UpsertMilestone s now m fault)
  | .updateMilestone now id update reset fault => (UpdateMilestone s now id update reset fault).1
  | .processMilestones now fault => afterProcess s (ProcessMilestones s now fault)

/-- The store after a sequence of calls, one after the other. -/
def runCalls (s : Store) : List Call → Store
  | [] => s
  | c :: rest => runCalls (c.run s) rest

/-- The two milestone types the evaluator knows. -/
def knownType (t : String) : Prop :=
  t = MilestoneTransactions ∨ t = MilestoneVolume

/-- A milestone update with a valid type. -/
def volume900 : Milestone :=
  { volume500 with Name := "Volume 900", Typ := "Volume", Threshold := 900 }

/-! ## Summary (`store.go`, lines 45-54 and 393-435) -/

/-- A `float64` value, as the rational number it stands for. -/
abbrev Float64 := ℚ

/-- Rounding of a rational to the nearest integer, ties to the even one. -/
def roundEven (q : ℚ) : Int :=
  if q - (⌊q⌋ : ℚ) < 1 / 2 then ⌊q⌋
  else if 1 / 2 < q - (⌊q⌋ : ℚ) then ⌊q⌋ + 1
  else if ⌊q⌋ % 2 = 0 then ⌊q⌋ else ⌊q⌋ + 1

/-- The `float64` nearest to a rational (IEEE 754 binary64, round to nearest,
ties to even: a significand of 53 bits).  The magnitudes met here, integers of
64 bits and their quotients, lie in the normal range, so neither overflow nor
gradual underflow is modelled. -/
def float64 (q : ℚ) : Float64 :=
  if q = 0 then 0
  else (roundEven (q / (2 : ℚ) ^ (Int.log 2 |q| - 52)) : ℚ) * (2 : ℚ) ^ (Int.log 2 |q| - 52)

/-- Go: the quotient `x / y` of two `float64` values (`y` not zero). -/
def fdiv (x y : Float64) : Float64 := float64 (x / y)

/-- Go: the sum `x + y` of two `float64` values. -/
def fadd (x y : Float64) : Float64 := float64 (x + y)

/-- Go: `const Minute Duration`, in nanoseconds. -/
def Minute : Int := 60 * 1000000000

/-- Go: `Duration.Minutes`:
`min := d / Minute; nsec := d % Minute; return float64(min) + float64(nsec)/(60*1e9)`. -/
def Minutes (d : Int) : Float64 :=
  fadd (float64 ((d.tdiv Minute : Int) : ℚ))
    (fdiv (float64 ((d.tmod Minute : Int) : ℚ)) (float64 (60 * 1000000000)))

/-- Go: `type Summary struct`. -/
structure Summary where
  TotalTransactions : Int
  TotalVolumeSats : Int
  AverageTransactionSat : Float64
  ActiveMerchants : Int
  TotalMerchants : Int
  UniqueProducts : Int
  TransactionsPerMinute : Float64
  VolumePerMinute : Float64
deriving DecidableEq

/-- The `if rateWindow > 0` block of `Summary` (storage call 4): the count and
the volume of the transactions with `sale_date >= start`, a comparison of the
stored texts, for `start = time.Now().UTC().Add(-rateWindow)`, per minute of
the window. -/
def summaryRates (s : Store) (now : Time) (rateWindow : Int) (fault : Option Nat)
    (out : Summary) : Except StoreError Summary :=
  if rateWindow > 0 then
    if failsAt fault 4 then .error .persistence
    else
      match sumInt64 ((s.transactions.filter
          (fun r => timeLE (now.UTC.Add (-rateWindow)) r.sale_date)).map (fun r => r.amount_sats)) 0 with
      | none => .error .integerOverflow
      | some volume =>
        if Minutes rateWindow > 0 then
          .ok { out with
            TransactionsPerMinute :=
              fdiv (float64 (((s.transactions.filter
                (fun r => timeLE (now.UTC.Add (-rateWindow)) r.sale_date)).length : Int) : ℚ))
                (Minutes rateWindow),
            VolumePerMinute := fdiv (float64 (volume : ℚ)) (Minutes rateWindow) }
        else .ok out
  else .ok out

/-- Go: `(*Store).Summary`.  Storage calls: 0 the totals, 1 the enabled
merchants, 2 the merchants, 3 the active products, 4 the totals of the rate
window; `now` is the reading of the clock in the rate block. -/
def Store.Summary (s : Store) (now : Time) (rateWindow : Int) (fault : Option Nat) :
    Except StoreError Summary :=
  if failsAt fault 0 then .error .persistence
  else
    match sumInt64 (s.transactions.map (fun r => r.amount_sats)) 0 with
    | none => .error .integerOverflow
    | some totalVol =>
      if failsAt fault 1 then .error .persistence
      else if failsAt fault 2 then .error .persistence
      else if failsAt fault 3 then .error .persistence
      else
        summaryRates s now rateWindow fault
          { TotalTransactions := (s.transactions.length : Int),
            TotalVolumeSats := totalVol,
            AverageTransactionSat :=
              if (s.transactions.length : Int) > 0 then
                fdiv (float64 (totalVol : ℚ)) (float64 (((s.transactions.length : Int)) : ℚ))
              else 0,
            ActiveMerchants := ((s.merchants.filter (fun m => m.Enabled)).length : Int),
            TotalMerchants := (s.merchants.length : Int),
            UniqueProducts := ((s.products.filter (fun p => p.active)).length : Int),
            TransactionsPerMinute := 0,
            VolumePerMinute := 0 }

/-- The store of `TestSummaryEndpoint`: one merchant with sales of 1000 and
2000 sats. -/
def storeSummary : Store :=
  runCalls Store.empty
    [.upsertMerchant 1 { ID := "test-merchant", PublicKey := "test-key",
                         Alias := "Test Merchant", Enabled := true,
                         LastPolledAt := none, CreatedAt := 0, UpdatedAt := 0 } none,
     .recordTransactions 2 "test-merchant"
       [{ SaleID := 1, SaleOrigin := "pos", SaleDate := 100, AmountSats := 1000 },
        { SaleID := 2, SaleOrigin := "pos", SaleDate := 200, AmountSats := 2000 }] none]

/-! ## The ticker (`store.go`, lines 56-63 and 437-460) -/

/-- Go: `type TickerEntry struct`. -/
structure TickerEntry where
  SaleID : Int
  MerchantID : String
  MerchantAlias : String
  AmountSats : Int
  SaleDate : Time
deriving DecidableEq, Repr

/-- The rows of `FROM transactions t JOIN merchants m ON m.id = t.merchant_id`
with the columns `t.sale_id, t.merchant_id, m.alias, t.amount_sats,
t.sale_date`: one row for each pair of a transaction and a merchant with its
id. -/
def tickerJoin (s : Store) : List TickerEntry :=
  s.transactions.flatMap (fun t =>
    (s.merchants.filter (fun m => m.ID == t.merchant_id)).map (fun m =>
      { SaleID := t.sale_id, MerchantID := t.merchant_id, MerchantAlias := m.Alias,
        AmountSats := t.amount_sats, SaleDate := t.sale_date }))

/-- SQL `LIMIT n`: the first `n` rows, every row when `n` is negative. -/
def sqlLimit {α : Type} (n : Int) (rows : List α) : List α :=
  if n < 0 then rows else rows.take n.toNat

/-- Go: `(*Store).LatestTransactions`: the join `ORDER BY t.sale_date DESC
LIMIT ?`, an order of the stored texts (storage call 0; rows with equal texts
keep the order of the join). -/
def LatestTransactions (s : Store) (limit : Int) (fault : Option Nat) :
    Except StoreError (List TickerEntry) :=
  if failsAt fault 0 then .error .persistence
  else .ok (sqlLimit limit
    (List.insertionSort (fun a b => timeLE b.SaleDate a.SaleDate = true) (tickerJoin s)))

/-- The transactions whose merchant is in the merchant table. -/
def withMerchant (s : Store) : List TransactionRow :=
  s.transactions.filter (fun t => s.merchants.any (fun m => m.ID == t.merchant_id))

/-- A store with two merchants and four sales, one of them of a merchant that
is not in the merchant table. -/
def storeTicker : Store :=
  runCalls Store.empty
    [.upsertMerchant 1 { ID := "m1", PublicKey := "pk1", Alias := "Alice", Enabled := true,
                         LastPolledAt := none, CreatedAt := 0, UpdatedAt := 0 } none,
     .upsertMerchant 1 { ID := "m2", PublicKey := "pk2", Alias := "Bob", Enabled := true,
                         LastPolledAt := none, CreatedAt := 0, UpdatedAt := 0 } none,
     .recordTransactions 2 "m1"
       [{ SaleID := 1, SaleOrigin := "pos", SaleDate := 100, AmountSats := 1000 },
        { SaleID := 2, SaleOrigin := "pos", SaleDate := 300, AmountSats := 2000 }] none,
     .recordTransactions 3 "m2"
       [{ SaleID := 1, SaleOrigin := "pos", SaleDate := 200, AmountSats := 500 }] none,
     .recordTransactions 4 "ghost"
       [{ SaleID := 7, SaleOrigin := "pos", SaleDate := 400, AmountSats := 50 }] none,
     .upsertMerchant 5 { ID := "m1", PublicKey := "pk1", Alias := "Alicia", Enabled := true,
                         LastPolledAt := none, CreatedAt := 0, UpdatedAt := 0 } none]

/-- The sale date `2024-01-01T10:30:00Z`, as `time.Parse` reads it. -/
def halfPastTenUTC : Time := utc 1704105000000000000

/-- The sale date `2024-01-01T11:00:00+01:00`, the instant 10:00 UTC, as `time.Parse`
reads it on a server whose local zone is CET. -/
def elevenAtPlusOne : Time :=
  { unixNano := 1704103200000000000, offset := 3600, zone := "CET", mono := none }

/-- A store with one merchant and two sales, dated in UTC and at the offset +01:00. -/
def storeZones : Store :=
  runCalls Store.empty
    [.upsertMerchant 1 { ID := "m1", PublicKey := "pk1", Alias := "Alice", Enabled := true,
                         LastPolledAt := none, CreatedAt := 0, UpdatedAt := 0 } none,
     .recordTransactions 2 "m1"
       [{ SaleID := 1, SaleOrigin := "pos", SaleDate := halfPastTenUTC, AmountSats := 1000 },
        { SaleID := 2, SaleOrigin := "pos", SaleDate := elevenAtPlusOne,
          AmountSats := 2000 }] none]

/-! ## The merchant leaderboard (`store.go`, lines 65-71 and 462-500) -/

/-- Go: `type MerchantLeaderboardRow struct`. -/
structure MerchantLeaderboardRow where
  MerchantID : String
  Alias : String
  Count : Int
  VolumeSats : Int
deriving DecidableEq, Repr

/-- Errors of a leaderboard call: the check of the limit, or the storage. -/
inductive LeaderboardError where
  | limitNotPositive
  | store (e : StoreError)
deriving DecidableEq, Repr

/-- The rows of `FROM transactions t JOIN merchants m ON m.id = t.merchant_id`,
with `WHERE t.sale_date >= start`, a comparison of the stored texts, for
`start = time.Now().UTC().Add(-window)` when the window is positive. -/
def leaderboardJoin (s : Store) (now : Time) (window : Int) :
    List (TransactionRow × Merchant) :=
  if window > 0 then
    (s.transactions.flatMap (fun t =>
      (s.merchants.filter (fun m => m.ID == t.merchant_id)).map (fun m => (t, m)))).filter
        (fun p => timeLE (now.UTC.Add (-window)) p.1.sale_date)
  else
    s.transactions.flatMap (fun t =>
      (s.merchants.filter (fun m => m.ID == t.merchant_id)).map (fun m => (t, m)))

/-- The distinct values of a list, in the order of their first occurrence: the
groups of `GROUP BY t.merchant_id`. -/
def distinct : List String → List String
  | [] => []
  | x :: xs => x :: (distinct xs).filter (fun y => y != x)

/-- The aggregate row of each group: `t.merchant_id, m.alias, COUNT(t.id),
COALESCE(SUM(t.amount_sats),0)`.  The bare column `m.alias` is read from a row
of the group (here the first one); `SUM` raises an error when it overflows. -/
def aggregate (rows : List (TransactionRow × Merchant)) :
    List String → Except StoreError (List MerchantLeaderboardRow)
  | [] => .ok []
  | id :: ids =>
    match rows.filter (fun p => p.1.merchant_id == id) with
    | [] => aggregate rows ids
    | p :: g =>
      match sumInt64 ((p :: g).map (fun q => q.1.amount_sats)) 0 with
      | none => .error .integerOverflow
      | some vol =>
        match aggregate rows ids with
        | .error e => .error e
        | .ok out =>
          .ok ({ MerchantID := id, Alias := p.2.Alias, Count := ((p :: g).length : Int),
                 VolumeSats := vol } :: out)

/-- The column a leaderboard is ranked by: `volume` or `tx_count`. -/
def metricValue (byVolume : Bool) (r : MerchantLeaderboardRow) : Int :=
  if byVolume then r.VolumeSats else r.Count

/-- `ORDER BY volume DESC, m.alias ASC` (or `tx_count DESC, m.alias ASC`): does
row `a` come no later than row `b`? -/
def rowBefore (byVolume : Bool) (a b : MerchantLeaderboardRow) : Bool :=
  decide (metricValue byVolume a > metricValue byVolume b) ||
    (decide (metricValue byVolume a = metricValue byVolume b) &&
      bytesLE a.Alias.toList b.Alias.toList)

/-- Go: `(*Store).MerchantLeaderboard` (storage call 0 is the query; `now` is
the reading of the clock when the window is positive). -/
def MerchantLeaderboard (s : Store) (now : Time) (window : Int) (metric : String)
    (limit : Int) (fault : Option Nat) :
    Except LeaderboardError (List MerchantLeaderboardRow) :=
  if limit ≤ 0 then .error .limitNotPositive
  else if failsAt fault 0 then .error (.store .persistence)
  else
    match aggregate (leaderboardJoin s now window)
        (distinct ((leaderboardJoin s now window).map (fun p => p.1.merchant_id))) with
    | .error e => .error (.store e)
    | .ok groups =>
      .ok (sqlLimit limit
        (List.insertionSort (fun a b => rowBefore (ToLower metric == "volume") a b = true)
          groups))

/-- The transactions a leaderboard with this window counts for a merchant id. -/
def countedFor (s : Store) (now : Time) (window : Int) (id : String) : List TransactionRow :=
  s.transactions.filter (fun t =>
    t.merchant_id == id &&
      (decide (window ≤ 0) || timeLE (now.UTC.Add (-window)) t.sale_date))

/-- Go: `time.Hour` and `5 * time.Minute`, in nanoseconds. -/
def Hour : Int := 60 * Minute

/-- A store with three merchants: "Bob" and "Alice" have one sale of 500 sats
each, "Carol" two sales of 100 sats; one of the sales of "Carol" and that of
"Bob" are dated two hours before the instant `3 * Hour`. -/
def storeBoard : Store :=
  runCalls Store.empty
    [.upsertMerchant 1 { ID := "m1", PublicKey := "pk1", Alias := "Bob", Enabled := true,
                         LastPolledAt := none, CreatedAt := 0, UpdatedAt := 0 } none,
     .upsertMerchant 1 { ID := "m2", PublicKey := "pk2", Alias := "Alice", Enabled := true,
                         LastPolledAt := none, CreatedAt := 0, UpdatedAt := 0 } none,
     .upsertMerchant 1 { ID := "m3", PublicKey := "pk3", Alias := "Carol", Enabled := true,
                         LastPolledAt := none, CreatedAt := 0, UpdatedAt := 0 } none,
     .recordTransactions 2 "m1"
       [{ SaleID := 1, SaleOrigin := "pos", SaleDate := utc (1 * Hour), AmountSats := 500 }] none,
     .recordTransactions 3 "m2"
       [{ SaleID := 1, SaleOrigin := "pos", SaleDate := utc (3 * Hour - Minute),
          AmountSats := 500 }] none,
     .recordTransactions 4 "m3"
       [{ SaleID := 1, SaleOrigin := "pos", SaleDate := utc (1 * Hour), AmountSats := 100 },
        { SaleID := 2, SaleOrigin := "pos", SaleDate := utc (3 * Hour - 2 * Minute),
          AmountSats := 100 }] none]

/-- The sale date `2024-01-01T13:00:00+03:00`, the instant 10:00 UTC, as `time.Parse`
reads it on a server whose local zone has another offset: the zone has no
abbreviation. -/
def oneAtPlusThree : Time :=
  { unixNano := 1704103200000000000, offset := 10800, zone := "", mono := none }

/-- The clock reading 2024-01-01 12:00:00 UTC. -/
def noonUTC : Time := utc 1704110400000000000

/-- A store with one merchant and one sale, dated at the offset +03:00. -/
def storeOffset : Store :=
  runCalls Store.empty
    [.upsertMerchant 1 { ID := "m1", PublicKey := "pk1", Alias := "Alice", Enabled := true,
                         LastPolledAt := none, CreatedAt := 0, UpdatedAt := 0 } none,
     .recordTransactions 2 "m1"
       [{ SaleID := 1, SaleOrigin := "pos", SaleDate := oneAtPlusThree,
          AmountSats := 1000 }] none]

/-! ## The product leaderboard (`store.go`, lines 73-80 and 502-540) -/

/-- Go: `type ProductLeaderboardRow struct`. -/
structure ProductLeaderboardRow where
  MerchantID : String
  ProductID : Int
  Name : String
  Count : Int
  VolumeSats : Int
deriving DecidableEq, Repr

/-- The columns `p.merchant_id, p.product_id, p.name, p.total_transactions,
p.total_revenue_sats` of a product row. -/
def productBoardRow (p : ProductRow) : ProductLeaderboardRow :=
  { MerchantID := p.merchant_id, ProductID := p.product_id, Name := p.name,
    Count := p.total_transactions, VolumeSats := p.total_revenue_sats }

/-- The column a product leaderboard is ranked by: `total_revenue_sats` or
`total_transactions`. -/
def productMetric (byVolume : Bool) (r : ProductLeaderboardRow) : Int :=
  if byVolume then r.VolumeSats else r.Count

/-- `ORDER BY total_revenue_sats DESC, p.name ASC` (or `total_transactions
DESC, p.name ASC`): does row `a` come no later than row `b`? -/
def productBefore (byVolume : Bool) (a b : ProductLeaderboardRow) : Bool :=
  decide (productMetric byVolume a > productMetric byVolume b) ||
    (decide (productMetric byVolume a = productMetric byVolume b) &&
      bytesLE a.Name.toList b.Name.toList)

/-- The rows of `FROM products p WHERE p.active=1`. -/
def activeProducts (s : Store) : List ProductLeaderboardRow :=
  (s.products.filter (fun p => p.active)).map productBoardRow

/-- Go: `(*Store).ProductLeaderboard` (storage call 0 is the query). -/
def ProductLeaderboard (s : Store) (metric : String) (limit : Int) (fault : Option Nat) :
    Except LeaderboardError (List ProductLeaderboardRow) :=
  if limit ≤ 0 then .error .limitNotPositive
  else if failsAt fault 0 then .error (.store .persistence)
  else
    .ok (sqlLimit limit
      (List.insertionSort (fun a b => productBefore (ToLower metric == "volume") a b = true)
        (activeProducts s)))

/-- A store with four products of two merchants: three active ones, two of
them with the same transaction count, and a retired one with the highest
numbers. -/
def storeProducts : Store :=
  runCalls Store.empty
    [.upsertProducts 1 "m1"
       [{ ProductID := 1, Name := "Tea", Currency := "EUR", Price := "2.00",
          TotalTransactions := 4, TotalRevenueSats := 800, Active := true },
        { ProductID := 2, Name := "Cake", Currency := "EUR", Price := "3.00",
          TotalTransactions := 4, TotalRevenueSats := 1200, Active := true },
        { ProductID := 3, Name := "Soup", Currency := "EUR", Price := "5.00",
          TotalTransactions := 90, TotalRevenueSats := 9000, Active := false }] none,
     .upsertProducts 2 "m2"
       [{ ProductID := 1, Name := "Beer", Currency := "EUR", Price := "4.00",
          TotalTransactions := 7, TotalRevenueSats := 500, Active := true }] none]

/-! ## Reading merchants, and the on-demand refresh (`store.go`, lines 254-305; `poller.go`, lines 136-143) -/

/-- Go: `(*Store).GetMerchant`: the row with the id, or `sql.ErrNoRows`
(storage call 0). -/
def GetMerchant (s : Store) (id : String) (fault : Option Nat) : Except StoreError Merchant :=
  if failsAt fault 0 then .error .persistence
  else
    match s.merchants.find? (fun m => m.ID == id) with
    | none => .error .errNoRows
    | some m => .ok m

/-- Go: `(*Store).ListMerchants`: the merchants, only the enabled ones when
`onlyEnabled` is set, `ORDER BY alias` (storage call 0). -/
def ListMerchants (s : Store) (onlyEnabled : Bool) (fault : Option Nat) :
    Except StoreError (List Merchant) :=
  if failsAt fault 0 then .error .persistence
  else
    .ok (List.insertionSort (fun a b => bytesLE a.Alias.toList b.Alias.toList = true)
      (if onlyEnabled then s.merchants.filter (fun m => m.Enabled) else s.merchants))

/-- What a call of `RefreshMerchant` leaves behind: the store, the error it
returns (`none` for `nil`), and the number of calls of `fetch` it made. -/
structure RefreshOutcome where
  store : Store
  err : Option PollError
  fetches : Nat
deriving DecidableEq

/-- Go: `(*Poller).RefreshMerchant`: `GetMerchant`, whose storage fault is
`getFault`, then `pollMerchant`, which starts with the call of `fetch`. -/
def RefreshMerchant (parseTime : String → Option Time) (s : Store) (merchantID : String)
    (getFault : Option Nat) (run : PollRun) : RefreshOutcome :=
  match GetMerchant s merchantID getFault with
  | .error e => { store := s, err := some (.store e), fetches := 0 }
  | .ok m =>
    { store := (pollMerchant parseTime s m run).1,
      err := (pollMerchant parseTime s m run).2,
      fetches := 1 }

/-! ## The ticker endpoint (`server.go`, lines 121-130 and 404-425) -/

/-- A response as `writeJSON` leaves it: the status code and the body. -/
structure Response where
  status : Nat
  body : String
deriving DecidableEq, Repr

/-- Go: the slice that a scan loop (`var out []T`, then `out = append(out, row)`
for each row) hands back: `nil` (here `none`) when the query had no row, the
rows otherwise. -/
def scannedSlice {α : Type} (rows : List α) : Option (List α) :=
  match rows with
  | [] => none
  | r :: rest => some (r :: rest)

/-- Go: `json.NewEncoder(w).Encode(body)` for a slice: `null` for the nil
slice, otherwise the elements between brackets, then a newline.  `enc` is the
encoding of one element. -/
def encodeSlice {α : Type} (enc : α → String) : Option (List α) → String
  | none => "null\n"
  | some items => "[" ++ ",".intercalate (items.map enc) ++ "]\n"

/-- Go: `parseIntQuery`: the value of a query parameter (`""` when it is
absent) as a limit; `atoi` stands for `strconv.Atoi`. -/
def parseIntQuery (atoi : String → Option Int) (val : String) (fallback : Int) : Int :=
  if val = "" then fallback
  else
    match atoi val with
    | none => fallback
    | some n => if n ≤ 0 ∨ n > 1000 then fallback else n

/-- Go: `writeError`: the JSON object with the member `error`; `quote` is the
JSON encoding of a string and `msg` the text of the error. -/
def writeError (quote : String → String) (status : Nat) (msg : String) : Response :=
  { status := status, body := "\x7b\"error\":" ++ quote msg ++ "\x7d\n" }

/-- Go: `(*Server).handleTicker`: `limitParam` is the query parameter `limit`,
`tickerLimit` is `cfg.TickerLimit`, and `errorText` the text of a storage
error. -/
def handleTicker (atoi : String → Option Int) (enc : TickerEntry → String)
    (quote : String → String) (errorText : StoreError → String)
    (tickerLimit : Int) (s : Store) (limitParam : String) (fault : Option Nat) : Response :=
  match LatestTransactions s (parseIntQuery atoi limitParam tickerLimit) fault with
  | .error e => writeError quote 500 (errorText e)
  | .ok items => { status := 200, body := encodeSlice enc (scannedSlice items) }

/-! ## The admin token check (`server.go`, lines 382-402) -/

/-- The two headers of a request that `extractToken` reads, as `Header.Get`
returns them (`""` when the header is absent). -/
structure Request where
  Authorization : String
  XAdminToken : String
deriving DecidableEq, Repr

/-- Go: `extractToken`.  When the lower-cased header starts with `bearer `, its
first seven runes are ASCII, so that the bytes from index 7 on are the runes
from index 7 on. -/
def extractToken (r : Request) : String :=
  if ("bearer ".toList).isPrefixOf (ToLower r.Authorization).toList then
    String.mk (TrimSpace (r.Authorization.toList.drop 7))
  else if r.XAdminToken ≠ "" then r.XAdminToken
  else ""

/-- Go: `subtle.ConstantTimeCompare`: 0 for slices of different lengths,
otherwise the bitwise or of the pairwise differences is compared with 0.  The
model works on the runes of the two texts instead of their bytes. -/
def ConstantTimeCompare (x y : List Char) : Int :=
  if x.length ≠ y.length then 0
  else if (List.zipWith (fun a b => a.toNat ^^^ b.toNat) x y).foldl (fun v d => v ||| d) 0 = 0
  then 1 else 0

/-- What the middleware does with a request: it answers itself, or it calls
`next.ServeHTTP`. -/
inductive Served where
  | answered (resp : Response)
  | passedOn
deriving DecidableEq, Repr

/-- Go: `(*Server).authMiddleware`, for the configured `cfg.AdminToken`. -/
def authMiddleware (quote : String → String) (adminToken : String) (r : Request) : Served :=
  if extractToken r = "" ∨
      ConstantTimeCompare (extractToken r).toList adminToken.toList ≠ 1 then
    .answered (writeError quote 401 "unauthorized")
  else .passedOn

/-- Is the text an ASCII-case-insensitive `Bearer ` followed by something? -/
def hasBearer (auth : String) : Prop :=
  (auth.toList.take 7).map Char.toLower = "bearer ".toList

/-! ## Configuration and the poller it starts (`config.go`, lines 11-72; `main.go`, lines 16-41; `poller.go`, lines 19-63 and 109-113) -/

/-- Go: `type Config struct` of package `config`; durations in nanoseconds. -/
structure config.Config where
  Addr : String
  DBPath : String
  AdminToken : String
  WebhookSecret : String
  PollInterval : Int
  PollConcurrency : Int
  HTTPTimeout : Int
  TickerLimit : Int
  RateWindow : Int
  DefaultLeaderboardLimit : Int
  DataAPIBaseURL : String
  CORSOrigins : List String
deriving DecidableEq, Repr

/-- Go: `(Config).Validate`; `true` stands for `nil`. -/
def config.Config.Validate (c : config.Config) : Bool :=
  if c.AdminToken = "" then false
  else if c.PollInterval ≤ 0 then false
  else if c.PollConcurrency ≤ 0 then false
  else if c.HTTPTimeout ≤ 0 then false
  else if c.TickerLimit ≤ 0 then false
  else if c.DefaultLeaderboardLimit ≤ 0 then false
  else if c.DataAPIBaseURL = "" then false
  else true

/-- Go: `type Config struct` of package `ingest`. -/
structure ingest.Config where
  Interval : Int
  Concurrency : Int
  Timeout : Int
  BaseURL : String
deriving DecidableEq, Repr

/-- Go: `type Poller struct`, without the store, the logger and the HTTP
client, of which only the timeout is kept. -/
structure Poller where
  timeout : Int
  interval : Int
  concurrency : Int
  baseURL : String
deriving DecidableEq, Repr

/-- Go: `time.Second`, in nanoseconds. -/
def Second : Int := 1000000000

/-- Go: `strings.TrimRight(base, "/")`. -/
def TrimRightSlash (base : String) : String :=
  String.mk ((base.toList.reverse.dropWhile (fun c => c == '/')).reverse)

/-- Go: `NewPoller`. -/
def NewPoller (cfg : ingest.Config) : Poller :=
  { timeout := if cfg.Timeout ≤ 0 then 10 * Second else cfg.Timeout,
    interval := if cfg.Interval ≤ 0 then Minute else cfg.Interval,
    concurrency := if cfg.Concurrency ≤ 0 then 5 else cfg.Concurrency,
    baseURL := TrimRightSlash
      (if cfg.BaseURL = "" then "https://api.paywithflash.com" else cfg.BaseURL) }

/-- Go: the composite literal `ingest.Config` that `main` hands to `NewPoller`:
the fields `Interval`, `Timeout` and `BaseURL` are set, `Concurrency` keeps its
zero value. -/
def mainPollerConfig (cfg : config.Config) : ingest.Config :=
  { Interval := cfg.PollInterval, Concurrency := 0, Timeout := cfg.HTTPTimeout,
    BaseURL := cfg.DataAPIBaseURL }

/-- Go: the poller `main` starts, when the configuration passes `Validate`
(otherwise `logger.Fatalf` ends the process). -/
def mainPoller (cfg : config.Config) : Option Poller :=
  if cfg.Validate then some (NewPoller (mainPollerConfig cfg)) else none

/-- Go: `workers := p.concurrency`, lowered to `len(merchants)` when it is
larger, in `pollAll`. -/
def workerCount (p : Poller) (merchants : Int) : Int :=
  if p.concurrency > merchants then merchants else p.concurrency

/-- A configuration that passes `Validate`, with a poll concurrency of 2. -/
def configTwoWorkers : config.Config :=
  { Addr := ":8080", DBPath := "dashboard.db", AdminToken := "secret", WebhookSecret := "",
    PollInterval := 30 * Second, PollConcurrency := 2, HTTPTimeout := 10 * Second,
    TickerLimit := 20, RateWindow := 5 * Minute, DefaultLeaderboardLimit := 10,
    DataAPIBaseURL := "https://api.paywithflash.com", CORSOrigins := ["*"] }

/-! ## The poll time of a merchant -/

/-- The store on which `pollMerchant` starts the milestone evaluator, if the
unit gets that far: fetch, normalisation, `RecordTransactions`,
`UpsertProducts` and `UpdateMerchantPollTime` all succeeded. -/
def storeAtEvaluator (parseTime : String → Option Time) (s : Store) (merchant : Merchant)
    (run : PollRun) : Option Store :=
  match run.fetched with
  | .error _ => none
  | .ok payload =>
    match normalizeSales parseTime payload.Sales with
    | .error _ => none
    | .ok txs =>
      match RecordTransactions s run.recordNow merchant.ID txs run.recordFault with
      | .error _ => none
      | .ok (_, s1) =>
        match normalizeProducts payload.Products with
        | .error _ => none
        | .ok snapshots =>
          match UpsertProducts s1 run.upsertNow merchant.ID snapshots run.upsertFault with
          | .error _ => none
          | .ok s2 =>
            match UpdateMerchantPollTime s2 merchant.ID run.pollTime run.pollTimeFault with
            | .error _ => none
            | .ok s3 => some s3

/-- The last-polled time of every merchant row, with its id. -/
def pollTimes (s : Store) : List (String × Option Time) :=
  s.merchants.map (fun m => (m.ID, m.LastPolledAt))

/-- A run of `pollMerchant` in which everything succeeds until the first
storage call of the milestone evaluator fails. -/
def evaluatorFails (payload : sourceData) : PollRun :=
  { fetched := .ok payload, recordNow := 10, recordFault := none, upsertNow := 11,
    upsertFault := none, pollTime := 12, pollTimeFault := none, milestoneNow := 13,
    milestoneFault := some 0 }

/-! ## The state of a milestone and the predicate of a trigger record -/

/-- The trigger state of every milestone row, with its id. -/
def triggerStates (s : Store) : List (Int × Option Time) :=
  s.milestones.map (fun r => (r.id, r.triggered_at))

/-- A trigger record satisfies its own predicate: the total that its type
names is at least its threshold. -/
def triggerHolds (t : MilestoneTrigger) : Prop :=
  (t.Typ = MilestoneTransactions → t.TotalTransactions ≥ t.Threshold) ∧
  (t.Typ = MilestoneVolume → t.TotalVolumeSats ≥ t.Threshold)

/-- An update of the milestone of `storeTriggered` that raises its threshold
above the volume of 550 sats. -/
def volume5000 : Milestone :=
  { volume500 with Name := "Volume 5000", Threshold := 5000 }

/-! ## The poll cycle (`poller.go`, lines 87-134 and 145-202) -/

/-- The outcome of `fetch` followed by the first loop of `pollMerchant`: the
sales of the snapshot, normalised. -/
def fetchedSales (parseTime : String → Option Time) (run : PollRun) :
    Except PollError (List TransactionInput) :=
  match run.fetched with
  | .error e => .error e
  | .ok payload => normalizeSales parseTime payload.Sales

/-- The outcome of the second loop of `pollMerchant` on the snapshot fetched. -/
def fetchedProducts (run : PollRun) : Except PollError (List ProductSnapshot) :=
  match run.fetched with
  | .error e => .error e
  | .ok payload => normalizeProducts payload.Products

/-- A call of `pollMerchant` in progress: its arguments, what it gets from
outside (`run`), the statement it has reached (`pc`), the totals and the
candidates its evaluator has read, and what it has returned (`none` while it
runs, `some none` for `nil`). -/
structure UnitState where
  merchant : Merchant
  run : PollRun
  pc : Nat
  totalTx : Int
  totalVol : Int
  candidates : List candidate
  result : Option (Option PollError)

/-- The state of `pollMerchant` when it is called. -/
def startUnit (merchant : Merchant) (run : PollRun) : UnitState :=
  { merchant := merchant, run := run, pc := 0, totalTx := 0, totalVol := 0, candidates := [],
    result := none }

/-- One step of a call of `pollMerchant` that has not returned, on the store as
it is when the step is taken.  Each access to the store is a step of its own:
0 `fetch` and the first loop; 1 `RecordTransactions`, then the second loop;
2 `UpsertProducts`; 3 `UpdateMerchantPollTime`; then the three statements of
`ProcessMilestones`: 4 the totals, 5 the candidate query, 6 the write
transaction. -/
def unitStep (parseTime : String → Option Time) (s : Store) (u : UnitState) :
    Store × UnitState :=
  match u.pc with
  | 0 =>
    match fetchedSales parseTime u.run with
    | .error e => (s, { u with result := some (some e) })
    | .ok _ => (s, { u with pc := 1 })
  | 1 =>
    match fetchedSales parseTime u.run with
    | .error e => (s, { u with result := some (some e) })
    | .ok txs =>
      match RecordTransactions s u.run.recordNow u.merchant.ID txs u.run.recordFault with
      | .error e => (s, { u with result := some (some (.store e)) })
      | .ok (_, s1) =>
        match fetchedProducts u.run with
        | .error e => (s1, { u with result := some (some e) })
        | .ok _ => (s1, { u with pc := 2 })
  | 2 =>
    match fetchedProducts u.run with
    | .error e => (s, { u with result := some (some e) })
    | .ok snapshots =>
      match UpsertProducts s u.run.upsertNow u.merchant.ID snapshots u.run.upsertFault with
      | .error e => (s, { u with result := some (some (.store e)) })
      | .ok s2 => (s2, { u with pc := 3 })
  | 3 =>
    match UpdateMerchantPollTime s u.merchant.ID u.run.pollTime u.run.pollTimeFault with
    | .error e => (s, { u with result := some (some (.store e)) })
    | .ok s3 => (s3, { u with pc := 4 })
  | 4 =>
    match currentTotals s u.run.milestoneFault with
    | .error e => (s, { u with result := some (some (.store e)) })
    | .ok (totalTx, totalVol) => (s, { u with pc := 5, totalTx := totalTx, totalVol := totalVol })
  | 5 =>
    if failsAt u.run.milestoneFault 1 then
      (s, { u with result := some (some (.store .persistence)) })
    else (s, { u with pc := 6, candidates := selectCandidates s })
  | _ =>
    match writeTriggers s u.run.milestoneNow u.run.milestoneFault
        (u.totalTx, u.totalVol, u.candidates) with
    | .error e => (s, { u with result := some (some (.store e)) })
    | .ok (_, s4) => (s4, { u with result := some none })

/-- Go: the `result` struct sent on the channel `results`. -/
structure result where
  merchantID : String
  err : Option PollError
deriving DecidableEq, Repr

/-- The state of one `pollAll` cycle: the store, the merchants still in the
channel `work`, for each worker goroutine the call of `pollMerchant` it is in
(if any), the results sent so far, and the ids `pollMerchant` has been called
with so far, in the order of the calls. -/
structure Cycle where
  store : Store
  work : List Merchant
  workers : List (Option UnitState)
  results : List result
  started : List String

/-- One step of worker goroutine `i`.  Between two units it receives the next
merchant from `work` and calls `pollMerchant` (when the channel is drained, the
goroutine ends and the step changes nothing); inside a call it takes the next
step of the call; after the call has returned it sends the result. -/
def cycleStep (parseTime : String → Option Time) (runOf : Merchant → PollRun) (c : Cycle)
    (i : Nat) : Cycle :=
  match c.workers[i]? with
  | none => c
  | some none =>
    match c.work with
    | [] => c
    | m :: rest =>
      { c with work := rest,
               workers := c.workers.set i (some (startUnit m (runOf m))),
               started := c.started ++ [m.ID] }
  | some (some u) =>
    match u.result with
    | some r =>
      { c with workers := c.workers.set i none,
               results := c.results ++ [{ merchantID := u.merchant.ID, err := r }] }
    | none =>
      { c with store := (unitStep parseTime c.store u).1,
               workers := c.workers.set i (some (unitStep parseTime c.store u).2) }

/-- A schedule: the worker that takes each successive step. -/
def runSchedule (parseTime : String → Option Time) (runOf : Merchant → PollRun) :
    Cycle → List Nat → Cycle
  | c, [] => c
  | c, i :: rest => runSchedule parseTime runOf (cycleStep parseTime runOf c i) rest

/-- The cycle when the worker goroutines are started: all merchants in `work`,
every worker between two units. -/
def startCycle (s : Store) (merchants : List Merchant) (workers : Int) : Cycle :=
  { store := s, work := merchants, workers := List.replicate workers.toNat none,
    results := [], started := [] }

/-- What is known of a call of `pollAll` after a schedule: the cycle, and what
the call has returned, if it has (`some none` for `nil`). -/
structure PollAllOutcome where
  cycle : Cycle
  returned : Option (Option StoreError)

/-- Go: `(*Poller).pollAll`, with the steps of its workers taken in the order
given by `sched`.  `runOf` is what the unit of each merchant gets from outside.
The call returns when it has received as many results as there are merchants. -/
def pollAll (parseTime : String → Option Time) (p : Poller) (runOf : Merchant → PollRun)
    (s : Store) (listFault : Option Nat) (sched : List Nat) : PollAllOutcome :=
  match ListMerchants s true listFault with
  | .error e => { cycle := startCycle s [] 0, returned := some (some e) }
  | .ok merchants =>
    if merchants.length = 0 then { cycle := startCycle s [] 0, returned := some none }
    else
      { cycle := runSchedule parseTime runOf
          (startCycle s merchants (workerCount p (merchants.length : Int))) sched,
        returned :=
          if (runSchedule parseTime runOf
                (startCycle s merchants (workerCount p (merchants.length : Int)))
                sched).results.length = merchants.length
          then some none else none }

/-- The units a cycle has in progress. -/
def busyUnits (c : Cycle) : List UnitState :=
  c.workers.filterMap (fun w => w)

/-- The steps a call of `pollMerchant` has left, the sending of its result
included. -/
def remaining (u : UnitState) : Nat :=
  match u.result with
  | some _ => 1
  | none => 2 + (6 - u.pc)

/-- A bound on the steps a cycle has left. -/
def stepsLeft (c : Cycle) : Nat :=
  9 * c.work.length + ((busyUnits c).map remaining).sum

/-- Round-robin: `rounds` rounds in each of which every one of `workers`
goroutines takes a step. -/
def roundRobin (workers : Nat) : Nat → List Nat
  | 0 => []
  | rounds + 1 => List.range workers ++ roundRobin workers rounds

/-- The sales of a merchant's snapshot are stored. -/
def salesStored (parseTime : String → Option Time) (s : Store) (m : Merchant) (run : PollRun) :
    Prop :=
  ∃ txs, fetchedSales parseTime run = .ok txs ∧
    ∀ t ∈ txs, ∃ r ∈ s.transactions, r.merchant_id = m.ID ∧ r.sale_id = t.SaleID

/-- The product snapshots of a merchant are stored: every product of the
snapshot has a row, and the rows of the merchant carry the data of the last
snapshot with their product id. -/
def productsStored (s : Store) (m : Merchant) (run : PollRun) : Prop :=
  ∃ snapshots, fetchedProducts run = .ok snapshots ∧
    (∀ p ∈ snapshots, ∃ r ∈ s.products, r.merchant_id = m.ID ∧ r.product_id = p.ProductID) ∧
    ∀ r ∈ s.products, r.merchant_id = m.ID →
      ∀ q, lastWith r.product_id snapshots = some q → sameData r q

/-- What holds of a call of `pollMerchant` in progress: past
`RecordTransactions` the sales of its snapshot are stored, past
`UpsertProducts` its product snapshots are, and it returns `nil` only past
both. -/
def UnitInv (parseTime : String → Option Time) (s : Store) (u : UnitState) : Prop :=
  (2 ≤ u.pc → salesStored parseTime s u.merchant u.run) ∧
  (3 ≤ u.pc → productsStored s u.merchant u.run) ∧
  (u.result = some none → 3 ≤ u.pc)

/-- What holds of every state of a cycle over `merchants`: the channel `work`
holds the merchants not yet received; every id `pollMerchant` was called with
belongs to exactly one unit in progress or result sent; the units in progress
are units of listed merchants; the snapshots of the merchants whose result is
`nil` are stored. -/
structure CycleInv (parseTime : String → Option Time) (runOf : Merchant → PollRun)
    (merchants : List Merchant) (c : Cycle) : Prop where
  queue : ∃ taken, merchants = taken ++ c.work ∧ c.started = taken.map (fun m => m.ID)
  owners : (((busyUnits c).map (fun u => u.merchant.ID)) ++
    c.results.map (fun r => r.merchantID)).Perm c.started
  units : ∀ u ∈ busyUnits c,
    u.merchant ∈ merchants ∧ u.run = runOf u.merchant ∧ UnitInv parseTime c.store u
  stored : ∀ r ∈ c.results, r.err = none → ∀ m ∈ merchants, m.ID = r.merchantID →
    salesStored parseTime c.store m (runOf m) ∧ productsStored c.store m (runOf m)

/-- A cycle in which nothing is left to do: the channel `work` is drained and
no unit is in progress. -/
def finished (c : Cycle) : Prop :=
  c.work = [] ∧ busyUnits c = []

/-- A store with three merchants: "m1" and "m2" are enabled, "m3" is not. -/
def storeCycle : Store :=
  runCalls Store.empty
    [.upsertMerchant 1 { ID := "m1", PublicKey := "pk1", Alias := "Bob", Enabled := true,
                         LastPolledAt := none, CreatedAt := 0, UpdatedAt := 0 } none,
     .upsertMerchant 1 { ID := "m2", PublicKey := "pk2", Alias := "Alice", Enabled := true,
                         LastPolledAt := none, CreatedAt := 0, UpdatedAt := 0 } none,
     .upsertMerchant 1 { ID := "m3", PublicKey := "pk3", Alias := "Carol", Enabled := false,
                         LastPolledAt := none, CreatedAt := 0, UpdatedAt := 0 } none]

/-- A snapshot with one sale of 250 sats and one product. -/
def snapshotShop : sourceData :=
  { ID := 7, Name := "Shop",
    Products := [{ ProductID := 1, Name := "Tea", Currency := "EUR", Price := "2.00",
                   TotalTransactions := 1, TotalRevenueSats := "250", ActiveStatus := true }],
    Sales := [{ SaleId := 9, SaleOrigin := "pos", SaleDate := "1970-01-01T00:00:00Z",
                TotalCostSats := "250" }] }

/-- What the units of a cycle over `storeCycle` get from outside: the fetch of
"m1" fails, every other unit fetches `snapshotShop` and meets no storage
fault. -/
def runsCycle (m : Merchant) : PollRun :=
  if m.ID = "m1" then { cleanRun snapshotShop with fetched := .error .fetch }
  else cleanRun snapshotShop

/-- A poller configuration with two workers. -/
def twoWorkers : ingest.Config :=
  { Interval := 30 * Second, Concurrency := 2, Timeout := 10 * Second,
    BaseURL := "http://localhost" }

/-- A call of `pollMerchant` run on its own: up to `n` steps of the unit, one
after the other, with no other writer in between. -/
def unitSteps (parseTime : String → Option Time) : Nat → Store → UnitState → Store × UnitState
  | 0, s, u => (s, u)
  | n + 1, s, u =>
    match u.result with
    | some _ => (s, u)
    | none => unitSteps parseTime n (unitStep parseTime s u).1 (unitStep parseTime s u).2

/-! ## Lemmas: RecordTransactions -/

theorem failsAt_none (step : Nat) : failsAt none step = false := rfl

theorem hasSale_append (a b : List TransactionRow) (m : String) (k : Int) :
    hasSale (a ++ b) m k = (hasSale a m k || hasSale b m k) := by
  simp [hasSale, List.any_append]

theorem hasSale_iff (rows : List TransactionRow) (m : String) (k : Int) :
    hasSale rows m k = true ↔ ∃ r ∈ rows, r.merchant_id = m ∧ r.sale_id = k := by
  simp [hasSale]

theorem hasSale_snoc (rows : List TransactionRow) (m : String) (now : Time)
    (t : TransactionInput) (k : Int) :
    hasSale (rows ++ [newTransactionRow m now t]) m k = true ↔
      hasSale rows m k = true ∨ k = t.SaleID := by
  simp only [hasSale_iff, List.mem_append, List.mem_singleton]
  constructor
  · rintro ⟨r, hr | hr, h1, h2⟩
    · exact Or.inl ⟨r, hr, h1, h2⟩
    · subst hr; exact Or.inr h2.symm
  · rintro (⟨r, hr, h1, h2⟩ | h)
    · exact ⟨r, Or.inl hr, h1, h2⟩
    · exact ⟨_, Or.inr rfl, rfl, h.symm⟩

theorem insertLoop_ok (fault : Option Nat) (m : String) (now : Time)
    (batch : List TransactionInput) :
    ∀ (step : Nat) (rows : List TransactionRow) (ins : Int) (rows2 : List TransactionRow)
      (ins2 : Int),
      insertLoop fault m now batch step rows ins = .ok (rows2, ins2) →
        rows2 = rows ++ freshRows m now rows batch ∧
        ins2 = ins + ((freshRows m now rows batch).length : Int) := by
  induction batch with
  | nil =>
    intro step rows ins rows2 ins2 h
    simp only [insertLoop] at h
    split at h
    · cases h
    · simp only [Except.ok.injEq, Prod.mk.injEq] at h
      simp [freshRows, h.1.symm, h.2.symm]
  | cons t rest ih =>
    intro step rows ins rows2 ins2 h
    simp only [insertLoop] at h
    split at h
    · cases h
    · split at h
      · rename_i hs
        have := ih _ _ _ _ _ h
        simpa [freshRows, hs] using this
      · rename_i hs
        have := ih _ _ _ _ _ h
        simp only [freshRows, hs]
        refine ⟨by simpa using this.1, ?_⟩
        rw [this.2]; simp; ring

theorem insertLoop_none (m : String) (now : Time) (batch : List TransactionInput) :
    ∀ (step : Nat) (rows : List TransactionRow) (ins : Int),
      insertLoop none m now batch step rows ins =
        .ok (rows ++ freshRows m now rows batch,
             ins + ((freshRows m now rows batch).length : Int)) := by
  induction batch with
  | nil => intro step rows ins; simp [insertLoop, freshRows, failsAt_none]
  | cons t rest ih =>
    intro step rows ins
    simp only [insertLoop, failsAt_none, freshRows]
    by_cases hs : hasSale rows m t.SaleID = true
    · simp [hs, ih]
    · simp [hs, ih]; ring

theorem RecordTransactions_ok (s : Store) (now : Time) (m : String)
    (batch : List TransactionInput) (fault : Option Nat) (n : Int) (s1 : Store)
    (h : RecordTransactions s now m batch fault = .ok (n, s1)) :
    s1 = { s with transactions := s.transactions ++ freshRows m now s.transactions batch } ∧
    n = ((freshRows m now s.transactions batch).length : Int) := by
  unfold RecordTransactions at h
  split at h
  · rename_i h0
    have : batch = [] := List.length_eq_zero.mp h0
    subst this
    simp only [Except.ok.injEq, Prod.mk.injEq] at h
    simp [freshRows, h.1.symm, h.2.symm]
  · split at h
    · cases h
    · split at h
      · cases h
      · split at h
        · cases h
        · rename_i rows ins hl
          simp only [Except.ok.injEq, Prod.mk.injEq] at h
          have := insertLoop_ok _ _ _ _ _ _ _ _ _ hl
          rw [← h.1, ← h.2, this.1, this.2]; simp

theorem RecordTransactions_none (s : Store) (now : Time) (m : String)
    (batch : List TransactionInput) :
    RecordTransactions s now m batch none =
      .ok (((freshRows m now s.transactions batch).length : Int),
        { s with transactions := s.transactions ++ freshRows m now s.transactions batch }) := by
  unfold RecordTransactions
  split
  · rename_i h0
    have : batch = [] := List.length_eq_zero.mp h0
    subst this
    simp [freshRows]
  · simp [failsAt_none, insertLoop_none]

theorem freshRows_stored (m : String) (now : Time) (batch : List TransactionInput) :
    ∀ (rows : List TransactionRow), ∀ t ∈ batch,
      hasSale (rows ++ freshRows m now rows batch) m t.SaleID = true := by
  induction batch with
  | nil => intro rows t ht; cases ht
  | cons a rest ih =>
    intro rows t ht
    by_cases hs : hasSale rows m a.SaleID = true
    · simp only [freshRows, hs, if_true]
      rcases List.mem_cons.mp ht with h | h
      · subst h; rw [hasSale_append]; simp [hs]
      · exact ih rows t h
    · simp only [freshRows, hs]
      have e : rows ++ newTransactionRow m now a ::
          freshRows m now (rows ++ [newTransactionRow m now a]) rest =
          (rows ++ [newTransactionRow m now a]) ++
            freshRows m now (rows ++ [newTransactionRow m now a]) rest := by simp
      simp only [Bool.false_eq_true, if_false]
      rw [e]
      rcases List.mem_cons.mp ht with h | h
      · subst h
        rw [hasSale_append]
        have := (hasSale_snoc rows m now t t.SaleID).mpr (Or.inr rfl)
        simp [this]
      · exact ih _ t h

theorem freshRows_eq_nil (m : String) (now : Time) (batch : List TransactionInput)
    (rows : List TransactionRow)
    (h : ∀ t ∈ batch, hasSale rows m t.SaleID = true) : freshRows m now rows batch = [] := by
  induction batch with
  | nil => rfl
  | cons a rest ih =>
    have ha := h a (List.mem_cons_self _ _)
    simp only [freshRows, ha, if_true]
    exact ih (fun t ht => h t (List.mem_cons_of_mem _ ht))

theorem freshRows_keys_nodup (m : String) (now : Time) (batch : List TransactionInput) :
    ∀ (rows : List TransactionRow),
      (rows.map (fun r => (r.merchant_id, r.sale_id))).Nodup →
      ((rows ++ freshRows m now rows batch).map (fun r => (r.merchant_id, r.sale_id))).Nodup := by
  induction batch with
  | nil => intro rows h; simpa [freshRows] using h
  | cons a rest ih =>
    intro rows h
    by_cases hs : hasSale rows m a.SaleID = true
    · simp only [freshRows, hs, if_true]; exact ih rows h
    · simp only [freshRows, hs, Bool.false_eq_true, if_false]
      have e : rows ++ newTransactionRow m now a ::
          freshRows m now (rows ++ [newTransactionRow m now a]) rest =
          (rows ++ [newTransactionRow m now a]) ++
            freshRows m now (rows ++ [newTransactionRow m now a]) rest := by simp
      rw [e]
      apply ih
      rw [List.map_append, List.nodup_append]
      refine ⟨h, by simp, ?_⟩
      intro key h1 h2
      simp only [List.map_cons, List.map_nil, List.mem_singleton] at h2
      subst h2
      rcases List.mem_map.mp h1 with ⟨r, hr, hk⟩
      simp only [newTransactionRow, Prod.mk.injEq] at hk
      exact hs ((hasSale_iff rows m a.SaleID).mpr ⟨r, hr, hk.1, hk.2⟩)

theorem freshRows_length (m : String) (now : Time) (batch : List TransactionInput) :
    ∀ (rows : List TransactionRow),
      (freshRows m now rows batch).length =
        (((batch.map (fun t => t.SaleID)).dedup).filter
          (fun k => !hasSale rows m k)).length := by
  induction batch with
  | nil => intro rows; simp [freshRows]
  | cons a rest ih =>
    intro rows
    have key : ∀ (l : List Int) (rws : List TransactionRow),
        ((l.dedup).filter (fun k => !hasSale rws m k)).length =
          (l.toFinset.filter (fun k => hasSale rws m k = false)).card := by
      intro l rws
      rw [← List.toFinset_card_of_nodup ((List.nodup_dedup l).filter _)]
      congr 1
      ext k
      simp
    rw [key]
    by_cases hs : hasSale rows m a.SaleID = true
    · simp only [freshRows, hs, if_true]
      rw [ih rows, key]
      congr 1
      ext k
      simp only [List.map_cons, List.toFinset_cons, Finset.mem_filter, Finset.mem_insert,
        List.mem_toFinset]
      constructor
      · rintro ⟨h1, h2⟩; exact ⟨Or.inr h1, h2⟩
      · rintro ⟨h1 | h1, h2⟩
        · subst h1; rw [hs] at h2; cases h2
        · exact ⟨h1, h2⟩
    · simp only [freshRows, hs, Bool.false_eq_true, if_false, List.length_cons]
      rw [ih, key]
      have hs2 : hasSale rows m a.SaleID = false := by simpa using hs
      have : (List.map (fun t => t.SaleID) (a :: rest)).toFinset.filter
            (fun k => hasSale rows m k = false) =
          insert a.SaleID ((List.map (fun t => t.SaleID) rest).toFinset.filter
            (fun k => hasSale (rows ++ [newTransactionRow m now a]) m k = false)) := by
        ext k
        simp only [List.map_cons, List.toFinset_cons, Finset.mem_filter, Finset.mem_insert,
          List.mem_toFinset]
        have hk := hasSale_snoc rows m now a k
        constructor
        · rintro ⟨h1 | h1, h2⟩
          · exact Or.inl h1
          · by_cases hka : k = a.SaleID
            · exact Or.inl hka
            · refine Or.inr ⟨h1, ?_⟩
              cases hh : hasSale (rows ++ [newTransactionRow m now a]) m k
              · rfl
              · rcases hk.mp hh with h | h
                · rw [h] at h2; cases h2
                · exact absurd h hka
        · rintro (h | ⟨h1, h2⟩)
          · subst h; exact ⟨Or.inl rfl, hs2⟩
          · refine ⟨Or.inr h1, ?_⟩
            cases hh : hasSale rows m k
            · rfl
            · rw [hk.mpr (Or.inl hh)] at h2; cases h2
      rw [this, Finset.card_insert_of_not_mem]
      simp only [Finset.mem_filter, not_and]
      intro _
      rw [(hasSale_snoc rows m now a a.SaleID).mpr (Or.inr rfl)]
      simp

/-! ## The text of a time and the order of instants -/

theorem bytesLE_total : ∀ a b : List Char, bytesLE a b = true ∨ bytesLE b a = true
  | [], _ => Or.inl rfl
  | _ :: _, [] => Or.inr rfl
  | a :: as, b :: bs => by
    simp only [bytesLE, Bool.or_eq_true, Bool.and_eq_true, decide_eq_true_eq]
    rcases Nat.lt_trichotomy a.toNat b.toNat with h | h | h
    · exact Or.inl (Or.inl h)
    · rcases bytesLE_total as bs with h1 | h1
      · exact Or.inl (Or.inr ⟨h, h1⟩)
      · exact Or.inr (Or.inr ⟨h.symm, h1⟩)
    · exact Or.inr (Or.inl h)

theorem bytesLE_trans : ∀ a b c : List Char,
    bytesLE a b = true → bytesLE b c = true → bytesLE a c = true
  | [], _, _ => fun _ _ => rfl
  | _ :: _, [], _ => fun h _ => by simp [bytesLE] at h
  | _ :: _, _ :: _, [] => fun _ h => by simp [bytesLE] at h
  | a :: as, b :: bs, c :: cs => by
    simp only [bytesLE, Bool.or_eq_true, Bool.and_eq_true, decide_eq_true_eq]
    intro h1 h2
    rcases h1 with h1 | ⟨h1, h1r⟩
    · rcases h2 with h2 | ⟨h2, _⟩
      · exact Or.inl (lt_trans h1 h2)
      · exact Or.inl (h2 ▸ h1)
    · rcases h2 with h2 | ⟨h2, h2r⟩
      · exact Or.inl (h1 ▸ h2)
      · exact Or.inr ⟨h1.trans h2, bytesLE_trans as bs cs h1r h2r⟩

theorem bytesLE_refl : ∀ a : List Char, bytesLE a a = true
  | [] => rfl
  | a :: as => by
    simp only [bytesLE, lt_self_iff_false, decide_False, decide_True, Bool.true_and,
      Bool.false_or]
    exact bytesLE_refl as

theorem bytesBefore_cons_lt (a b : Char) (x y : List Char) (h : a.toNat < b.toNat) :
    bytesBefore (a :: x) (b :: y) := by
  intro r1 r2
  have h1 : ¬ b.toNat < a.toNat := by omega
  have h2 : ¬ b.toNat = a.toNat := by omega
  simp [bytesLE, h, h1, h2]

theorem bytesBefore_cons (c : Char) (x y : List Char) (h : bytesBefore x y) :
    bytesBefore (c :: x) (c :: y) := by
  intro r1 r2
  obtain ⟨h1, h2⟩ := h r1 r2
  simp [bytesLE, h1, h2]

theorem bytesBefore_append_left (p x y : List Char) (h : bytesBefore x y) :
    bytesBefore (p ++ x) (p ++ y) := by
  induction p with
  | nil => exact h
  | cons c p ih => exact bytesBefore_cons c _ _ ih

theorem bytesBefore_append_right (x y u v : List Char) (h : bytesBefore x y) :
    bytesBefore (x ++ u) (y ++ v) := by
  intro r1 r2
  rw [List.append_assoc, List.append_assoc]
  exact h _ _

theorem digitChar_toNat (d : Nat) (h : d < 10) : (Nat.digitChar d).toNat = 48 + d := by
  interval_cases d <;> rfl

theorem lowDigits_before (w : Nat) : ∀ a b : Nat, a < b → b < 10 ^ w →
    bytesBefore (lowDigits w a) (lowDigits w b) := by
  induction w with
  | zero => intro a b hab hb; simp at hb; omega
  | succ w ih =>
    intro a b hab hb
    have hP : 0 < 10 ^ w := Nat.pow_pos (by norm_num)
    have hqb : b / 10 ^ w < 10 := by
      rw [Nat.div_lt_iff_lt_mul hP]; rw [pow_succ] at hb; omega
    have hqle : a / 10 ^ w ≤ b / 10 ^ w := Nat.div_le_div_right (le_of_lt hab)
    have hda : a / 10 ^ w % 10 = a / 10 ^ w := Nat.mod_eq_of_lt (by omega)
    have hdb : b / 10 ^ w % 10 = b / 10 ^ w := Nat.mod_eq_of_lt hqb
    simp only [lowDigits, hda, hdb]
    rcases Nat.lt_or_eq_of_le hqle with hlt | heq
    · apply bytesBefore_cons_lt
      rw [digitChar_toNat _ (by omega), digitChar_toNat _ hqb]
      omega
    · rw [heq]
      apply bytesBefore_cons
      apply ih
      · have ha := Nat.div_add_mod a (10 ^ w)
        have hb2 := Nat.div_add_mod b (10 ^ w)
        rw [heq] at ha
        omega
      · exact Nat.mod_lt _ hP

theorem lowDigits_zero (w : Nat) : trimZeros (lowDigits w 0) = [] := by
  induction w with
  | zero => rfl
  | succ w ih =>
    simp only [lowDigits, Nat.zero_div, Nat.zero_mod, trimZeros, ih]
    rfl

theorem digitChar_eq_zero (d : Nat) (h : d < 10) : Nat.digitChar d = '0' ↔ d = 0 := by
  interval_cases d <;> decide

theorem trimmed_pos (w : Nat) : ∀ n : Nat, 0 < n → n < 10 ^ w →
    ∃ d l, trimZeros (lowDigits w n) = Nat.digitChar d :: l ∧ d < 10 := by
  induction w with
  | zero => intro n h0 h1; simp at h1; omega
  | succ w ih =>
    intro n h0 h1
    have hP : 0 < 10 ^ w := Nat.pow_pos (by norm_num)
    have hq : n / 10 ^ w < 10 := by
      rw [Nat.div_lt_iff_lt_mul hP]; rw [pow_succ] at h1; omega
    have hd : n / 10 ^ w % 10 = n / 10 ^ w := Nat.mod_eq_of_lt hq
    simp only [lowDigits, trimZeros, hd]
    by_cases hr : n % 10 ^ w = 0
    · have hq0 : n / 10 ^ w ≠ 0 := by
        intro h
        have := Nat.div_add_mod n (10 ^ w)
        rw [h, hr] at this
        omega
      rw [if_neg]
      · exact ⟨_, _, rfl, hq⟩
      · rintro ⟨_, h⟩
        exact hq0 ((digitChar_eq_zero _ hq).mp h)
    · obtain ⟨d, l, hl, _⟩ := ih (n % 10 ^ w) (Nat.pos_of_ne_zero hr) (Nat.mod_lt _ hP)
      rw [if_neg]
      · exact ⟨_, _, rfl, hq⟩
      · rintro ⟨h, _⟩
        rw [hl] at h
        cases h

theorem trimmed_before (w : Nat) : ∀ a b : Nat, a < b → b < 10 ^ w →
    bytesBefore (trimZeros (lowDigits w a) ++ [' ']) (trimZeros (lowDigits w b) ++ [' ']) := by
  induction w with
  | zero => intro a b hab hb; simp at hb; omega
  | succ w ih =>
    intro a b hab hb
    have hP : 0 < 10 ^ w := Nat.pow_pos (by norm_num)
    by_cases ha0 : a = 0
    · obtain ⟨d, l, hl, hd⟩ := trimmed_pos (w + 1) b (by omega) hb
      rw [ha0, lowDigits_zero, hl]
      apply bytesBefore_cons_lt
      rw [digitChar_toNat _ hd]
      have : ' '.toNat = 32 := rfl
      omega
    · have hqb : b / 10 ^ w < 10 := by
        rw [Nat.div_lt_iff_lt_mul hP]; rw [pow_succ] at hb; omega
      have hqle : a / 10 ^ w ≤ b / 10 ^ w := Nat.div_le_div_right (le_of_lt hab)
      have hda : a / 10 ^ w % 10 = a / 10 ^ w := Nat.mod_eq_of_lt (by omega)
      have hdb : b / 10 ^ w % 10 = b / 10 ^ w := Nat.mod_eq_of_lt hqb
      have hnil : ∀ n : Nat, n ≠ 0 → n < 10 ^ (w + 1) →
          ¬ (trimZeros (lowDigits w (n % 10 ^ w)) = [] ∧ Nat.digitChar (n / 10 ^ w) = '0') := by
        intro n hn hlt ⟨h1, h2⟩
        have hq : n / 10 ^ w < 10 := by
          rw [Nat.div_lt_iff_lt_mul hP]; rw [pow_succ] at hlt; omega
        have hq0 := (digitChar_eq_zero _ hq).mp h2
        by_cases hr : n % 10 ^ w = 0
        · have := Nat.div_add_mod n (10 ^ w)
          rw [hq0, hr] at this
          omega
        · obtain ⟨d, l, hl, _⟩ :=
            trimmed_pos w (n % 10 ^ w) (Nat.pos_of_ne_zero hr) (Nat.mod_lt _ hP)
          rw [hl] at h1
          cases h1
      simp only [lowDigits, trimZeros, hda, hdb]
      rw [if_neg (hnil a ha0 (by omega)), if_neg (hnil b (by omega) hb)]
      rcases Nat.lt_or_eq_of_le hqle with hlt | heq
      · apply bytesBefore_cons_lt
        rw [digitChar_toNat _ (by omega), digitChar_toNat _ hqb]
        omega
      · rw [heq]
        apply bytesBefore_cons
        apply ih
        · have ha := Nat.div_add_mod a (10 ^ w)
          have hb2 := Nat.div_add_mod b (10 ^ w)
          rw [heq] at ha
          omega
        · exact Nat.mod_lt _ hP

theorem stage_century (x y : Int) (hx : 0 ≤ x) (hxy : x ≤ y) (hy : y ≤ 146096) :
    (min (x / 36524) 3 < min (y / 36524) 3 ∨
      (min (x / 36524) 3 = min (y / 36524) 3 ∧
        x - 36524 * min (x / 36524) 3 ≤ y - 36524 * min (y / 36524) 3 ∧
        (x < y → x - 36524 * min (x / 36524) 3 < y - 36524 * min (y / 36524) 3))) ∧
    0 ≤ min (x / 36524) 3 ∧ min (x / 36524) 3 ≤ 3 ∧
    0 ≤ x - 36524 * min (x / 36524) 3 ∧ x - 36524 * min (x / 36524) 3 ≤ 36524 ∧
    0 ≤ min (y / 36524) 3 ∧ min (y / 36524) 3 ≤ 3 ∧
    0 ≤ y - 36524 * min (y / 36524) 3 ∧ y - 36524 * min (y / 36524) 3 ≤ 36524 := by
  omega

theorem stage_cycle (x y : Int) (hx : 0 ≤ x) (hxy : x ≤ y) (hy : y ≤ 36524) :
    (x / 1461 < y / 1461 ∨
      (x / 1461 = y / 1461 ∧ x % 1461 ≤ y % 1461 ∧ (x < y → x % 1461 < y % 1461))) ∧
    0 ≤ x / 1461 ∧ x / 1461 ≤ 24 ∧ 0 ≤ x % 1461 ∧ x % 1461 ≤ 1460 ∧
    0 ≤ y / 1461 ∧ y / 1461 ≤ 24 ∧ 0 ≤ y % 1461 ∧ y % 1461 ≤ 1460 := by
  omega

theorem stage_year (x y : Int) (hx : 0 ≤ x) (hxy : x ≤ y) (hy : y ≤ 1460) :
    (min (x / 365) 3 < min (y / 365) 3 ∨
      (min (x / 365) 3 = min (y / 365) 3 ∧
        x - 365 * min (x / 365) 3 ≤ y - 365 * min (y / 365) 3 ∧
        (x < y → x - 365 * min (x / 365) 3 < y - 365 * min (y / 365) 3))) ∧
    0 ≤ min (x / 365) 3 ∧ min (x / 365) 3 ≤ 3 ∧
    0 ≤ min (y / 365) 3 ∧ min (y / 365) 3 ≤ 3 := by
  omega

theorem marchYear_range (z : Int) : 0 ≤ (marchYear z).2 ∧ (marchYear z).2 ≤ 365 := by
  simp only [marchYear]
  omega

theorem marchYear_lt (a b : Int) (hab : a < b) :
    (marchYear a).1 < (marchYear b).1 ∨
      ((marchYear a).1 = (marchYear b).1 ∧ (marchYear a).2 < (marchYear b).2) := by
  simp only [marchYear]
  have he : a / 146097 < b / 146097 ∨
      (a / 146097 = b / 146097 ∧ a % 146097 < b % 146097) := by omega
  have ha0 : 0 ≤ a % 146097 ∧ a % 146097 ≤ 146096 := by omega
  have hb0 : 0 ≤ b % 146097 ∧ b % 146097 ≤ 146096 := by omega
  have ca := stage_century (a % 146097) (a % 146097) ha0.1 le_rfl ha0.2
  have cb := stage_century (b % 146097) (b % 146097) hb0.1 le_rfl hb0.2
  generalize a / 146097 = ea at *
  generalize b / 146097 = eb at *
  generalize a % 146097 = da at *
  generalize b % 146097 = db at *
  have qa := stage_cycle _ _ ca.2.2.2.1 le_rfl ca.2.2.2.2.1
  have qb := stage_cycle _ _ cb.2.2.2.1 le_rfl cb.2.2.2.2.1
  have ya := stage_year _ _ qa.2.2.2.1 le_rfl qa.2.2.2.2.1
  have yb := stage_year _ _ qb.2.2.2.1 le_rfl qb.2.2.2.2.1
  rcases he with he | ⟨he, hd⟩
  · left
    omega
  · have c := (stage_century da db ha0.1 (le_of_lt hd) hb0.2).1
    generalize min (da / 36524) 3 = ca1 at *
    generalize min (db / 36524) 3 = cb1 at *
    rcases c with c | ⟨c, hd1, hs1⟩
    · left; omega
    · have q := (stage_cycle _ _ ca.2.2.2.1 hd1 cb.2.2.2.2.1).1
      have hs1 := hs1 hd
      generalize da - 36524 * ca1 = d1a at *
      generalize db - 36524 * cb1 = d1b at *
      rcases q with q | ⟨q, hd2, hs2⟩
      · left; omega
      · have y := (stage_year _ _ qa.2.2.2.1 hd2 qb.2.2.2.2.1).1
        have hs2 := hs2 hs1
        generalize d1a / 1461 = q1a at *
        generalize d1b / 1461 = q1b at *
        generalize d1a % 1461 = d2a at *
        generalize d1b % 1461 = d2b at *
        rcases y with y | ⟨y, hd3, hs3⟩
        · left; omega
        · have hs3 := hs3 hs2
          right; omega

theorem month_stage (x y : Int) (hxy : x < y) :
    (5 * x + 2) / 153 < (5 * y + 2) / 153 ∨
      ((5 * x + 2) / 153 = (5 * y + 2) / 153 ∧
        x - (153 * ((5 * x + 2) / 153) + 2) / 5 + 1 <
          y - (153 * ((5 * y + 2) / 153) + 2) / 5 + 1) := by
  omega

theorem month_range (x : Int) (hx : 0 ≤ x) (hy : x ≤ 365) :
    0 ≤ (5 * x + 2) / 153 ∧ (5 * x + 2) / 153 ≤ 11 ∧
      1 ≤ x - (153 * ((5 * x + 2) / 153) + 2) / 5 + 1 ∧
      x - (153 * ((5 * x + 2) / 153) + 2) / 5 + 1 ≤ 31 := by
  omega

theorem civil_range (z : Int) :
    1 ≤ (civil z).month ∧ (civil z).month ≤ 12 ∧ 1 ≤ (civil z).day ∧ (civil z).day ≤ 31 := by
  have hr := marchYear_range (z + 719468)
  have hm := month_range _ hr.1 hr.2
  simp only [civil]
  generalize (marchYear (z + 719468)).2 = doy at *
  generalize (5 * doy + 2) / 153 = mp at *
  refine ⟨?_, ?_, hm.2.2.1, hm.2.2.2⟩
  · split <;> omega
  · split <;> omega

theorem civil_lt (a b : Int) (hab : a < b) :
    (civil a).year < (civil b).year ∨
      ((civil a).year = (civil b).year ∧
        ((civil a).month < (civil b).month ∨
          ((civil a).month = (civil b).month ∧ (civil a).day < (civil b).day))) := by
  have hra := marchYear_range (a + 719468)
  have hrb := marchYear_range (b + 719468)
  have hma := month_range _ hra.1 hra.2
  have hmb := month_range _ hrb.1 hrb.2
  have hlt := marchYear_lt (a + 719468) (b + 719468) (by omega)
  simp only [civil]
  generalize (marchYear (a + 719468)).1 = ya at *
  generalize (marchYear (b + 719468)).1 = yb at *
  rcases hlt with hlt | ⟨hy, hd⟩
  · generalize (marchYear (a + 719468)).2 = da at *
    generalize (marchYear (b + 719468)).2 = db at *
    generalize (5 * da + 2) / 153 = ma at *
    generalize (5 * db + 2) / 153 = mb at *
    split_ifs <;> omega
  · have hms := month_stage _ _ hd
    generalize (marchYear (a + 719468)).2 = da at *
    generalize (marchYear (b + 719468)).2 = db at *
    generalize (5 * da + 2) / 153 = ma at *
    generalize (5 * db + 2) / 153 = mb at *
    split_ifs <;> omega

theorem appendInt_of_range (x : Int) (w : Nat) (hw : w ≠ 0) (h0 : 0 ≤ x) (h1 : x < 10 ^ w) :
    appendInt x w = lowDigits w x.toNat := by
  have hn : x.natAbs = x.toNat := by omega
  have hlt : x.toNat < 10 ^ w := by
    have : ((x.toNat : Nat) : Int) < ((10 ^ w : Nat) : Int) := by
      rw [Int.toNat_of_nonneg h0]; exact_mod_cast h1
    exact_mod_cast this
  unfold appendInt
  rw [if_neg (by omega), hn, if_pos ⟨hw, hlt⟩]
  rfl

theorem block_lt (w : Nat) (a b : Int) (x y : List Char) (hw : w ≠ 0) (ha : 0 ≤ a)
    (hab : a < b) (hb : b < 10 ^ w) :
    bytesBefore (appendInt a w ++ x) (appendInt b w ++ y) := by
  have hbn : b.toNat < 10 ^ w := by
    have : ((b.toNat : Nat) : Int) < ((10 ^ w : Nat) : Int) := by
      rw [Int.toNat_of_nonneg (by omega)]; exact_mod_cast hb
    exact_mod_cast this
  rw [appendInt_of_range a w hw ha (by omega), appendInt_of_range b w hw (by omega) hb]
  exact bytesBefore_append_right _ _ _ _ (lowDigits_before w _ _ (by omega) hbn)

theorem block_eq (w : Nat) (a b : Int) (c : Char) (x y : List Char) (hab : a = b)
    (h : bytesBefore x y) :
    bytesBefore (appendInt a w ++ c :: x) (appendInt b w ++ c :: y) := by
  rw [hab]
  exact bytesBefore_append_left _ _ _ (bytesBefore_cons c _ _ h)

theorem frac_before (a b : Int) (ha : 0 ≤ a) (hab : a < b) (hb : b < 1000000000) :
    bytesBefore (fracText a ++ [' ']) (fracText b ++ [' ']) := by
  have hb9 : b < 10 ^ 9 := by norm_num; exact hb
  have hbn : b.toNat < 10 ^ 9 := by
    have : ((b.toNat : Nat) : Int) < ((10 ^ 9 : Nat) : Int) := by
      rw [Int.toNat_of_nonneg (by omega)]; exact_mod_cast hb9
    exact_mod_cast this
  unfold fracText
  rw [if_neg (by omega : ¬ b = 0), appendInt_of_range b 9 (by decide) (by omega) hb9]
  by_cases ha0 : a = 0
  · rw [if_pos ha0]
    exact bytesBefore_cons_lt _ _ _ _ (by decide)
  · rw [if_neg ha0, appendInt_of_range a 9 (by decide) ha (by omega)]
    exact bytesBefore_cons _ _ _ (trimmed_before 9 _ _ (by omega) hbn)

/-- The part of `timeString` up to the blank after the seconds. -/
theorem timeString_split (t : Time) :
    timeString t =
      (appendInt t.date.year 4 ++ '-' :: (appendInt t.date.month 2 ++ '-' ::
        (appendInt t.date.day 2 ++ ' ' :: (appendInt t.hour 2 ++ ':' ::
          (appendInt t.minute 2 ++ ':' :: (appendInt t.second 2 ++
            (fracText t.nanosecond ++ [' '])))))))
        ++ (offsetText t.offset ++ [' '] ++ zoneText t ++ monoText t.mono) := by
  simp only [timeString, List.append_assoc, List.singleton_append, List.cons_append,
    List.nil_append]

theorem timeString_lt (a b : Time) (ho : a.offset = b.offset)
    (hya : 0 ≤ a.date.year) (hyb : b.date.year ≤ 9999)
    (hlt : a.unixNano < b.unixNano) :
    bytesLE (timeString a) (timeString b) = true ∧
      bytesLE (timeString b) (timeString a) = false := by
  rw [timeString_split a, timeString_split b]
  apply (show bytesBefore _ _ from ?_)
  have hra := civil_range (a.wallSeconds / 86400)
  have hrb := civil_range (b.wallSeconds / 86400)
  have hw : a.wallSeconds < b.wallSeconds ∨
      (a.wallSeconds = b.wallSeconds ∧ a.nanosecond < b.nanosecond) := by
    unfold Time.wallSeconds Time.nanosecond
    omega
  have hna : 0 ≤ a.nanosecond ∧ a.nanosecond < 1000000000 := by
    unfold Time.nanosecond; omega
  have hnb : 0 ≤ b.nanosecond ∧ b.nanosecond < 1000000000 := by
    unfold Time.nanosecond; omega
  have hclock : a.wallSeconds / 86400 < b.wallSeconds / 86400 ∨
      (a.wallSeconds / 86400 = b.wallSeconds / 86400 ∧
        (a.hour < b.hour ∨ (a.hour = b.hour ∧
          (a.minute < b.minute ∨ (a.minute = b.minute ∧
            (a.second < b.second ∨ (a.second = b.second ∧
              a.nanosecond < b.nanosecond))))))) := by
    unfold Time.hour Time.minute Time.second
    omega
  have hha : 0 ≤ a.hour ∧ a.hour < 24 ∧ 0 ≤ a.minute ∧ a.minute < 60 ∧
      0 ≤ a.second ∧ a.second < 60 := by
    unfold Time.hour Time.minute Time.second; omega
  have hhb : 0 ≤ b.hour ∧ b.hour < 24 ∧ 0 ≤ b.minute ∧ b.minute < 60 ∧
      0 ≤ b.second ∧ b.second < 60 := by
    unfold Time.hour Time.minute Time.second; omega
  have hdate : a.date.year < b.date.year ∨ (a.date.year = b.date.year ∧
      (a.date.month < b.date.month ∨ (a.date.month = b.date.month ∧
        (a.date.day < b.date.day ∨ (a.date.day = b.date.day ∧
          a.wallSeconds / 86400 = b.wallSeconds / 86400))))) := by
    unfold Time.date
    rcases hclock with hd | ⟨hd, _⟩
    · rcases civil_lt _ _ hd with h | ⟨h1, h | ⟨h2, h3⟩⟩
      · exact Or.inl h
      · exact Or.inr ⟨h1, Or.inl h⟩
      · exact Or.inr ⟨h1, Or.inr ⟨h2, Or.inl h3⟩⟩
    · rw [hd]
      exact Or.inr ⟨rfl, Or.inr ⟨rfl, Or.inr ⟨rfl, rfl⟩⟩⟩
  have hra : 1 ≤ a.date.month ∧ a.date.month ≤ 12 ∧ 1 ≤ a.date.day ∧ a.date.day ≤ 31 := hra
  have hrb : 1 ≤ b.date.month ∧ b.date.month ≤ 12 ∧ 1 ≤ b.date.day ∧ b.date.day ≤ 31 := hrb
  rcases hdate with hy | ⟨hy, hmo | ⟨hmo, hd | ⟨hd, hday⟩⟩⟩
  · exact block_lt 4 _ _ _ _ (by decide) hya hy (by norm_num; omega)
  · exact block_eq 4 _ _ _ _ _ hy (block_lt 2 _ _ _ _ (by decide) (by omega) hmo (by norm_num; omega))
  · exact block_eq 4 _ _ _ _ _ hy (block_eq 2 _ _ _ _ _ hmo
      (block_lt 2 _ _ _ _ (by decide) (by omega) hd (by norm_num; omega)))
  · refine block_eq 4 _ _ _ _ _ hy (block_eq 2 _ _ _ _ _ hmo (block_eq 2 _ _ _ _ _ hd ?_))
    rcases hclock with hc | ⟨_, hh | ⟨hh, hmi | ⟨hmi, hs | ⟨hs, hn⟩⟩⟩⟩
    · omega
    · exact block_lt 2 _ _ _ _ (by decide) hha.1 hh (by norm_num; omega)
    · exact block_eq 2 _ _ _ _ _ hh (block_lt 2 _ _ _ _ (by decide) (by omega) hmi (by norm_num; omega))
    · exact block_eq 2 _ _ _ _ _ hh (block_eq 2 _ _ _ _ _ hmi
        (block_lt 2 _ _ _ _ (by decide) (by omega) hs (by norm_num; omega)))
    · refine block_eq 2 _ _ _ _ _ hh (block_eq 2 _ _ _ _ _ hmi ?_)
      rw [hs]
      exact bytesBefore_append_left _ _ _ (frac_before _ _ hna.1 hn hnb.2)

theorem timeString_congr (a b : Time) (ho : a.offset = b.offset) (hz : a.zone = b.zone)
    (hm : a.mono = b.mono) (he : a.unixNano = b.unixNano) : a = b := by
  cases a; cases b; simp_all

/-- The text of some values: a UTC value, a value of a zone without an abbreviation,
a value with a fraction of a second and a monotonic reading, and the zero `time.Time`. -/
theorem timeString_instances :
    String.mk (timeString (utc 1704103200000000000)) = "2024-01-01 10:00:00 +0000 UTC" ∧
    String.mk (timeString { unixNano := 1704103200000000000, offset := 10800, zone := "",
                            mono := none }) = "2024-01-01 13:00:00 +0300 +0300" ∧
    String.mk (timeString { unixNano := 1704103200123456000, offset := -12600, zone := "NST",
                            mono := some 234567890 }) =
      "2024-01-01 06:30:00.123456 -0330 NST m=+0.234567890" ∧
    String.mk (timeString (utc (-62135596800000000000))) = "0001-01-01 00:00:00 +0000 UTC" := by
  decide

/-- For two values of one zone, in years written with four digits, the order of the
texts is the order of the instants. -/
theorem timeLE_iff (a b : Time) (ho : a.offset = b.offset) (hz : a.zone = b.zone)
    (hm : a.mono = b.mono) (hya : 0 ≤ a.date.year ∧ a.date.year ≤ 9999)
    (hyb : 0 ≤ b.date.year ∧ b.date.year ≤ 9999) :
    timeLE a b = true ↔ a.unixNano ≤ b.unixNano := by
  unfold timeLE
  rcases lt_trichotomy a.unixNano b.unixNano with h | h | h
  · exact ⟨fun _ => le_of_lt h, fun _ => (timeString_lt a b ho hya.1 hyb.2 h).1⟩
  · rw [timeString_congr a b ho hz hm h]
    exact ⟨fun _ => le_rfl, fun _ => bytesLE_refl _⟩
  · have := (timeString_lt b a ho.symm hyb.1 hya.2 h).2
    rw [this]
    exact ⟨fun h0 => (by cases h0), fun h0 => (by omega)⟩

/-- Between values of one offset in years written with four digits, a text that is not
after another belongs to an instant that is not after the other. -/
theorem timeLE_instants (a b : Time) (ho : a.offset = b.offset)
    (hya : a.date.year ≤ 9999) (hyb : 0 ≤ b.date.year) (h : timeLE a b = true) :
    a.unixNano ≤ b.unixNano := by
  by_contra hlt
  have := (timeString_lt b a ho.symm hyb hya (by omega)).2
  unfold timeLE at h
  rw [this] at h
  cases h

/-- Between plain UTC values the order of the texts is the order of the instants. -/
theorem timeLE_plainUTC (a b : Time) (ha : a.plainUTC) (hb : b.plainUTC) :
    timeLE a b = true ↔ a.unixNano ≤ b.unixNano :=
  timeLE_iff a b (ha.1.trans hb.1.symm) (ha.2.1.trans hb.2.1.symm)
    (ha.2.2.1.trans hb.2.2.1.symm) ha.2.2.2 hb.2.2.2

theorem timeLE_total (a b : Time) : timeLE a b = true ∨ timeLE b a = true := by
  unfold timeLE
  exact bytesLE_total _ _

theorem timeLE_trans (a b c : Time) (h1 : timeLE a b = true) (h2 : timeLE b c = true) :
    timeLE a c = true := by
  unfold timeLE at h1 h2 ⊢
  exact bytesLE_trans _ _ _ h1 h2

/-! ## Lemmas: ProcessMilestones -/

theorem sumInt64_eq (l : List Int) : ∀ (acc v : Int), sumInt64 l acc = some v → v = acc + l.sum := by
  induction l with
  | nil => intro acc v h; simp [sumInt64] at h; simp [h]
  | cons x xs ih =>
    intro acc v h
    simp only [sumInt64] at h
    split at h
    · have := ih _ _ h
      rw [this, List.sum_cons]; ring
    · cases h

theorem currentTotals_ok (s : Store) (fault : Option Nat) (tx vol : Int)
    (h : currentTotals s fault = .ok (tx, vol)) :
    tx = (s.transactions.length : Int) ∧ vol = totalVolume s ∧
      currentTotals s none = .ok (tx, vol) := by
  unfold currentTotals at h
  split at h
  · cases h
  · split at h
    · cases h
    · rename_i v hv
      simp only [Except.ok.injEq, Prod.mk.injEq] at h
      have := sumInt64_eq _ _ _ hv
      refine ⟨h.1.symm, ?_, ?_⟩
      · rw [← h.2, this]; simp [totalVolume]
      · simp [currentTotals, failsAt_none, hv, h.1, h.2]

theorem triggerLoop_ok (fault : Option Nat) (now : Time) (tx vol : Int) (cs : List candidate) :
    ∀ (step : Nat) (s : Store) (acc out : List MilestoneTrigger) (s1 : Store),
      triggerLoop fault now tx vol cs step s acc = .ok (out, s1) →
        out = acc ++ firedTriggers s.triggerSeq now tx vol cs ∧
        s1 = { s with
          milestones := firedRows now tx vol cs s.milestones,
          triggers := s.triggers ++ firedTriggers s.triggerSeq now tx vol cs,
          triggerSeq := s.triggerSeq + ((firedTriggers s.triggerSeq now tx vol cs).length : Int) } := by
  induction cs with
  | nil =>
    intro step s acc out s1 h
    simp only [triggerLoop] at h
    split at h
    · cases h
    · simp only [Except.ok.injEq, Prod.mk.injEq] at h
      simp [firedTriggers, firedRows, h.1.symm, h.2.symm]
  | cons c rest ih =>
    intro step s acc out s1 h
    simp only [triggerLoop] at h
    by_cases hf : fires tx vol c = true
    · simp only [hf, if_true] at h
      split at h
      · cases h
      · split at h
        · cases h
        · have := ih _ _ _ _ _ h
          simp only [firedTriggers, firedRows, hf, if_true]
          refine ⟨by simpa using this.1, ?_⟩
          rw [this.2]
          simp only [List.append_assoc, List.singleton_append, List.length_cons,
            Nat.cast_add, Nat.cast_one]
          congr 1
          ring
    · simp only [hf, Bool.false_eq_true, if_false] at h
      have := ih _ _ _ _ _ h
      simpa [firedTriggers, firedRows, hf] using this

theorem triggerLoop_none (now : Time) (tx vol : Int) (cs : List candidate) :
    ∀ (step : Nat) (s : Store) (acc : List MilestoneTrigger),
      triggerLoop none now tx vol cs step s acc =
        .ok (acc ++ firedTriggers s.triggerSeq now tx vol cs,
          { s with
            milestones := firedRows now tx vol cs s.milestones,
            triggers := s.triggers ++ firedTriggers s.triggerSeq now tx vol cs,
            triggerSeq := s.triggerSeq +
              ((firedTriggers s.triggerSeq now tx vol cs).length : Int) }) := by
  induction cs with
  | nil => intro step s acc; simp [triggerLoop, firedTriggers, firedRows, failsAt_none]
  | cons c rest ih =>
    intro step s acc
    by_cases hf : fires tx vol c = true
    · simp only [triggerLoop, hf, if_true, failsAt_none, Bool.false_eq_true, if_false, ih,
        firedTriggers, firedRows]
      simp only [List.append_assoc, List.singleton_append, List.length_cons,
            Nat.cast_add, Nat.cast_one]
      congr 3
      ring
    · simp [triggerLoop, hf, ih, firedTriggers, firedRows]

theorem writeTriggers_ok (s : Store) (now : Time) (fault : Option Nat) (tx vol : Int)
    (cs : List candidate) (out : List MilestoneTrigger) (s1 : Store)
    (h : writeTriggers s now fault (tx, vol, cs) = .ok (out, s1)) :
    out = firedTriggers s.triggerSeq now tx vol cs ∧
    s1 = { s with
      milestones := firedRows now tx vol cs s.milestones,
      triggers := s.triggers ++ firedTriggers s.triggerSeq now tx vol cs,
      triggerSeq := s.triggerSeq + ((firedTriggers s.triggerSeq now tx vol cs).length : Int) } := by
  unfold writeTriggers at h
  split at h
  · rename_i h0
    have : cs = [] := List.length_eq_zero.mp h0
    subst this
    simp only [Except.ok.injEq, Prod.mk.injEq] at h
    simp [firedTriggers, firedRows, h.1.symm, h.2.symm]
  · split at h
    · cases h
    · have := triggerLoop_ok _ _ _ _ _ _ _ _ _ _ h
      simpa using this

theorem writeTriggers_none (s : Store) (now : Time) (tx vol : Int) (cs : List candidate) :
    writeTriggers s now none (tx, vol, cs) =
      .ok (firedTriggers s.triggerSeq now tx vol cs,
        { s with
          milestones := firedRows now tx vol cs s.milestones,
          triggers := s.triggers ++ firedTriggers s.triggerSeq now tx vol cs,
          triggerSeq := s.triggerSeq +
            ((firedTriggers s.triggerSeq now tx vol cs).length : Int) }) := by
  unfold writeTriggers
  split
  · rename_i h0
    have : cs = [] := List.length_eq_zero.mp h0
    subst this
    simp [firedTriggers, firedRows]
  · simp [failsAt_none, triggerLoop_none]

theorem ProcessMilestones_ok (s : Store) (now : Time) (fault : Option Nat)
    (out : List MilestoneTrigger) (s1 : Store)
    (h : ProcessMilestones s now fault = .ok (out, s1)) :
    ∃ tx vol : Int, currentTotals s none = .ok (tx, vol) ∧
      out = firedTriggers s.triggerSeq now tx vol (selectCandidates s) ∧
      s1 = { s with
        milestones := firedRows now tx vol (selectCandidates s) s.milestones,
        triggers := s.triggers ++ firedTriggers s.triggerSeq now tx vol (selectCandidates s),
        triggerSeq := s.triggerSeq +
          ((firedTriggers s.triggerSeq now tx vol (selectCandidates s)).length : Int) } := by
  unfold ProcessMilestones readCandidates at h
  cases hc : currentTotals s fault with
  | error e => simp [hc] at h
  | ok r =>
    obtain ⟨tx, vol⟩ := r
    simp only [hc] at h
    split at h
    · cases h
    · rename_i r hr
      split at hr
      · cases hr
      · simp only [Except.ok.injEq] at hr
        subst hr
        exact ⟨tx, vol, (currentTotals_ok s fault tx vol hc).2.2,
          writeTriggers_ok s now fault tx vol _ out s1 h⟩

theorem ProcessMilestones_none (s : Store) (now : Time) (tx vol : Int)
    (hc : currentTotals s none = .ok (tx, vol)) :
    ProcessMilestones s now none =
      .ok (firedTriggers s.triggerSeq now tx vol (selectCandidates s),
        { s with
          milestones := firedRows now tx vol (selectCandidates s) s.milestones,
          triggers := s.triggers ++ firedTriggers s.triggerSeq now tx vol (selectCandidates s),
          triggerSeq := s.triggerSeq +
            ((firedTriggers s.triggerSeq now tx vol (selectCandidates s)).length : Int) }) := by
  unfold ProcessMilestones readCandidates
  simp only [hc, failsAt_none, Bool.false_eq_true, if_false]
  exact writeTriggers_none s now tx vol _

theorem firedTriggers_map_id (now : Time) (tx vol : Int) (cs : List candidate) :
    ∀ seq : Int, (firedTriggers seq now tx vol cs).map (fun t => t.MilestoneID) =
      (cs.filter (fires tx vol)).map (fun c => c.id) := by
  induction cs with
  | nil => intro seq; rfl
  | cons c rest ih =>
    intro seq
    by_cases hf : fires tx vol c = true
    · simp [firedTriggers, hf, ih, newTrigger]
    · simp [firedTriggers, hf, ih]

theorem firedTriggers_mem (now : Time) (tx vol : Int) (cs : List candidate) :
    ∀ (seq : Int) (t : MilestoneTrigger), t ∈ firedTriggers seq now tx vol cs →
      ∃ c ∈ cs, fires tx vol c = true ∧ ∃ k : Int, t = newTrigger k now tx vol c := by
  induction cs with
  | nil => intro seq t h; cases h
  | cons c rest ih =>
    intro seq t h
    by_cases hf : fires tx vol c = true
    · simp only [firedTriggers, hf, if_true, List.mem_cons] at h
      rcases h with h | h
      · exact ⟨c, List.mem_cons_self _ _, hf, _, h⟩
      · obtain ⟨c2, hc2, h2⟩ := ih _ _ h
        exact ⟨c2, List.mem_cons_of_mem _ hc2, h2⟩
    · simp only [firedTriggers, hf, Bool.false_eq_true, if_false] at h
      obtain ⟨c2, hc2, h2⟩ := ih _ _ h
      exact ⟨c2, List.mem_cons_of_mem _ hc2, h2⟩

theorem firedRows_eq_map (now : Time) (tx vol : Int) (cs : List candidate) :
    ∀ rows : List MilestoneRow,
      firedRows now tx vol cs rows =
        rows.map (fun r =>
          if r.triggered_at.isNone ∧ r.id ∈ (cs.filter (fires tx vol)).map (fun c => c.id)
          then { r with triggered_at := some now } else r) := by
  induction cs with
  | nil => intro rows; simp [firedRows]
  | cons c rest ih =>
    intro rows
    by_cases hf : fires tx vol c = true
    · simp only [firedRows, hf, if_true, ih, markTriggered, List.map_map]
      apply List.map_congr_left
      intro r _
      simp only [Function.comp, List.filter_cons, hf, if_true, List.map_cons, List.mem_cons]
      by_cases hid : r.id = c.id
      · by_cases hp : r.triggered_at.isNone = true
        · simp [hp, hid]
        · simp [hp, hid]
      · have hb : (r.id == c.id) = false := beq_eq_false_iff_ne.mpr hid
        simp only [hb, Bool.false_and, Bool.false_eq_true, if_false, hid, false_or]
    · simp only [firedRows, hf, Bool.false_eq_true, if_false, ih, List.filter_cons]

theorem mem_fired_ids_iff (s : Store) (tx vol : Int)
    (hnd : (s.milestones.map (fun r => r.id)).Nodup) (r : MilestoneRow)
    (hr : r ∈ s.milestones) :
    r.id ∈ ((selectCandidates s).filter (fires tx vol)).map (fun c => c.id) ↔
      eligible tx vol r = true := by
  simp only [selectCandidates, List.mem_map, List.mem_filter, eligible, Bool.and_eq_true]
  constructor
  · rintro ⟨c, ⟨⟨r2, ⟨hr2, he⟩, rfl⟩, hf⟩, hid⟩
    have : r2 = r := List.inj_on_of_nodup_map hnd hr2 hr (by simpa [candidateOf] using hid)
    subst this
    exact ⟨by simpa using he, hf⟩
  · rintro ⟨he, hf⟩
    exact ⟨candidateOf r, ⟨⟨r, ⟨hr, by simpa using he⟩, rfl⟩, hf⟩, rfl⟩

theorem firedRows_select (s : Store) (now : Time) (tx vol : Int)
    (hnd : (s.milestones.map (fun r => r.id)).Nodup) :
    firedRows now tx vol (selectCandidates s) s.milestones =
      s.milestones.map (fun r =>
        if eligible tx vol r then { r with triggered_at := some now } else r) := by
  rw [firedRows_eq_map]
  apply List.map_congr_left
  intro r hr
  have hiff := mem_fired_ids_iff s tx vol hnd r hr
  by_cases he : eligible tx vol r = true
  · have : r.triggered_at.isNone = true := by
      simp only [eligible, Bool.and_eq_true] at he; exact he.1.2
    simp [he, this, hiff.mpr he]
  · have hn := hiff.not.mpr he
    simp [he, hn]

theorem fired_ids_nodup (s : Store) (tx vol : Int)
    (hnd : (s.milestones.map (fun r => r.id)).Nodup) :
    (((selectCandidates s).filter (fires tx vol)).map (fun c => c.id)).Nodup := by
  have h1 : ((selectCandidates s).map (fun c => c.id)).Sublist
      (s.milestones.map (fun r => r.id)) := by
    simp only [selectCandidates, List.map_map]
    have : ((fun c : candidate => c.id) ∘ candidateOf) = (fun r : MilestoneRow => r.id) := by
      funext r; rfl
    rw [this]
    exact (List.filter_sublist _).map _
  have h2 : (((selectCandidates s).filter (fires tx vol)).map (fun c => c.id)).Sublist
      ((selectCandidates s).map (fun c => c.id)) := (List.filter_sublist _).map _
  exact (hnd.sublist h1).sublist h2

theorem triggerCount_fired (s : Store) (seq : Int) (now : Time) (tx vol : Int) (i : Int) :
    triggerCount (firedTriggers seq now tx vol (selectCandidates s)) i =
      (((selectCandidates s).filter (fires tx vol)).map (fun c => c.id)).count i := by
  rw [← firedTriggers_map_id now tx vol _ seq, List.count, List.countP_map]
  rfl

theorem triggerCount_fired_row (s : Store) (seq : Int) (now : Time) (tx vol : Int)
    (hnd : (s.milestones.map (fun r => r.id)).Nodup) (r : MilestoneRow)
    (hr : r ∈ s.milestones) :
    triggerCount (firedTriggers seq now tx vol (selectCandidates s)) r.id =
      if eligible tx vol r then 1 else 0 := by
  rw [triggerCount_fired, List.count_eq_of_nodup (fired_ids_nodup s tx vol hnd)]
  by_cases he : eligible tx vol r = true
  · simp [he, (mem_fired_ids_iff s tx vol hnd r hr).mpr he]
  · have := (mem_fired_ids_iff s tx vol hnd r hr).not.mpr he
    simp [he, this]

theorem triggerCount_append (a b : List MilestoneTrigger) (i : Int) :
    triggerCount (a ++ b) i = triggerCount a i + triggerCount b i := by
  simp [triggerCount, List.countP_append]

theorem triggerCount_pos_iff (l : List MilestoneTrigger) (i : Int) :
    0 < triggerCount l i ↔ ∃ t ∈ l, t.MilestoneID = i := by
  simp [triggerCount, List.countP_pos_iff]

/-! ## RecordTransactions: idempotence, uniqueness, counts, history -/

theorem afterRecord_transactions (s : Store) (now : Time) (m : String)
    (batch : List TransactionInput) (fault : Option Nat) :
    (afterRecord s (RecordTransactions s now m batch fault)).transactions = s.transactions ∨
    (afterRecord s (RecordTransactions s now m batch fault)).transactions =
      s.transactions ++ freshRows m now s.transactions batch := by
  cases h : RecordTransactions s now m batch fault with
  | error e => exact Or.inl rfl
  | ok r =>
    obtain ⟨n, s1⟩ := r
    have := (RecordTransactions_ok s now m batch fault n s1 h).1
    right
    simp [afterRecord, this]

/-- C1: for a batch whose sale ids are pairwise distinct and not yet stored for the merchant,
`RecordTransactions` returns the batch length on the first call and 0 on an immediately
repeated call, and the stored transactions and the totals (count and volume) after the
second call are those after the first. -/
theorem C1_record_twice_is_idempotent (s : Store) (now now2 : Time) (m : String)
    (batch : List TransactionInput)
    (hdistinct : (batch.map (fun t => t.SaleID)).Nodup)
    (hnew : ∀ t ∈ batch, hasSale s.transactions m t.SaleID = false) :
    ∃ s1 s2 : Store,
      RecordTransactions s now m batch none = .ok ((batch.length : Int), s1) ∧
      RecordTransactions s1 now2 m batch none = .ok (0, s2) ∧
      s2.transactions = s1.transactions ∧
      currentTotals s2 none = currentTotals s1 none ∧
      s2.transactions.length = s1.transactions.length ∧
      totalVolume s2 = totalVolume s1 := by
  have hlen : (freshRows m now s.transactions batch).length = batch.length := by
    rw [freshRows_length, hdistinct.dedup, List.filter_eq_self.mpr, List.length_map]
    intro k hk
    rcases List.mem_map.mp hk with ⟨t, ht, rfl⟩
    simp [hnew t ht]
  have hnil : freshRows m now2 (s.transactions ++ freshRows m now s.transactions batch) batch
      = [] :=
    freshRows_eq_nil m now2 batch _ (freshRows_stored m now batch s.transactions)
  refine ⟨{ s with transactions := s.transactions ++ freshRows m now s.transactions batch },
    { s with transactions := s.transactions ++ freshRows m now s.transactions batch },
    ?_, ?_, rfl, rfl, rfl, rfl⟩
  · rw [RecordTransactions_none, hlen]
  · rw [RecordTransactions_none]
    simp [hnil]

theorem runRecordCalls_nodup (calls : List RecordCall) :
    ∀ s : Store, (s.transactions.map (fun r => (r.merchant_id, r.sale_id))).Nodup →
      ((runRecordCalls s calls).transactions.map (fun r => (r.merchant_id, r.sale_id))).Nodup := by
  induction calls with
  | nil => intro s h; exact h
  | cons c rest ih =>
    intro s h
    simp only [runRecordCalls]
    apply ih
    rcases afterRecord_transactions s c.now c.merchantID c.txns c.fault with e | e
    · rw [e]; exact h
    · rw [e]; exact freshRows_keys_nodup _ _ _ _ h

/-- C2: in every store reached from the empty initialised store by a sequence of
`RecordTransactions` calls (any merchants, any batches, failed calls included), no two
stored transactions share the same `(merchantId, saleId)` pair. -/
theorem C2_sale_keys_unique (calls : List RecordCall) :
    ((runRecordCalls Store.empty calls).transactions.map
      (fun r => (r.merchant_id, r.sale_id))).Nodup :=
  runRecordCalls_nodup calls Store.empty (by simp [Store.empty])

/-- C3: a successful `RecordTransactions(m, batch)` returns the number of distinct sale ids
of the batch that were not stored under `m`, which is the increase of the transaction
count; every sale id of the batch not stored under `m` before is inserted under `m`,
whatever other merchants hold it; and without a storage fault the call succeeds. -/
theorem C3_record_returns_fresh_count (s : Store) (now : Time) (m : String)
    (batch : List TransactionInput) (fault : Option Nat) (n : Int) (s1 : Store)
    (h : RecordTransactions s now m batch fault = .ok (n, s1)) :
    n = ((((batch.map (fun t => t.SaleID)).dedup).filter
          (fun k => !hasSale s.transactions m k)).length : Int) ∧
    (s1.transactions.length : Int) = (s.transactions.length : Int) + n ∧
    (∀ t ∈ batch, hasSale s.transactions m t.SaleID = false →
      ∃ r ∈ s1.transactions, r ∉ s.transactions ∧ r.merchant_id = m ∧
        r.sale_id = t.SaleID) ∧
    (∃ r, RecordTransactions s now m batch none = .ok r) := by
  obtain ⟨hs1, hn⟩ := RecordTransactions_ok s now m batch fault n s1 h
  refine ⟨?_, ?_, ?_, ⟨_, RecordTransactions_none s now m batch⟩⟩
  · rw [hn, freshRows_length]
  · rw [hs1, hn]; simp
  · intro t ht hnot
    have hst := freshRows_stored m now batch s.transactions t ht
    rw [hasSale_iff] at hst
    obtain ⟨r, hr, h1, h2⟩ := hst
    refine ⟨r, by rw [hs1]; exact hr, ?_, h1, h2⟩
    intro hmem
    have := (hasSale_iff s.transactions m t.SaleID).mpr ⟨r, hmem, h1, h2⟩
    rw [hnot] at this; cases this

/-- C4: whatever the batch and whether the call succeeds or fails, every transaction
stored before a `RecordTransactions` call is stored afterwards, unchanged and at the
same place, so the transaction count never decreases. -/
theorem C4_record_keeps_history (s : Store) (now : Time) (m : String)
    (batch : List TransactionInput) (fault : Option Nat) :
    s.transactions <+: (afterRecord s (RecordTransactions s now m batch fault)).transactions ∧
    (∀ r ∈ s.transactions,
      r ∈ (afterRecord s (RecordTransactions s now m batch fault)).transactions) ∧
    s.transactions.length ≤
      (afterRecord s (RecordTransactions s now m batch fault)).transactions.length := by
  have hp : s.transactions <+:
      (afterRecord s (RecordTransactions s now m batch fault)).transactions := by
    rcases afterRecord_transactions s now m batch fault with e | e
    · rw [e]
    · rw [e]; exact List.prefix_append _ _
  exact ⟨hp, fun r hr => hp.subset hr, hp.length_le⟩

/-! ## ProcessMilestones: one run -/

theorem eligible_iff_shouldTrigger (s : Store) (tx vol : Int)
    (hc : currentTotals s none = .ok (tx, vol)) (r : MilestoneRow) :
    eligible tx vol r = true ↔ shouldTrigger s r := by
  obtain ⟨htx, hvol, _⟩ := currentTotals_ok s none tx vol hc
  subst htx hvol
  simp only [eligible, shouldTrigger, predicateHolds, fires, condition, candidateOf,
    Bool.and_eq_true, Option.isNone_iff_eq_none, MilestoneTransactions, MilestoneVolume]
  by_cases h1 : r.typ = "transactions"
  · simp [h1, and_assoc]
  · by_cases h2 : r.typ = "volume"
    · simp [h2, and_assoc]
    · simp [h1, h2]

/-- C7: a run of `ProcessMilestones` that meets no storage error triggers a milestone if
and only if the milestone is enabled, Pending and its predicate holds (count or volume
`>=` threshold); such a milestone becomes Triggered at the run's instant, and every other
milestone row is left as it was and gets no trigger record. -/
theorem C7_run_triggers_exactly_the_eligible (s : Store) (now : Time) (tx vol : Int)
    (hnd : (s.milestones.map (fun r => r.id)).Nodup)
    (hc : currentTotals s none = .ok (tx, vol)) :
    ∃ (trigs : List MilestoneTrigger) (s1 : Store),
      ProcessMilestones s now none = .ok (trigs, s1) ∧
      s1.triggers = s.triggers ++ trigs ∧
      s1.milestones = s.milestones.map (fun r =>
        if eligible tx vol r then { r with triggered_at := some now } else r) ∧
      (∀ r ∈ s.milestones, eligible tx vol r = true ↔ shouldTrigger s r) ∧
      (∀ r ∈ s.milestones, (∃ t ∈ trigs, t.MilestoneID = r.id) ↔ shouldTrigger s r) ∧
      (∀ r ∈ s.milestones, shouldTrigger s r →
        { r with triggered_at := some now } ∈ s1.milestones ∧ triggerCount trigs r.id = 1) ∧
      (∀ r ∈ s.milestones, ¬ shouldTrigger s r →
        r ∈ s1.milestones ∧ triggerCount trigs r.id = 0 ∧
          triggerCount s1.triggers r.id = triggerCount s.triggers r.id) := by
  have hrows := firedRows_select s now tx vol hnd
  have hcount := triggerCount_fired_row s s.triggerSeq now tx vol hnd
  have hiff := eligible_iff_shouldTrigger s tx vol hc
  refine ⟨_, _, ProcessMilestones_none s now tx vol hc, rfl, hrows, fun r _ => hiff r,
    ?_, ?_, ?_⟩
  · intro r hr
    rw [← triggerCount_pos_iff, hcount r hr, ← hiff r]
    by_cases he : eligible tx vol r = true
    · simp [he]
    · simp [he]
  · intro r hr hs
    have he := (hiff r).mpr hs
    refine ⟨?_, by rw [hcount r hr]; simp [he]⟩
    show _ ∈ firedRows now tx vol (selectCandidates s) s.milestones
    rw [hrows]
    exact List.mem_map.mpr ⟨r, hr, by simp [he]⟩
  · intro r hr hs
    have he : ¬ eligible tx vol r = true := fun h => hs ((hiff r).mp h)
    have h0 : triggerCount (firedTriggers s.triggerSeq now tx vol (selectCandidates s)) r.id
        = 0 := by rw [hcount r hr]; simp [he]
    refine ⟨?_, h0, ?_⟩
    · show _ ∈ firedRows now tx vol (selectCandidates s) s.milestones
      rw [hrows]
      exact List.mem_map.mpr ⟨r, hr, by simp [he]⟩
    · show triggerCount (s.triggers ++ _) r.id = _
      rw [triggerCount_append, h0]; rfl

/-- C8: every trigger returned by `ProcessMilestones` carries the number of stored
transactions and the sum of their amounts over all merchants as they are when the run
reads them, and the returned list is exactly the list of records the run appends to the
trigger log. -/
theorem C8_triggers_carry_current_totals (s : Store) (now : Time) (fault : Option Nat)
    (trigs : List MilestoneTrigger) (s1 : Store)
    (h : ProcessMilestones s now fault = .ok (trigs, s1)) :
    (∀ t ∈ trigs, t.TotalTransactions = (s.transactions.length : Int) ∧
      t.TotalVolumeSats = totalVolume s ∧ t.TriggeredAt = now) ∧
    s1.triggers = s.triggers ++ trigs := by
  obtain ⟨tx, vol, hc, hout, hs1⟩ := ProcessMilestones_ok s now fault trigs s1 h
  obtain ⟨htx, hvol, _⟩ := currentTotals_ok s none tx vol hc
  refine ⟨?_, by rw [hs1, hout]⟩
  intro t ht
  rw [hout] at ht
  obtain ⟨c, _, _, k, rfl⟩ := firedTriggers_mem now tx vol _ _ t ht
  simp [newTrigger, htx, hvol]

/-! ## Sequences of calls: the trigger log invariant -/

theorem afterRecord_frame (s : Store) (now : Time) (m : String)
    (batch : List TransactionInput) (fault : Option Nat) :
    (afterRecord s (RecordTransactions s now m batch fault)).milestones = s.milestones ∧
    (afterRecord s (RecordTransactions s now m batch fault)).triggers = s.triggers ∧
    (afterRecord s (RecordTransactions s now m batch fault)).milestoneSeq = s.milestoneSeq := by
  cases h : RecordTransactions s now m batch fault with
  | error e => exact ⟨rfl, rfl, rfl⟩
  | ok r =>
    obtain ⟨n, s1⟩ := r
    have := (RecordTransactions_ok s now m batch fault n s1 h).1
    simp [afterRecord, this]

theorem UpsertProducts_ok (s : Store) (now : Time) (m : String) (ps : List ProductSnapshot)
    (fault : Option Nat) (s1 : Store) (h : UpsertProducts s now m ps fault = .ok s1) :
    ∃ rows, s1 = { s with products := rows } := by
  unfold UpsertProducts at h
  split at h
  · simp only [Except.ok.injEq] at h; exact ⟨s.products, by rw [← h]⟩
  · split at h
    · cases h
    · split at h
      · cases h
      · split at h
        · cases h
        · rename_i rows _
          simp only [Except.ok.injEq] at h
          exact ⟨rows, h.symm⟩

theorem afterUpsertProducts_frame (s : Store) (now : Time) (m : String)
    (ps : List ProductSnapshot) (fault : Option Nat) :
    (afterUpsertProducts s (UpsertProducts s now m ps fault)).milestones = s.milestones ∧
    (afterUpsertProducts s (UpsertProducts s now m ps fault)).triggers = s.triggers ∧
    (afterUpsertProducts s (UpsertProducts s now m ps fault)).milestoneSeq = s.milestoneSeq ∧
    (afterUpsertProducts s (UpsertProducts s now m ps fault)).transactions = s.transactions := by
  cases h : UpsertProducts s now m ps fault with
  | error e => exact ⟨rfl, rfl, rfl, rfl⟩
  | ok s1 =>
    obtain ⟨rows, hr⟩ := UpsertProducts_ok s now m ps fault s1 h
    simp [afterUpsertProducts, hr]

theorem TriggerInv.congr {s s1 : Store} (h : TriggerInv s)
    (h1 : s1.milestones = s.milestones) (h2 : s1.triggers = s.triggers)
    (h3 : s1.milestoneSeq = s.milestoneSeq) : TriggerInv s1 := by
  constructor
  · rw [h1]; exact h.nodup
  · rw [h1, h3]; exact h.ids_le
  · rw [h2, h3]; exact h.trig_le
  · rw [h1, h2]; exact h.pending
  · rw [h1, h2]; exact h.triggered

theorem TriggerInv.empty : TriggerInv Store.empty := by
  constructor <;> simp [Store.empty]

theorem triggerCount_eq_zero_of_lt (log : List MilestoneTrigger) (i bound : Int)
    (h : ∀ t ∈ log, t.MilestoneID ≤ bound) (hi : bound < i) : triggerCount log i = 0 := by
  by_contra hne
  have : 0 < triggerCount log i := Nat.pos_of_ne_zero hne
  obtain ⟨t, ht, hid⟩ := (triggerCount_pos_iff log i).mp this
  have := h t ht
  omega

theorem TriggerInv.upsertMilestone {s : Store} (h : TriggerInv s) (now : Time) (m : Milestone)
    (fault : Option Nat) :
    TriggerInv (afterUpsertMilestone s (UpsertMilestone s now m fault)) := by
  unfold UpsertMilestone
  split
  · exact h
  · split
    · exact h
    · simp only [afterUpsertMilestone]
      constructor
      · simp only [List.map_append, List.map_cons, List.map_nil]
        rw [List.nodup_append]
        refine ⟨h.nodup, by simp, ?_⟩
        intro i h1 h2
        simp only [List.mem_singleton] at h2
        obtain ⟨r, hr, hid⟩ := List.mem_map.mp h1
        have := h.ids_le r hr
        omega
      · intro r hr
        simp only [List.mem_append, List.mem_singleton] at hr
        rcases hr with hr | hr
        · have := h.ids_le r hr; simp only; omega
        · subst hr; simp
      · intro t ht
        have := h.trig_le t ht
        simp only; omega
      · intro r hr hp
        simp only [List.mem_append, List.mem_singleton] at hr
        rcases hr with hr | hr
        · exact h.pending r hr hp
        · subst hr
          exact triggerCount_eq_zero_of_lt _ _ _ h.trig_le (by simp)
      · intro r hr ts hts
        simp only [List.mem_append, List.mem_singleton] at hr
        rcases hr with hr | hr
        · exact h.triggered r hr ts hts
        · subst hr; simp at hts

theorem TriggerInv.processMilestones {s : Store} (h : TriggerInv s) (now : Time)
    (fault : Option Nat) :
    TriggerInv (afterProcess s (ProcessMilestones s now fault)) := by
  cases hpm : ProcessMilestones s now fault with
  | error e => exact h
  | ok res =>
    obtain ⟨trigs, s1⟩ := res
    obtain ⟨tx, vol, hc, hout, hs1⟩ := ProcessMilestones_ok s now fault trigs s1 hpm
    have hrows := firedRows_select s now tx vol h.nodup
    have hcount := triggerCount_fired_row s s.triggerSeq now tx vol h.nodup
    rw [← hout] at hs1 hcount
    rw [hrows] at hs1
    simp only [afterProcess]
    have hm : s1.milestones = s.milestones.map (fun r =>
        if eligible tx vol r then { r with triggered_at := some now } else r) := by rw [hs1]
    have ht : s1.triggers = s.triggers ++ trigs := by rw [hs1]
    have hq : s1.milestoneSeq = s.milestoneSeq := by rw [hs1]
    have hidmap : s1.milestones.map (fun r => r.id) = s.milestones.map (fun r => r.id) := by
      rw [hm, List.map_map]
      apply List.map_congr_left
      intro r _
      by_cases he : eligible tx vol r = true <;> simp [he]
    have htrig : ∀ t ∈ trigs, t.TriggeredAt = now ∧ ∃ r ∈ s.milestones, t.MilestoneID = r.id := by
      intro t htm
      rw [hout] at htm
      obtain ⟨c, hc2, _, k, rfl⟩ := firedTriggers_mem now tx vol _ _ t htm
      refine ⟨rfl, ?_⟩
      simp only [selectCandidates, List.mem_map, List.mem_filter] at hc2
      obtain ⟨r, ⟨hr, _⟩, rfl⟩ := hc2
      exact ⟨r, hr, rfl⟩
    constructor
    · rw [hidmap]; exact h.nodup
    · intro r hr
      have : r.id ∈ s1.milestones.map (fun r => r.id) := List.mem_map.mpr ⟨r, hr, rfl⟩
      rw [hidmap] at this
      obtain ⟨r0, hr0, hid⟩ := List.mem_map.mp this
      rw [hq, ← hid]; exact h.ids_le r0 hr0
    · intro t htm
      rw [ht] at htm
      rw [hq]
      rcases List.mem_append.mp htm with h1 | h1
      · exact h.trig_le t h1
      · obtain ⟨_, r, hr, hid⟩ := htrig t h1
        rw [hid]; exact h.ids_le r hr
    · intro r hr hp
      rw [hm] at hr
      obtain ⟨r0, hr0, hf⟩ := List.mem_map.mp hr
      by_cases he : eligible tx vol r0 = true
      · simp only [he, if_true] at hf
        rw [← hf] at hp; cases hp
      · simp only [he, Bool.false_eq_true, if_false] at hf
        subst hf
        rw [ht, triggerCount_append, h.pending r0 hr0 hp, hcount r0 hr0]
        simp [he]
    · intro r hr ts hts
      rw [hm] at hr
      obtain ⟨r0, hr0, hf⟩ := List.mem_map.mp hr
      by_cases he : eligible tx vol r0 = true
      · simp only [he, if_true] at hf
        have hp0 : r0.triggered_at = none := by
          simp only [eligible, Bool.and_eq_true, Option.isNone_iff_eq_none] at he
          exact he.1.2
        have hid : r.id = r0.id := by rw [← hf]
        have hts2 : ts = now := by rw [← hf] at hts; simpa using hts.symm
        have h0 := h.pending r0 hr0 hp0
        rw [hid, ht, triggerCount_append, h0, hcount r0 hr0]
        refine ⟨by simp [he], ?_⟩
        intro t htm hti
        rcases List.mem_append.mp htm with h1 | h1
        · exfalso
          have : 0 < triggerCount s.triggers r0.id :=
            (triggerCount_pos_iff _ _).mpr ⟨t, h1, hti⟩
          omega
        · rw [hts2]; exact (htrig t h1).1
      · simp only [he, Bool.false_eq_true, if_false] at hf
        subst hf
        obtain ⟨h1, h2⟩ := h.triggered r0 hr0 ts hts
        have hz : triggerCount trigs r0.id = 0 := by rw [hcount r0 hr0]; simp [he]
        rw [ht, triggerCount_append, h1, hz]
        refine ⟨rfl, ?_⟩
        intro t htm hti
        rcases List.mem_append.mp htm with h3 | h3
        · exact h2 t h3 hti
        · exfalso
          have : 0 < triggerCount trigs r0.id := (triggerCount_pos_iff _ _).mpr ⟨t, h3, hti⟩
          omega

theorem TriggerInv.run {s : Store} (h : TriggerInv s) (o : Op) : TriggerInv (o.run s).1 := by
  cases o with
  | recordTransactions now m txns fault =>
    obtain ⟨h1, h2, h3⟩ := afterRecord_frame s now m txns fault
    exact h.congr h1 h2 h3
  | upsertProducts now m ps fault =>
    obtain ⟨h1, h2, h3, _⟩ := afterUpsertProducts_frame s now m ps fault
    exact h.congr h1 h2 h3
  | upsertMilestone now m fault => exact h.upsertMilestone now m fault
  | processMilestones now fault => exact h.processMilestones now fault

theorem TriggerInv.runOps (ops : List Op) :
    ∀ {s : Store}, TriggerInv s → TriggerInv (Dashboard.runOps s ops).1 := by
  induction ops with
  | nil => intro s h; exact h
  | cons o rest ih => intro s h; exact ih (h.run o)

/-- C9: in every store reached from the empty initialised store by sequential
`UpsertMilestone`, `RecordTransactions`, `UpsertProducts` and `ProcessMilestones` calls
(runs that fail and roll back included), a milestone is Triggered if and only if the
trigger log holds exactly one record with its id, a Pending milestone has no trigger
record, and every record of a milestone carries the milestone's `triggeredAt`. -/
theorem C9_triggered_iff_one_record (ops : List Op) :
    ∀ r ∈ (runOps Store.empty ops).1.milestones,
      (r.triggered_at.isSome = true ↔
        triggerCount (runOps Store.empty ops).1.triggers r.id = 1) ∧
      (r.triggered_at = none → triggerCount (runOps Store.empty ops).1.triggers r.id = 0) ∧
      (∀ t ∈ (runOps Store.empty ops).1.triggers, t.MilestoneID = r.id →
        r.triggered_at = some t.TriggeredAt) := by
  have hinv := TriggerInv.runOps ops TriggerInv.empty
  intro r hr
  refine ⟨?_, hinv.pending r hr, ?_⟩
  · constructor
    · intro hs
      obtain ⟨ts, hts⟩ := Option.isSome_iff_exists.mp hs
      exact (hinv.triggered r hr ts hts).1
    · intro h1
      cases hp : r.triggered_at with
      | none => rw [hinv.pending r hr hp] at h1; cases h1
      | some ts => rfl
  · intro t ht hid
    cases hp : r.triggered_at with
    | none =>
      exfalso
      have := hinv.pending r hr hp
      have : 0 < triggerCount (runOps Store.empty ops).1.triggers r.id :=
        (triggerCount_pos_iff _ _).mpr ⟨t, ht, hid⟩
      omega
    | some ts => rw [(hinv.triggered r hr ts hp).2 t ht hid]

/-! ## Sequences of calls: a milestone triggers once -/

theorem settled_of_fired (s : Store) (now : Time) (fault : Option Nat) (i : Int)
    (hnd : (s.milestones.map (fun r => r.id)).Nodup) :
    ((afterProcess s (ProcessMilestones s now fault)).milestones.map (fun r => r.id)).Nodup ∧
    triggerCount (afterProcess s (ProcessMilestones s now fault)).triggers i =
      triggerCount s.triggers i +
        triggerCount (returnedTriggers (ProcessMilestones s now fault)) i ∧
    triggerCount (returnedTriggers (ProcessMilestones s now fault)) i ≤ 1 ∧
    ((∀ r ∈ s.milestones, r.id = i → r.triggered_at ≠ none) →
      triggerCount (returnedTriggers (ProcessMilestones s now fault)) i = 0) ∧
    ((∀ r ∈ s.milestones, r.id = i → r.triggered_at ≠ none) ∨
        0 < triggerCount (returnedTriggers (ProcessMilestones s now fault)) i →
      ∀ r ∈ (afterProcess s (ProcessMilestones s now fault)).milestones,
        r.id = i → r.triggered_at ≠ none) := by
  cases hpm : ProcessMilestones s now fault with
  | error e =>
    simp only [afterProcess, returnedTriggers, triggerCount, List.countP_nil, Nat.add_zero,
      Nat.zero_le, Nat.lt_irrefl, or_false, implies_true, true_and]
    exact ⟨hnd, fun h => h⟩
  | ok res =>
    obtain ⟨trigs, s1⟩ := res
    obtain ⟨tx, vol, hc, hout, hs1⟩ := ProcessMilestones_ok s now fault trigs s1 hpm
    have hrows := firedRows_select s now tx vol hnd
    have hcount := triggerCount_fired_row s s.triggerSeq now tx vol hnd
    have hcnt := triggerCount_fired s s.triggerSeq now tx vol i
    rw [← hout] at hs1 hcount hcnt
    rw [hrows] at hs1
    simp only [afterProcess, returnedTriggers]
    have hm : s1.milestones = s.milestones.map (fun r =>
        if eligible tx vol r then { r with triggered_at := some now } else r) := by rw [hs1]
    have ht : s1.triggers = s.triggers ++ trigs := by rw [hs1]
    have hidmap : s1.milestones.map (fun r => r.id) = s.milestones.map (fun r => r.id) := by
      rw [hm, List.map_map]
      apply List.map_congr_left
      intro r _
      by_cases he : eligible tx vol r = true <;> simp [he]
    have hle : triggerCount trigs i ≤ 1 := by
      rw [hcnt]; exact List.nodup_iff_count_le_one.mp (fired_ids_nodup s tx vol hnd) i
    have hzero : (∀ r ∈ s.milestones, r.id = i → r.triggered_at ≠ none) →
        triggerCount trigs i = 0 := by
      intro hset
      rw [hcnt, List.count_eq_zero]
      intro hmem
      simp only [selectCandidates, List.mem_map, List.mem_filter] at hmem
      obtain ⟨c, ⟨⟨r, ⟨hr, he⟩, rfl⟩, _⟩, hid⟩ := hmem
      simp only [Bool.and_eq_true, Option.isNone_iff_eq_none] at he
      exact hset r hr hid he.2
    refine ⟨by rw [hidmap]; exact hnd, by rw [ht, triggerCount_append], hle, hzero, ?_⟩
    intro hor r hr hid
    rw [hm] at hr
    obtain ⟨r0, hr0, hf⟩ := List.mem_map.mp hr
    by_cases he : eligible tx vol r0 = true
    · simp only [he, if_true] at hf
      rw [← hf]; simp
    · simp only [he, Bool.false_eq_true, if_false] at hf
      subst hf
      rcases hor with hset | hpos
      · exact hset r0 hr0 hid
      · exfalso
        have := hcount r0 hr0
        rw [hid] at this
        simp only [he, Bool.false_eq_true, if_false] at this
        omega

theorem run_effect (s : Store) (o : Op) (i : Int)
    (hnd : (s.milestones.map (fun r => r.id)).Nodup) (ho : o.isUpsertMilestone = false) :
    ((o.run s).1.milestones.map (fun r => r.id)).Nodup ∧
    triggerCount (o.run s).1.triggers i = triggerCount s.triggers i + triggerCount (o.run s).2 i ∧
    triggerCount (o.run s).2 i ≤ 1 ∧
    ((∀ r ∈ s.milestones, r.id = i → r.triggered_at ≠ none) →
      triggerCount (o.run s).2 i = 0) ∧
    ((∀ r ∈ s.milestones, r.id = i → r.triggered_at ≠ none) ∨ 0 < triggerCount (o.run s).2 i →
      ∀ r ∈ (o.run s).1.milestones, r.id = i → r.triggered_at ≠ none) := by
  cases o with
  | recordTransactions now m txns fault =>
    obtain ⟨h1, h2, _⟩ := afterRecord_frame s now m txns fault
    simp only [Op.run, h1, h2, triggerCount, List.countP_nil, Nat.add_zero, Nat.zero_le,
      Nat.lt_irrefl, or_false, implies_true, true_and]
    exact ⟨hnd, fun h => h⟩
  | upsertProducts now m ps fault =>
    obtain ⟨h1, h2, _⟩ := afterUpsertProducts_frame s now m ps fault
    simp only [Op.run, h1, h2, triggerCount, List.countP_nil, Nat.add_zero, Nat.zero_le,
      Nat.lt_irrefl, or_false, implies_true, true_and]
    exact ⟨hnd, fun h => h⟩
  | upsertMilestone now m fault => simp [Op.isUpsertMilestone] at ho
  | processMilestones now fault => exact settled_of_fired s now fault i hnd

theorem runOps_effect (i : Int) (ops : List Op) :
    ∀ s : Store, (s.milestones.map (fun r => r.id)).Nodup →
      (∀ o ∈ ops, o.isUpsertMilestone = false) →
      triggerCount (runOps s ops).1.triggers i =
        triggerCount s.triggers i + ((runOps s ops).2.map (fun a => triggerCount a i)).sum ∧
      ((runOps s ops).2.map (fun a => triggerCount a i)).sum ≤ 1 ∧
      ((∀ r ∈ s.milestones, r.id = i → r.triggered_at ≠ none) →
        ((runOps s ops).2.map (fun a => triggerCount a i)).sum = 0) ∧
      (runOps s ops).2.Pairwise (fun a b =>
        (∃ t ∈ a, t.MilestoneID = i) → ¬ ∃ t ∈ b, t.MilestoneID = i) := by
  induction ops with
  | nil => intro s _ _; simp [runOps]
  | cons o rest ih =>
    intro s hnd hops
    obtain ⟨e1, e2, e3, e4, e5⟩ :=
      run_effect s o i hnd (hops o (List.mem_cons_self _ _))
    obtain ⟨i1, i2, i3, i4⟩ := ih (o.run s).1 e1 (fun o2 h2 => hops o2 (List.mem_cons_of_mem _ h2))
    simp only [runOps, List.map_cons, List.sum_cons, List.pairwise_cons]
    have hrest : 0 < triggerCount (o.run s).2 i →
        ((runOps (o.run s).1 rest).2.map (fun a => triggerCount a i)).sum = 0 :=
      fun hpos => i3 (e5 (Or.inr hpos))
    refine ⟨by rw [i1, e2]; omega, ?_, ?_, ?_, i4⟩
    · by_cases hpos : 0 < triggerCount (o.run s).2 i
      · rw [hrest hpos]; omega
      · omega
    · intro hset
      rw [e4 hset, i3 (e5 (Or.inl hset))]
    · intro b hb hex
      have hpos := (triggerCount_pos_iff _ _).mpr hex
      have hz := hrest hpos
      rw [List.sum_eq_zero_iff] at hz
      have hb0 : triggerCount b i = 0 := hz _ (List.mem_map.mpr ⟨b, hb, rfl⟩)
      intro hex2
      have := (triggerCount_pos_iff _ _).mpr hex2
      omega

theorem triggerCount_since (s : Store) (since : Time) (i : Int)
    (h : ∀ t ∈ s.triggers, timeLE since t.TriggeredAt = true) :
    triggerCount (MilestoneTriggersSince s since) i = triggerCount s.triggers i := by
  unfold MilestoneTriggersSince triggerCount
  rw [(List.perm_insertionSort _ _).countP_eq, List.filter_eq_self.mpr]
  intro t ht
  exact h t ht

theorem freshRows_mem (m : String) (now : Time) (batch : List TransactionInput) :
    ∀ (rows : List TransactionRow) (r : TransactionRow), r ∈ freshRows m now rows batch →
      ∃ t ∈ batch, r = newTransactionRow m now t := by
  induction batch with
  | nil => intro rows r h; cases h
  | cons a rest ih =>
    intro rows r h
    by_cases hs : hasSale rows m a.SaleID = true
    · simp only [freshRows, hs, if_true] at h
      obtain ⟨t, ht, e⟩ := ih _ _ h
      exact ⟨t, List.mem_cons_of_mem _ ht, e⟩
    · simp only [freshRows, hs, Bool.false_eq_true, if_false, List.mem_cons] at h
      rcases h with h | h
      · exact ⟨a, List.mem_cons_self _ _, h⟩
      · obtain ⟨t, ht, e⟩ := ih _ _ h
        exact ⟨t, List.mem_cons_of_mem _ ht, e⟩

theorem afterProcess_transactions (s : Store) (now : Time) (fault : Option Nat) :
    (afterProcess s (ProcessMilestones s now fault)).transactions = s.transactions := by
  cases hpm : ProcessMilestones s now fault with
  | error e => rfl
  | ok res =>
    obtain ⟨trigs, s1⟩ := res
    obtain ⟨tx, vol, _, _, hs1⟩ := ProcessMilestones_ok s now fault trigs s1 hpm
    simp [afterProcess, hs1]

theorem UpdateMerchantPollTime_transactions (s : Store) (m : String) (ts : Time)
    (fault : Option Nat) (s1 : Store) (h : UpdateMerchantPollTime s m ts fault = .ok s1) :
    s1.transactions = s.transactions := by
  unfold UpdateMerchantPollTime at h
  split at h
  · cases h
  · simp only [Except.ok.injEq] at h
    rw [← h]

theorem pollMerchant_failed_record (parseTime : String → Option Time) (s : Store)
    (merchant : Merchant) (run : PollRun) (payload : sourceData)
    (txs : List TransactionInput) (e : StoreError)
    (hf : run.fetched = .ok payload)
    (hn : normalizeSales parseTime payload.Sales = .ok txs)
    (hrec : RecordTransactions s run.recordNow merchant.ID txs run.recordFault = .error e) :
    (pollMerchant parseTime s merchant run).1 = s := by
  simp [pollMerchant, hf, hn, hrec]

theorem pollMerchant_after_record (parseTime : String → Option Time) (s : Store)
    (merchant : Merchant) (run : PollRun) (payload : sourceData)
    (txs : List TransactionInput) (n : Int) (s1 : Store)
    (hf : run.fetched = .ok payload)
    (hn : normalizeSales parseTime payload.Sales = .ok txs)
    (hrec : RecordTransactions s run.recordNow merchant.ID txs run.recordFault = .ok (n, s1)) :
    (pollMerchant parseTime s merchant run).1.transactions = s1.transactions := by
  unfold pollMerchant
  simp only [hf, hn, hrec]
  cases hp : normalizeProducts payload.Products with
  | error e => rfl
  | ok snapshots =>
    simp only
    cases hu : UpsertProducts s1 run.upsertNow merchant.ID snapshots run.upsertFault with
    | error e => rfl
    | ok s2 =>
      obtain ⟨rows, h2⟩ := UpsertProducts_ok _ _ _ _ _ _ hu
      have ht2 : s2.transactions = s1.transactions := by rw [h2]
      simp only
      cases hm : UpdateMerchantPollTime s2 merchant.ID run.pollTime run.pollTimeFault with
      | error e => exact ht2
      | ok s3 =>
        have ht3 := UpdateMerchantPollTime_transactions _ _ _ _ _ hm
        simp only
        have h4 := afterProcess_transactions s3 run.milestoneNow run.milestoneFault
        cases hpm : ProcessMilestones s3 run.milestoneNow run.milestoneFault with
        | error e => simp only; rw [ht3, ht2]
        | ok res4 =>
          obtain ⟨trigs, s4⟩ := res4
          rw [hpm] at h4
          simp only [afterProcess] at h4
          simp only
          rw [h4, ht3, ht2]

/-- C5 (amended): for a snapshot that normalizes successfully and in which every sale
amount is non-negative, the total volume after the per-merchant unit of work
(`parseSats` on each sale amount, then `RecordTransactions`, then the rest of
`pollMerchant`) is greater than or equal to the total volume before. -/
theorem C5_volume_grows_with_nonnegative_sales (parseTime : String → Option Time)
    (s : Store) (merchant : Merchant) (run : PollRun) (payload : sourceData)
    (txs : List TransactionInput)
    (hf : run.fetched = .ok payload)
    (hn : normalizeSales parseTime payload.Sales = .ok txs)
    (hpos : ∀ t ∈ txs, 0 ≤ t.AmountSats) :
    totalVolume s ≤ totalVolume (pollMerchant parseTime s merchant run).1 := by
  cases hrec : RecordTransactions s run.recordNow merchant.ID txs run.recordFault with
  | error e => rw [pollMerchant_failed_record parseTime s merchant run payload txs e hf hn hrec]
  | ok res =>
    obtain ⟨n, s1⟩ := res
    have h := pollMerchant_after_record parseTime s merchant run payload txs n s1 hf hn hrec
    have h1 := (RecordTransactions_ok _ _ _ _ _ _ _ hrec).1
    simp only [totalVolume, h, h1, List.map_append, List.sum_append]
    have : 0 ≤ ((freshRows merchant.ID run.recordNow s.transactions txs).map
        (fun r => r.amount_sats)).sum := by
      apply List.sum_nonneg
      intro x hx
      obtain ⟨r, hr, rfl⟩ := List.mem_map.mp hx
      obtain ⟨t, ht, rfl⟩ := freshRows_mem _ _ _ _ _ hr
      exact hpos t ht
    omega

/-- C5, witness: the hypotheses hold for the snapshot with one sale of 250 sats. -/
theorem C5_volume_grows_witness :
    (cleanRun snapshotSale).fetched = .ok snapshotSale ∧
    normalizeSales parseTimeEpoch snapshotSale.Sales =
      .ok [{ SaleID := 9, SaleOrigin := "pos", SaleDate := 0, AmountSats := 250 }] ∧
    totalVolume storePending ≤
      totalVolume (pollMerchant parseTimeEpoch storePending merchantM2
        (cleanRun snapshotSale)).1 :=
  ⟨rfl, by decide,
    C5_volume_grows_with_nonnegative_sales parseTimeEpoch storePending merchantM2
      (cleanRun snapshotSale) snapshotSale
      [{ SaleID := 9, SaleOrigin := "pos", SaleDate := 0, AmountSats := 250 }]
      rfl (by decide) (by decide)⟩

/-- C5, counterexample: the snapshot whose only sale has the amount string `-100`
normalizes successfully (for every timestamp parser that reads the sale date as an
instant), and ingesting it into a store of volume 550 leaves a volume of 450. -/
theorem C5_counterexample_negative_amount :
    totalVolume storePending = 550 ∧
    parseSats "-100" = .ok (-100) ∧
    ∀ (parseTime : String → Option Time) (d : Time),
      parseTime "1970-01-01T00:00:00Z" = some d →
        normalizeSales parseTime snapshotNegative.Sales =
          .ok [{ SaleID := 9, SaleOrigin := "pos", SaleDate := d, AmountSats := -100 }] ∧
        totalVolume (pollMerchant parseTime storePending merchantM2
          (cleanRun snapshotNegative)).1 = 450 := by
  refine ⟨by decide, by decide, ?_⟩
  intro parseTime d hd
  have hps : parseSats "-100" = .ok (-100) := by decide
  have hn : normalizeSales parseTime snapshotNegative.Sales =
      .ok [{ SaleID := 9, SaleOrigin := "pos", SaleDate := d, AmountSats := -100 }] := by
    simp [normalizeSales, snapshotNegative, hd, hps]
  refine ⟨hn, ?_⟩
  have hrec := RecordTransactions_none storePending 10 "m2"
    [{ SaleID := 9, SaleOrigin := "pos", SaleDate := d, AmountSats := -100 }]
  have h := pollMerchant_after_record parseTime storePending merchantM2
    (cleanRun snapshotNegative) snapshotNegative _ _ _ rfl hn hrec
  have hs : hasSale storePending.transactions "m2" 9 = false := by decide
  have hv : totalVolume storePending = 550 := by decide
  simp only [totalVolume] at hv
  simp only [totalVolume, h, freshRows, hs, List.map_append, List.sum_append, hv]
  simp [newTransactionRow]

/-! ## Concrete instances -/

/-- C1, witness: the two sales of the test, recorded twice for merchant `m2`. -/
theorem C1_record_twice_witness :
    (sales250and300.map (fun t => t.SaleID)).Nodup ∧
    (∀ t ∈ sales250and300, hasSale storeM2.transactions "m2" t.SaleID = false) ∧
    ∃ s1 s2 : Store,
      RecordTransactions storeM2 3 "m2" sales250and300 none =
        .ok ((sales250and300.length : Int), s1) ∧
      RecordTransactions s1 4 "m2" sales250and300 none = .ok (0, s2) ∧
      s2.transactions = s1.transactions ∧
      currentTotals s2 none = currentTotals s1 none ∧
      s2.transactions.length = s1.transactions.length ∧
      totalVolume s2 = totalVolume s1 :=
  ⟨by decide, by decide,
    C1_record_twice_is_idempotent storeM2 3 4 "m2" sales250and300 (by decide) (by decide)⟩

/-- C3, witness: a batch for `m1` with sale id 1 twice and sale id 5 once, on a store
where sale id 1 is held by `m2`, inserts two rows, one of them `(m1, 1)`. -/
theorem C3_record_count_witness :
    hasSale storePending.transactions "m2" 1 = true ∧
    RecordTransactions storePending 7 "m1" batchM1 none =
      .ok (2, afterRecord storePending (RecordTransactions storePending 7 "m1" batchM1 none)) ∧
    ((afterRecord storePending
        (RecordTransactions storePending 7 "m1" batchM1 none)).transactions.length : Int) =
      (storePending.transactions.length : Int) + 2 ∧
    ∃ r ∈ (afterRecord storePending
        (RecordTransactions storePending 7 "m1" batchM1 none)).transactions,
      r ∉ storePending.transactions ∧ r.merchant_id = "m1" ∧ r.sale_id = 1 :=
  ⟨by decide, by decide,
    (C3_record_returns_fresh_count storePending 7 "m1" batchM1 none 2 _ (by decide)).2.1,
    (C3_record_returns_fresh_count storePending 7 "m1" batchM1 none 2 _ (by decide)).2.2.1
      { SaleID := 1, SaleOrigin := "pos", SaleDate := 300, AmountSats := 70 }
      (by decide) (by decide)⟩

/-- C7, witness: on the store with five milestones the run triggers milestones 1 and 4
and nothing else. -/
theorem C7_run_witness :
    (storeMixed.milestones.map (fun r => r.id)).Nodup ∧
    currentTotals storeMixed none = .ok (2, 550) ∧
    ProcessMilestones storeMixed 9 none =
      .ok (returnedTriggers (ProcessMilestones storeMixed 9 none),
           afterProcess storeMixed (ProcessMilestones storeMixed 9 none)) ∧
    (returnedTriggers (ProcessMilestones storeMixed 9 none)).map (fun t => t.MilestoneID) =
      [1, 4] ∧
    ∃ (trigs : List MilestoneTrigger) (s1 : Store),
      ProcessMilestones storeMixed 9 none = .ok (trigs, s1) ∧
      s1.triggers = storeMixed.triggers ++ trigs :=
  ⟨by decide, by decide, by decide, by decide,
    match C7_run_triggers_exactly_the_eligible storeMixed 9 2 550 (by decide) (by decide) with
    | ⟨trigs, s1, h1, h2, _⟩ => ⟨trigs, s1, h1, h2⟩⟩

/-- C8, witness: with stored amounts 250 and 300 the returned trigger carries 2
transactions and 550 sats. -/
theorem C8_totals_witness :
    ProcessMilestones storePending 4 none = .ok ([trigger550 1 4], storeTriggered) ∧
    totalVolume storePending = 550 ∧
    (∀ t ∈ [trigger550 1 4], t.TotalTransactions = (storePending.transactions.length : Int) ∧
      t.TotalVolumeSats = totalVolume storePending ∧ t.TriggeredAt = 4) ∧
    storeTriggered.triggers = storePending.triggers ++ [trigger550 1 4] :=
  ⟨by decide, by decide,
    C8_triggers_carry_current_totals storePending 4 none [trigger550 1 4] storeTriggered
      (by decide)⟩

/-- C9, witness: after the calls of the test from the empty store, milestone 1 is
Triggered at instant 4 and the log holds exactly one record for it, with that instant. -/
theorem C9_one_record_witness :
    { pendingRow with triggered_at := some 4 } ∈ (runOps Store.empty testCalls).1.milestones ∧
    triggerCount (runOps Store.empty testCalls).1.triggers 1 = 1 ∧
    (∀ t ∈ (runOps Store.empty testCalls).1.triggers, t.MilestoneID = 1 →
      some (4 : Time) = some t.TriggeredAt) :=
  ⟨by decide,
    (C9_triggered_iff_one_record testCalls { pendingRow with triggered_at := some 4 }
      (by decide)).1.mp rfl,
    (C9_triggered_iff_one_record testCalls { pendingRow with triggered_at := some 4 }
      (by decide)).2.2⟩

/-- C10: two runs interleaved so that both read milestone 1 of `storePending` as a
candidate before either writes. Both commit; each returns a trigger for milestone 1
and the trigger log ends with two records for it. -/
theorem C10_interleaved_runs_trigger_twice :
    (selectCandidates storePending).map (fun c => c.id) = [1] ∧
    interleavedRuns storePending 4 5 =
      .ok ([trigger550 1 4], [trigger550 2 5],
        { storeTriggered with
          triggers := [trigger550 1 4, trigger550 2 5], triggerSeq := 2 }) ∧
    triggerCount [trigger550 1 4] 1 = 1 ∧ triggerCount [trigger550 2 5] 1 = 1 ∧
    triggerCount [trigger550 1 4, trigger550 2 5] 1 = 2 := by
  decide

/-! ## Lemmas: parseSats on numerals -/

theorem isDigit_iff (c : Char) : isDigit c = true ↔ ('0' ≤ c ∧ c ≤ '9') := by
  simp [isDigit]

theorem isDigit_ne (c : Char) (h : isDigit c = true) :
    c ≠ 'E' ∧ c ≠ 'e' ∧ c ≠ '.' ∧ c ≠ '+' ∧ c ≠ '-' := by
  refine ⟨?_, ?_, ?_, ?_, ?_⟩
  · rintro rfl; revert h; decide
  · rintro rfl; revert h; decide
  · rintro rfl; revert h; decide
  · rintro rfl; revert h; decide
  · rintro rfl; revert h; decide

theorem parseDigits_eq (ds : List Char) (hd : ∀ c ∈ ds, isDigit c = true) :
    ∀ acc : Nat, parseDigits ds acc =
      some (ds.foldl (fun acc c => acc * 10 + (c.toNat - '0'.toNat)) acc) := by
  induction ds with
  | nil => intro acc; rfl
  | cons c cs ih =>
    intro acc
    have hc := (isDigit_iff c).mp (hd c (List.mem_cons_self _ _))
    simp only [parseDigits, hc, and_self, if_true, List.foldl_cons]
    exact ih (fun x hx => hd x (List.mem_cons_of_mem _ hx)) _

theorem parseDigits_some (ds : List Char) :
    ∀ (acc v : Nat), parseDigits ds acc = some v → ∀ c ∈ ds, isDigit c = true := by
  induction ds with
  | nil => intro acc v _ c hc; cases hc
  | cons a cs ih =>
    intro acc v h c hc
    simp only [parseDigits] at h
    split at h
    · rename_i ha
      rcases List.mem_cons.mp hc with rfl | hc
      · exact (isDigit_iff _).mpr ha
      · exact ih _ _ h c hc
    · cases h

theorem parseSigned_numeral (sg : NumSign) (ds : List Char) (hne : ds ≠ [])
    (hd : ∀ c ∈ ds, isDigit c = true) :
    parseSigned (sg.chars ++ ds) = some (sg.factor * (digitsValue ds : Int)) := by
  cases sg with
  | none =>
    cases ds with
    | nil => exact absurd rfl hne
    | cons c cs =>
      obtain ⟨_, _, _, h4, h5⟩ := isDigit_ne c (hd c (List.mem_cons_self _ _))
      simp only [NumSign.chars, List.nil_append, parseSigned, h4, h5, if_false,
        parseDigits_eq (c :: cs) hd 0, Option.map_some', NumSign.factor, one_mul]
      rfl
  | plus =>
    have he : ds.isEmpty = false := by cases ds <;> simp_all
    simp only [NumSign.chars, List.singleton_append, parseSigned, if_true, he,
      Bool.false_eq_true, if_false, parseDigits_eq ds hd 0, Option.map_some', NumSign.factor,
      one_mul]
    rfl
  | minus =>
    have he : ds.isEmpty = false := by cases ds <;> simp_all
    have hpm : ('-' : Char) ≠ '+' := by decide
    simp only [NumSign.chars, List.singleton_append, parseSigned, hpm, if_false, if_true, he,
      Bool.false_eq_true, parseDigits_eq ds hd 0, Option.map_some', NumSign.factor]
    simp [digitsValue]

theorem parseSigned_some (xs : List Char) (v : Int) (h : parseSigned xs = some v) :
    ∃ (sg : NumSign) (ds : List Char), xs = sg.chars ++ ds ∧ ds ≠ [] ∧
      ∀ c ∈ ds, isDigit c = true := by
  cases xs with
  | nil => simp [parseSigned] at h
  | cons c cs =>
    simp only [parseSigned] at h
    split at h
    · rename_i hc
      subst hc
      split at h
      · cases h
      · rename_i hne
        cases hp : parseDigits cs 0 with
        | none => simp [hp] at h
        | some n =>
          exact ⟨.plus, cs, rfl, by intro e; simp [e] at hne, parseDigits_some cs 0 n hp⟩
    · split at h
      · rename_i hc
        subst hc
        split at h
        · cases h
        · rename_i hne
          cases hp : parseDigits cs 0 with
          | none => simp [hp] at h
          | some n =>
            exact ⟨.minus, cs, rfl, by intro e; simp [e] at hne, parseDigits_some cs 0 n hp⟩
      · cases hp : parseDigits (c :: cs) 0 with
        | none => simp [hp] at h
        | some n =>
          exact ⟨.none, c :: cs, rfl, by simp, parseDigits_some (c :: cs) 0 n hp⟩

theorem takeWhile_append_stop {α : Type} (p : α → Bool) (a b : List α)
    (ha : ∀ x ∈ a, p x = true) (hb : b = [] ∨ ∃ c bs, b = c :: bs ∧ p c = false) :
    (a ++ b).takeWhile p = a ∧ (a ++ b).dropWhile p = b := by
  induction a with
  | nil =>
    rcases hb with rfl | ⟨c, bs, rfl, hc⟩
    · simp
    · simp [List.takeWhile_cons, List.dropWhile_cons, hc]
  | cons x xs ih =>
    have hx := ha x (List.mem_cons_self _ _)
    have := ih (fun y hy => ha y (List.mem_cons_of_mem _ hy))
    simp [List.takeWhile_cons, List.dropWhile_cons, hx, this.1, this.2]

theorem sign_chars_not (sg : NumSign) :
    ∀ c ∈ sg.chars, c ≠ 'E' ∧ c ≠ 'e' ∧ c ≠ '.' := by
  intro c hc
  cases sg with
  | none => cases hc
  | plus =>
    simp only [NumSign.chars, List.mem_singleton] at hc
    subst hc; decide
  | minus =>
    simp only [NumSign.chars, List.mem_singleton] at hc
    subst hc; decide

theorem NewFromString_numeral_range (sg : NumSign) (whole frac : List Char)
    (hw : whole ≠ []) (hwd : ∀ c ∈ whole, isDigit c = true)
    (hfd : ∀ c ∈ frac, isDigit c = true) :
    NewFromString (numeralChars sg whole frac) =
      if -(frac.length : Int) < -(2 : Int) ^ 31 ∨ -(frac.length : Int) > (2 : Int) ^ 31 - 1
      then none
      else some { value := sg.factor * (digitsValue (whole ++ frac) : Int),
                  exp := -(frac.length : Int) } := by
  have hnoE : ∀ c ∈ numeralChars sg whole frac, (c != 'E' && c != 'e') = true := by
    intro c hc
    simp only [numeralChars, List.mem_append] at hc
    rcases hc with (hc | hc) | hc
    · obtain ⟨h1, h2, _⟩ := sign_chars_not sg c hc
      simp [h1, h2]
    · obtain ⟨h1, h2, _⟩ := isDigit_ne c (hwd c hc)
      simp [h1, h2]
    · by_cases hfe : frac.isEmpty = true
      · simp [hfe] at hc
      · simp only [hfe, Bool.false_eq_true, if_false, List.mem_cons] at hc
        rcases hc with rfl | hc
        · decide
        · obtain ⟨h1, h2, _⟩ := isDigit_ne c (hfd c hc)
          simp [h1, h2]
  have hmant : (numeralChars sg whole frac).takeWhile (fun c => c != 'E' && c != 'e') =
      numeralChars sg whole frac := List.takeWhile_eq_self_iff.mpr hnoE
  have hpre : ∀ x ∈ sg.chars ++ whole, (x != '.') = true := by
    intro x hx
    rcases List.mem_append.mp hx with hx | hx
    · simp [(sign_chars_not sg x hx).2.2]
    · simp [(isDigit_ne x (hwd x hx)).2.2.1]
  have hfr : ∀ x ∈ frac, x ≠ '.' := fun x hx => (isDigit_ne x (hfd x hx)).2.2.1
  have hsplit := takeWhile_append_stop (fun c => c != '.') (sg.chars ++ whole)
    (if frac.isEmpty then [] else '.' :: frac) hpre
    (by by_cases hfe : frac.isEmpty = true
        · simp [hfe]
        · right; exact ⟨'.', frac, by simp [hfe], by simp⟩)
  have hcount : (numeralChars sg whole frac).count '.' ≤ 1 := by
    have h1 : (sg.chars ++ whole).count '.' = 0 :=
      List.count_eq_zero.mpr (fun hm => by simpa using hpre _ hm)
    have h2 : frac.count '.' = 0 := List.count_eq_zero.mpr (fun hm => hfr _ hm rfl)
    simp only [numeralChars, List.count_append] at h1 ⊢
    by_cases hfe : frac.isEmpty = true
    · simp [hfe]; omega
    · simp [hfe, h2]; omega
  have hfrac : ((if frac.isEmpty then [] else '.' :: frac : List Char)).drop 1 = frac := by
    by_cases hfe : frac.isEmpty = true
    · simp [hfe, List.isEmpty_iff.mp hfe]
    · simp [hfe]
  have hps := parseSigned_numeral sg (whole ++ frac) (by simp [hw])
    (fun c hc => (List.mem_append.mp hc).elim (hwd c) (hfd c))
  unfold NewFromString
  simp only [hmant, lt_irrefl, if_false]
  have hnc : ¬ (numeralChars sg whole frac).count '.' > 1 := by omega
  simp only [hnc, if_false]
  have e1 : numeralChars sg whole frac =
      (sg.chars ++ whole) ++ (if frac.isEmpty then [] else '.' :: frac) := rfl
  rw [e1, hsplit.1, hsplit.2, hfrac, List.append_assoc, hps]
  simp only [zero_sub]

theorem NewFromString_numeral (sg : NumSign) (whole frac : List Char)
    (hw : whole ≠ []) (hwd : ∀ c ∈ whole, isDigit c = true)
    (hfd : ∀ c ∈ frac, isDigit c = true) (hlen : frac.length ≤ 2 ^ 31) :
    NewFromString (numeralChars sg whole frac) =
      some { value := sg.factor * (digitsValue (whole ++ frac) : Int),
             exp := -(frac.length : Int) } := by
  rw [NewFromString_numeral_range sg whole frac hw hwd hfd]
  have hr : ¬ (-(frac.length : Int) < -(2 : Int) ^ 31 ∨
      -(frac.length : Int) > (2 : Int) ^ 31 - 1) := by
    have : (frac.length : Int) ≤ 2 ^ 31 := by exact_mod_cast hlen
    norm_num at this ⊢
    omega
  simp only [hr, if_false]

theorem floor_half_nat (N k : Nat) (hk : 1 ≤ k) :
    ⌊(N : ℚ) / (10 : ℚ) ^ k + 1 / 2⌋ = (((N / 10 ^ (k - 1) + 5) / 10 : Nat) : Int) := by
  obtain ⟨j, rfl⟩ : ∃ j, k = j + 1 := ⟨k - 1, by omega⟩
  have hP : 0 < 10 ^ j := Nat.pos_pow_of_pos j (by norm_num)
  have e : (N : ℚ) / (10 : ℚ) ^ (j + 1) + 1 / 2 =
      ((2 * N + 10 * 10 ^ j : Nat) : ℚ) / ((2 * 10 ^ j * 10 : Nat) : ℚ) := by
    push_cast
    field_simp
    ring
  rw [e, Rat.floor_natCast_div_natCast]
  norm_cast
  simp only [Nat.add_sub_cancel]
  rw [← Nat.div_div_eq_div_mul]
  congr 1
  have : 2 * N + 10 * 10 ^ j = 2 * N + 5 * (2 * 10 ^ j) := by ring
  rw [this, Nat.add_mul_div_right _ _ (by omega), Nat.mul_div_mul_left _ _ (by norm_num)]

theorem roundHalfAway_int (v : Int) : roundHalfAway ((v : ℚ) / (10 : ℚ) ^ 0) = v := by
  have h0 : ⌊(1 / 2 : ℚ)⌋ = 0 := by
    rw [Int.floor_eq_zero_iff]; constructor <;> norm_num
  simp only [pow_zero, div_one, roundHalfAway]
  split
  · rw [Int.floor_int_add, h0, add_zero]
  · have : (-(v : ℚ) + 1 / 2) = ((-v : Int) : ℚ) + 1 / 2 := by push_cast; ring
    rw [this, Int.floor_int_add, h0, add_zero, neg_neg]

theorem roundHalfAway_nonneg (N k : Nat) :
    roundHalfAway ((N : ℚ) / (10 : ℚ) ^ k) = ⌊(N : ℚ) / (10 : ℚ) ^ k + 1 / 2⌋ := by
  have : (0 : ℚ) ≤ (N : ℚ) / (10 : ℚ) ^ k := by positivity
  simp only [roundHalfAway, this, if_true]

theorem roundHalfAway_neg (N k : Nat) (hN : 0 < N) :
    roundHalfAway (-(N : ℚ) / (10 : ℚ) ^ k) = -⌊(N : ℚ) / (10 : ℚ) ^ k + 1 / 2⌋ := by
  have hpow : (0 : ℚ) < (10 : ℚ) ^ k := by positivity
  have : ¬ (0 : ℚ) ≤ -(N : ℚ) / (10 : ℚ) ^ k := by
    rw [not_le]
    apply div_neg_of_neg_of_pos _ hpow
    simp only [Left.neg_neg_iff, Nat.cast_pos]; exact hN
  have e : -(-(N : ℚ) / (10 : ℚ) ^ k) = (N : ℚ) / (10 : ℚ) ^ k := by ring
  simp only [roundHalfAway, this, if_false, e]

theorem round_core (v : Int) (k : Nat) (hk : 1 ≤ k) :
    (if Int.ediv (if Int.tdiv v (10 ^ (k - 1)) < 0 then Int.tdiv v (10 ^ (k - 1)) - 5
                  else Int.tdiv v (10 ^ (k - 1)) + 5) 10 < 0 ∧
        Int.emod (if Int.tdiv v (10 ^ (k - 1)) < 0 then Int.tdiv v (10 ^ (k - 1)) - 5
                  else Int.tdiv v (10 ^ (k - 1)) + 5) 10 ≠ 0
     then Int.ediv (if Int.tdiv v (10 ^ (k - 1)) < 0 then Int.tdiv v (10 ^ (k - 1)) - 5
                  else Int.tdiv v (10 ^ (k - 1)) + 5) 10 + 1
     else Int.ediv (if Int.tdiv v (10 ^ (k - 1)) < 0 then Int.tdiv v (10 ^ (k - 1)) - 5
                  else Int.tdiv v (10 ^ (k - 1)) + 5) 10) =
      roundHalfAway ((v : ℚ) / (10 : ℚ) ^ k) := by
  rcases Int.lt_or_le v 0 with hv | hv
  · obtain ⟨N, rfl⟩ : ∃ N : Nat, v = -(N : Int) := ⟨v.natAbs, by omega⟩
    have hN : 0 < N := by omega
    have ht : Int.tdiv (-(N : Int)) (10 ^ (k - 1)) = -((N / 10 ^ (k - 1) : Nat) : Int) := by
      rw [Int.neg_tdiv]
      congr 1
      have := Int.ofNat_tdiv N (10 ^ (k - 1))
      push_cast at this ⊢
      exact this.symm
    rw [Int.cast_neg, Int.cast_natCast, roundHalfAway_neg N k hN, floor_half_nat N k hk, ht]
    generalize N / 10 ^ (k - 1) = T
    show (if ((if -(T : Int) < 0 then -(T : Int) - 5 else -(T : Int) + 5) / 10 < 0 ∧
        (if -(T : Int) < 0 then -(T : Int) - 5 else -(T : Int) + 5) % 10 ≠ 0)
        then (if -(T : Int) < 0 then -(T : Int) - 5 else -(T : Int) + 5) / 10 + 1
        else (if -(T : Int) < 0 then -(T : Int) - 5 else -(T : Int) + 5) / 10) = _
    push_cast
    split_ifs <;> omega
  · obtain ⟨N, rfl⟩ : ∃ N : Nat, v = (N : Int) := ⟨v.toNat, by omega⟩
    have ht : Int.tdiv (N : Int) (10 ^ (k - 1)) = ((N / 10 ^ (k - 1) : Nat) : Int) := by
      have := Int.ofNat_tdiv N (10 ^ (k - 1))
      push_cast at this ⊢
      exact this.symm
    rw [Int.cast_natCast, roundHalfAway_nonneg N k, floor_half_nat N k hk, ht]
    generalize N / 10 ^ (k - 1) = T
    show (if ((if (T : Int) < 0 then (T : Int) - 5 else (T : Int) + 5) / 10 < 0 ∧
        (if (T : Int) < 0 then (T : Int) - 5 else (T : Int) + 5) % 10 ≠ 0)
        then (if (T : Int) < 0 then (T : Int) - 5 else (T : Int) + 5) / 10 + 1
        else (if (T : Int) < 0 then (T : Int) - 5 else (T : Int) + 5) / 10) = _
    push_cast
    split_ifs <;> omega

/-! ## parseSats: rounding of numerals -/

theorem wrap_of_fits (r : Int) (h : fitsInt64 r = true) :
    Int.emod (r + (2 : Int) ^ 63) ((2 : Int) ^ 64) - (2 : Int) ^ 63 = r := by
  simp only [fitsInt64, Bool.and_eq_true, decide_eq_true_eq] at h
  show (r + (2 : Int) ^ 63) % ((2 : Int) ^ 64) - (2 : Int) ^ 63 = r
  norm_num at h ⊢
  omega

theorem Round0_IntPart (v : Int) (k : Nat)
    (hfit : fitsInt64 (roundHalfAway ((v : ℚ) / (10 : ℚ) ^ k)) = true) :
    (Decimal.Round0 { value := v, exp := -(k : Int) }).IntPart =
      roundHalfAway ((v : ℚ) / (10 : ℚ) ^ k) := by
  rcases Nat.eq_zero_or_pos k with rfl | hk
  · rw [roundHalfAway_int] at hfit ⊢
    simp only [Decimal.Round0, Nat.cast_zero, neg_zero, if_true, Decimal.IntPart,
      Decimal.rescale]
    exact wrap_of_fits v hfit
  · have hne : ¬ (-(k : Int) = 0) := by omega
    have hres : (Decimal.rescale { value := v, exp := -(k : Int) } (-1)).value =
        Int.tdiv v (10 ^ (k - 1)) := by
      unfold Decimal.rescale
      by_cases h1 : k = 1
      · subst h1; simp
      · have h2 : ¬ (-(k : Int) = -1) := by omega
        have h3 : (-1 : Int) > -(k : Int) := by omega
        have h4 : ((-1 : Int) - -(k : Int)).toNat = k - 1 := by omega
        simp only [h2, if_false, h3, if_true, h4]
    have hcore := round_core v k hk
    rw [← hcore] at hfit ⊢
    simp only [Decimal.Round0, hne, if_false]
    rw [hres]
    simp only [Decimal.IntPart, Decimal.rescale, if_true]
    exact wrap_of_fits _ hfit

theorem numeralValue_cast (sg : NumSign) (whole frac : List Char) :
    numeralValue sg whole frac =
      (((sg.factor * (digitsValue (whole ++ frac) : Int) : Int)) : ℚ) /
        (10 : ℚ) ^ frac.length := by
  simp [numeralValue]

/-- C13 (amended): for a string that, once trimmed, is a decimal numeral (optional sign,
digits, optional fractional part) with at most 2^31 fractional digits and whose rounded
value fits a signed 64-bit integer, `parseSats` succeeds and returns the value rounded to
the nearest integer, halves away from zero; for an integer numeral that is the integer
itself. -/
theorem C13_parseSats_rounds_numerals (val : String) (sg : NumSign)
    (whole frac : List Char)
    (ht : TrimSpace val.toList = numeralChars sg whole frac)
    (hw : whole ≠ []) (hwd : ∀ c ∈ whole, isDigit c = true)
    (hfd : ∀ c ∈ frac, isDigit c = true) (hlen : frac.length ≤ 2 ^ 31)
    (hfit : fitsInt64 (roundHalfAway (numeralValue sg whole frac)) = true) :
    parseSats val = .ok (roundHalfAway (numeralValue sg whole frac)) ∧
    (frac = [] → parseSats val = .ok (sg.factor * (digitsValue whole : Int))) := by
  have hne : (numeralChars sg whole frac).isEmpty = false := by
    cases whole with
    | nil => exact absurd rfl hw
    | cons c cs => cases sg <;> simp [numeralChars, NumSign.chars]
  have hmain : parseSats val = .ok (roundHalfAway (numeralValue sg whole frac)) := by
    rw [numeralValue_cast] at hfit ⊢
    simp only [parseSats, ht, hne, Bool.false_eq_true, if_false,
      NewFromString_numeral sg whole frac hw hwd hfd hlen]
    rw [Round0_IntPart _ _ hfit]
  refine ⟨hmain, ?_⟩
  intro hf
  subst hf
  rw [hmain, numeralValue_cast]
  simp only [List.append_nil, List.length_nil]
  rw [roundHalfAway_int]

theorem TrimSpace_eq_self (l : List Char)
    (h1 : ∀ c, l.head? = some c → isSpace c = false)
    (h2 : ∀ c, l.getLast? = some c → isSpace c = false) : TrimSpace l = l := by
  have hd : ∀ (m : List Char), (∀ c, m.head? = some c → isSpace c = false) →
      m.dropWhile isSpace = m := by
    intro m hm
    cases m with
    | nil => rfl
    | cons a as => simp [List.dropWhile_cons, hm a rfl]
  unfold TrimSpace
  rw [hd l h1, hd l.reverse (by rw [List.head?_reverse]; exact h2), List.reverse_reverse]

theorem ones_value (n : Nat) : ∀ acc : Nat,
    9 * (List.replicate n '1').foldl (fun acc c => acc * 10 + (c.toNat - '0'.toNat)) acc + 1 =
      (9 * acc + 1) * 10 ^ n := by
  induction n with
  | zero => intro acc; simp
  | succ n ih =>
    intro acc
    rw [List.replicate_succ, List.foldl_cons, ih]
    have : ('1'.toNat - '0'.toNat) = 1 := by decide
    rw [this, pow_succ]
    ring

theorem longFraction_facts (n : Nat) (hn : 2 ^ 31 < n) :
    TrimSpace (String.mk (longFraction n)).toList =
      numeralChars .none ['0'] (List.replicate n '1') ∧
    (∀ c ∈ ['0'], isDigit c = true) ∧
    (∀ c ∈ List.replicate n '1', isDigit c = true) ∧
    roundHalfAway (numeralValue .none ['0'] (List.replicate n '1')) = 0 ∧
    parseSats (String.mk (longFraction n)) = .error .parseSats := by
  have hpos : 0 < n := by omega
  have hd0 : ∀ c ∈ ['0'], isDigit c = true := by
    intro c hc; simp only [List.mem_singleton] at hc; subst hc; decide
  have hd1 : ∀ c ∈ List.replicate n '1', isDigit c = true := by
    intro c hc; rw [List.eq_of_mem_replicate hc]; decide
  have hchars : longFraction n = numeralChars .none ['0'] (List.replicate n '1') := by
    have : (List.replicate n '1').isEmpty = false := by
      cases n with
      | zero => omega
      | succ m => rfl
    simp [longFraction, numeralChars, NumSign.chars, this]
  have htrim : TrimSpace (String.mk (longFraction n)).toList = longFraction n := by
    apply TrimSpace_eq_self
    · intro c hc
      simp only [longFraction, String.toList, List.head?_cons, Option.some.injEq] at hc
      subst hc; decide
    · intro c hc
      have : (longFraction n).getLast? = some '1' := by
        cases n with
        | zero => omega
        | succ m =>
          simp only [longFraction, List.replicate_succ']
          rw [show '0' :: '.' :: (List.replicate m '1' ++ ['1']) =
            ('0' :: '.' :: List.replicate m '1') ++ ['1'] by simp]
          exact List.getLast?_concat _
      simp only [String.toList] at hc
      rw [this] at hc
      cases hc; decide
  have hround : roundHalfAway (numeralValue .none ['0'] (List.replicate n '1')) = 0 := by
    have hv := ones_value n 0
    simp only [Nat.mul_zero, Nat.zero_add, Nat.one_mul] at hv
    have hval : digitsValue (['0'] ++ List.replicate n '1') =
        (List.replicate n '1').foldl (fun acc c => acc * 10 + (c.toNat - '0'.toNat)) 0 := by
      simp [digitsValue]
    simp only [numeralValue, NumSign.factor, Int.cast_one, one_mul, hval,
      List.length_replicate]
    rw [roundHalfAway_nonneg, Int.floor_eq_zero_iff]
    generalize (List.replicate n '1').foldl
      (fun acc c => acc * 10 + (c.toNat - '0'.toNat)) 0 = R at hv
    have hpow : (0 : ℚ) < (10 : ℚ) ^ n := by positivity
    have hvq : (9 : ℚ) * R + 1 = (10 : ℚ) ^ n := by exact_mod_cast hv
    constructor
    · positivity
    · rw [← sub_pos]
      have : (1 : ℚ) - ((R : ℚ) / (10 : ℚ) ^ n + 1 / 2) =
          ((10 : ℚ) ^ n - 2 * R) / (2 * (10 : ℚ) ^ n) := by
        field_simp; ring
      rw [this]
      apply div_pos _ (by positivity)
      have hR : (0 : ℚ) ≤ R := by positivity
      linarith
  refine ⟨by rw [htrim, hchars], hd0, hd1, hround, ?_⟩
  have hne : (longFraction n).isEmpty = false := rfl
  have hnew : NewFromString (longFraction n) = none := by
    rw [hchars, NewFromString_numeral_range .none ['0'] _ (by simp) hd0 hd1]
    have : -((List.replicate n '1').length : Int) < -(2 : Int) ^ 31 := by
      rw [List.length_replicate]
      have : ((2 : Int) ^ 31) < (n : Int) := by exact_mod_cast hn
      omega
    simp only [this, true_or, if_true]
  simp only [parseSats, htrim, hne, Bool.false_eq_true, if_false, hnew]

/-- C13, counterexample: the numeral `0.11...1` with 2^31 + 1 fractional digits is a
decimal numeral, its value rounds to 0, which fits 64 bits, and `parseSats` returns an
error for it (the decimal parser rejects an exponent below -2^31). -/
theorem C13_counterexample_long_fraction :
    TrimSpace (String.mk (longFraction (2 ^ 31 + 1))).toList =
      numeralChars .none ['0'] (List.replicate (2 ^ 31 + 1) '1') ∧
    (∀ c ∈ ['0'], isDigit c = true) ∧
    (∀ c ∈ List.replicate (2 ^ 31 + 1) '1', isDigit c = true) ∧
    roundHalfAway (numeralValue .none ['0'] (List.replicate (2 ^ 31 + 1) '1')) = 0 ∧
    parseSats (String.mk (longFraction (2 ^ 31 + 1))) = .error .parseSats :=
  longFraction_facts (2 ^ 31 + 1) (Nat.lt_succ_self _)

theorem roundHalfAway_minus_twelve_half : roundHalfAway (numeralValue .minus ['1', '2'] ['5']) = -13 := by
  have hv : numeralValue .minus ['1', '2'] ['5'] = -(25 / 2 : ℚ) := by
    have hd : digitsValue (['1', '2'] ++ ['5']) = 125 := by decide
    simp only [numeralValue, NumSign.factor, hd, List.length_singleton]
    norm_num
  rw [hv]
  have hneg : ¬ (0 : ℚ) ≤ -(25 / 2 : ℚ) := by norm_num
  simp only [roundHalfAway, hneg, if_false]
  have : (- -(25 / 2 : ℚ) + 1 / 2) = ((13 : Int) : ℚ) := by norm_num
  rw [this, Int.floor_intCast]

/-- C13, witness: ` -12.5 ` is trimmed and read as the numeral `-12.5`, which rounds to
-13. -/
theorem C13_parseSats_witness :
    TrimSpace " -12.5 ".toList = numeralChars .minus ['1', '2'] ['5'] ∧
    roundHalfAway (numeralValue .minus ['1', '2'] ['5']) = -13 ∧
    parseSats " -12.5 " = .ok (roundHalfAway (numeralValue .minus ['1', '2'] ['5'])) :=
  ⟨by decide, roundHalfAway_minus_twelve_half,
    (C13_parseSats_rounds_numerals " -12.5 " .minus ['1', '2'] ['5'] (by decide) (by simp)
      (by decide) (by decide) (by norm_num) (by rw [roundHalfAway_minus_twelve_half]; decide)).1⟩

/-! ## parseSats: blank and malformed strings -/

theorem drop_length_takeWhile {α : Type} (p : α → Bool) (l : List α) :
    l.drop (l.takeWhile p).length = l.dropWhile p := by
  induction l with
  | nil => rfl
  | cons a as ih =>
    by_cases ha : p a = true
    · simp [List.takeWhile_cons, List.dropWhile_cons, ha, ih]
    · simp [List.takeWhile_cons, List.dropWhile_cons, ha]

theorem dropWhile_head {α : Type} (p : α → Bool) (l : List α) :
    l.dropWhile p = [] ∨ ∃ c rest, l.dropWhile p = c :: rest ∧ p c = false := by
  induction l with
  | nil => exact Or.inl rfl
  | cons a as ih =>
    by_cases ha : p a = true
    · simpa [List.dropWhile_cons, ha] using ih
    · right; exact ⟨a, as, by simp [List.dropWhile_cons, ha], by simpa using ha⟩

theorem takeWhile_all {α : Type} (p : α → Bool) (l : List α) :
    ∀ x ∈ l.takeWhile p, p x = true := fun _ hx => List.mem_takeWhile_imp hx

theorem exponent_part (t : List Char) (e : Int)
    (h : (if (t.takeWhile (fun c => c != 'E' && c != 'e')).length < t.length then
        (parseSigned (t.drop ((t.takeWhile (fun c => c != 'E' && c != 'e')).length + 1))).bind
          (fun e => if -(2 : Int) ^ 31 ≤ e ∧ e ≤ (2 : Int) ^ 31 - 1 then some e else none)
      else some 0) = some e) :
    IsExponentPart (t.dropWhile (fun c => c != 'E' && c != 'e')) := by
  have hlen := congrArg List.length (List.takeWhile_append_dropWhile
    (fun c => c != 'E' && c != 'e') t)
  rw [List.length_append] at hlen
  split at h
  · rename_i hlt
    rcases dropWhile_head (fun c => c != 'E' && c != 'e') t with h0 | ⟨c, rest, hc, hp⟩
    · rw [h0] at hlen; simp at hlen; omega
    · have hrest : t.drop ((t.takeWhile (fun c => c != 'E' && c != 'e')).length + 1) = rest := by
        rw [← List.drop_drop, drop_length_takeWhile, hc]; rfl
      rw [hrest] at h
      cases hps : parseSigned rest with
      | none => simp [hps] at h
      | some v =>
        obtain ⟨sg, ds, hx, hne, hd⟩ := parseSigned_some rest v hps
        right
        refine ⟨c, sg, ds, by rw [hc, hx], ?_, hne, hd⟩
        simp only [Bool.and_eq_false_imp, bne_iff_ne, ne_eq, bne_eq_false_iff_eq] at hp
        by_cases hE : c = 'E'
        · exact Or.inr hE
        · exact Or.inl (hp hE)
  · rename_i hlt
    left
    apply List.eq_nil_of_length_eq_zero
    omega

theorem NewFromString_some (t : List Char) (d : Decimal) (h : NewFromString t = some d) :
    IsNumericDecimal t ∨ IsDotSignedDecimal t := by
  unfold NewFromString at h
  simp only at h
  split at h
  · cases h
  · rename_i e he
    have hexpo := exponent_part t e he
    split at h
    · cases h
    · cases hps : parseSigned
          ((t.takeWhile (fun c => c != 'E' && c != 'e')).takeWhile (fun c => c != '.') ++
            ((t.takeWhile (fun c => c != 'E' && c != 'e')).dropWhile
              (fun c => c != '.')).tail) with
      | none => simp [hps] at h
      | some v =>
        obtain ⟨sg, ds, hx, hne, hd⟩ := parseSigned_some _ v hps
        generalize hmant : t.takeWhile (fun c => c != 'E' && c != 'e') = mant at hx
        generalize hexp : t.dropWhile (fun c => c != 'E' && c != 'e') = expo at hexpo
        have ht : t = mant ++ expo := by
          rw [← hmant, ← hexp]; exact (List.takeWhile_append_dropWhile _ _).symm
        generalize hwhole : mant.takeWhile (fun c => c != '.') = whole at hx
        have hmsplit : mant = whole ++ mant.dropWhile (fun c => c != '.') := by
          rw [← hwhole]; exact (List.takeWhile_append_dropWhile _ _).symm
        rcases dropWhile_head (fun c => c != '.') mant with h0 | ⟨c, frac, hc, hp⟩
        · -- no decimal point
          rw [h0] at hx hmsplit
          simp only [List.tail_nil, List.append_nil] at hx hmsplit
          cases sg with
          | none =>
            left
            refine ⟨.none, ds, [], expo, false, ?_, hd, by simp, fun _ => rfl, Or.inl hne, hexpo⟩
            rw [ht, hmsplit, hx]; simp [NumSign.chars]
          | plus =>
            left
            refine ⟨.plus, ds, [], expo, false, ?_, hd, by simp, fun _ => rfl, Or.inl hne, hexpo⟩
            rw [ht, hmsplit, hx]; simp
          | minus =>
            left
            refine ⟨.minus, ds, [], expo, false, ?_, hd, by simp, fun _ => rfl, Or.inl hne, hexpo⟩
            rw [ht, hmsplit, hx]; simp
        · have hdot : c = '.' := by simpa using hp
          subst hdot
          rw [hc] at hx hmsplit
          simp only [List.tail_cons] at hx
          have hall : ∀ x ∈ whole ++ frac, x ∈ sg.chars ∨ isDigit x = true := by
            intro x hxm
            rw [hx] at hxm
            rcases List.mem_append.mp hxm with h1 | h1
            · exact Or.inl h1
            · exact Or.inr (hd x h1)
          cases sg with
          | none =>
            simp only [NumSign.chars, List.nil_append] at hx
            left
            refine ⟨.none, whole, frac, expo, true, ?_, ?_, ?_, by simp, ?_, hexpo⟩
            · rw [ht, hmsplit]; simp [NumSign.chars]
            · intro x hxm; exact hd x (by rw [← hx]; exact List.mem_append_left _ hxm)
            · intro x hxm; exact hd x (by rw [← hx]; exact List.mem_append_right _ hxm)
            · by_contra hcon
              simp only [not_or, not_not] at hcon
              rw [hcon.1, hcon.2] at hx
              exact hne hx.symm
          | plus =>
            simp only [NumSign.chars, List.singleton_append] at hx
            cases whole with
            | nil =>
              right
              simp only [List.nil_append] at hx hmsplit
              refine ⟨'+', ds, expo, ?_, Or.inl rfl, hne, hd, hexpo⟩
              rw [ht, hmsplit, hx]; simp
            | cons w ws =>
              simp only [List.cons_append, List.cons.injEq] at hx
              left
              refine ⟨.plus, ws, frac, expo, true, ?_, ?_, ?_, by simp, ?_, hexpo⟩
              · rw [ht, hmsplit, hx.1]; simp [NumSign.chars]
              · intro x hxm; exact hd x (by rw [← hx.2]; exact List.mem_append_left _ hxm)
              · intro x hxm; exact hd x (by rw [← hx.2]; exact List.mem_append_right _ hxm)
              · by_contra hcon
                simp only [not_or, not_not] at hcon
                rw [hcon.1, hcon.2] at hx
                exact hne hx.2.symm
          | minus =>
            simp only [NumSign.chars, List.singleton_append] at hx
            cases whole with
            | nil =>
              right
              simp only [List.nil_append] at hx hmsplit
              refine ⟨'-', ds, expo, ?_, Or.inr rfl, hne, hd, hexpo⟩
              rw [ht, hmsplit, hx]; simp
            | cons w ws =>
              simp only [List.cons_append, List.cons.injEq] at hx
              left
              refine ⟨.minus, ws, frac, expo, true, ?_, ?_, ?_, by simp, ?_, hexpo⟩
              · rw [ht, hmsplit, hx.1]; simp [NumSign.chars]
              · intro x hxm; exact hd x (by rw [← hx.2]; exact List.mem_append_left _ hxm)
              · intro x hxm; exact hd x (by rw [← hx.2]; exact List.mem_append_right _ hxm)
              · by_contra hcon
                simp only [not_or, not_not] at hcon
                rw [hcon.1, hcon.2] at hx
                exact hne hx.2.symm

theorem TrimSpace_blank (l : List Char) (h : ∀ c ∈ l, isSpace c = true) : TrimSpace l = [] := by
  unfold TrimSpace
  rw [List.dropWhile_eq_nil_iff.mpr h]
  rfl

/-- C14 (amended): `parseSats` returns 0 without error for the empty string and for every
whitespace-only string, and returns an error for every string that after trimming is
non-empty and is neither a numeric decimal string nor a decimal point directly followed
by a signed digit string (which the decimal parser also reads). -/
theorem C14_parseSats_blank_and_malformed (val : String) :
    ((∀ c ∈ val.toList, isSpace c = true) → parseSats val = .ok 0) ∧
    (TrimSpace val.toList ≠ [] → ¬ IsNumericDecimal (TrimSpace val.toList) →
      ¬ IsDotSignedDecimal (TrimSpace val.toList) → parseSats val = .error .parseSats) := by
  constructor
  · intro h
    simp only [parseSats, TrimSpace_blank _ h, List.isEmpty_nil, if_true]
  · intro hne hnum hdot
    have he : (TrimSpace val.toList).isEmpty = false := by
      cases hl : TrimSpace val.toList with
      | nil => exact absurd hl hne
      | cons a as => rfl
    cases hn : NewFromString (TrimSpace val.toList) with
    | none => simp only [parseSats, he, Bool.false_eq_true, if_false, hn]
    | some d =>
      rcases NewFromString_some _ d hn with h1 | h1
      · exact absurd h1 hnum
      · exact absurd h1 hdot

theorem not_numeric_dot_sign :
    ¬ IsNumericDecimal ['.', '-', '5', 'e', '3'] := by
  rintro ⟨sg, whole, frac, expo, dot, hcs, hw, hf, hdot, hne, _⟩
  cases sg with
  | plus => simp [NumSign.chars] at hcs
  | minus => simp [NumSign.chars] at hcs
  | none =>
    simp only [NumSign.chars, List.nil_append] at hcs
    cases whole with
    | cons w ws =>
      simp only [List.cons_append, List.cons.injEq] at hcs
      have := hw w (List.mem_cons_self _ _)
      rw [← hcs.1] at this
      revert this; decide
    | nil =>
      cases dot with
      | false =>
        have := hdot rfl
        simp [this] at hne
      | true =>
        cases frac with
        | nil => simp at hne
        | cons f fs =>
          simp only [List.nil_append, if_true, List.cons_append, List.cons.injEq] at hcs
          have := hf f (List.mem_cons_self _ _)
          rw [← hcs.2.1] at this
          revert this; decide

/-- C14, counterexample: `.-5e3` is not a numeric decimal string (its sign follows the
decimal point), yet `parseSats` returns -50 for it without error. -/
theorem C14_counterexample_dot_sign :
    TrimSpace ".-5e3".toList = ['.', '-', '5', 'e', '3'] ∧
    ¬ IsNumericDecimal ['.', '-', '5', 'e', '3'] ∧
    parseSats ".-5e3" = .ok (-50) :=
  ⟨by decide, not_numeric_dot_sign, by decide⟩

/-- C14, witness: the blank string of a space and a tab yields 0, and `12abc` is
rejected. -/
theorem C14_parseSats_witness :
    parseSats " \t" = .ok 0 ∧ parseSats "12abc" = .error .parseSats :=
  ⟨(C14_parseSats_blank_and_malformed " \t").1 (by decide), by decide⟩

/-! ## Malformed snapshots -/

/-- A text that, trimmed, is not empty, not a numeric decimal string and not a decimal
point followed by a signed digit string is rejected by `parseSats`. -/
theorem parseSats_rejects (val : String) (hne : TrimSpace val.toList ≠ [])
    (hnum : ¬ IsNumericDecimal (TrimSpace val.toList))
    (hdot : ¬ IsDotSignedDecimal (TrimSpace val.toList)) :
    parseSats val = .error .parseSats := by
  have he : (TrimSpace val.toList).isEmpty = false := by
    cases hl : TrimSpace val.toList with
    | nil => exact absurd hl hne
    | cons a as => rfl
  cases hn : NewFromString (TrimSpace val.toList) with
  | none => simp only [parseSats, he, Bool.false_eq_true, if_false, hn]
  | some d =>
    rcases NewFromString_some _ d hn with h1 | h1
    · exact absurd h1 hnum
    · exact absurd h1 hdot

theorem exponent_chars (expo : List Char) (h : IsExponentPart expo) :
    ∀ c ∈ expo, isDigit c = true ∨ c = '+' ∨ c = '-' ∨ c = '.' ∨ c = 'e' ∨ c = 'E' := by
  intro c hc
  rcases h with rfl | ⟨e, sg, ds, rfl, he, _, hds⟩
  · cases hc
  · rcases List.mem_cons.mp hc with rfl | hc
    · rcases he with rfl | rfl
      · exact Or.inr (Or.inr (Or.inr (Or.inr (Or.inl rfl))))
      · exact Or.inr (Or.inr (Or.inr (Or.inr (Or.inr rfl))))
    · rcases List.mem_append.mp hc with hc | hc
      · cases sg with
        | none => cases hc
        | plus =>
          simp only [NumSign.chars, List.mem_singleton] at hc
          exact Or.inr (Or.inl hc)
        | minus =>
          simp only [NumSign.chars, List.mem_singleton] at hc
          exact Or.inr (Or.inr (Or.inl hc))
      · exact Or.inl (hds c hc)

/-- A text with a character that is no digit, sign, decimal point or `e` is neither a
numeric decimal string nor a decimal point followed by a signed digit string. -/
theorem malformed_of_char (cs : List Char) (c : Char) (hc : c ∈ cs)
    (hd : isDigit c = false)
    (hs : c ≠ '+' ∧ c ≠ '-' ∧ c ≠ '.' ∧ c ≠ 'e' ∧ c ≠ 'E') :
    ¬ IsNumericDecimal cs ∧ ¬ IsDotSignedDecimal cs := by
  have hno : ¬ (isDigit c = true ∨ c = '+' ∨ c = '-' ∨ c = '.' ∨ c = 'e' ∨ c = 'E') := by
    rw [hd]
    rintro (h | h | h | h | h | h)
    · cases h
    · exact hs.1 h
    · exact hs.2.1 h
    · exact hs.2.2.1 h
    · exact hs.2.2.2.1 h
    · exact hs.2.2.2.2 h
  constructor
  · rintro ⟨sg, whole, frac, expo, dot, rfl, hw, hf, _, _, he⟩
    apply hno
    rcases List.mem_append.mp hc with hc | hc
    · rcases List.mem_append.mp hc with hc | hc
      · rcases List.mem_append.mp hc with hc | hc
        · cases sg with
          | none => cases hc
          | plus =>
            simp only [NumSign.chars, List.mem_singleton] at hc
            exact Or.inr (Or.inl hc)
          | minus =>
            simp only [NumSign.chars, List.mem_singleton] at hc
            exact Or.inr (Or.inr (Or.inl hc))
        · exact Or.inl (hw c hc)
      · cases dot with
        | false => cases hc
        | true =>
          simp only [if_true] at hc
          rcases List.mem_cons.mp hc with rfl | hc
          · exact Or.inr (Or.inr (Or.inr (Or.inl rfl)))
          · exact Or.inl (hf c hc)
    · exact exponent_chars expo he c hc
  · rintro ⟨sgn, ds, expo, rfl, hsg, _, hds, he⟩
    apply hno
    rcases List.mem_cons.mp hc with rfl | hc
    · exact Or.inr (Or.inr (Or.inr (Or.inl rfl)))
    · rcases List.mem_cons.mp hc with rfl | hc
      · rcases hsg with rfl | rfl
        · exact Or.inr (Or.inl rfl)
        · exact Or.inr (Or.inr (Or.inl rfl))
      · rcases List.mem_append.mp hc with hc | hc
        · exact Or.inl (hds c hc)
        · exact exponent_chars expo he c hc

theorem not_numeric_nil : ¬ IsNumericDecimal [] := by
  rintro ⟨sg, whole, frac, expo, dot, hcs, _, _, hdot, hne, _⟩
  have h1 := List.append_eq_nil.mp hcs.symm
  have h2 := List.append_eq_nil.mp h1.1
  have h3 := List.append_eq_nil.mp h2.1
  cases dot with
  | false =>
    rcases hne with h | h
    · exact h h3.2
    · exact h (hdot rfl)
  | true =>
    simp at h2

theorem normalizeSales_error_of_bad (parseTime : String → Option Time)
    (sales : List sourceSale)
    (h : ∃ sale ∈ sales, parseTime sale.SaleDate = none ∨
      ∃ e, parseSats sale.TotalCostSats = .error e) :
    normalizeSales parseTime sales = .error .parseSaleDate ∨
    normalizeSales parseTime sales = .error .parseSats := by
  induction sales with
  | nil => obtain ⟨sale, hs, _⟩ := h; cases hs
  | cons a rest ih =>
    simp only [normalizeSales]
    cases hd : parseTime a.SaleDate with
    | none => exact Or.inl rfl
    | some d =>
      simp only
      cases hp : parseSats a.TotalCostSats with
      | error e => exact Or.inr rfl
      | ok amount =>
        simp only
        have hrest : ∃ sale ∈ rest, parseTime sale.SaleDate = none ∨
            ∃ e, parseSats sale.TotalCostSats = .error e := by
          obtain ⟨sale, hs, hb⟩ := h
          rcases List.mem_cons.mp hs with rfl | hs
          · rcases hb with hb | ⟨e, hb⟩
            · rw [hd] at hb; cases hb
            · rw [hp] at hb; cases hb
          · exact ⟨sale, hs, hb⟩
        rcases ih hrest with e | e <;> simp [e]

theorem normalizeProducts_error_of_bad (products : List sourceProduct)
    (h : ∃ p ∈ products, ∃ e, parseSats p.TotalRevenueSats = .error e) :
    normalizeProducts products = .error .parseProductRevenue := by
  induction products with
  | nil => obtain ⟨p, hp, _⟩ := h; cases hp
  | cons a rest ih =>
    simp only [normalizeProducts]
    cases hp : parseSats a.TotalRevenueSats with
    | error e => rfl
    | ok revenue =>
      simp only
      have hrest : ∃ p ∈ rest, ∃ e, parseSats p.TotalRevenueSats = .error e := by
        obtain ⟨p, hs, e, hb⟩ := h
        rcases List.mem_cons.mp hs with rfl | hs
        · rw [hp] at hb; cases hb
        · exact ⟨p, hs, e, hb⟩
      simp [ih hrest]

/-- C11 (amended): when the fetched snapshot has a sale with an unparsable timestamp, or
with an amount that, trimmed of white space, is not empty and is neither a numeric
decimal string nor a decimal point directly followed by a signed digit string,
`pollMerchant` returns a parse error and the store is exactly the store it started from:
no sale and no product of the snapshot is persisted, the last-polled time is not updated
and no milestone is evaluated. -/
theorem C11_malformed_sale_leaves_store_unchanged (parseTime : String → Option Time)
    (s : Store) (merchant : Merchant) (run : PollRun) (payload : sourceData)
    (hf : run.fetched = .ok payload)
    (hbad : ∃ sale ∈ payload.Sales, parseTime sale.SaleDate = none ∨
      (TrimSpace sale.TotalCostSats.toList ≠ [] ∧
        ¬ IsNumericDecimal (TrimSpace sale.TotalCostSats.toList) ∧
        ¬ IsDotSignedDecimal (TrimSpace sale.TotalCostSats.toList))) :
    pollMerchant parseTime s merchant run = (s, some .parseSaleDate) ∨
    pollMerchant parseTime s merchant run = (s, some .parseSats) := by
  have hbad2 : ∃ sale ∈ payload.Sales, parseTime sale.SaleDate = none ∨
      ∃ e, parseSats sale.TotalCostSats = .error e := by
    obtain ⟨sale, hs, h | ⟨h1, h2, h3⟩⟩ := hbad
    · exact ⟨sale, hs, Or.inl h⟩
    · exact ⟨sale, hs, Or.inr ⟨_, parseSats_rejects _ h1 h2 h3⟩⟩
  rcases normalizeSales_error_of_bad parseTime payload.Sales hbad2 with h | h
  · left; simp [pollMerchant, hf, h]
  · right; simp [pollMerchant, hf, h]

/-- C11, counterexample: the amounts `.-5e3` and a blank are not numeric decimal strings,
yet a snapshot whose two sales carry them is ingested without an error, and the sales
are stored with the amounts -50 and 0. -/
theorem C11_counterexample_amounts_read :
    TrimSpace ".-5e3".toList = ['.', '-', '5', 'e', '3'] ∧
    ¬ IsNumericDecimal ['.', '-', '5', 'e', '3'] ∧
    TrimSpace " ".toList = [] ∧ ¬ IsNumericDecimal [] ∧
    (pollMerchant parseTimeEpoch storePending merchantM2 (cleanRun snapshotOddAmounts)).2 =
      none ∧
    (pollMerchant parseTimeEpoch storePending merchantM2
      (cleanRun snapshotOddAmounts)).1.transactions =
      storePending.transactions ++
        [{ merchant_id := "m2", sale_id := 31, sale_origin := "pos", sale_date := 0,
           amount_sats := -50, created_at := 10 },
         { merchant_id := "m2", sale_id := 32, sale_origin := "pos", sale_date := 0,
           amount_sats := 0, created_at := 10 }] :=
  ⟨by decide, not_numeric_dot_sign, by decide, not_numeric_nil, by decide, by decide⟩

/-- C11, witness: a snapshot whose second sale has the timestamp `yesterday` and whose
third sale has the amount `12abc`; the well-formed first sale is not persisted.  Each of
the two sales alone makes the unit fail. -/
theorem C11_malformed_sale_witness :
    parseTimeEpoch "yesterday" = none ∧
    (pollMerchant parseTimeEpoch storePending merchantM2 (cleanRun snapshotBadSale) =
        (storePending, some .parseSaleDate) ∨
      pollMerchant parseTimeEpoch storePending merchantM2 (cleanRun snapshotBadSale) =
        (storePending, some .parseSats)) ∧
    (pollMerchant parseTimeEpoch storePending merchantM2 (cleanRun snapshotBadAmount) =
        (storePending, some .parseSaleDate) ∨
      pollMerchant parseTimeEpoch storePending merchantM2 (cleanRun snapshotBadAmount) =
        (storePending, some .parseSats)) :=
  ⟨by decide,
    C11_malformed_sale_leaves_store_unchanged parseTimeEpoch storePending merchantM2
      (cleanRun snapshotBadSale) snapshotBadSale rfl
      ⟨{ SaleId := 22, SaleOrigin := "pos", SaleDate := "yesterday", TotalCostSats := "300" },
        by decide, Or.inl (by decide)⟩,
    C11_malformed_sale_leaves_store_unchanged parseTimeEpoch storePending merchantM2
      (cleanRun snapshotBadAmount) snapshotBadAmount rfl
      ⟨{ SaleId := 23, SaleOrigin := "pos", SaleDate := "1970-01-01T00:00:00Z",
         TotalCostSats := "12abc" },
        by decide,
        Or.inr ⟨by decide,
          malformed_of_char (TrimSpace "12abc".toList) 'a' (by decide) (by decide)
            (by decide)⟩⟩⟩

theorem pollMerchant_bad_product (parseTime : String → Option Time)
    (s : Store) (merchant : Merchant) (run : PollRun) (payload : sourceData)
    (txs : List TransactionInput)
    (hf : run.fetched = .ok payload)
    (hn : normalizeSales parseTime payload.Sales = .ok txs)
    (hbad : ∃ p ∈ payload.Products, ∃ e, parseSats p.TotalRevenueSats = .error e) :
    (pollMerchant parseTime s merchant run).2 ≠ none ∧
    (pollMerchant parseTime s merchant run).1 =
      afterRecord s (RecordTransactions s run.recordNow merchant.ID txs run.recordFault) ∧
    (run.recordFault = none →
      (pollMerchant parseTime s merchant run).2 = some .parseProductRevenue ∧
      (pollMerchant parseTime s merchant run).1.transactions =
        s.transactions ++ freshRows merchant.ID run.recordNow s.transactions txs) := by
  have hp := normalizeProducts_error_of_bad payload.Products hbad
  have hres : (pollMerchant parseTime s merchant run).2 ≠ none ∧
      (pollMerchant parseTime s merchant run).1 =
        afterRecord s (RecordTransactions s run.recordNow merchant.ID txs run.recordFault) := by
    cases hrec : RecordTransactions s run.recordNow merchant.ID txs run.recordFault with
    | error e => simp [pollMerchant, hf, hn, hrec, afterRecord]
    | ok res =>
      obtain ⟨n, s1⟩ := res
      simp [pollMerchant, hf, hn, hrec, hp, afterRecord]
  obtain ⟨h1, h2⟩ := hres
  refine ⟨h1, h2, ?_⟩
  intro hnone
  have hrec := RecordTransactions_none s run.recordNow merchant.ID txs
  rw [← hnone] at hrec
  constructor
  · simp [pollMerchant, hf, hn, hrec, hp]
  · rw [h2, hrec]; rfl

/-- C12 (amended): when every sale of the fetched snapshot is well-formed and a product has
a cumulative revenue that, trimmed of white space, is not empty and is neither a numeric
decimal string nor a decimal point directly followed by a signed digit string,
`pollMerchant` returns an error after the `RecordTransactions` call and before any other
store call: the store it leaves is the one that call left, so no product snapshot is
persisted, the last-polled time is not updated and no milestone is evaluated, while the
snapshot's transactions are persisted whenever `RecordTransactions` succeeded. -/
theorem C12_malformed_product_keeps_transactions (parseTime : String → Option Time)
    (s : Store) (merchant : Merchant) (run : PollRun) (payload : sourceData)
    (txs : List TransactionInput)
    (hf : run.fetched = .ok payload)
    (hn : normalizeSales parseTime payload.Sales = .ok txs)
    (hbad : ∃ p ∈ payload.Products, TrimSpace p.TotalRevenueSats.toList ≠ [] ∧
      ¬ IsNumericDecimal (TrimSpace p.TotalRevenueSats.toList) ∧
      ¬ IsDotSignedDecimal (TrimSpace p.TotalRevenueSats.toList)) :
    (pollMerchant parseTime s merchant run).2 ≠ none ∧
    (pollMerchant parseTime s merchant run).1 =
      afterRecord s (RecordTransactions s run.recordNow merchant.ID txs run.recordFault) ∧
    (pollMerchant parseTime s merchant run).1.products = s.products ∧
    (pollMerchant parseTime s merchant run).1.merchants = s.merchants ∧
    (pollMerchant parseTime s merchant run).1.milestones = s.milestones ∧
    (pollMerchant parseTime s merchant run).1.triggers = s.triggers ∧
    (run.recordFault = none →
      (pollMerchant parseTime s merchant run).2 = some .parseProductRevenue ∧
      (pollMerchant parseTime s merchant run).1.transactions =
        s.transactions ++ freshRows merchant.ID run.recordNow s.transactions txs) := by
  have hbad2 : ∃ p ∈ payload.Products, ∃ e, parseSats p.TotalRevenueSats = .error e := by
    obtain ⟨p, hp, h1, h2, h3⟩ := hbad
    exact ⟨p, hp, _, parseSats_rejects _ h1 h2 h3⟩
  obtain ⟨h1, h2, h3⟩ :=
    pollMerchant_bad_product parseTime s merchant run payload txs hf hn hbad2
  refine ⟨h1, h2, ?_, ?_, ?_, ?_, h3⟩
  · rw [h2]
    cases hrec : RecordTransactions s run.recordNow merchant.ID txs run.recordFault with
    | error e => rfl
    | ok res =>
      obtain ⟨n, s1⟩ := res
      rw [(RecordTransactions_ok _ _ _ _ _ _ _ hrec).1]; rfl
  · rw [h2]
    cases hrec : RecordTransactions s run.recordNow merchant.ID txs run.recordFault with
    | error e => rfl
    | ok res =>
      obtain ⟨n, s1⟩ := res
      rw [(RecordTransactions_ok _ _ _ _ _ _ _ hrec).1]; rfl
  · rw [h2]; exact (afterRecord_frame s _ _ _ _).1
  · rw [h2]; exact (afterRecord_frame s _ _ _ _).2.1

/-- C12, witness: the snapshot with one well-formed sale and a product whose revenue
string is `n/a`. -/
theorem C12_malformed_product_witness :
    normalizeSales parseTimeEpoch snapshotBadProduct.Sales =
      .ok [{ SaleID := 21, SaleOrigin := "pos", SaleDate := 0, AmountSats := 250 }] ∧
    parseSats "n/a" = .error .parseSats ∧
    (pollMerchant parseTimeEpoch storePending merchantM2 (cleanRun snapshotBadProduct)).2
      ≠ none ∧
    (pollMerchant parseTimeEpoch storePending merchantM2
      (cleanRun snapshotBadProduct)).1.products = storePending.products :=
  ⟨by decide, by decide,
    (C12_malformed_product_keeps_transactions parseTimeEpoch storePending merchantM2
      (cleanRun snapshotBadProduct) snapshotBadProduct
      [{ SaleID := 21, SaleOrigin := "pos", SaleDate := 0, AmountSats := 250 }]
      rfl (by decide)
      ⟨_, List.mem_cons_self _ _, by decide,
        malformed_of_char (TrimSpace "n/a".toList) '/' (by decide) (by decide)
          (by decide)⟩).1,
    (C12_malformed_product_keeps_transactions parseTimeEpoch storePending merchantM2
      (cleanRun snapshotBadProduct) snapshotBadProduct
      [{ SaleID := 21, SaleOrigin := "pos", SaleDate := 0, AmountSats := 250 }]
      rfl (by decide)
      ⟨_, List.mem_cons_self _ _, by decide,
        malformed_of_char (TrimSpace "n/a".toList) '/' (by decide) (by decide)
          (by decide)⟩).2.2.1⟩

/-- C12, counterexample: the snapshot has one well-formed sale and a product with the
revenue string `n/a`. For every timestamp parser that reads the sale date, the unit of
work fails with the product parse error, and the sale is stored all the same: the store
holds three transactions where it held two.  And a snapshot whose product has the
revenue string `.-5e3`, which is not a numeric decimal string, is ingested without an
error: the product is stored with the revenue -50. -/
theorem C12_counterexample_transactions_persisted :
    storePending.transactions.length = 2 ∧
    ¬ IsNumericDecimal (TrimSpace ".-5e3".toList) ∧
    (pollMerchant parseTimeEpoch storePending merchantM2 (cleanRun snapshotOddRevenue)).2 =
      none ∧
    (pollMerchant parseTimeEpoch storePending merchantM2
      (cleanRun snapshotOddRevenue)).1.products.map
        (fun p => (p.product_id, p.total_revenue_sats)) = [(1, -50)] ∧
    ∀ (parseTime : String → Option Time) (d : Time),
      parseTime "1970-01-01T00:00:00Z" = some d →
        (pollMerchant parseTime storePending merchantM2 (cleanRun snapshotBadProduct)).2 =
          some .parseProductRevenue ∧
        (pollMerchant parseTime storePending merchantM2
          (cleanRun snapshotBadProduct)).1.transactions =
          storePending.transactions ++
            [{ merchant_id := "m2", sale_id := 21, sale_origin := "pos", sale_date := d,
               amount_sats := 250, created_at := 10 }] := by
  refine ⟨by decide, ?_, by decide, by decide, ?_⟩
  · have : TrimSpace ".-5e3".toList = ['.', '-', '5', 'e', '3'] := by decide
    rw [this]
    exact not_numeric_dot_sign
  intro parseTime d hd
  have hps : parseSats "250" = .ok 250 := by decide
  have hn : normalizeSales parseTime snapshotBadProduct.Sales =
      .ok [{ SaleID := 21, SaleOrigin := "pos", SaleDate := d, AmountSats := 250 }] := by
    simp [normalizeSales, snapshotBadProduct, hd, hps]
  have h := (pollMerchant_bad_product parseTime storePending merchantM2
    (cleanRun snapshotBadProduct) snapshotBadProduct _ rfl hn
    ⟨_, List.mem_cons_self _ _, .parseSats, (by decide : parseSats "n/a" = .error .parseSats)⟩).2.2
    rfl
  have hs : hasSale storePending.transactions "m2" 21 = false := by decide
  refine ⟨h.1, ?_⟩
  rw [h.2]
  simp [freshRows, hs, newTransactionRow, merchantM2, cleanRun]

/-! ## UpsertProducts: the last snapshot of a product wins -/

theorem upsertLoop_ok (fault : Option Nat) (m : String) (now : Time)
    (ps : List ProductSnapshot) :
    ∀ (step : Nat) (rows rows2 : List ProductRow),
      upsertLoop fault m now ps step rows = .ok rows2 → rows2 = upsertAll m now ps rows := by
  induction ps with
  | nil =>
    intro step rows rows2 h
    simp only [upsertLoop] at h
    split at h
    · cases h
    · simp only [Except.ok.injEq] at h; simp [upsertAll, h]
  | cons p rest ih =>
    intro step rows rows2 h
    simp only [upsertLoop] at h
    split at h
    · cases h
    · exact ih _ _ _ h

theorem upsertLoop_none (m : String) (now : Time) (ps : List ProductSnapshot) :
    ∀ (step : Nat) (rows : List ProductRow),
      upsertLoop none m now ps step rows = .ok (upsertAll m now ps rows) := by
  induction ps with
  | nil => intro step rows; simp [upsertLoop, upsertAll, failsAt_none]
  | cons p rest ih => intro step rows; simp [upsertLoop, upsertAll, failsAt_none, ih]

theorem UpsertProducts_ok_all (s : Store) (now : Time) (m : String) (ps : List ProductSnapshot)
    (fault : Option Nat) (s1 : Store) (h : UpsertProducts s now m ps fault = .ok s1) :
    s1 = { s with products := upsertAll m now ps s.products } := by
  unfold UpsertProducts at h
  split at h
  · rename_i h0
    have : ps = [] := List.length_eq_zero.mp h0
    subst this
    simp only [Except.ok.injEq] at h
    simp [upsertAll, h]
  · split at h
    · cases h
    · split at h
      · cases h
      · split at h
        · cases h
        · rename_i rows hl
          simp only [Except.ok.injEq] at h
          rw [← h, upsertLoop_ok _ _ _ _ _ _ _ hl]

theorem UpsertProducts_none (s : Store) (now : Time) (m : String) (ps : List ProductSnapshot) :
    UpsertProducts s now m ps none = .ok { s with products := upsertAll m now ps s.products } := by
  unfold UpsertProducts
  split
  · rename_i h0
    have : ps = [] := List.length_eq_zero.mp h0
    subst this
    simp [upsertAll]
  · simp [failsAt_none, upsertLoop_none]

theorem productKey_any (rows : List ProductRow) (m : String) (pid : Int) :
    rows.any (fun r => r.merchant_id == m && r.product_id == pid) = true ↔
      (m, pid) ∈ rows.map (fun r => (r.merchant_id, r.product_id)) := by
  simp only [List.any_eq_true, Bool.and_eq_true, beq_iff_eq, List.mem_map, Prod.mk.injEq]

theorem upsertProductRow_keys (rows : List ProductRow) (m : String) (now : Time)
    (p : ProductSnapshot) :
    (upsertProductRow rows m now p).map (fun r => (r.merchant_id, r.product_id)) =
      if (m, p.ProductID) ∈ rows.map (fun r => (r.merchant_id, r.product_id))
      then rows.map (fun r => (r.merchant_id, r.product_id))
      else rows.map (fun r => (r.merchant_id, r.product_id)) ++ [(m, p.ProductID)] := by
  unfold upsertProductRow
  by_cases h : rows.any (fun r => r.merchant_id == m && r.product_id == p.ProductID) = true
  · have hm := (productKey_any rows m p.ProductID).mp h
    simp only [h, if_true, hm, List.map_map]
    apply List.map_congr_left
    intro r _
    simp only [Function.comp]
    split <;> rfl
  · have hm : ¬ (m, p.ProductID) ∈ rows.map (fun r => (r.merchant_id, r.product_id)) :=
      fun hc => h ((productKey_any rows m p.ProductID).mpr hc)
    simp only [h, Bool.false_eq_true, if_false, hm, List.map_append, List.map_cons, List.map_nil]

theorem upsertProductRow_nodup (rows : List ProductRow) (m : String) (now : Time)
    (p : ProductSnapshot)
    (h : (rows.map (fun r => (r.merchant_id, r.product_id))).Nodup) :
    ((upsertProductRow rows m now p).map (fun r => (r.merchant_id, r.product_id))).Nodup := by
  rw [upsertProductRow_keys]
  split
  · exact h
  · rename_i hm
    rw [List.nodup_append]
    refine ⟨h, by simp, ?_⟩
    intro k h1 h2
    simp only [List.mem_singleton] at h2
    subst h2
    exact hm h1

theorem upsertProductRow_key_mem (rows : List ProductRow) (m : String) (now : Time)
    (p : ProductSnapshot) (k : String × Int)
    (h : k ∈ rows.map (fun r => (r.merchant_id, r.product_id)) ∨ k = (m, p.ProductID)) :
    k ∈ (upsertProductRow rows m now p).map (fun r => (r.merchant_id, r.product_id)) := by
  rw [upsertProductRow_keys]
  split
  · rename_i hm
    rcases h with h | h
    · exact h
    · rw [h]; exact hm
  · rcases h with h | h
    · exact List.mem_append_left _ h
    · rw [h]; simp

theorem upsertProductRow_data (rows : List ProductRow) (m : String) (now : Time)
    (p : ProductSnapshot) (r : ProductRow) (hr : r ∈ upsertProductRow rows m now p)
    (h1 : r.merchant_id = m) (h2 : r.product_id = p.ProductID) : sameData r p := by
  unfold upsertProductRow at hr
  split at hr
  · obtain ⟨r0, _, hf⟩ := List.mem_map.mp hr
    split at hf
    · subst hf; exact ⟨rfl, rfl, rfl, rfl, rfl, rfl⟩
    · rename_i hn
      subst hf
      simp [h1, h2] at hn
  · rename_i hn
    rcases List.mem_append.mp hr with h | h
    · exfalso
      apply hn
      simp only [List.any_eq_true, Bool.and_eq_true, beq_iff_eq]
      exact ⟨r, h, h1, h2⟩
    · simp only [List.mem_singleton] at h
      subst h; exact ⟨rfl, rfl, rfl, rfl, rfl, rfl⟩

theorem upsertProductRow_other (rows : List ProductRow) (m : String) (now : Time)
    (p : ProductSnapshot) (r : ProductRow)
    (h : ¬ (r.merchant_id = m ∧ r.product_id = p.ProductID)) :
    r ∈ upsertProductRow rows m now p ↔ r ∈ rows := by
  unfold upsertProductRow
  split
  · constructor
    · intro hr
      obtain ⟨r0, hr0, hf⟩ := List.mem_map.mp hr
      split at hf
      · rename_i hk
        exfalso; apply h
        simp only [Bool.and_eq_true, beq_iff_eq] at hk
        subst hf; exact hk
      · subst hf; exact hr0
    · intro hr
      refine List.mem_map.mpr ⟨r, hr, ?_⟩
      have : ¬ ((r.merchant_id == m && r.product_id == p.ProductID) = true) := by
        simpa using h
      simp only [this, Bool.false_eq_true, if_false]
  · constructor
    · intro hr
      rcases List.mem_append.mp hr with h1 | h1
      · exact h1
      · simp only [List.mem_singleton] at h1
        exfalso; apply h; subst h1; exact ⟨rfl, rfl⟩
    · intro hr; exact List.mem_append_left _ hr

theorem lastWith_none (pid : Int) (ps : List ProductSnapshot) :
    lastWith pid ps = none ↔ ∀ p ∈ ps, p.ProductID ≠ pid := by
  induction ps with
  | nil => simp [lastWith]
  | cons p rest ih =>
    simp only [lastWith, List.mem_cons, forall_eq_or_imp]
    cases hl : lastWith pid rest with
    | some q =>
      simp only [false_iff, not_and, reduceCtorEq]
      intro _ hall
      exact absurd (ih.mpr hall) (by rw [hl]; simp)
    | none =>
      have := ih.mp hl
      by_cases hp : p.ProductID = pid
      · simp [hp]
      · simp only [hp, if_false, ne_eq, not_false_eq_true, true_and, true_iff]
        exact this

theorem lastWith_some (pid : Int) (ps : List ProductSnapshot) (q : ProductSnapshot)
    (h : lastWith pid ps = some q) : q ∈ ps ∧ q.ProductID = pid := by
  induction ps with
  | nil => simp [lastWith] at h
  | cons p rest ih =>
    simp only [lastWith] at h
    cases hl : lastWith pid rest with
    | some q2 =>
      rw [hl] at h
      simp only [Option.some.injEq] at h
      subst h
      exact ⟨List.mem_cons_of_mem _ (ih hl).1, (ih hl).2⟩
    | none =>
      rw [hl] at h
      simp only at h
      split at h
      · rename_i hp
        simp only [Option.some.injEq] at h
        subst h
        exact ⟨List.mem_cons_self _ _, hp⟩
      · cases h

theorem upsertAll_nodup (m : String) (now : Time) (ps : List ProductSnapshot) :
    ∀ rows : List ProductRow, (rows.map (fun r => (r.merchant_id, r.product_id))).Nodup →
      ((upsertAll m now ps rows).map (fun r => (r.merchant_id, r.product_id))).Nodup := by
  induction ps with
  | nil => intro rows h; exact h
  | cons p rest ih => intro rows h; exact ih _ (upsertProductRow_nodup rows m now p h)

theorem upsertAll_key_mem (m : String) (now : Time) (ps : List ProductSnapshot) :
    ∀ (rows : List ProductRow) (k : String × Int),
      (k ∈ rows.map (fun r => (r.merchant_id, r.product_id)) ∨
        ∃ p ∈ ps, k = (m, p.ProductID)) →
      k ∈ (upsertAll m now ps rows).map (fun r => (r.merchant_id, r.product_id)) := by
  induction ps with
  | nil =>
    intro rows k h
    rcases h with h | ⟨p, hp, _⟩
    · exact h
    · cases hp
  | cons p rest ih =>
    intro rows k h
    apply ih
    rcases h with h | ⟨q, hq, hk⟩
    · exact Or.inl (upsertProductRow_key_mem rows m now p k (Or.inl h))
    · rcases List.mem_cons.mp hq with rfl | hq
      · exact Or.inl (upsertProductRow_key_mem rows m now q k (Or.inr hk))
      · exact Or.inr ⟨q, hq, hk⟩

theorem upsertAll_other (m : String) (now : Time) (ps : List ProductSnapshot) :
    ∀ (rows : List ProductRow) (r : ProductRow),
      ¬ (r.merchant_id = m ∧ ∃ p ∈ ps, p.ProductID = r.product_id) →
      (r ∈ upsertAll m now ps rows ↔ r ∈ rows) := by
  induction ps with
  | nil => intro rows r _; rfl
  | cons p rest ih =>
    intro rows r h
    simp only [upsertAll]
    rw [ih _ r (fun hc => h ⟨hc.1, by
      obtain ⟨q, hq, hk⟩ := hc.2
      exact ⟨q, List.mem_cons_of_mem _ hq, hk⟩⟩)]
    exact upsertProductRow_other rows m now p r
      (fun hc => h ⟨hc.1, p, List.mem_cons_self _ _, hc.2.symm⟩)

theorem upsertAll_data (m : String) (now : Time) (ps : List ProductSnapshot) :
    ∀ (rows : List ProductRow) (r : ProductRow), r ∈ upsertAll m now ps rows →
      r.merchant_id = m → ∀ q, lastWith r.product_id ps = some q → sameData r q := by
  induction ps with
  | nil => intro rows r _ _ q hq; simp [lastWith] at hq
  | cons p rest ih =>
    intro rows r hr hm q hq
    simp only [upsertAll] at hr
    simp only [lastWith] at hq
    cases hl : lastWith r.product_id rest with
    | some q2 =>
      rw [hl] at hq
      simp only [Option.some.injEq] at hq
      subst hq
      exact ih _ r hr hm _ hl
    | none =>
      rw [hl] at hq
      simp only at hq
      split at hq
      · rename_i hp
        simp only [Option.some.injEq] at hq
        subst hq
        have hnot := (lastWith_none _ _).mp hl
        have hr2 := (upsertAll_other m now rest _ r
          (fun hc => by obtain ⟨q2, hq2, hk⟩ := hc.2; exact hnot q2 hq2 hk)).mp hr
        exact upsertProductRow_data rows m now _ r hr2 hm hp.symm
      · cases hq

theorem upsertProductRow_present (rows : List ProductRow) (m : String) (now : Time)
    (p : ProductSnapshot)
    (h : (m, p.ProductID) ∈ rows.map (fun r => (r.merchant_id, r.product_id))) :
    (upsertProductRow rows m now p).map ProductRow.data =
      rows.map (fun r =>
        if r.merchant_id = m ∧ r.product_id = p.ProductID then
          (r.merchant_id, r.product_id, p.Name, p.Currency, p.Price, p.TotalTransactions,
            p.TotalRevenueSats, p.Active)
        else r.data) := by
  have ha := (productKey_any rows m p.ProductID).mpr h
  unfold upsertProductRow
  simp only [ha, if_true, List.map_map]
  apply List.map_congr_left
  intro r _
  simp only [Function.comp]
  by_cases hk : r.merchant_id = m ∧ r.product_id = p.ProductID
  · have : (r.merchant_id == m && r.product_id == p.ProductID) = true := by simpa using hk
    rw [if_pos this, if_pos hk]
    rfl
  · have : ¬ ((r.merchant_id == m && r.product_id == p.ProductID) = true) := by simpa using hk
    rw [if_neg this, if_neg hk]

theorem upsertAll_repeat (m : String) (now : Time) (ps : List ProductSnapshot) :
    ∀ rows : List ProductRow,
      (∀ p ∈ ps, (m, p.ProductID) ∈ rows.map (fun r => (r.merchant_id, r.product_id))) →
      (upsertAll m now ps rows).map ProductRow.data =
        rows.map (fun r =>
          match (if r.merchant_id = m then lastWith r.product_id ps else none) with
          | some q => (r.merchant_id, r.product_id, q.Name, q.Currency, q.Price,
              q.TotalTransactions, q.TotalRevenueSats, q.Active)
          | none => r.data) := by
  induction ps with
  | nil =>
    intro rows _
    simp only [upsertAll, lastWith, ite_self]
  | cons p rest ih =>
    intro rows hpres
    have hp := hpres p (List.mem_cons_self _ _)
    have hkeys : (upsertProductRow rows m now p).map (fun r => (r.merchant_id, r.product_id)) =
        rows.map (fun r => (r.merchant_id, r.product_id)) := by
      rw [upsertProductRow_keys]; simp only [hp, if_true]
    have hrest : ∀ q ∈ rest, (m, q.ProductID) ∈
        (upsertProductRow rows m now p).map (fun r => (r.merchant_id, r.product_id)) := by
      intro q hq; rw [hkeys]; exact hpres q (List.mem_cons_of_mem _ hq)
    simp only [upsertAll]
    rw [ih _ hrest]
    -- both sides are maps over rows once the step is written as a map
    have ha := (productKey_any rows m p.ProductID).mpr hp
    unfold upsertProductRow
    simp only [ha, if_true, List.map_map]
    apply List.map_congr_left
    intro r _
    simp only [Function.comp, lastWith]
    by_cases hm : r.merchant_id = m
    · by_cases hk : r.product_id = p.ProductID
      · have : (r.merchant_id == m && r.product_id == p.ProductID) = true := by simp [hm, hk]
        rw [if_pos this]
        simp only [if_pos hm]
        cases hl : lastWith r.product_id rest with
        | some q => rfl
        | none => simp only [if_pos hk.symm]; rfl
      · have : ¬ ((r.merchant_id == m && r.product_id == p.ProductID) = true) := by
          simp [hk]
        have hk2 : ¬ p.ProductID = r.product_id := fun h => hk h.symm
        rw [if_neg this]
        simp only [if_pos hm]
        cases hl : lastWith r.product_id rest with
        | some q => rfl
        | none => simp only [if_neg hk2]
    · have : ¬ ((r.merchant_id == m && r.product_id == p.ProductID) = true) := by
        simp [hm]
      rw [if_neg this]
      simp only [if_neg hm]

theorem upsertAll_idempotent (m : String) (now now2 : Time) (ps : List ProductSnapshot)
    (rows : List ProductRow) :
    (upsertAll m now2 ps (upsertAll m now ps rows)).map ProductRow.data =
      (upsertAll m now ps rows).map ProductRow.data := by
  rw [upsertAll_repeat m now2 ps (upsertAll m now ps rows)
    (fun p hp => upsertAll_key_mem m now ps rows _ (Or.inr ⟨p, hp, rfl⟩))]
  conv_rhs => rw [← List.map_id' (upsertAll m now ps rows)]
  rw [List.map_map]
  apply List.map_congr_left
  intro r hr
  simp only [Function.comp, id]
  by_cases hm : r.merchant_id = m
  · simp only [hm, if_true]
    cases hl : lastWith r.product_id ps with
    | none => rfl
    | some q =>
      obtain ⟨h1, h2, h3, h4, h5, h6⟩ := upsertAll_data m now ps rows r hr hm q hl
      simp only [ProductRow.data, h1, h2, h3, h4, h5, h6, hm]
  · simp only [hm, if_false]

theorem countP_key_zero (m : String) (pid : Int) :
    ∀ rows : List ProductRow,
      (m, pid) ∉ rows.map (fun r => (r.merchant_id, r.product_id)) →
      rows.countP (fun r => r.merchant_id == m && r.product_id == pid) = 0 := by
  intro rows h
  rw [List.countP_eq_zero]
  intro r hr hk
  apply h
  simp only [Bool.and_eq_true, beq_iff_eq] at hk
  exact List.mem_map.mpr ⟨r, hr, by rw [hk.1, hk.2]⟩

theorem countP_key_one (m : String) (pid : Int) :
    ∀ rows : List ProductRow,
      (rows.map (fun r => (r.merchant_id, r.product_id))).Nodup →
      (m, pid) ∈ rows.map (fun r => (r.merchant_id, r.product_id)) →
      rows.countP (fun r => r.merchant_id == m && r.product_id == pid) = 1 := by
  intro rows
  induction rows with
  | nil => intro _ h; simp at h
  | cons r rest ih =>
    intro hnd hmem
    rw [List.map_cons, List.nodup_cons] at hnd
    rw [List.map_cons, List.mem_cons] at hmem
    by_cases hk : (m, pid) = (r.merchant_id, r.product_id)
    · have h0 := countP_key_zero m pid rest (by rw [hk]; exact hnd.1)
      have hb : (r.merchant_id == m && r.product_id == pid) = true := by
        simp only [Prod.mk.injEq] at hk
        simp [hk.1, hk.2]
      rw [List.countP_cons, h0, if_pos hb]
    · have hb : ¬ ((r.merchant_id == m && r.product_id == pid) = true) := by
        intro hb
        simp only [Bool.and_eq_true, beq_iff_eq] at hb
        exact hk (by rw [hb.1, hb.2])
      rw [List.countP_cons, if_neg hb, Nat.add_zero]
      exact ih hnd.2 (hmem.resolve_left hk)

/-- C15: on a product table with distinct keys `UpsertProducts(m, snapshots)` succeeds
when it meets no storage fault, and after every successful call every `(m, productId)` of
the list has exactly one row, whose name, currency, price, transaction count, revenue and
active flag are those of the last snapshot of the list with that product id; the rows
with any other key are the rows there were; and repeating the call leaves the product
data (every column but `updated_at`) of every row as it is. -/
theorem C15_upsert_products_last_wins (s : Store) (now : Time) (m : String)
    (ps : List ProductSnapshot)
    (hkeys : (s.products.map (fun r => (r.merchant_id, r.product_id))).Nodup) :
    (∃ s0, UpsertProducts s now m ps none = .ok s0) ∧
    ∀ (fault : Option Nat) (s1 : Store), UpsertProducts s now m ps fault = .ok s1 →
      (∀ p ∈ ps, s1.products.countP
        (fun r => r.merchant_id == m && r.product_id == p.ProductID) = 1) ∧
      (∀ p ∈ ps, ∃ q ∈ ps, q.ProductID = p.ProductID ∧ lastWith p.ProductID ps = some q) ∧
      (∀ r ∈ s1.products, r.merchant_id = m →
        ∀ q, lastWith r.product_id ps = some q → sameData r q) ∧
      (∀ r, ¬ (r.merchant_id = m ∧ ∃ p ∈ ps, p.ProductID = r.product_id) →
        (r ∈ s1.products ↔ r ∈ s.products)) ∧
      (∀ (now2 : Time) (fault2 : Option Nat) (s2 : Store),
        UpsertProducts s1 now2 m ps fault2 = .ok s2 →
          s2.products.map ProductRow.data = s1.products.map ProductRow.data) := by
  refine ⟨⟨_, UpsertProducts_none s now m ps⟩, ?_⟩
  intro fault s1 h
  have hs1 := UpsertProducts_ok_all s now m ps fault s1 h
  have hp1 : s1.products = upsertAll m now ps s.products := by rw [hs1]
  refine ⟨?_, ?_, ?_, ?_, ?_⟩
  · intro p hp
    have hnd := upsertAll_nodup m now ps s.products hkeys
    have hmem := upsertAll_key_mem m now ps s.products (m, p.ProductID) (Or.inr ⟨p, hp, rfl⟩)
    rw [hp1]
    exact countP_key_one m p.ProductID _ hnd hmem
  · intro p hp
    cases hl : lastWith p.ProductID ps with
    | none => exact absurd rfl ((lastWith_none _ _).mp hl p hp)
    | some q => exact ⟨q, (lastWith_some _ _ _ hl).1, (lastWith_some _ _ _ hl).2, rfl⟩
  · intro r hr hm q hq
    rw [hp1] at hr
    exact upsertAll_data m now ps s.products r hr hm q hq
  · intro r hr
    rw [hp1]
    exact upsertAll_other m now ps s.products r hr
  · intro now2 fault2 s2 h2
    have hs2 := UpsertProducts_ok_all s1 now2 m ps fault2 s2 h2
    have hp2 : s2.products = upsertAll m now2 ps s1.products := by rw [hs2]
    rw [hp2, hp1]
    exact upsertAll_idempotent m now now2 ps s.products

/-- Instance of C15: the snapshots `coffeeSnapshots` list product 1 twice; after the call
the merchant has one row for product 1, carrying the data of the later snapshot, and one
for product 2, and a repeat of the call leaves the product data as it is. -/
theorem C15_upsert_products_witness :
    UpsertProducts storeM2 5 "m2" coffeeSnapshots none =
        .ok { storeM2 with products := upsertAll "m2" 5 coffeeSnapshots [] } ∧
      (upsertAll "m2" 5 coffeeSnapshots []).map ProductRow.data =
        [("m2", 1, "Espresso", "EUR", "2.80", 5, 1300, false),
         ("m2", 2, "Tea", "EUR", "2.00", 1, 200, true)] ∧
      (∀ p ∈ coffeeSnapshots, (upsertAll "m2" 5 coffeeSnapshots []).countP
        (fun r => r.merchant_id == "m2" && r.product_id == p.ProductID) = 1) ∧
      (∀ (now2 : Time) (fault2 : Option Nat) (s2 : Store),
        UpsertProducts { storeM2 with products := upsertAll "m2" 5 coffeeSnapshots [] } now2
            "m2" coffeeSnapshots fault2 = .ok s2 →
          s2.products.map ProductRow.data =
            (upsertAll "m2" 5 coffeeSnapshots []).map ProductRow.data) :=
  have h := (C15_upsert_products_last_wins storeM2 5 "m2" coffeeSnapshots (by decide)).2 none
    { storeM2 with products := upsertAll "m2" 5 coffeeSnapshots [] } (by decide)
  ⟨by decide, by rfl, h.1, h.2.2.2.2⟩

/-! ## Milestone types: validation and the stores that can be reached -/

theorem validate_iff_known (t : String) :
    validateMilestoneType t = true ↔ knownType (ToLower t) := by
  simp only [validateMilestoneType, knownType, Bool.or_eq_true, beq_iff_eq]

theorem ToLower_known (t : String) (h : knownType t) : ToLower t = t := by
  rcases h with h | h <;> rw [h] <;> decide

theorem UpsertMilestone_invalid (s : Store) (now : Time) (m : Milestone) (fault : Option Nat)
    (h : ¬ knownType (ToLower m.Typ)) :
    UpsertMilestone s now m fault = .error .invalidMilestoneType := by
  have hv : validateMilestoneType m.Typ = false := by
    rw [← Bool.not_eq_true, validate_iff_known]; exact h
  simp only [UpsertMilestone, hv, Bool.not_false, if_true]

theorem UpsertMilestone_valid (s : Store) (now : Time) (m : Milestone)
    (h : knownType (ToLower m.Typ)) :
    UpsertMilestone s now m none =
      .ok ({ m with Typ := ToLower m.Typ, CreatedAt := now, UpdatedAt := now,
                    ID := s.milestoneSeq + 1 },
           { s with
             milestones := s.milestones ++
               [{ id := s.milestoneSeq + 1, name := m.Name, typ := ToLower m.Typ,
                  threshold := m.Threshold, enabled := m.Enabled, triggered_at := none,
                  created_at := now, updated_at := now }],
             milestoneSeq := s.milestoneSeq + 1 }) := by
  have hv : validateMilestoneType m.Typ = true := (validate_iff_known _).mpr h
  simp only [UpsertMilestone, hv, Bool.not_true, Bool.false_eq_true, if_false, failsAt_none]

theorem UpsertMilestone_ok (s : Store) (now : Time) (m : Milestone) (fault : Option Nat)
    (r : Milestone) (s1 : Store) (h : UpsertMilestone s now m fault = .ok (r, s1)) :
    knownType (ToLower m.Typ) ∧ r.Typ = ToLower m.Typ ∧
      s1.milestones = s.milestones ++
        [{ id := s.milestoneSeq + 1, name := m.Name, typ := ToLower m.Typ,
           threshold := m.Threshold, enabled := m.Enabled, triggered_at := none,
           created_at := now, updated_at := now }] := by
  unfold UpsertMilestone at h
  split at h
  · cases h
  · rename_i hv
    split at h
    · cases h
    · simp only [Except.ok.injEq, Prod.mk.injEq] at h
      refine ⟨(validate_iff_known _).mp (by simpa using hv), ?_, ?_⟩
      · rw [← h.1]
      · rw [← h.2]

theorem UpdateMilestone_invalid (s : Store) (now : Time) (id : Int) (u : Milestone)
    (reset : Bool) (fault : Option Nat) (h : ¬ knownType (ToLower u.Typ)) :
    UpdateMilestone s now id u reset fault = (s, .error .invalidMilestoneType) := by
  have hv : validateMilestoneType u.Typ = false := by
    rw [← Bool.not_eq_true, validate_iff_known]; exact h
  simp only [UpdateMilestone, hv, Bool.not_false, if_true]

theorem any_id_false (rows : List MilestoneRow) (id : Int) :
    rows.any (fun r => r.id == id) = false ↔ ∀ r ∈ rows, r.id ≠ id := by
  simp only [List.any_eq_false, beq_iff_eq, ne_eq]

theorem UpdateMilestone_missing (s : Store) (now : Time) (id : Int) (u : Milestone)
    (reset : Bool) (h : knownType (ToLower u.Typ)) (hid : ∀ r ∈ s.milestones, r.id ≠ id) :
    UpdateMilestone s now id u reset none = (s, .error .errNoRows) := by
  have hv : validateMilestoneType u.Typ = true := (validate_iff_known _).mpr h
  have ha := (any_id_false _ _).mpr hid
  simp only [UpdateMilestone, hv, Bool.not_true, Bool.false_eq_true, if_false, failsAt_none, ha,
    Bool.not_false, if_true]

/-- The milestone table after the `UPDATE` of `UpdateMilestone`. -/
theorem UpdateMilestone_rows (s : Store) (now : Time) (id : Int) (u : Milestone)
    (reset : Bool) (fault : Option Nat) :
    (UpdateMilestone s now id u reset fault).1.milestones = s.milestones ∨
    (knownType (ToLower u.Typ) ∧
      (UpdateMilestone s now id u reset fault).1.milestones = s.milestones.map (fun r =>
        if r.id == id then
          { r with name := u.Name, typ := ToLower u.Typ, threshold := u.Threshold,
                   enabled := u.Enabled, updated_at := now,
                   triggered_at := if reset then none else r.triggered_at }
        else r)) := by
  unfold UpdateMilestone
  split
  · exact Or.inl rfl
  · rename_i hv
    split
    · exact Or.inl rfl
    · split
      · exact Or.inl rfl
      · exact Or.inr ⟨(validate_iff_known _).mp (by simpa using hv), rfl⟩

theorem UpdateMilestone_present (s : Store) (now : Time) (id : Int) (u : Milestone)
    (reset : Bool) (h : knownType (ToLower u.Typ)) (hid : ∃ r ∈ s.milestones, r.id = id) :
    ∃ r, (UpdateMilestone s now id u reset none).2 = .ok r ∧ r.Typ = ToLower u.Typ ∧
      ∀ row ∈ (UpdateMilestone s now id u reset none).1.milestones,
        row.id = id → row.typ = ToLower u.Typ := by
  have hv : validateMilestoneType u.Typ = true := (validate_iff_known _).mpr h
  have ha : s.milestones.any (fun r => r.id == id) = true := by
    simp only [List.any_eq_true, beq_iff_eq]; exact hid
  have hrows : ∀ row ∈ s.milestones.map (fun r =>
        if r.id == id then
          { r with name := u.Name, typ := ToLower u.Typ, threshold := u.Threshold,
                   enabled := u.Enabled, updated_at := now,
                   triggered_at := if reset then none else r.triggered_at }
        else r), row.id = id → row.typ = ToLower u.Typ := by
    intro row hrow hi
    obtain ⟨r0, _, rfl⟩ := List.mem_map.mp hrow
    by_cases hr : r0.id = id
    · simp only [hr, beq_self_eq_true, if_true]
    · have : (r0.id == id) = false := by simpa using hr
      simp only [this, Bool.false_eq_true, if_false] at hi
      exact absurd hi hr
  simp only [UpdateMilestone, hv, Bool.not_true, Bool.false_eq_true, if_false, failsAt_none, ha,
    GetMilestone]
  split
  · rename_i hf
    rw [List.find?_eq_none] at hf
    obtain ⟨r0, hr0, hi⟩ := hid
    exfalso
    refine hf _ (List.mem_map.mpr ⟨r0, hr0, rfl⟩) ?_
    simp only [hi, beq_self_eq_true, if_true]
  · rename_i row hf
    have hmem := List.mem_of_find?_eq_some hf
    have hi : row.id = id := by simpa using List.find?_some hf
    refine ⟨_, rfl, ?_, hrows⟩
    simp only
    rw [hrows row hmem hi]
    exact ToLower_known _ h

theorem UpdateMilestone_ok (s : Store) (now : Time) (id : Int) (u : Milestone)
    (reset : Bool) (fault : Option Nat) (r : Milestone)
    (h : (UpdateMilestone s now id u reset fault).2 = .ok r) :
    knownType (ToLower u.Typ) ∧ (∃ r0 ∈ s.milestones, r0.id = id) ∧ r.Typ = ToLower u.Typ ∧
      ∀ row ∈ (UpdateMilestone s now id u reset fault).1.milestones,
        row.id = id → row.typ = ToLower u.Typ := by
  have hrows : ∀ row ∈ s.milestones.map (fun r =>
        if r.id == id then
          { r with name := u.Name, typ := ToLower u.Typ, threshold := u.Threshold,
                   enabled := u.Enabled, updated_at := now,
                   triggered_at := if reset then none else r.triggered_at }
        else r), row.id = id → row.typ = ToLower u.Typ := by
    intro row hrow hi
    obtain ⟨r0, _, rfl⟩ := List.mem_map.mp hrow
    by_cases hr : r0.id = id
    · simp only [hr, beq_self_eq_true, if_true]
    · have : (r0.id == id) = false := by simpa using hr
      simp only [this, Bool.false_eq_true, if_false] at hi
      exact absurd hi hr
  unfold UpdateMilestone at h ⊢
  split at h
  · cases h
  · rename_i hv
    have hk : knownType (ToLower u.Typ) := (validate_iff_known _).mp (by simpa using hv)
    split at h
    · cases h
    · split at h
      · cases h
      · rename_i h0 ha
        have hex : ∃ r0 ∈ s.milestones, r0.id = id := by
          simpa using ha
        simp only [hv, h0, ha, if_false]
        refine ⟨hk, hex, ?_, hrows⟩
        simp only [GetMilestone] at h
        split at h
        · cases h
        · split at h
          · cases h
          · split at h
            · cases h
            · rename_i row hf
              have hmem := List.mem_of_find?_eq_some hf
              have hi : row.id = id := by simpa using List.find?_some hf
              simp only [Except.ok.injEq] at h
              rw [← h]
              simp only
              rw [hrows row hmem hi]
              exact ToLower_known _ hk

/-- Every milestone of the store has one of the two known types. -/
theorem typeInv_run (s : Store) (c : Call) (h : ∀ r ∈ s.milestones, knownType r.typ) :
    ∀ r ∈ (c.run s).milestones, knownType r.typ := by
  cases c with
  | upsertMerchant now m fault =>
    have : (Call.run s (.upsertMerchant now m fault)).milestones = s.milestones := by
      simp only [Call.run, UpsertMerchant, afterCall]
      split_ifs <;> rfl
    rw [this]; exact h
  | updateMerchant now m fault =>
    have : (Call.run s (.updateMerchant now m fault)).milestones = s.milestones := by
      simp only [Call.run, UpdateMerchant, afterCall]
      split_ifs <;> rfl
    rw [this]; exact h
  | updateMerchantPollTime mid ts fault =>
    have : (Call.run s (.updateMerchantPollTime mid ts fault)).milestones = s.milestones := by
      simp only [Call.run, UpdateMerchantPollTime, afterCall]
      split_ifs <;> rfl
    rw [this]; exact h
  | recordTransactions now m txns fault =>
    simp only [Call.run, (afterRecord_frame s now m txns fault).1]; exact h
  | upsertProducts now m ps fault =>
    simp only [Call.run, (afterUpsertProducts_frame s now m ps fault).1]; exact h
  | upsertMilestone now m fault =>
    simp only [Call.run]
    cases hu : UpsertMilestone s now m fault with
    | error e => exact h
    | ok res =>
      obtain ⟨r, s1⟩ := res
      obtain ⟨hk, _, hs1⟩ := UpsertMilestone_ok s now m fault r s1 hu
      simp only [afterUpsertMilestone, hs1]
      intro row hrow
      rcases List.mem_append.mp hrow with h1 | h1
      · exact h row h1
      · rw [List.mem_singleton] at h1; rw [h1]; exact hk
  | updateMilestone now id u reset fault =>
    simp only [Call.run]
    rcases UpdateMilestone_rows s now id u reset fault with h1 | ⟨hk, h1⟩
    · rw [h1]; exact h
    · rw [h1]
      intro row hrow
      obtain ⟨r0, hr0, rfl⟩ := List.mem_map.mp hrow
      split
      · exact hk
      · exact h r0 hr0
  | processMilestones now fault =>
    simp only [Call.run]
    cases hp : ProcessMilestones s now fault with
    | error e => exact h
    | ok res =>
      obtain ⟨out, s1⟩ := res
      obtain ⟨tx, vol, _, _, hs1⟩ := ProcessMilestones_ok s now fault out s1 hp
      simp only [afterProcess, hs1, firedRows_eq_map]
      intro row hrow
      obtain ⟨r0, hr0, rfl⟩ := List.mem_map.mp hrow
      split
      · exact h r0 hr0
      · exact h r0 hr0

theorem typeInv_runCalls (cs : List Call) :
    ∀ s : Store, (∀ r ∈ s.milestones, knownType r.typ) →
      ∀ r ∈ (runCalls s cs).milestones, knownType r.typ := by
  induction cs with
  | nil => intro s h; exact h
  | cons c rest ih => intro s h; exact ih (c.run s) (typeInv_run s c h)

theorem condition_known (totalTx totalVol : Int) (c : candidate) (h : knownType c.typ) :
    condition totalTx totalVol c ≠ none := by
  unfold condition
  rcases h with h | h
  · simp only [h, if_true, ne_eq, reduceCtorEq, not_false_eq_true]
  · split_ifs <;> simp only [ne_eq, reduceCtorEq, not_false_eq_true]

/-- C16 (amended): barring storage faults `UpsertMilestone` fails if and only if the given
type, lower-cased, is neither "transactions" nor "volume", and `UpdateMilestone` fails if
and only if the type is invalid or no milestone has the given id; these failures leave the
store unchanged, and an invalid type is rejected whatever the storage does.  On success
the stored and the returned type are the lower-case form.  Hence in every store reached
from the empty one by calls of the writing methods each milestone's type is
"transactions" or "volume", and the evaluator's `default` branch is not taken for any
candidate it reads. -/
theorem C16_milestone_type_is_validated (s : Store) (now : Time) (m : Milestone) (id : Int)
    (reset : Bool) (fault : Option Nat) (cs : List Call) :
    ((∃ e, UpsertMilestone s now m none = .error e) ↔ ¬ knownType (ToLower m.Typ)) ∧
    (¬ knownType (ToLower m.Typ) →
      UpsertMilestone s now m fault = .error .invalidMilestoneType ∧
      afterUpsertMilestone s (UpsertMilestone s now m fault) = s) ∧
    ((∃ e, (UpdateMilestone s now id m reset none).2 = .error e) ↔
      (¬ knownType (ToLower m.Typ) ∨ ∀ r ∈ s.milestones, r.id ≠ id)) ∧
    ((¬ knownType (ToLower m.Typ) ∨ ∀ r ∈ s.milestones, r.id ≠ id) →
      (UpdateMilestone s now id m reset none).1 = s) ∧
    (¬ knownType (ToLower m.Typ) →
      UpdateMilestone s now id m reset fault = (s, .error .invalidMilestoneType)) ∧
    (∀ r s1, UpsertMilestone s now m fault = .ok (r, s1) →
      r.Typ = ToLower m.Typ ∧
      ∃ row, s1.milestones = s.milestones ++ [row] ∧ row.typ = ToLower m.Typ) ∧
    (∀ r, (UpdateMilestone s now id m reset fault).2 = .ok r →
      r.Typ = ToLower m.Typ ∧
      ∀ row ∈ (UpdateMilestone s now id m reset fault).1.milestones,
        row.id = id → row.typ = ToLower m.Typ) ∧
    (∀ r ∈ (runCalls Store.empty cs).milestones, knownType r.typ) ∧
    (∀ (totalTx totalVol : Int), ∀ c ∈ selectCandidates (runCalls Store.empty cs),
      condition totalTx totalVol c ≠ none) := by
  have hinv := typeInv_runCalls cs Store.empty (by intro r hr; cases hr)
  refine ⟨?_, ?_, ?_, ?_, ?_, ?_, ?_, hinv, ?_⟩
  · constructor
    · rintro ⟨e, he⟩ hk
      rw [UpsertMilestone_valid s now m hk] at he
      cases he
    · intro hk
      exact ⟨_, UpsertMilestone_invalid s now m none hk⟩
  · intro hk
    have := UpsertMilestone_invalid s now m fault hk
    exact ⟨this, by rw [this]; rfl⟩
  · constructor
    · rintro ⟨e, he⟩
      by_contra hcon
      rw [not_or] at hcon
      obtain ⟨hk, hid⟩ := hcon
      have hk : knownType (ToLower m.Typ) := not_not.mp hk
      have hid : ∃ r ∈ s.milestones, r.id = id := by
        by_contra hn
        apply hid
        intro r hr hi
        exact hn ⟨r, hr, hi⟩
      obtain ⟨r, hr, _⟩ := UpdateMilestone_present s now id m reset hk hid
      rw [hr] at he
      cases he
    · intro h
      by_cases hk : knownType (ToLower m.Typ)
      · have hid := h.resolve_left (not_not.mpr hk)
        exact ⟨_, by rw [UpdateMilestone_missing s now id m reset hk hid]⟩
      · exact ⟨_, by rw [UpdateMilestone_invalid s now id m reset none hk]⟩
  · intro h
    by_cases hk : knownType (ToLower m.Typ)
    · have hid := h.resolve_left (not_not.mpr hk)
      rw [UpdateMilestone_missing s now id m reset hk hid]
    · rw [UpdateMilestone_invalid s now id m reset none hk]
  · exact UpdateMilestone_invalid s now id m reset fault
  · intro r s1 h
    obtain ⟨_, h1, h2⟩ := UpsertMilestone_ok s now m fault r s1 h
    exact ⟨h1, _, h2, rfl⟩
  · intro r h
    obtain ⟨_, _, h1, h2⟩ := UpdateMilestone_ok s now id m reset fault r h
    exact ⟨h1, h2⟩
  · intro totalTx totalVol c hc
    simp only [selectCandidates, List.mem_map, List.mem_filter] at hc
    obtain ⟨r, ⟨hr, _⟩, rfl⟩ := hc
    exact condition_known totalTx totalVol _ (hinv r hr)

/-- Counterexample to C16 as stated: an update with the valid type "Volume" of a
milestone id that does not exist fails (with `sql.ErrNoRows`). -/
theorem C16_counterexample_unknown_id :
    validateMilestoneType volume900.Typ = true ∧
      knownType (ToLower volume900.Typ) ∧
      UpdateMilestone storePending 9 42 volume900 false none =
        (storePending, .error .errNoRows) :=
  ⟨by decide, Or.inr (by decide), by decide⟩

/-- Instance of C16: on the store `storePending` the type "Volume" is accepted and stored
as "volume", and a store reached by three calls, one of them rejected, holds only
milestones of a known type. -/
theorem C16_milestone_type_witness :
    (∀ r s1, UpsertMilestone storePending 9 volume900 none = .ok (r, s1) →
      r.Typ = ToLower volume900.Typ ∧
      ∃ row, s1.milestones = storePending.milestones ++ [row] ∧
        row.typ = ToLower volume900.Typ) ∧
    ToLower volume900.Typ = "volume" ∧
    (∀ r ∈ (runCalls Store.empty
        [.upsertMilestone 1 volume900 none,
         .upsertMilestone 2 { volume900 with Typ := "sales" } none,
         .updateMilestone 3 1 { volume900 with Typ := "TRANSACTIONS" } true none]).milestones,
      knownType r.typ) :=
  have h := C16_milestone_type_is_validated storePending 9 volume900 1 false none
    [.upsertMilestone 1 volume900 none,
     .upsertMilestone 2 { volume900 with Typ := "sales" } none,
     .updateMilestone 3 1 { volume900 with Typ := "TRANSACTIONS" } true none]
  ⟨h.2.2.2.2.2.1, by decide, h.2.2.2.2.2.2.2.1⟩

/-! ## Summary: totals and the average -/

theorem roundEven_intCast (m : Int) : roundEven (m : ℚ) = m := by
  unfold roundEven
  rw [Int.floor_intCast, sub_self, if_pos (by norm_num)]

theorem float64_zero : float64 0 = 0 := by
  unfold float64; rw [if_pos rfl]

/-- An integer below 2^53 in magnitude is a `float64`. -/
theorem float64_int (n : Int) (h : |n| < 2 ^ 53) : float64 (n : ℚ) = n := by
  by_cases h0 : n = 0
  · rw [h0, Int.cast_zero]; exact float64_zero
  · have hq0 : (n : ℚ) ≠ 0 := Int.cast_ne_zero.mpr h0
    have hpos : (0 : ℚ) < |(n : ℚ)| := abs_pos.mpr hq0
    have hlt : |(n : ℚ)| < (2 : ℚ) ^ (53 : ℤ) := by
      have : ((|n| : Int) : ℚ) < ((2 ^ 53 : Int) : ℚ) := Int.cast_lt.mpr h
      rw [Int.cast_abs] at this
      rw [zpow_ofNat]
      calc |(n : ℚ)| < ((2 ^ 53 : Int) : ℚ) := this
        _ = (2 : ℚ) ^ 53 := by norm_num
    have he : Int.log 2 |(n : ℚ)| < 53 := (Int.lt_zpow_iff_log_lt (by norm_num) hpos).mp hlt
    obtain ⟨k, hk⟩ : ∃ k : ℕ, Int.log 2 |(n : ℚ)| - 52 = -(k : ℤ) :=
      ⟨(52 - Int.log 2 |(n : ℚ)|).toNat, by omega⟩
    unfold float64
    rw [if_neg hq0, hk, zpow_neg, zpow_natCast]
    have h2 : ((2 : ℚ) ^ k) ≠ 0 := pow_ne_zero _ (by norm_num)
    have : (n : ℚ) / ((2 : ℚ) ^ k)⁻¹ = ((n * 2 ^ k : Int) : ℚ) := by
      rw [div_inv_eq_mul]; push_cast; ring
    rw [this, roundEven_intCast]
    push_cast
    field_simp

theorem fdiv_exact (a b : Int) (ha : |a| < 2 ^ 53) (hb0 : 0 < b)
    (hd : b ∣ a) : fdiv (float64 (a : ℚ)) (float64 (b : ℚ)) = (a : ℚ) / (b : ℚ) := by
  by_cases ha0 : a = 0
  · rw [ha0, Int.cast_zero, fdiv, float64_zero, zero_div, zero_div, float64_zero]
  have hb1 : |b| < 2 ^ 53 := by
    have := Int.le_of_dvd (abs_pos.mpr ha0) ((dvd_abs _ _).mpr hd)
    rw [abs_of_pos hb0]; omega
  rw [fdiv, float64_int a ha, float64_int b hb1]
  obtain ⟨c, rfl⟩ := hd
  have hbq : (b : ℚ) ≠ 0 := Int.cast_ne_zero.mpr (ne_of_gt hb0)
  have : ((b * c : Int) : ℚ) / (b : ℚ) = (c : ℚ) := by
    push_cast; field_simp
  rw [this]
  apply float64_int
  rw [abs_mul, abs_of_pos hb0] at ha
  have hc : 0 ≤ |c| := abs_nonneg c
  nlinarith

theorem summaryRates_fields (s : Store) (now : Time) (w : Int) (fault : Option Nat)
    (out0 out : Summary) (h : summaryRates s now w fault out0 = .ok out) :
    out.TotalTransactions = out0.TotalTransactions ∧
      out.TotalVolumeSats = out0.TotalVolumeSats ∧
      out.AverageTransactionSat = out0.AverageTransactionSat := by
  unfold summaryRates at h
  split at h
  · split at h
    · cases h
    · split at h
      · cases h
      · split at h
        · simp only [Except.ok.injEq] at h; rw [← h]; exact ⟨rfl, rfl, rfl⟩
        · simp only [Except.ok.injEq] at h; rw [← h]; exact ⟨rfl, rfl, rfl⟩
  · simp only [Except.ok.injEq] at h; rw [← h]; exact ⟨rfl, rfl, rfl⟩

/-- `SUM` succeeds when the magnitudes of the summands add up to a 64-bit value. -/
theorem sumInt64_of_abs (l : List Int) :
    ∀ acc : Int, |acc| + (l.map (fun x => |x|)).sum ≤ 2 ^ 63 - 1 →
      sumInt64 l acc = some (acc + l.sum) := by
  induction l with
  | nil => intro acc _; simp [sumInt64]
  | cons x xs ih =>
    intro acc h
    simp only [List.map_cons, List.sum_cons] at h
    have hn : 0 ≤ (xs.map (fun x => |x|)).sum :=
      List.sum_nonneg (by intro y hy; obtain ⟨z, _, rfl⟩ := List.mem_map.mp hy; exact abs_nonneg z)
    have h1 : |acc + x| ≤ |acc| + |x| := abs_add acc x
    have hfit : fitsInt64 (acc + x) = true := by
      have h2 := abs_le.mp (le_trans h1 (by linarith : |acc| + |x| ≤ 2 ^ 63 - 1))
      simp only [fitsInt64, Bool.and_eq_true, decide_eq_true_eq]
      constructor <;> linarith [h2.1, h2.2]
    simp only [sumInt64, hfit, if_true]
    rw [ih (acc + x) (by linarith), List.sum_cons]
    congr 1; ring

theorem abs_sum_filter_le (p : TransactionRow → Bool) (l : List TransactionRow) :
    (((l.filter p).map (fun r => r.amount_sats)).map (fun x => |x|)).sum ≤
      ((l.map (fun r => r.amount_sats)).map (fun x => |x|)).sum := by
  induction l with
  | nil => simp
  | cons r rest ih =>
    by_cases hp : p r = true
    · simp only [List.filter_cons_of_pos hp, List.map_cons, List.sum_cons]; linarith
    · simp only [List.filter_cons_of_neg hp, List.map_cons, List.sum_cons]
      have := abs_nonneg r.amount_sats
      linarith

theorem Summary_none (s : Store) (now : Time) (w : Int)
    (h : ((s.transactions.map (fun r => r.amount_sats)).map (fun x => |x|)).sum ≤ 2 ^ 63 - 1) :
    ∃ out, s.Summary now w none = .ok out := by
  have h1 := sumInt64_of_abs (s.transactions.map (fun r => r.amount_sats)) 0
    (by rw [abs_zero, zero_add]; exact h)
  have h2 := sumInt64_of_abs ((s.transactions.filter
      (fun r => timeLE (now.UTC.Add (-w)) r.sale_date)).map (fun r => r.amount_sats)) 0
    (by rw [abs_zero, zero_add]; exact le_trans (abs_sum_filter_le _ _) h)
  simp only [Store.Summary, failsAt_none, Bool.false_eq_true, if_false, h1, summaryRates, h2]
  split_ifs <;> exact ⟨_, rfl⟩

theorem Summary_ok (s : Store) (now : Time) (w : Int) (fault : Option Nat) (out : Summary)
    (h : s.Summary now w fault = .ok out) :
    out.TotalTransactions = (s.transactions.length : Int) ∧
      out.TotalVolumeSats = totalVolume s ∧
      out.AverageTransactionSat =
        if (s.transactions.length : Int) > 0 then
          fdiv (float64 (totalVolume s : ℚ)) (float64 (((s.transactions.length : Int)) : ℚ))
        else 0 := by
  unfold Store.Summary at h
  split at h
  · cases h
  · split at h
    · cases h
    · rename_i v hv
      have hvol : v = totalVolume s := by
        rw [sumInt64_eq _ _ _ hv, zero_add, totalVolume]
      split at h
      · cases h
      · split at h
        · cases h
        · split at h
          · cases h
          · obtain ⟨h1, h2, h3⟩ := summaryRates_fields s now w fault _ out h
            rw [h1, h2, h3, hvol]
            exact ⟨rfl, rfl, rfl⟩

/-- C17: without a storage fault, and with amounts whose magnitudes add up to a 64-bit
value, `Summary` returns a summary; and in every summary it returns `TotalTransactions`
is the number of stored transactions, `TotalVolumeSats` the sum of their amounts, and
`AverageTransactionSat` is 0 when there is no transaction and otherwise the `float64`
quotient of volume and count, which is the exact quotient when the volume is below 2^53
in magnitude and a multiple of the count. -/
theorem C17_summary_totals_and_average (s : Store) (now : Time) (rateWindow : Int) :
    (((s.transactions.map (fun r => r.amount_sats)).map (fun x => |x|)).sum ≤ 2 ^ 63 - 1 →
      ∃ out0, s.Summary now rateWindow none = .ok out0) ∧
    ∀ (fault : Option Nat) (out : Summary), s.Summary now rateWindow fault = .ok out →
      out.TotalTransactions = (s.transactions.length : Int) ∧
      out.TotalVolumeSats = (s.transactions.map (fun r => r.amount_sats)).sum ∧
      (s.transactions = [] → out.AverageTransactionSat = 0) ∧
      (s.transactions ≠ [] → out.AverageTransactionSat =
        fdiv (float64 (out.TotalVolumeSats : ℚ)) (float64 (out.TotalTransactions : ℚ))) ∧
      (s.transactions ≠ [] → |out.TotalVolumeSats| < 2 ^ 53 →
        out.TotalTransactions ∣ out.TotalVolumeSats →
        out.AverageTransactionSat =
          (out.TotalVolumeSats : ℚ) / (out.TotalTransactions : ℚ)) := by
  refine ⟨Summary_none s now rateWindow, ?_⟩
  intro fault out h
  obtain ⟨h1, h2, h3⟩ := Summary_ok s now rateWindow fault out h
  have hpos : s.transactions ≠ [] → (s.transactions.length : Int) > 0 := by
    intro hne
    have := List.length_pos.mpr hne
    omega
  refine ⟨h1, h2, ?_, ?_, ?_⟩
  · intro he
    rw [h3, he]
    simp only [List.length_nil, Nat.cast_zero, gt_iff_lt, lt_self_iff_false, if_false]
  · intro hne
    rw [h3, if_pos (hpos hne), h1, h2]
  · intro hne hv hd
    rw [h3, if_pos (hpos hne), h1, h2]
    rw [h2] at hv
    rw [h1, h2] at hd
    exact fdiv_exact _ _ hv (hpos hne) hd

theorem storeSummary_amounts :
    storeSummary.transactions.map (fun r => r.amount_sats) = [1000, 2000] := by decide

/-- Instance of C17 (`TestSummaryEndpoint`): with sales of 1000 and 2000 sats the summary
reports 2 transactions, 3000 sats and an average of 1500. -/
theorem C17_summary_witness :
    ∃ out, storeSummary.Summary 300 0 none = .ok out ∧ out.TotalTransactions = 2 ∧
      out.TotalVolumeSats = 3000 ∧ out.AverageTransactionSat = 1500 := by
  obtain ⟨out, h⟩ := Summary_none storeSummary 300 0
    (by rw [storeSummary_amounts]; decide)
  have hne : storeSummary.transactions ≠ [] := by decide
  obtain ⟨h1, h2, _, _, h5⟩ :=
    (C17_summary_totals_and_average storeSummary 300 0).2 none out h
  have hl : ((storeSummary.transactions.length : Nat) : Int) = 2 := by decide
  rw [storeSummary_amounts] at h2
  rw [hl] at h1
  have hv : out.TotalVolumeSats = 3000 := by rw [h2]; rfl
  refine ⟨out, h, h1, hv, ?_⟩
  rw [h5 hne (by rw [hv]; norm_num) (by rw [h1, hv]; norm_num), h1, hv]
  norm_num

/-! ## The ticker: the latest transactions -/

theorem filter_id_length (ms : List Merchant) (x : String)
    (hnd : (ms.map (fun m => m.ID)).Nodup) :
    (ms.filter (fun m => m.ID == x)).length = if ms.any (fun m => m.ID == x) then 1 else 0 := by
  induction ms with
  | nil => rfl
  | cons m rest ih =>
    rw [List.map_cons, List.nodup_cons] at hnd
    by_cases hm : m.ID = x
    · have hb : (m.ID == x) = true := by simpa using hm
      have hrest : rest.filter (fun m => m.ID == x) = [] := by
        rw [List.filter_eq_nil_iff]
        intro a ha hax
        apply hnd.1
        have : a.ID = m.ID := by rw [hm]; simpa using hax
        rw [← this]
        exact List.mem_map.mpr ⟨a, ha, rfl⟩
      rw [List.filter_cons, if_pos hb, hrest, List.any_cons, hb]
      rfl
    · have hb : ¬ ((m.ID == x) = true) := by simpa using hm
      have hb2 : (m.ID == x) = false := by simpa using hm
      rw [List.filter_cons, if_neg hb, List.any_cons, hb2, Bool.false_or]
      exact ih hnd.2

theorem tickerJoin_length (s : Store) (hnd : (s.merchants.map (fun m => m.ID)).Nodup) :
    (tickerJoin s).length = (withMerchant s).length := by
  unfold tickerJoin withMerchant
  induction s.transactions with
  | nil => rfl
  | cons t rest ih =>
    rw [List.flatMap_cons, List.length_append, ih, List.length_map,
      filter_id_length s.merchants t.merchant_id hnd]
    by_cases ha : s.merchants.any (fun m => m.ID == t.merchant_id) = true
    · rw [List.filter_cons, if_pos ha, if_pos ha, List.length_cons]; omega
    · rw [List.filter_cons, if_neg ha, if_neg ha]; omega

theorem tickerJoin_mem (s : Store) (e : TickerEntry) :
    e ∈ tickerJoin s ↔ ∃ t ∈ s.transactions, ∃ m ∈ s.merchants, m.ID = t.merchant_id ∧
      e = { SaleID := t.sale_id, MerchantID := t.merchant_id, MerchantAlias := m.Alias,
            AmountSats := t.amount_sats, SaleDate := t.sale_date } := by
  simp only [tickerJoin, List.mem_flatMap, List.mem_map, List.mem_filter, beq_iff_eq]
  constructor
  · rintro ⟨t, ht, m, ⟨hm, hid⟩, rfl⟩; exact ⟨t, ht, m, hm, hid, rfl⟩
  · rintro ⟨t, ht, m, hm, hid, rfl⟩; exact ⟨t, ht, m, ⟨hm, hid⟩, rfl⟩

theorem sqlLimit_take {α : Type} (n : Int) (rows : List α) (hn : 0 ≤ n) :
    sqlLimit n rows = rows.take n.toNat := by
  unfold sqlLimit; rw [if_neg (by omega)]

theorem sorted_by_date (l : List TickerEntry) :
    (List.insertionSort (fun a b => timeLE b.SaleDate a.SaleDate = true) l).Sorted
      (fun a b => timeLE b.SaleDate a.SaleDate = true) := by
  haveI : IsTotal TickerEntry (fun a b => timeLE b.SaleDate a.SaleDate = true) :=
    ⟨fun a b => timeLE_total b.SaleDate a.SaleDate⟩
  haveI : IsTrans TickerEntry (fun a b => timeLE b.SaleDate a.SaleDate = true) :=
    ⟨fun a b c hab hbc => timeLE_trans _ _ _ hbc hab⟩
  exact List.sorted_insertionSort _ l

theorem LatestTransactions_ok (s : Store) (N : Int) (fault : Option Nat)
    (out : List TickerEntry) (h : LatestTransactions s N fault = .ok out) :
    out = sqlLimit N
      (List.insertionSort (fun a b => timeLE b.SaleDate a.SaleDate = true) (tickerJoin s)) ∧
    LatestTransactions s N none = .ok out := by
  unfold LatestTransactions at h ⊢
  split at h
  · cases h
  · simp only [Except.ok.injEq] at h
    rw [← h]
    exact ⟨rfl, by simp only [failsAt_none, Bool.false_eq_true, if_false]⟩

theorem LatestTransactions_entries (s : Store) (N : Int) (fault : Option Nat)
    (out : List TickerEntry) (hN : 0 ≤ N)
    (hnd : (s.merchants.map (fun m => m.ID)).Nodup)
    (h : LatestTransactions s N fault = .ok out) :
    out.length = min N.toNat (withMerchant s).length ∧
    out.Sorted (fun a b => timeLE b.SaleDate a.SaleDate = true) ∧
    (∃ rest, (out ++ rest).Perm (tickerJoin s) ∧
      ∀ e ∈ out, ∀ x ∈ rest, timeLE x.SaleDate e.SaleDate = true) ∧
    (∀ e ∈ out, ∃ t ∈ s.transactions, e.SaleID = t.sale_id ∧ e.MerchantID = t.merchant_id ∧
      e.AmountSats = t.amount_sats ∧ e.SaleDate = t.sale_date) ∧
    (∀ e ∈ out, ∃ m ∈ s.merchants, m.ID = e.MerchantID ∧ e.MerchantAlias = m.Alias) ∧
    (∀ e ∈ out, ∀ m ∈ s.merchants, m.ID = e.MerchantID → e.MerchantAlias = m.Alias) ∧
    LatestTransactions s N none = .ok out := by
  obtain ⟨ho, hnone⟩ := LatestTransactions_ok s N fault out h
  rw [sqlLimit_take _ _ hN] at ho
  have hsorted := sorted_by_date (tickerJoin s)
  have hperm := List.perm_insertionSort (fun a b => timeLE b.SaleDate a.SaleDate = true) (tickerJoin s)
  have hmem : ∀ e ∈ out, e ∈ tickerJoin s := by
    intro e he
    rw [ho] at he
    exact hperm.subset (List.mem_of_mem_take he)
  refine ⟨?_, ?_, ?_, ?_, ?_, ?_, hnone⟩
  · rw [ho, List.length_take, List.length_insertionSort, tickerJoin_length s hnd]
  · rw [ho]
    exact List.Pairwise.sublist (List.take_sublist _ _) hsorted
  · refine ⟨(List.insertionSort (fun a b => timeLE b.SaleDate a.SaleDate = true) (tickerJoin s)).drop
      N.toNat, ?_, ?_⟩
    · rw [ho, List.take_append_drop]; exact hperm
    · have hp : List.Pairwise (fun a b => timeLE b.SaleDate a.SaleDate = true)
          (List.take N.toNat
              (List.insertionSort (fun a b => timeLE b.SaleDate a.SaleDate = true) (tickerJoin s)) ++
            List.drop N.toNat
              (List.insertionSort (fun a b => timeLE b.SaleDate a.SaleDate = true) (tickerJoin s))) := by
        rw [List.take_append_drop]; exact hsorted
      rw [ho]
      exact (List.pairwise_append.mp hp).2.2
  · intro e he
    obtain ⟨t, ht, m, _, _, rfl⟩ := (tickerJoin_mem s e).mp (hmem e he)
    exact ⟨t, ht, rfl, rfl, rfl, rfl⟩
  · intro e he
    obtain ⟨t, _, m, hm, hid, rfl⟩ := (tickerJoin_mem s e).mp (hmem e he)
    exact ⟨m, hm, hid, rfl⟩
  · intro e he m hm hid
    obtain ⟨t, _, m0, hm0, hid0, rfl⟩ := (tickerJoin_mem s e).mp (hmem e he)
    have : m = m0 := List.inj_on_of_nodup_map hnd hm hm0 (by rw [hid, hid0])
    rw [this]

theorem rowBefore_total (v : Bool) (a b : MerchantLeaderboardRow) :
    rowBefore v a b = true ∨ rowBefore v b a = true := by
  simp only [rowBefore, Bool.or_eq_true, Bool.and_eq_true, decide_eq_true_eq]
  rcases lt_trichotomy (metricValue v a) (metricValue v b) with h | h | h
  · exact Or.inr (Or.inl h)
  · rcases bytesLE_total a.Alias.toList b.Alias.toList with h1 | h1
    · exact Or.inl (Or.inr ⟨h, h1⟩)
    · exact Or.inr (Or.inr ⟨h.symm, h1⟩)
  · exact Or.inl (Or.inl h)

theorem rowBefore_trans (v : Bool) (a b c : MerchantLeaderboardRow)
    (h1 : rowBefore v a b = true) (h2 : rowBefore v b c = true) : rowBefore v a c = true := by
  simp only [rowBefore, Bool.or_eq_true, Bool.and_eq_true, decide_eq_true_eq] at h1 h2 ⊢
  rcases h1 with h1 | ⟨h1, h1r⟩
  · rcases h2 with h2 | ⟨h2, _⟩
    · exact Or.inl (by omega)
    · exact Or.inl (by omega)
  · rcases h2 with h2 | ⟨h2, h2r⟩
    · exact Or.inl (by omega)
    · exact Or.inr ⟨h1.trans h2, bytesLE_trans _ _ _ h1r h2r⟩

theorem sorted_by_rank (v : Bool) (l : List MerchantLeaderboardRow) :
    (List.insertionSort (fun a b => rowBefore v a b = true) l).Sorted
      (fun a b => rowBefore v a b = true) := by
  haveI : IsTotal MerchantLeaderboardRow (fun a b => rowBefore v a b = true) :=
    ⟨rowBefore_total v⟩
  haveI : IsTrans MerchantLeaderboardRow (fun a b => rowBefore v a b = true) :=
    ⟨rowBefore_trans v⟩
  exact List.sorted_insertionSort _ l

theorem distinct_mem (l : List String) (x : String) : x ∈ distinct l ↔ x ∈ l := by
  induction l with
  | nil => simp [distinct]
  | cons y ys ih =>
    simp only [distinct, List.mem_cons, List.mem_filter, bne_iff_ne, ne_eq, ih]
    constructor
    · rintro (h | ⟨h, _⟩)
      · exact Or.inl h
      · exact Or.inr h
    · intro h
      by_cases hx : x = y
      · exact Or.inl hx
      · exact Or.inr ⟨h.resolve_left hx, hx⟩

theorem distinct_nodup (l : List String) : (distinct l).Nodup := by
  induction l with
  | nil => exact List.nodup_nil
  | cons y ys ih =>
    simp only [distinct, List.nodup_cons, List.mem_filter, bne_iff_ne, ne_eq, not_true_eq_false,
      and_false, not_false_eq_true, true_and]
    exact ih.filter _

theorem aggregate_ok (rows : List (TransactionRow × Merchant)) :
    ∀ (ids : List String) (out : List MerchantLeaderboardRow),
      aggregate rows ids = .ok out →
        (out.map (fun r => r.MerchantID)).Sublist ids ∧
        (∀ id ∈ ids, rows.filter (fun p => p.1.merchant_id == id) ≠ [] →
          id ∈ out.map (fun r => r.MerchantID)) ∧
        ∀ row ∈ out, ∃ p g,
          rows.filter (fun p => p.1.merchant_id == row.MerchantID) = p :: g ∧
          row.Alias = p.2.Alias ∧ row.Count = ((p :: g).length : Int) ∧
          row.VolumeSats = ((p :: g).map (fun q => q.1.amount_sats)).sum := by
  intro ids
  induction ids with
  | nil =>
    intro out h
    simp only [aggregate, Except.ok.injEq] at h
    subst h
    exact ⟨List.Sublist.slnil, fun id hid => absurd hid (List.not_mem_nil id),
      fun row hr => absurd hr (List.not_mem_nil row)⟩
  | cons id ids ih =>
    intro out h
    simp only [aggregate] at h
    split at h
    · rename_i hg
      obtain ⟨h1, h2, h3⟩ := ih out h
      refine ⟨h1.cons _, ?_, h3⟩
      intro i hi hne
      rcases List.mem_cons.mp hi with rfl | hi
      · exact absurd hg hne
      · exact h2 i hi hne
    · rename_i p g hg
      split at h
      · cases h
      · rename_i vol hvol
        split at h
        · cases h
        · rename_i out0 hout0
          simp only [Except.ok.injEq] at h
          subst h
          obtain ⟨h1, h2, h3⟩ := ih out0 hout0
          refine ⟨?_, ?_, ?_⟩
          · simp only [List.map_cons]; exact h1.cons₂ _
          · intro i hi hne
            simp only [List.map_cons, List.mem_cons]
            rcases List.mem_cons.mp hi with rfl | hi
            · exact Or.inl rfl
            · exact Or.inr (h2 i hi hne)
          · intro row hrow
            rcases List.mem_cons.mp hrow with rfl | hrow
            · refine ⟨p, g, hg, rfl, rfl, ?_⟩
              have := sumInt64_eq _ _ _ hvol
              simpa using this
            · exact h3 row hrow

theorem aggregate_total (rows : List (TransactionRow × Merchant)) :
    ∀ ids : List String,
      (∀ id ∈ ids, ∃ v, sumInt64
        ((rows.filter (fun p => p.1.merchant_id == id)).map (fun q => q.1.amount_sats)) 0 =
          some v) →
      ∃ out, aggregate rows ids = .ok out := by
  intro ids
  induction ids with
  | nil => intro _; exact ⟨[], rfl⟩
  | cons id ids ih =>
    intro h
    obtain ⟨out0, hout0⟩ := ih (fun i hi => h i (List.mem_cons_of_mem _ hi))
    obtain ⟨v, hv⟩ := h id (List.mem_cons_self _ _)
    simp only [aggregate]
    split
    · exact ⟨out0, hout0⟩
    · rename_i p g hg
      rw [hg] at hv
      simp only [hv, hout0]
      exact ⟨_, rfl⟩

theorem join_fst (ms : List Merchant) (ts : List TransactionRow)
    (hnd : (ms.map (fun m => m.ID)).Nodup) :
    (ts.flatMap (fun t =>
      (ms.filter (fun m => m.ID == t.merchant_id)).map (fun m => (t, m)))).map Prod.fst =
      ts.filter (fun t => ms.any (fun m => m.ID == t.merchant_id)) := by
  induction ts with
  | nil => rfl
  | cons t rest ih =>
    rw [List.flatMap_cons, List.map_append, ih, List.map_map]
    have hl := filter_id_length ms t.merchant_id hnd
    have hrep : List.map (Prod.fst ∘ fun m => (t, m))
        (ms.filter (fun m => m.ID == t.merchant_id)) =
        List.replicate (ms.filter (fun m => m.ID == t.merchant_id)).length t := by
      rw [List.eq_replicate_iff]
      refine ⟨List.length_map _ _, ?_⟩
      intro b hb
      obtain ⟨m, _, rfl⟩ := List.mem_map.mp hb
      rfl
    rw [hrep, hl]
    by_cases ha : ms.any (fun m => m.ID == t.merchant_id) = true
    · rw [if_pos ha, List.filter_cons, if_pos ha]; rfl
    · rw [if_neg ha, List.filter_cons, if_neg ha]; rfl

theorem filter_fst {α β : Type} (p : α → Bool) (l : List (α × β)) :
    (l.filter (fun q => p q.1)).map Prod.fst = (l.map Prod.fst).filter p := by
  induction l with
  | nil => rfl
  | cons x xs ih =>
    by_cases hx : p x.1 = true
    · rw [List.filter_cons, if_pos hx, List.map_cons, List.map_cons, List.filter_cons,
        if_pos hx, ih]
    · rw [List.filter_cons, if_neg hx, List.map_cons, List.filter_cons, if_neg hx, ih]

theorem leaderboardJoin_fst (s : Store) (now : Time) (w : Int)
    (hnd : (s.merchants.map (fun m => m.ID)).Nodup) :
    (leaderboardJoin s now w).map Prod.fst =
      s.transactions.filter (fun t =>
        (decide (w ≤ 0) || timeLE (now.UTC.Add (-w)) t.sale_date) &&
          s.merchants.any (fun m => m.ID == t.merchant_id)) := by
  unfold leaderboardJoin
  by_cases hw : w > 0
  · have hd : decide (w ≤ 0) = false := by simpa using hw
    rw [if_pos hw]
    rw [filter_fst (fun t : TransactionRow => timeLE (now.UTC.Add (-w)) t.sale_date),
      join_fst _ _ hnd, List.filter_filter]
    simp only [hd, Bool.false_or]
  · have hd : decide (w ≤ 0) = true := by simpa using hw
    rw [if_neg hw, join_fst _ _ hnd]
    simp only [hd, Bool.true_or, Bool.true_and]

theorem leaderboardJoin_mem (s : Store) (now : Time) (w : Int) (p : TransactionRow × Merchant)
    (hp : p ∈ leaderboardJoin s now w) :
    p.1 ∈ s.transactions ∧ p.2 ∈ s.merchants ∧ p.2.ID = p.1.merchant_id := by
  have hj : p ∈ s.transactions.flatMap (fun t =>
      (s.merchants.filter (fun m => m.ID == t.merchant_id)).map (fun m => (t, m))) := by
    unfold leaderboardJoin at hp
    split at hp
    · exact (List.mem_filter.mp hp).1
    · exact hp
  simp only [List.mem_flatMap, List.mem_map, List.mem_filter, beq_iff_eq] at hj
  obtain ⟨t, ht, m, ⟨hm, hid⟩, rfl⟩ := hj
  exact ⟨ht, hm, hid⟩

/-- The group of a merchant that exists is made of the transactions counted for it. -/
theorem group_fst (s : Store) (now : Time) (w : Int) (id : String)
    (hnd : (s.merchants.map (fun m => m.ID)).Nodup) (hex : ∃ m ∈ s.merchants, m.ID = id) :
    ((leaderboardJoin s now w).filter (fun p => p.1.merchant_id == id)).map Prod.fst =
      countedFor s now w id := by
  have : (fun p : TransactionRow × Merchant => p.1.merchant_id == id) =
      (fun t : TransactionRow => t.merchant_id == id) ∘ Prod.fst := rfl
  rw [this, ← List.filter_map, leaderboardJoin_fst s now w hnd, List.filter_filter, countedFor]
  apply List.filter_congr
  intro t _
  by_cases hid : t.merchant_id = id
  · have ha : s.merchants.any (fun m => m.ID == t.merchant_id) = true := by
      rw [List.any_eq_true]
      obtain ⟨m, hm, hmid⟩ := hex
      exact ⟨m, hm, by simp [hmid, hid]⟩
    simp only [ha, Bool.and_true]
  · have : (t.merchant_id == id) = false := by simpa using hid
    simp only [this, Bool.false_and]

theorem MerchantLeaderboard_ok (s : Store) (now : Time) (w : Int) (metric : String) (N : Int)
    (fault : Option Nat) (out : List MerchantLeaderboardRow)
    (h : MerchantLeaderboard s now w metric N fault = .ok out) :
    0 < N ∧ MerchantLeaderboard s now w metric N none = .ok out ∧
    ∃ groups, aggregate (leaderboardJoin s now w)
        (distinct ((leaderboardJoin s now w).map (fun p => p.1.merchant_id))) = .ok groups ∧
      out = (List.insertionSort (fun a b => rowBefore (ToLower metric == "volume") a b = true)
        groups).take N.toNat := by
  unfold MerchantLeaderboard at h ⊢
  split at h
  · cases h
  · rename_i hN
    have hN : 0 < N := by omega
    split at h
    · cases h
    · split at h
      · cases h
      · rename_i groups hg
        simp only [Except.ok.injEq] at h
        rw [sqlLimit_take _ _ (le_of_lt hN)] at h
        refine ⟨hN, ?_, groups, hg, h.symm⟩
        rw [if_neg (by omega)]
        simp only [failsAt_none, Bool.false_eq_true, if_false, hg, sqlLimit_take _ _ (le_of_lt hN),
          h]

/-- What a row of the leaderboard says about its merchant. -/
theorem leaderboard_row (s : Store) (now : Time) (w : Int) (metric : String) (N : Int)
    (fault : Option Nat) (out : List MerchantLeaderboardRow)
    (hnd : (s.merchants.map (fun m => m.ID)).Nodup)
    (h : MerchantLeaderboard s now w metric N fault = .ok out) :
    ∀ row ∈ out,
      (∃ m ∈ s.merchants, m.ID = row.MerchantID ∧ row.Alias = m.Alias) ∧
      row.Count = ((countedFor s now w row.MerchantID).length : Int) ∧
      row.VolumeSats = ((countedFor s now w row.MerchantID).map (fun t => t.amount_sats)).sum ∧
      countedFor s now w row.MerchantID ≠ [] := by
  obtain ⟨_, _, groups, hg, ho⟩ := MerchantLeaderboard_ok s now w metric N fault out h
  obtain ⟨_, _, h3⟩ := aggregate_ok _ _ _ hg
  intro row hrow
  have hmem : row ∈ groups := by
    rw [ho] at hrow
    exact (List.perm_insertionSort
      (fun a b => rowBefore (ToLower metric == "volume") a b = true) groups).subset
        (List.mem_of_mem_take hrow)
  obtain ⟨p, g, hpg, ha, hc, hv⟩ := h3 row hmem
  have hp : p ∈ (leaderboardJoin s now w).filter (fun p => p.1.merchant_id == row.MerchantID) := by
    rw [hpg]; exact List.mem_cons_self _ _
  obtain ⟨hpj, hpid⟩ := List.mem_filter.mp hp
  obtain ⟨_, hm, hmid⟩ := leaderboardJoin_mem s now w p hpj
  have hpid : p.1.merchant_id = row.MerchantID := by simpa using hpid
  have hex : ∃ m ∈ s.merchants, m.ID = row.MerchantID := ⟨p.2, hm, hmid.trans hpid⟩
  have hgf := group_fst s now w row.MerchantID hnd hex
  rw [hpg] at hgf
  refine ⟨⟨p.2, hm, hmid.trans hpid, ha⟩, ?_, ?_, ?_⟩
  · rw [hc, ← hgf, List.length_map]
  · rw [hv, ← hgf, List.map_map]; rfl
  · rw [← hgf]; exact List.cons_ne_nil _ _

theorem leaderboard_ids_nodup (s : Store) (now : Time) (w : Int) (metric : String) (N : Int)
    (fault : Option Nat) (out : List MerchantLeaderboardRow)
    (h : MerchantLeaderboard s now w metric N fault = .ok out) :
    (out.map (fun r => r.MerchantID)).Nodup := by
  obtain ⟨_, _, groups, hg, ho⟩ := MerchantLeaderboard_ok s now w metric N fault out h
  obtain ⟨h1, _, _⟩ := aggregate_ok _ _ _ hg
  have hgn : (groups.map (fun r => r.MerchantID)).Nodup := (distinct_nodup _).sublist h1
  have hsn := ((List.perm_insertionSort
    (fun a b => rowBefore (ToLower metric == "volume") a b = true) groups).map
      (fun r => r.MerchantID)).nodup_iff.mpr hgn
  rw [ho]
  exact hsn.sublist ((List.take_sublist _ _).map _)

theorem leaderboard_complete (s : Store) (now : Time) (w : Int) (metric : String) (N : Int)
    (fault : Option Nat) (out : List MerchantLeaderboardRow)
    (hnd : (s.merchants.map (fun m => m.ID)).Nodup)
    (h : MerchantLeaderboard s now w metric N fault = .ok out) (hlen : out.length < N.toNat) :
    ∀ m ∈ s.merchants, countedFor s now w m.ID ≠ [] →
      m.ID ∈ out.map (fun r => r.MerchantID) := by
  obtain ⟨_, _, groups, hg, ho⟩ := MerchantLeaderboard_ok s now w metric N fault out h
  obtain ⟨_, h2, _⟩ := aggregate_ok _ _ _ hg
  intro m hm hne
  have hgf := group_fst s now w m.ID hnd ⟨m, hm, rfl⟩
  have hgne : (leaderboardJoin s now w).filter (fun p => p.1.merchant_id == m.ID) ≠ [] := by
    intro he; rw [he] at hgf; exact hne hgf.symm
  obtain ⟨p, hp⟩ := List.exists_mem_of_ne_nil _ hgne
  obtain ⟨hpj, hpid⟩ := List.mem_filter.mp hp
  have hpid : p.1.merchant_id = m.ID := by simpa using hpid
  have hid : m.ID ∈ distinct ((leaderboardJoin s now w).map (fun p => p.1.merchant_id)) := by
    rw [distinct_mem]; exact List.mem_map.mpr ⟨p, hpj, hpid⟩
  have hin := h2 m.ID hid hgne
  have hall : out = List.insertionSort
      (fun a b => rowBefore (ToLower metric == "volume") a b = true) groups := by
    rw [ho] at hlen ⊢
    rw [List.length_take] at hlen
    exact List.take_of_length_le (by omega)
  rw [hall]
  exact ((List.perm_insertionSort
    (fun a b => rowBefore (ToLower metric == "volume") a b = true) groups).map
      (fun r => r.MerchantID)).mem_iff.mpr hin

theorem leaderboard_total (s : Store) (now : Time) (w : Int) (metric : String) (N : Int)
    (hN : 0 < N) (hnd : (s.merchants.map (fun m => m.ID)).Nodup)
    (hfit : ((s.transactions.map (fun r => r.amount_sats)).map (fun x => |x|)).sum ≤ 2 ^ 63 - 1) :
    ∃ out, MerchantLeaderboard s now w metric N none = .ok out := by
  have hagg : ∃ groups, aggregate (leaderboardJoin s now w)
      (distinct ((leaderboardJoin s now w).map (fun p => p.1.merchant_id))) = .ok groups := by
    apply aggregate_total
    intro id hid
    rw [distinct_mem] at hid
    obtain ⟨p, hpj, hpid⟩ := List.mem_map.mp hid
    obtain ⟨_, hm, hmid⟩ := leaderboardJoin_mem s now w p hpj
    have hgf := group_fst s now w id hnd ⟨p.2, hm, hmid.trans hpid⟩
    have hmap : ((leaderboardJoin s now w).filter (fun p => p.1.merchant_id == id)).map
        (fun q => q.1.amount_sats) = (countedFor s now w id).map (fun t => t.amount_sats) := by
      rw [← hgf, List.map_map]; rfl
    rw [hmap]
    exact ⟨_, sumInt64_of_abs _ 0 (by
      rw [abs_zero, zero_add]
      exact le_trans (abs_sum_filter_le _ _) hfit)⟩
  obtain ⟨groups, hg⟩ := hagg
  unfold MerchantLeaderboard
  rw [if_neg (by omega)]
  simp only [failsAt_none, Bool.false_eq_true, if_false, hg]
  exact ⟨_, rfl⟩

theorem countedFor_all (s : Store) (now : Time) (w : Int) (id : String) (hw : w ≤ 0) :
    countedFor s now w id = s.transactions.filter (fun t => t.merchant_id == id) := by
  have hd : decide (w ≤ 0) = true := by simpa using hw
  simp only [countedFor, hd, Bool.true_or, Bool.and_true]

/-- C19: for a limit N <= 0 `MerchantLeaderboard` returns an error.  For N > 0 and a
merchant table with distinct ids, a successful call returns at most N rows with distinct
merchant ids (and a row for every merchant with a counted transaction when fewer than N
rows are returned), sorted by the metric descending and, for equal metric values, by alias
ascending; the metric is the volume when the lower-cased metric name is "volume" and the
transaction count otherwise; each row carries the alias of its merchant, and its Count
and VolumeSats are the number and the sum of amounts of the transactions counted for that
merchant: all its transactions when there is no window, and with a window those that the
comparison of the query lets through.  Without a storage fault, and with amounts whose
magnitudes add up to a 64-bit value, the call succeeds. -/
theorem C19_merchant_leaderboard_ranked (s : Store) (now : Time) (w : Int) (metric : String)
    (N : Int) (fault : Option Nat) :
    (N ≤ 0 → MerchantLeaderboard s now w metric N fault = .error .limitNotPositive) ∧
    (0 < N → (s.merchants.map (fun m => m.ID)).Nodup →
      ∀ out, MerchantLeaderboard s now w metric N fault = .ok out →
        out.length ≤ N.toNat ∧
        (out.map (fun r => r.MerchantID)).Nodup ∧
        (out.length < N.toNat → ∀ m ∈ s.merchants, countedFor s now w m.ID ≠ [] →
          m.ID ∈ out.map (fun r => r.MerchantID)) ∧
        List.Pairwise (fun a b =>
          metricValue (ToLower metric == "volume") a > metricValue (ToLower metric == "volume") b ∨
          (metricValue (ToLower metric == "volume") a =
              metricValue (ToLower metric == "volume") b ∧
            bytesLE a.Alias.toList b.Alias.toList = true)) out ∧
        (∀ r : MerchantLeaderboardRow, metricValue (ToLower metric == "volume") r =
          if ToLower metric = "volume" then r.VolumeSats else r.Count) ∧
        (∀ row ∈ out,
          (∃ m ∈ s.merchants, m.ID = row.MerchantID ∧ row.Alias = m.Alias) ∧
          row.Count = ((countedFor s now w row.MerchantID).length : Int) ∧
          row.VolumeSats =
            ((countedFor s now w row.MerchantID).map (fun t => t.amount_sats)).sum) ∧
        (w ≤ 0 → ∀ row ∈ out,
          row.Count = ((s.transactions.filter
            (fun t => t.merchant_id == row.MerchantID)).length : Int) ∧
          row.VolumeSats = ((s.transactions.filter
            (fun t => t.merchant_id == row.MerchantID)).map (fun t => t.amount_sats)).sum)) ∧
    (0 < N → (s.merchants.map (fun m => m.ID)).Nodup →
      ((s.transactions.map (fun r => r.amount_sats)).map (fun x => |x|)).sum ≤ 2 ^ 63 - 1 →
      ∃ out, MerchantLeaderboard s now w metric N none = .ok out) := by
  refine ⟨?_, ?_, fun hN hnd hfit => leaderboard_total s now w metric N hN hnd hfit⟩
  · intro hN
    unfold MerchantLeaderboard
    rw [if_pos hN]
  · intro hN hnd out h
    obtain ⟨_, _, groups, hg, ho⟩ := MerchantLeaderboard_ok s now w metric N fault out h
    refine ⟨?_, leaderboard_ids_nodup s now w metric N fault out h,
      leaderboard_complete s now w metric N fault out hnd h, ?_, ?_, ?_, ?_⟩
    · rw [ho, List.length_take]; exact Nat.min_le_left _ _
    · have hs := sorted_by_rank (ToLower metric == "volume") groups
      have hs2 : List.Pairwise (fun a b => rowBefore (ToLower metric == "volume") a b = true)
          out := by
        rw [ho]; exact List.Pairwise.sublist (List.take_sublist _ _) hs
      refine hs2.imp ?_
      intro a b hab
      simpa only [rowBefore, Bool.or_eq_true, Bool.and_eq_true, decide_eq_true_eq] using hab
    · intro r
      by_cases hm : ToLower metric = "volume"
      · simp only [metricValue, hm, beq_self_eq_true, if_true]
      · have : (ToLower metric == "volume") = false := by simpa using hm
        simp only [metricValue, this, Bool.false_eq_true, if_false, hm]
    · intro row hrow
      obtain ⟨h1, h2, h3, _⟩ := leaderboard_row s now w metric N fault out hnd h row hrow
      exact ⟨h1, h2, h3⟩
    · intro hw row hrow
      obtain ⟨_, h2, h3, _⟩ := leaderboard_row s now w metric N fault out hnd h row hrow
      rw [countedFor_all s now w _ hw] at h2 h3
      exact ⟨h2, h3⟩

/-- Instance of C19: the all-time leaderboard of `storeBoard` by transaction count puts
"Carol" (two sales) first and, of the two merchants with one sale, "Alice" before "Bob";
with limit 0 the call is an error. -/
theorem C19_merchant_leaderboard_witness :
    MerchantLeaderboard storeBoard (utc (3 * Hour)) 0 "transactions" 10 none =
        .ok [{ MerchantID := "m3", Alias := "Carol", Count := 2, VolumeSats := 200 },
             { MerchantID := "m2", Alias := "Alice", Count := 1, VolumeSats := 500 },
             { MerchantID := "m1", Alias := "Bob", Count := 1, VolumeSats := 500 }] ∧
      MerchantLeaderboard storeBoard (utc (3 * Hour)) 0 "transactions" 0 none =
        .error .limitNotPositive ∧
      (([{ MerchantID := "m3", Alias := "Carol", Count := 2, VolumeSats := 200 },
         { MerchantID := "m2", Alias := "Alice", Count := 1, VolumeSats := 500 },
         { MerchantID := "m1", Alias := "Bob", Count := 1, VolumeSats := 500 }] :
          List MerchantLeaderboardRow).map (fun r => r.MerchantID)).Nodup :=
  ⟨by decide,
    (C19_merchant_leaderboard_ranked storeBoard (utc (3 * Hour)) 0 "transactions" 0 none).1
      (by decide),
    ((C19_merchant_leaderboard_ranked storeBoard (utc (3 * Hour)) 0 "transactions" 10 none).2.1
      (by decide) (by decide) _ (by decide)).2.1⟩

/-! ## The merchant leaderboard: the window -/

/-- The start of a window, `time.Now().UTC().Add(-w)`, is a plain UTC value when its year
is written with four digits, and the comparison of the query with a plain UTC sale date
is the comparison of the instants. -/
theorem window_start (now t : Time) (w : Int) (ht : t.plainUTC)
    (hstart : 0 ≤ (now.UTC.Add (-w)).date.year ∧ (now.UTC.Add (-w)).date.year ≤ 9999) :
    timeLE (now.UTC.Add (-w)) t = true ↔ t.unixNano ≥ now.unixNano - w := by
  have hp : (now.UTC.Add (-w)).plainUTC := ⟨rfl, rfl, rfl, hstart⟩
  rw [timeLE_plainUTC _ _ hp ht]
  have : (now.UTC.Add (-w)).unixNano = now.unixNano + -w := rfl
  rw [this]
  constructor <;> intro h <;> omega

theorem countedFor_window (s : Store) (now : Time) (w : Int) (id : String) (hw : 0 < w)
    (hutc : ∀ t ∈ s.transactions, t.sale_date.plainUTC)
    (hstart : 0 ≤ (now.UTC.Add (-w)).date.year ∧ (now.UTC.Add (-w)).date.year ≤ 9999) :
    countedFor s now w id =
      s.transactions.filter (fun t =>
        t.merchant_id == id && decide (t.sale_date.unixNano ≥ now.unixNano - w)) := by
  have hd : decide (w ≤ 0) = false := by simpa using hw
  unfold countedFor
  apply List.filter_congr
  intro t ht
  have h1 : timeLE (now.UTC.Add (-w)) t.sale_date =
      decide (t.sale_date.unixNano ≥ now.unixNano - w) := by
    rw [Bool.eq_iff_iff, decide_eq_true_iff]
    exact window_start now t.sale_date w (hutc t ht) hstart
  rw [hd, Bool.false_or, h1]

theorem productBefore_total (v : Bool) (a b : ProductLeaderboardRow) :
    productBefore v a b = true ∨ productBefore v b a = true := by
  simp only [productBefore, Bool.or_eq_true, Bool.and_eq_true, decide_eq_true_eq]
  rcases lt_trichotomy (productMetric v a) (productMetric v b) with h | h | h
  · exact Or.inr (Or.inl h)
  · rcases bytesLE_total a.Name.toList b.Name.toList with h1 | h1
    · exact Or.inl (Or.inr ⟨h, h1⟩)
    · exact Or.inr (Or.inr ⟨h.symm, h1⟩)
  · exact Or.inl (Or.inl h)

theorem productBefore_trans (v : Bool) (a b c : ProductLeaderboardRow)
    (h1 : productBefore v a b = true) (h2 : productBefore v b c = true) :
    productBefore v a c = true := by
  simp only [productBefore, Bool.or_eq_true, Bool.and_eq_true, decide_eq_true_eq] at h1 h2 ⊢
  rcases h1 with h1 | ⟨h1, h1r⟩
  · rcases h2 with h2 | ⟨h2, _⟩
    · exact Or.inl (by omega)
    · exact Or.inl (by omega)
  · rcases h2 with h2 | ⟨h2, h2r⟩
    · exact Or.inl (by omega)
    · exact Or.inr ⟨h1.trans h2, bytesLE_trans _ _ _ h1r h2r⟩

theorem sorted_by_product_rank (v : Bool) (l : List ProductLeaderboardRow) :
    (List.insertionSort (fun a b => productBefore v a b = true) l).Sorted
      (fun a b => productBefore v a b = true) := by
  haveI : IsTotal ProductLeaderboardRow (fun a b => productBefore v a b = true) :=
    ⟨productBefore_total v⟩
  haveI : IsTrans ProductLeaderboardRow (fun a b => productBefore v a b = true) :=
    ⟨productBefore_trans v⟩
  exact List.sorted_insertionSort _ l

theorem ProductLeaderboard_ok (s : Store) (metric : String) (N : Int) (fault : Option Nat)
    (out : List ProductLeaderboardRow) (h : ProductLeaderboard s metric N fault = .ok out) :
    0 < N ∧ out = (List.insertionSort
      (fun a b => productBefore (ToLower metric == "volume") a b = true)
        (activeProducts s)).take N.toNat := by
  unfold ProductLeaderboard at h
  split at h
  · cases h
  · rename_i hN
    have hN : 0 < N := by omega
    split at h
    · cases h
    · simp only [Except.ok.injEq] at h
      rw [sqlLimit_take _ _ (le_of_lt hN)] at h
      exact ⟨hN, h.symm⟩

theorem ProductLeaderboard_none (s : Store) (metric : String) (N : Int) (hN : 0 < N) :
    ProductLeaderboard s metric N none = .ok ((List.insertionSort
      (fun a b => productBefore (ToLower metric == "volume") a b = true)
        (activeProducts s)).take N.toNat) := by
  unfold ProductLeaderboard
  rw [if_neg (by omega)]
  simp only [failsAt_none, Bool.false_eq_true, if_false, sqlLimit_take _ _ (le_of_lt hN)]

/-- C21: for a limit N <= 0 `ProductLeaderboard` returns an error.  For N > 0 the call
without a storage fault returns a list, the one every successful call returns, of
min(N, number of active products) rows, each the row of an active product, sorted by the
metric descending and, for equal metric values, by name ascending; the metric is the
cumulative revenue when the lower-cased metric name is "volume" and the cumulative
transaction count otherwise; the returned rows together with the omitted ones are the
active products, and every returned row ranks no later than every omitted one. -/
theorem C21_product_leaderboard_ranked (s : Store) (metric : String) (N : Int) :
    (N ≤ 0 → ∀ fault, ProductLeaderboard s metric N fault = .error .limitNotPositive) ∧
    (0 < N → ∃ out, ProductLeaderboard s metric N none = .ok out ∧
      (∀ fault out1, ProductLeaderboard s metric N fault = .ok out1 → out1 = out) ∧
      out.length = min N.toNat (s.products.filter (fun p => p.active)).length ∧
      (∀ row ∈ out, ∃ p ∈ s.products, p.active = true ∧ row = productBoardRow p) ∧
      List.Pairwise (fun a b =>
        productMetric (ToLower metric == "volume") a >
            productMetric (ToLower metric == "volume") b ∨
          (productMetric (ToLower metric == "volume") a =
              productMetric (ToLower metric == "volume") b ∧
            bytesLE a.Name.toList b.Name.toList = true)) out ∧
      (∀ r : ProductLeaderboardRow, productMetric (ToLower metric == "volume") r =
        if ToLower metric = "volume" then r.VolumeSats else r.Count) ∧
      ∃ omitted, (out ++ omitted).Perm (activeProducts s) ∧
        ∀ a ∈ out, ∀ b ∈ omitted,
          productMetric (ToLower metric == "volume") a >
              productMetric (ToLower metric == "volume") b ∨
            (productMetric (ToLower metric == "volume") a =
                productMetric (ToLower metric == "volume") b ∧
              bytesLE a.Name.toList b.Name.toList = true)) := by
  constructor
  · intro hN fault
    unfold ProductLeaderboard
    rw [if_pos hN]
  · intro hN
    have hs := sorted_by_product_rank (ToLower metric == "volume") (activeProducts s)
    have hperm := List.perm_insertionSort
      (fun a b => productBefore (ToLower metric == "volume") a b = true) (activeProducts s)
    have himp : ∀ a b : ProductLeaderboardRow,
        productBefore (ToLower metric == "volume") a b = true →
          productMetric (ToLower metric == "volume") a >
              productMetric (ToLower metric == "volume") b ∨
            (productMetric (ToLower metric == "volume") a =
                productMetric (ToLower metric == "volume") b ∧
              bytesLE a.Name.toList b.Name.toList = true) := by
      intro a b hab
      simpa only [productBefore, Bool.or_eq_true, Bool.and_eq_true, decide_eq_true_eq] using hab
    refine ⟨_, ProductLeaderboard_none s metric N hN, ?_, ?_, ?_, ?_, ?_, ?_⟩
    · intro fault out1 h1
      exact (ProductLeaderboard_ok s metric N fault out1 h1).2
    · rw [List.length_take, List.length_insertionSort, activeProducts, List.length_map]
    · intro row hrow
      have hmem := hperm.subset (List.mem_of_mem_take hrow)
      obtain ⟨p, hp, rfl⟩ := List.mem_map.mp hmem
      obtain ⟨hp1, hp2⟩ := List.mem_filter.mp hp
      exact ⟨p, hp1, hp2, rfl⟩
    · exact (List.Pairwise.sublist (List.take_sublist _ _) hs).imp (himp _ _)
    · intro r
      by_cases hm : ToLower metric = "volume"
      · simp only [productMetric, hm, beq_self_eq_true, if_true]
      · have : (ToLower metric == "volume") = false := by simpa using hm
        simp only [productMetric, this, Bool.false_eq_true, if_false, hm]
    · refine ⟨(List.insertionSort
        (fun a b => productBefore (ToLower metric == "volume") a b = true)
          (activeProducts s)).drop N.toNat, ?_, ?_⟩
      · rw [List.take_append_drop]; exact hperm
      · have hp : List.Pairwise (fun a b => productBefore (ToLower metric == "volume") a b = true)
            (List.take N.toNat (List.insertionSort
                (fun a b => productBefore (ToLower metric == "volume") a b = true)
                  (activeProducts s)) ++
              List.drop N.toNat (List.insertionSort
                (fun a b => productBefore (ToLower metric == "volume") a b = true)
                  (activeProducts s))) := by
          rw [List.take_append_drop]; exact hs
        intro a ha b hb
        exact himp a b ((List.pairwise_append.mp hp).2.2 a ha b hb)

/-- Instance of C21: by transaction count and with limit 2 the leaderboard of
`storeProducts` holds "Beer" (7) and then "Cake", which ties with "Tea" at 4 and has the
earlier name; the retired "Soup" has no row although its count is the highest. -/
theorem C21_product_leaderboard_witness :
    ProductLeaderboard storeProducts "transactions" 2 none =
        .ok [{ MerchantID := "m2", ProductID := 1, Name := "Beer", Count := 7,
               VolumeSats := 500 },
             { MerchantID := "m1", ProductID := 2, Name := "Cake", Count := 4,
               VolumeSats := 1200 }] ∧
      ProductLeaderboard storeProducts "Volume" 0 none = .error .limitNotPositive ∧
      ∃ out, ProductLeaderboard storeProducts "Volume" 2 none = .ok out ∧
        out.length = min (2 : Int).toNat
          (storeProducts.products.filter (fun p => p.active)).length :=
  ⟨by decide,
    (C21_product_leaderboard_ranked storeProducts "Volume" 0).1 (by decide) none,
    ((C21_product_leaderboard_ranked storeProducts "Volume" 2).2 (by decide)).elim
      (fun out h => ⟨out, h.1, h.2.2.1⟩)⟩

/-! ## The on-demand refresh of an unknown merchant -/

theorem GetMerchant_missing (s : Store) (id : String) (fault : Option Nat)
    (h : ∀ m ∈ s.merchants, m.ID ≠ id) :
    GetMerchant s id fault = .error (if failsAt fault 0 then .persistence else .errNoRows) := by
  have hf : s.merchants.find? (fun m => m.ID == id) = none := by
    rw [List.find?_eq_none]
    intro m hm hid
    exact h m hm (by simpa using hid)
  unfold GetMerchant
  split_ifs
  · rfl
  · rw [hf]

/-- C24: for a merchant id that no row of the merchant table has, `RefreshMerchant`
returns `sql.ErrNoRows` (an error of the storage when the lookup itself fails), makes no
call of `fetch` and leaves the store as it was. -/
theorem C24_refresh_unknown_merchant (parseTime : String → Option Time) (s : Store)
    (merchantID : String) (getFault : Option Nat) (run : PollRun)
    (h : ∀ m ∈ s.merchants, m.ID ≠ merchantID) :
    RefreshMerchant parseTime s merchantID none run =
      { store := s, err := some (.store .errNoRows), fetches := 0 } ∧
    (RefreshMerchant parseTime s merchantID getFault run).store = s ∧
    (RefreshMerchant parseTime s merchantID getFault run).fetches = 0 ∧
    ((RefreshMerchant parseTime s merchantID getFault run).err = some (.store .errNoRows) ∨
      (RefreshMerchant parseTime s merchantID getFault run).err = some (.store .persistence)) := by
  have h0 := GetMerchant_missing s merchantID none h
  have h1 := GetMerchant_missing s merchantID getFault h
  simp only [failsAt_none, Bool.false_eq_true, if_false] at h0
  refine ⟨?_, ?_, ?_, ?_⟩
  · simp only [RefreshMerchant, h0]
  · simp only [RefreshMerchant, h1]
  · simp only [RefreshMerchant, h1]
  · simp only [RefreshMerchant, h1]
    by_cases hf : failsAt getFault 0 = true
    · exact Or.inr (by rw [if_pos hf])
    · exact Or.inl (by rw [if_neg hf])

/-- Instance of C24: the store `storeM2` has the merchant "m2" only; a refresh of
"ghost" returns `sql.ErrNoRows` without a fetch, whereas a refresh of "m2" fetches and
stores the sale of the snapshot. -/
theorem C24_refresh_unknown_witness :
    (∀ m ∈ storeM2.merchants, m.ID ≠ "ghost") ∧
      RefreshMerchant parseTimeEpoch storeM2 "ghost" none (cleanRun snapshotSale) =
        { store := storeM2, err := some (.store .errNoRows), fetches := 0 } ∧
      (RefreshMerchant parseTimeEpoch storeM2 "m2" none (cleanRun snapshotSale)).fetches = 1 ∧
      (RefreshMerchant parseTimeEpoch storeM2 "m2" none
        (cleanRun snapshotSale)).store.transactions.length = 1 :=
  ⟨by decide,
    (C24_refresh_unknown_merchant parseTimeEpoch storeM2 "ghost" none (cleanRun snapshotSale)
      (by decide)).1,
    by decide, by decide⟩

/-! ## The ticker endpoint on a store without transactions -/

theorem tickerJoin_no_transactions (s : Store) (h : s.transactions = []) : tickerJoin s = [] := by
  simp only [tickerJoin, h, List.flatMap_nil]

theorem LatestTransactions_no_transactions (s : Store) (limit : Int)
    (h : s.transactions = []) : LatestTransactions s limit none = .ok [] := by
  simp only [LatestTransactions, failsAt_none, Bool.false_eq_true, if_false,
    tickerJoin_no_transactions s h, List.insertionSort, sqlLimit, List.take_nil, ite_self]

/-- C25 does not hold: for a store without transactions, whatever its other tables and
whatever the limit, `LatestTransactions` has no row to append to its `nil` slice, and the
ticker endpoint answers 200 with the body `null`, not `[]`. -/
theorem C25_empty_ticker_is_null (atoi : String → Option Int) (enc : TickerEntry → String)
    (quote : String → String) (errorText : StoreError → String) (tickerLimit : Int)
    (s : Store) (limitParam : String) :
    LatestTransactions { s with transactions := [] }
        (parseIntQuery atoi limitParam tickerLimit) none = .ok [] ∧
      scannedSlice ([] : List TickerEntry) = none ∧
      handleTicker atoi enc quote errorText tickerLimit { s with transactions := [] }
        limitParam none = { status := 200, body := "null\n" } ∧
      ("null\n" : String) ≠ "[]\n" := by
  have h := LatestTransactions_no_transactions { s with transactions := [] }
    (parseIntQuery atoi limitParam tickerLimit) rfl
  refine ⟨h, rfl, ?_, by decide⟩
  simp only [handleTicker, h, scannedSlice, encodeSlice]

/-! ## The admin token check -/

theorem lor_eq_zero (a b : Nat) : a ||| b = 0 ↔ a = 0 ∧ b = 0 := by
  constructor
  · intro h
    have h1 : ∀ i, a.testBit i = false ∧ b.testBit i = false := by
      intro i
      have := congrArg (fun n => Nat.testBit n i) h
      simpa [Nat.testBit_or] using this
    exact ⟨Nat.eq_of_testBit_eq (by intro i; simp [(h1 i).1]),
      Nat.eq_of_testBit_eq (by intro i; simp [(h1 i).2])⟩
  · rintro ⟨rfl, rfl⟩; rfl

theorem foldl_lor_zero (l : List Nat) : ∀ v : Nat,
    l.foldl (fun v d => v ||| d) v = 0 ↔ v = 0 ∧ ∀ d ∈ l, d = 0 := by
  induction l with
  | nil => intro v; simp
  | cons d ds ih =>
    intro v
    rw [List.foldl_cons, ih, lor_eq_zero]
    simp only [List.mem_cons, forall_eq_or_imp, and_assoc]

theorem zipWith_xor_zero : ∀ x y : List Char, x.length = y.length →
    ((∀ d ∈ List.zipWith (fun a b => a.toNat ^^^ b.toNat) x y, d = 0) ↔ x = y)
  | [], [], _ => by simp
  | [], _ :: _, h => by simp at h
  | _ :: _, [], h => by simp at h
  | a :: as, b :: bs, h => by
    have hl : as.length = bs.length := by simpa using h
    have ih := zipWith_xor_zero as bs hl
    simp only [List.zipWith_cons_cons, List.mem_cons, forall_eq_or_imp, Nat.xor_eq_zero, ih,
      List.cons.injEq]
    constructor
    · rintro ⟨h1, h2⟩
      refine ⟨?_, h2⟩
      rw [← Char.ofNat_toNat a, ← Char.ofNat_toNat b, h1]
    · rintro ⟨rfl, h2⟩; exact ⟨rfl, h2⟩

theorem ConstantTimeCompare_eq_one (x y : List Char) : ConstantTimeCompare x y = 1 ↔ x = y := by
  unfold ConstantTimeCompare
  by_cases hl : x.length = y.length
  · rw [if_neg (by simpa using hl)]
    have hz : (List.zipWith (fun a b => a.toNat ^^^ b.toNat) x y).foldl (fun v d => v ||| d) 0 = 0
        ↔ x = y := by
      rw [foldl_lor_zero, zipWith_xor_zero x y hl]
      exact ⟨fun h => h.2, fun h => ⟨rfl, h⟩⟩
    by_cases hxy : x = y
    · rw [if_pos (hz.mpr hxy)]; exact ⟨fun _ => hxy, fun _ => rfl⟩
    · rw [if_neg (fun h => hxy (hz.mp h))]
      exact ⟨fun h => (by cases h), fun h => absurd h hxy⟩
  · rw [if_pos hl]
    constructor
    · intro h; cases h
    · intro h; exact absurd (by rw [h]) hl

theorem toLowerRune_bearer (c x : Char) (hx : x ∈ "bearer ".toList) :
    toLowerRune c = x ↔ c.toLower = x := by
  have hxi : x ≠ 'i' ∧ x ≠ 'k' ∧ x.toNat ≠ 0x130 ∧ x.toNat ≠ 0x212A := by
    have : ∀ y ∈ "bearer ".toList, y ≠ 'i' ∧ y ≠ 'k' ∧ y.toNat ≠ 0x130 ∧ y.toNat ≠ 0x212A := by
      decide
    exact this x hx
  unfold toLowerRune
  by_cases h1 : c.toNat = 0x130
  · have hc : c = Char.ofNat 0x130 := by rw [← h1, Char.ofNat_toNat]
    rw [if_pos h1]
    constructor
    · intro h; exact absurd h.symm hxi.1
    · intro h
      have hl : (Char.ofNat 0x130).toLower = Char.ofNat 0x130 := by decide
      rw [hc, hl] at h
      exact absurd (by rw [← h]; decide) hxi.2.2.1
  · rw [if_neg h1]
    by_cases h2 : c.toNat = 0x212A
    · have hc : c = Char.ofNat 0x212A := by rw [← h2, Char.ofNat_toNat]
      rw [if_pos h2]
      constructor
      · intro h; exact absurd h.symm hxi.2.1
      · intro h
        have hl : (Char.ofNat 0x212A).toLower = Char.ofNat 0x212A := by decide
        rw [hc, hl] at h
        exact absurd (by rw [← h]; decide) hxi.2.2.2
    · rw [if_neg h2]

theorem map_toLowerRune_bearer : ∀ (l p : List Char), (∀ x ∈ p, x ∈ "bearer ".toList) →
    (l.map toLowerRune = p ↔ l.map Char.toLower = p)
  | [], _, _ => Iff.rfl
  | c :: cs, [], _ => by simp
  | c :: cs, x :: xs, h => by
    have ih := map_toLowerRune_bearer cs xs (fun y hy => h y (List.mem_cons_of_mem _ hy))
    simp only [List.map_cons, List.cons.injEq, ih,
      toLowerRune_bearer c x (h x (List.mem_cons_self _ _))]

theorem isPrefixOf_iff_take (p l : List Char) :
    p.isPrefixOf l = true ↔ l.take p.length = p := by
  rw [List.isPrefixOf_iff_prefix, List.prefix_iff_eq_take]
  exact ⟨fun h => h.symm, fun h => h.symm⟩

theorem bearer_iff (auth : String) :
    ("bearer ".toList).isPrefixOf (ToLower auth).toList = true ↔ hasBearer auth := by
  rw [isPrefixOf_iff_take]
  have h7 : ("bearer ".toList).length = 7 := by decide
  rw [h7]
  show (auth.toList.map toLowerRune).take 7 = "bearer ".toList ↔ _
  rw [← List.map_take, hasBearer]
  exact map_toLowerRune_bearer _ _ (fun x hx => hx)

theorem extractToken_bearer (r : Request) (h : hasBearer r.Authorization) :
    extractToken r = String.mk (TrimSpace (r.Authorization.toList.drop 7)) := by
  unfold extractToken
  rw [if_pos ((bearer_iff _).mpr h)]

theorem extractToken_other (r : Request) (h : ¬ hasBearer r.Authorization) :
    extractToken r = r.XAdminToken := by
  unfold extractToken
  rw [if_neg (fun hb => h ((bearer_iff _).mp hb))]
  by_cases hx : r.XAdminToken = ""
  · rw [if_neg (not_not.mpr hx), hx]
  · rw [if_pos hx]

theorem authMiddleware_iff (quote : String → String) (adminToken : String) (r : Request) :
    authMiddleware quote adminToken r = .passedOn ↔
      extractToken r ≠ "" ∧ extractToken r = adminToken := by
  have hc : ConstantTimeCompare (extractToken r).toList adminToken.toList = 1 ↔
      extractToken r = adminToken := by
    rw [ConstantTimeCompare_eq_one]
    constructor
    · intro h; exact String.ext h
    · intro h; rw [h]
  unfold authMiddleware
  constructor
  · intro h
    split at h
    · cases h
    · rename_i hn
      rw [not_or, not_not] at hn
      exact ⟨hn.1, hc.mp hn.2⟩
  · rintro ⟨h1, h2⟩
    rw [if_neg]
    rw [not_or, not_not]
    exact ⟨h1, hc.mpr h2⟩

/-- C26: `authMiddleware` calls the wrapped handler if and only if the token extracted from
the request is not empty and equals the configured admin token; otherwise it answers
with status 401 itself.  The extracted token is the trimmed text after the first seven
runes of the Authorization header when these are `bearer ` in any ASCII case, and the
X-Admin-Token header otherwise. -/
theorem C26_admin_token_guards_handler (quote : String → String) (adminToken : String)
    (r : Request) :
    (authMiddleware quote adminToken r = .passedOn ↔
      extractToken r ≠ "" ∧ extractToken r = adminToken) ∧
    (¬ (extractToken r ≠ "" ∧ extractToken r = adminToken) →
      ∃ resp, authMiddleware quote adminToken r = .answered resp ∧ resp.status = 401) ∧
    (hasBearer r.Authorization →
      extractToken r = String.mk (TrimSpace (r.Authorization.toList.drop 7))) ∧
    (¬ hasBearer r.Authorization → extractToken r = r.XAdminToken) := by
  refine ⟨authMiddleware_iff quote adminToken r, ?_, extractToken_bearer r,
    extractToken_other r⟩
  intro hn
  have hne : authMiddleware quote adminToken r ≠ .passedOn :=
    fun h => hn ((authMiddleware_iff quote adminToken r).mp h)
  unfold authMiddleware at hne ⊢
  split
  · exact ⟨_, rfl, rfl⟩
  · rename_i h
    rw [if_neg h] at hne
    exact absurd rfl hne

/-- Instance of C26 (`TestAdminAuthMiddleware`): with the admin token `test-token` a
request with `Authorization: BEARER test-token` reaches the handler, as does one with the
token in `X-Admin-Token`; a wrong token, no token, and an empty bearer token next to a
valid `X-Admin-Token` are answered with 401. -/
theorem C26_admin_token_witness :
    authMiddleware (fun t => t) "test-token"
        { Authorization := "BEARER  test-token ", XAdminToken := "" } = .passedOn ∧
      authMiddleware (fun t => t) "test-token"
        { Authorization := "", XAdminToken := "test-token" } = .passedOn ∧
      authMiddleware (fun t => t) "test-token"
        { Authorization := "Bearer wrong-token", XAdminToken := "" } ≠ .passedOn ∧
      authMiddleware (fun t => t) "test-token"
        { Authorization := "", XAdminToken := "" } ≠ .passedOn ∧
      authMiddleware (fun t => t) "test-token"
        { Authorization := "Bearer ", XAdminToken := "test-token" } ≠ .passedOn :=
  ⟨(C26_admin_token_guards_handler (fun t => t) "test-token"
      { Authorization := "BEARER  test-token ", XAdminToken := "" }).1.mpr
      ⟨by decide, by decide⟩,
    by decide, by decide, by decide, by decide⟩

/-! ## The number of workers -/

/-- C27 does not hold: `main` builds the poller from a configuration without handing over
`PollConcurrency`, so that `NewPoller` falls back to 5 and a cycle over n merchants uses
min(5, n) workers.  With the valid configuration `configTwoWorkers`, whose poll
concurrency is 2, a cycle over 3 merchants uses 3 workers instead of 2. -/
theorem C27_worker_count_ignores_configuration (cfg : config.Config) (n : Int) :
    (NewPoller (mainPollerConfig cfg)).concurrency = 5 ∧
      workerCount (NewPoller (mainPollerConfig cfg)) n = min 5 n ∧
      configTwoWorkers.Validate = true ∧
      configTwoWorkers.PollConcurrency = 2 ∧
      (mainPoller configTwoWorkers).map (fun p => workerCount p 3) = some 3 ∧
      min configTwoWorkers.PollConcurrency 3 = 2 := by
  have hc : (NewPoller (mainPollerConfig cfg)).concurrency = 5 := by
    simp only [NewPoller, mainPollerConfig, le_refl, if_true]
  refine ⟨hc, ?_, by decide, rfl, by decide, by decide⟩
  unfold workerCount
  rw [hc]
  by_cases h : (5 : Int) > n
  · rw [if_pos h]; exact (min_eq_right (le_of_lt h)).symm
  · rw [if_neg h]; exact (min_eq_left (not_lt.mp h)).symm

/-! ## The last-polled time -/

theorem RecordTransactions_merchants (s : Store) (now : Time) (m : String)
    (batch : List TransactionInput) (fault : Option Nat) (n : Int) (s1 : Store)
    (h : RecordTransactions s now m batch fault = .ok (n, s1)) : s1.merchants = s.merchants := by
  rw [(RecordTransactions_ok s now m batch fault n s1 h).1]

theorem UpsertProducts_merchants (s : Store) (now : Time) (m : String)
    (ps : List ProductSnapshot) (fault : Option Nat) (s1 : Store)
    (h : UpsertProducts s now m ps fault = .ok s1) : s1.merchants = s.merchants := by
  obtain ⟨rows, hr⟩ := UpsertProducts_ok s now m ps fault s1 h
  rw [hr]

theorem ProcessMilestones_merchants (s : Store) (now : Time) (fault : Option Nat)
    (out : List MilestoneTrigger) (s1 : Store)
    (h : ProcessMilestones s now fault = .ok (out, s1)) : s1.merchants = s.merchants := by
  obtain ⟨_, _, _, _, hs1⟩ := ProcessMilestones_ok s now fault out s1 h
  rw [hs1]

theorem UpdateMerchantPollTime_ok (s : Store) (id : String) (ts : Time) (fault : Option Nat)
    (s1 : Store) (h : UpdateMerchantPollTime s id ts fault = .ok s1) :
    s1.merchants = s.merchants.map (fun m =>
      if m.ID == id then { m with LastPolledAt := some ts, UpdatedAt := ts } else m) := by
  unfold UpdateMerchantPollTime at h
  split at h
  · cases h
  · simp only [Except.ok.injEq] at h
    rw [← h]

theorem pollTime_set (ms : List Merchant) (id : String) (ts : Time) :
    ∀ m ∈ ms.map (fun m =>
        if m.ID == id then { m with LastPolledAt := some ts, UpdatedAt := ts } else m),
      m.ID = id → m.LastPolledAt = some ts := by
  intro m hm hid
  obtain ⟨m0, _, rfl⟩ := List.mem_map.mp hm
  by_cases h0 : m0.ID = id
  · simp only [h0, beq_self_eq_true, if_true]
  · have : (m0.ID == id) = false := by simpa using h0
    simp only [this, Bool.false_eq_true, if_false] at hid
    exact absurd hid h0

/-- A unit that does not get as far as the evaluator fails and leaves the poll times. -/
theorem pollMerchant_before_evaluator (parseTime : String → Option Time) (s : Store)
    (merchant : Merchant) (run : PollRun)
    (h : storeAtEvaluator parseTime s merchant run = none) :
    (pollMerchant parseTime s merchant run).2 ≠ none ∧
      pollTimes (pollMerchant parseTime s merchant run).1 = pollTimes s := by
  unfold storeAtEvaluator at h
  unfold pollMerchant
  cases hf : run.fetched with
  | error e => exact ⟨by simp, rfl⟩
  | ok payload =>
    simp only [hf] at h ⊢
    cases hn : normalizeSales parseTime payload.Sales with
    | error e => exact ⟨by simp, rfl⟩
    | ok txs =>
      simp only [hn] at h ⊢
      cases hr : RecordTransactions s run.recordNow merchant.ID txs run.recordFault with
      | error e => exact ⟨by simp, rfl⟩
      | ok r1 =>
        obtain ⟨n, s1⟩ := r1
        have hm1 := RecordTransactions_merchants _ _ _ _ _ _ _ hr
        simp only [hr] at h ⊢
        cases hp : normalizeProducts payload.Products with
        | error e => exact ⟨by simp, by simp only [pollTimes, hm1]⟩
        | ok snaps =>
          simp only [hp] at h ⊢
          cases hu : UpsertProducts s1 run.upsertNow merchant.ID snaps run.upsertFault with
          | error e => exact ⟨by simp, by simp only [pollTimes, hm1]⟩
          | ok s2 =>
            have hm2 := UpsertProducts_merchants _ _ _ _ _ _ hu
            simp only [hu] at h ⊢
            cases ht : UpdateMerchantPollTime s2 merchant.ID run.pollTime run.pollTimeFault with
            | error e => exact ⟨by simp, by simp only [pollTimes, hm2, hm1]⟩
            | ok s3 => simp only [ht] at h; cases h

/-- A unit that gets as far as the evaluator has set the poll time by then. -/
theorem pollMerchant_at_evaluator (parseTime : String → Option Time) (s : Store)
    (merchant : Merchant) (run : PollRun) (s3 : Store)
    (h : storeAtEvaluator parseTime s merchant run = some s3) :
    (pollMerchant parseTime s merchant run).1.merchants = s3.merchants ∧
      (∀ m ∈ s3.merchants, m.ID = merchant.ID → m.LastPolledAt = some run.pollTime) ∧
      ((pollMerchant parseTime s merchant run).2 ≠ none ↔
        ∃ e, ProcessMilestones s3 run.milestoneNow run.milestoneFault = .error e) := by
  unfold storeAtEvaluator at h
  unfold pollMerchant
  cases hf : run.fetched with
  | error e => simp only [hf] at h; cases h
  | ok payload =>
    simp only [hf] at h ⊢
    cases hn : normalizeSales parseTime payload.Sales with
    | error e => simp only [hn] at h; cases h
    | ok txs =>
      simp only [hn] at h ⊢
      cases hr : RecordTransactions s run.recordNow merchant.ID txs run.recordFault with
      | error e => simp only [hr] at h; cases h
      | ok r1 =>
        obtain ⟨n, s1⟩ := r1
        simp only [hr] at h ⊢
        cases hp : normalizeProducts payload.Products with
        | error e => simp only [hp] at h; cases h
        | ok snaps =>
          simp only [hp] at h ⊢
          cases hu : UpsertProducts s1 run.upsertNow merchant.ID snaps run.upsertFault with
          | error e => simp only [hu] at h; cases h
          | ok s2 =>
            simp only [hu] at h ⊢
            cases ht : UpdateMerchantPollTime s2 merchant.ID run.pollTime run.pollTimeFault with
            | error e => simp only [ht] at h; cases h
            | ok s3' =>
              simp only [ht, Option.some.injEq] at h ⊢
              subst h
              have hset : ∀ m ∈ s3'.merchants, m.ID = merchant.ID →
                  m.LastPolledAt = some run.pollTime := by
                rw [UpdateMerchantPollTime_ok _ _ _ _ _ ht]
                exact pollTime_set _ _ _
              cases hpm : ProcessMilestones s3' run.milestoneNow run.milestoneFault with
              | error e => exact ⟨rfl, hset, by simp⟩
              | ok r4 =>
                obtain ⟨out, s4⟩ := r4
                exact ⟨ProcessMilestones_merchants _ _ _ _ _ hpm, hset, by simp⟩

theorem UpsertMerchant_pollTimes (s : Store) (now : Time) (m : Merchant) (fault : Option Nat)
    (h : ∃ r ∈ s.merchants, r.ID = m.ID) :
    pollTimes (afterCall s (UpsertMerchant s now m fault)) = pollTimes s := by
  have ha : s.merchants.any (fun r => r.ID == m.ID) = true := by
    simpa only [List.any_eq_true, beq_iff_eq] using h
  simp only [UpsertMerchant, ha, if_true]
  split
  · rfl
  · simp only [afterCall, pollTimes, List.map_map]
    apply List.map_congr_left
    intro r _
    simp only [Function.comp]
    split <;> rfl

theorem UpdateMerchant_pollTimes (s : Store) (now : Time) (m : Merchant) (fault : Option Nat) :
    pollTimes (afterCall s (UpdateMerchant s now m fault)) = pollTimes s := by
  unfold UpdateMerchant
  split
  · rfl
  · split
    · rfl
    · simp only [afterCall, pollTimes, List.map_map]
      apply List.map_congr_left
      intro r _
      simp only [Function.comp]
      split <;> rfl

/-- C28 (amended): a unit of work that fails in the fetch, the normalisation,
`RecordTransactions`, `UpsertProducts` or `UpdateMerchantPollTime` leaves the last-polled
time of every merchant as it was.  A unit that gets as far as the milestone evaluator
has set the merchant's last-polled time to the poll time by then, and keeps it whether
the evaluator fails or not: the unit returns an error exactly when the evaluator does.
`UpsertMerchant` on an existing merchant and `UpdateMerchant` leave every last-polled
time as it was. -/
theorem C28_poll_time_of_failed_units (parseTime : String → Option Time) (s : Store)
    (merchant : Merchant) (run : PollRun) (now : Time) (m : Merchant) (fault : Option Nat) :
    (storeAtEvaluator parseTime s merchant run = none →
      (pollMerchant parseTime s merchant run).2 ≠ none ∧
      pollTimes (pollMerchant parseTime s merchant run).1 = pollTimes s) ∧
    (∀ s3, storeAtEvaluator parseTime s merchant run = some s3 →
      (∀ r ∈ (pollMerchant parseTime s merchant run).1.merchants, r.ID = merchant.ID →
        r.LastPolledAt = some run.pollTime) ∧
      ((pollMerchant parseTime s merchant run).2 ≠ none ↔
        ∃ e, ProcessMilestones s3 run.milestoneNow run.milestoneFault = .error e)) ∧
    ((∃ r ∈ s.merchants, r.ID = m.ID) →
      pollTimes (afterCall s (UpsertMerchant s now m fault)) = pollTimes s) ∧
    pollTimes (afterCall s (UpdateMerchant s now m fault)) = pollTimes s := by
  refine ⟨pollMerchant_before_evaluator parseTime s merchant run, ?_,
    UpsertMerchant_pollTimes s now m fault, UpdateMerchant_pollTimes s now m fault⟩
  intro s3 h3
  obtain ⟨h1, h2, h4⟩ := pollMerchant_at_evaluator parseTime s merchant run s3 h3
  exact ⟨by rw [h1]; exact h2, h4⟩

/-- Counterexample to C28 as stated: the unit of merchant "m2" on `storeM2` in which only
the evaluator fails returns an error, and the last-polled time of "m2", unset before, is
the poll time 12 after it. -/
theorem C28_counterexample_evaluator_fails :
    (pollMerchant parseTimeEpoch storeM2 merchantM2 (evaluatorFails snapshotSale)).2 =
        some (.store .persistence) ∧
      pollTimes storeM2 = [("m2", none)] ∧
      pollTimes (pollMerchant parseTimeEpoch storeM2 merchantM2
        (evaluatorFails snapshotSale)).1 = [("m2", some 12)] := by
  decide

/-- Instance of C28: a unit of "m2" whose `UpdateMerchantPollTime` fails leaves the poll
times of `storeM2`, and so does an `UpsertMerchant` that renames "m2". -/
theorem C28_poll_time_witness :
    storeAtEvaluator parseTimeEpoch storeM2 merchantM2
        { cleanRun snapshotSale with pollTimeFault := some 0 } = none ∧
      pollTimes (pollMerchant parseTimeEpoch storeM2 merchantM2
        { cleanRun snapshotSale with pollTimeFault := some 0 }).1 = pollTimes storeM2 ∧
      pollTimes (afterCall storeM2
        (UpsertMerchant storeM2 20 { merchantM2 with Alias := "Renamed" } none)) =
          pollTimes storeM2 :=
  have h := C28_poll_time_of_failed_units parseTimeEpoch storeM2 merchantM2
    { cleanRun snapshotSale with pollTimeFault := some 0 } 20
    { merchantM2 with Alias := "Renamed" } none
  ⟨by decide, (h.1 (by decide)).2, h.2.2.1 (by decide)⟩

/-! ## UpdateMilestone: the trigger state -/

/-- The store `UpdateMilestone` leaves: the one it found, or the one with the rows of the
id rewritten. -/
theorem UpdateMilestone_store (s : Store) (now : Time) (id : Int) (u : Milestone)
    (reset : Bool) (fault : Option Nat) :
    ((UpdateMilestone s now id u reset fault).1 = s ∧
      (knownType (ToLower u.Typ) → failsAt fault 0 = false → ∀ r ∈ s.milestones, r.id ≠ id) ∧
      ∀ r, (UpdateMilestone s now id u reset fault).2 ≠ .ok r) ∨
    (UpdateMilestone s now id u reset fault).1 =
      { s with milestones := s.milestones.map (fun r =>
          if r.id == id then
            { r with name := u.Name, typ := ToLower u.Typ, threshold := u.Threshold,
                     enabled := u.Enabled, updated_at := now,
                     triggered_at := if reset then none else r.triggered_at }
          else r) } := by
  unfold UpdateMilestone
  split
  · rename_i hv
    refine Or.inl ⟨rfl, ?_, fun r h => by cases h⟩
    intro hk
    have := (validate_iff_known _).mpr hk
    rw [this] at hv
    cases hv
  · split
    · rename_i hf
      refine Or.inl ⟨rfl, ?_, fun r h => by cases h⟩
      intro _ hf0
      rw [hf0] at hf
      cases hf
    · split
      · rename_i ha
        refine Or.inl ⟨rfl, ?_, fun r h => by cases h⟩
        intro _ _
        exact (any_id_false _ _).mp (by simpa using ha)
      · exact Or.inr rfl

theorem rewritten_states (rows : List MilestoneRow) (now : Time) (id : Int) (u : Milestone) :
    (rows.map (fun r =>
      if r.id == id then
        { r with name := u.Name, typ := ToLower u.Typ, threshold := u.Threshold,
                 enabled := u.Enabled, updated_at := now,
                 triggered_at := if false then none else r.triggered_at }
      else r)).map (fun r => (r.id, r.triggered_at)) =
      rows.map (fun r => (r.id, r.triggered_at)) := by
  rw [List.map_map]
  apply List.map_congr_left
  intro r _
  simp only [Function.comp]
  split <;> rfl

theorem rewritten_pending (rows : List MilestoneRow) (now : Time) (id : Int) (u : Milestone) :
    ∀ row ∈ rows.map (fun r =>
      if r.id == id then
        { r with name := u.Name, typ := ToLower u.Typ, threshold := u.Threshold,
                 enabled := u.Enabled, updated_at := now,
                 triggered_at := if true then none else r.triggered_at }
      else r), row.id = id → row.triggered_at = none := by
  intro row hrow hid
  obtain ⟨r0, _, rfl⟩ := List.mem_map.mp hrow
  by_cases h0 : r0.id = id
  · simp only [h0, beq_self_eq_true, if_true]
  · have : (r0.id == id) = false := by simpa using h0
    simp only [this, Bool.false_eq_true, if_false] at hid
    exact absurd hid h0

theorem rewritten_others (rows : List MilestoneRow) (f : MilestoneRow → MilestoneRow) (id : Int)
    (hf : ∀ r, (f r).id = r.id) (row : MilestoneRow) (hrow : row.id ≠ id) :
    row ∈ rows.map (fun r => if r.id == id then f r else r) ↔ row ∈ rows := by
  constructor
  · intro h
    obtain ⟨r0, hr0, rfl⟩ := List.mem_map.mp h
    by_cases h0 : r0.id = id
    · have hb : (r0.id == id) = true := by simpa using h0
      rw [if_pos hb] at hrow
      rw [hf] at hrow
      exact absurd h0 hrow
    · have : ¬ ((r0.id == id) = true) := by simpa using h0
      rw [if_neg this]; exact hr0
  · intro h
    refine List.mem_map.mpr ⟨row, h, ?_⟩
    have : ¬ ((row.id == id) = true) := by simpa using hrow
    rw [if_neg this]

theorem UpdateMilestone_triggers (s : Store) (now : Time) (id : Int) (u : Milestone)
    (reset : Bool) (fault : Option Nat) :
    (UpdateMilestone s now id u reset fault).1.triggers = s.triggers := by
  rcases UpdateMilestone_store s now id u reset fault with h | h
  · rw [h.1]
  · rw [h]

/-- What `UpdateMilestone` hands back is read from the first row with the id. -/
theorem UpdateMilestone_returned (s : Store) (now : Time) (id : Int) (u : Milestone)
    (reset : Bool) (fault : Option Nat) (r : Milestone)
    (h : (UpdateMilestone s now id u reset fault).2 = .ok r) :
    ∃ row ∈ (UpdateMilestone s now id u reset fault).1.milestones,
      row.id = id ∧ r.Triggered = row.triggered_at.isSome ∧ r.TriggeredAt = row.triggered_at := by
  unfold UpdateMilestone at h ⊢
  split at h
  · cases h
  · rename_i hv
    split at h
    · cases h
    · rename_i h0
      split at h
      · cases h
      · rename_i ha
        simp only [hv, h0, ha, if_false]
        simp only [GetMilestone] at h
        split at h
        · cases h
        · split at h
          · cases h
          · split at h
            · cases h
            · rename_i row hf
              have hmem := List.mem_of_find?_eq_some hf
              have hi : row.id = id := by simpa using List.find?_some hf
              simp only [Except.ok.injEq] at h
              exact ⟨row, hmem, hi, by rw [← h], by rw [← h]⟩

/-- C29 (amended): `UpdateMilestone` never touches the trigger log.  With reset = false it leaves
the trigger state of every milestone as it was, whatever the new name, type, threshold
and enabled flag, and the milestone it returns is Triggered exactly when the stored one
was, with the same instant.  With reset = true, a valid type and an `UPDATE` that meets no
storage fault, the milestone with the id is Pending afterwards, the other rows are the
rows there were, and the milestone returned is Pending.  With a valid type, an id that
exists and no storage fault the call succeeds. -/
theorem C29_update_keeps_or_resets_trigger_state (s : Store) (now : Time) (id : Int)
    (u : Milestone) (fault : Option Nat) :
    (∀ reset, (UpdateMilestone s now id u reset fault).1.triggers = s.triggers) ∧
    triggerStates (UpdateMilestone s now id u false fault).1 = triggerStates s ∧
    (∀ r, (UpdateMilestone s now id u false fault).2 = .ok r →
      ∃ row ∈ s.milestones, row.id = id ∧ r.Triggered = row.triggered_at.isSome ∧
        r.TriggeredAt = row.triggered_at) ∧
    (knownType (ToLower u.Typ) → failsAt fault 0 = false →
      ∀ row ∈ (UpdateMilestone s now id u true fault).1.milestones,
        row.id = id → row.triggered_at = none) ∧
    (∀ row, row.id ≠ id →
      (row ∈ (UpdateMilestone s now id u true fault).1.milestones ↔ row ∈ s.milestones)) ∧
    (∀ r, (UpdateMilestone s now id u true fault).2 = .ok r →
      r.Triggered = false ∧ r.TriggeredAt = none) ∧
    (knownType (ToLower u.Typ) → (∃ row ∈ s.milestones, row.id = id) →
      ∀ reset, ∃ r, (UpdateMilestone s now id u reset none).2 = .ok r) := by
  have hkeep : triggerStates (UpdateMilestone s now id u false fault).1 = triggerStates s := by
    rcases UpdateMilestone_store s now id u false fault with h | h
    · rw [h.1]
    · rw [h]; exact rewritten_states s.milestones now id u
  refine ⟨fun reset => UpdateMilestone_triggers s now id u reset fault, hkeep, ?_, ?_, ?_, ?_, ?_⟩
  · intro r hr
    obtain ⟨row, hrow, hid, h1, h2⟩ := UpdateMilestone_returned s now id u false fault r hr
    have hmem : (row.id, row.triggered_at) ∈ triggerStates s := by
      rw [← hkeep]; exact List.mem_map.mpr ⟨row, hrow, rfl⟩
    obtain ⟨row0, hrow0, heq⟩ := List.mem_map.mp hmem
    simp only [Prod.mk.injEq] at heq
    exact ⟨row0, hrow0, heq.1.trans hid, by rw [h1, heq.2], by rw [h2, heq.2]⟩
  · intro hk hf row hrow hid
    rcases UpdateMilestone_store s now id u true fault with h | h
    · rw [h.1] at hrow
      exact absurd hid (h.2.1 hk hf row hrow)
    · rw [h] at hrow
      exact rewritten_pending s.milestones now id u row hrow hid
  · intro row hne
    rcases UpdateMilestone_store s now id u true fault with h | h
    · rw [h.1]
    · rw [h]
      exact rewritten_others s.milestones (fun r =>
        { r with name := u.Name, typ := ToLower u.Typ, threshold := u.Threshold,
                 enabled := u.Enabled, updated_at := now,
                 triggered_at := if true then none else r.triggered_at })
        id (fun r => rfl) row hne
  · intro r hr
    obtain ⟨row, hrow, hid, h1, h2⟩ := UpdateMilestone_returned s now id u true fault r hr
    have hnone : row.triggered_at = none := by
      rcases UpdateMilestone_store s now id u true fault with h | h
      · exact absurd hr (h.2.2 r)
      · rw [h] at hrow
        exact rewritten_pending s.milestones now id u row hrow hid
    rw [h1, h2, hnone]
    exact ⟨rfl, rfl⟩
  · intro hk hex reset
    obtain ⟨r, hr, _⟩ := UpdateMilestone_present s now id u reset hk hex
    exact ⟨r, hr⟩

/-- Counterexample to C29 as stated: with the new type "sales" the update with reset = true
of the Triggered milestone of `storeTriggered` is rejected, and the milestone stays
Triggered. -/
theorem C29_counterexample_invalid_type :
    UpdateMilestone storeTriggered 9 1 { volume5000 with Typ := "sales" } true none =
        (storeTriggered, .error .invalidMilestoneType) ∧
      triggerStates storeTriggered = [(1, some 4)] := by
  decide

/-- Instance of C29: the milestone of `storeTriggered` was triggered at instant 4 by a
volume of 550.  Raising its threshold to 5000 without a reset leaves it Triggered at 4;
the same update with a reset makes it Pending, and the trigger record stays in the log. -/
theorem C29_update_witness :
    triggerStates storeTriggered = [(1, some 4)] ∧
      triggerStates (UpdateMilestone storeTriggered 9 1 volume5000 false none).1 =
        triggerStates storeTriggered ∧
      triggerStates (UpdateMilestone storeTriggered 9 1 volume5000 true none).1 = [(1, none)] ∧
      (UpdateMilestone storeTriggered 9 1 volume5000 true none).1.triggers =
        storeTriggered.triggers ∧
      storeTriggered.triggers.length = 1 :=
  have h := C29_update_keeps_or_resets_trigger_state storeTriggered 9 1 volume5000 none
  ⟨by decide, h.2.1, by decide, h.1 true, by decide⟩

/-! ## The trigger log: every record satisfies its predicate -/

theorem newTrigger_holds (k : Int) (now : Time) (tx vol : Int) (c : candidate)
    (h : fires tx vol c = true) : triggerHolds (newTrigger k now tx vol c) := by
  simp only [fires, condition, beq_iff_eq] at h
  simp only [triggerHolds, newTrigger]
  constructor
  · intro ht
    rw [if_pos ht] at h
    simpa using h
  · intro hv
    have hne : c.typ ≠ MilestoneTransactions := by rw [hv]; decide
    rw [if_neg hne, if_pos hv] at h
    simpa using h

theorem writeTriggers_holds (s : Store) (now : Time) (fault : Option Nat)
    (r : Int × Int × List candidate) (out : List MilestoneTrigger) (s1 : Store)
    (hinv : ∀ t ∈ s.triggers, triggerHolds t)
    (h : writeTriggers s now fault r = .ok (out, s1)) :
    ∀ t ∈ s1.triggers, triggerHolds t := by
  obtain ⟨tx, vol, cs⟩ := r
  obtain ⟨_, hs1⟩ := writeTriggers_ok s now fault tx vol cs out s1 h
  rw [hs1]
  intro t ht
  rcases List.mem_append.mp ht with h1 | h1
  · exact hinv t h1
  · obtain ⟨c, _, hf, k, rfl⟩ := firedTriggers_mem now tx vol cs _ t h1
    exact newTrigger_holds k now tx vol c hf

theorem ProcessMilestones_holds (s : Store) (now : Time) (fault : Option Nat)
    (hinv : ∀ t ∈ s.triggers, triggerHolds t) :
    ∀ t ∈ (afterProcess s (ProcessMilestones s now fault)).triggers, triggerHolds t := by
  cases hp : ProcessMilestones s now fault with
  | error e => exact hinv
  | ok res =>
    obtain ⟨out, s1⟩ := res
    unfold ProcessMilestones at hp
    cases hr : readCandidates s fault with
    | error e => rw [hr] at hp; cases hp
    | ok r =>
      rw [hr] at hp
      exact writeTriggers_holds s now fault r out s1 hinv hp

theorem Call_run_triggers (s : Store) (c : Call) :
    (c.run s).triggers = s.triggers ∨
      ∃ now fault, c = .processMilestones now fault := by
  cases c with
  | upsertMerchant now m fault =>
    left
    simp only [Call.run, UpsertMerchant, afterCall]
    split_ifs <;> rfl
  | updateMerchant now m fault =>
    left
    simp only [Call.run, UpdateMerchant, afterCall]
    split_ifs <;> rfl
  | updateMerchantPollTime mid ts fault =>
    left
    simp only [Call.run, UpdateMerchantPollTime, afterCall]
    split_ifs <;> rfl
  | recordTransactions now m txns fault =>
    left; exact (afterRecord_frame s now m txns fault).2.1
  | upsertProducts now m ps fault =>
    left; exact (afterUpsertProducts_frame s now m ps fault).2.1
  | upsertMilestone now m fault =>
    left
    simp only [Call.run, UpsertMilestone, afterUpsertMilestone]
    split_ifs <;> rfl
  | updateMilestone now id u reset fault =>
    left; exact UpdateMilestone_triggers s now id u reset fault
  | processMilestones now fault => right; exact ⟨now, fault, rfl⟩

theorem holds_run (s : Store) (c : Call) (hinv : ∀ t ∈ s.triggers, triggerHolds t) :
    ∀ t ∈ (c.run s).triggers, triggerHolds t := by
  rcases Call_run_triggers s c with h | ⟨now, fault, rfl⟩
  · rw [h]; exact hinv
  · exact ProcessMilestones_holds s now fault hinv

theorem holds_runCalls (cs : List Call) :
    ∀ s : Store, (∀ t ∈ s.triggers, triggerHolds t) →
      ∀ t ∈ (runCalls s cs).triggers, triggerHolds t := by
  induction cs with
  | nil => intro s h; exact h
  | cons c rest ih => intro s h; exact ih (c.run s) (holds_run s c h)

/-- C30: in every store reached from the empty one by calls of the writing methods,
updates and resets of milestones included, every record of the trigger log satisfies its
own predicate: with type "transactions" its TotalTransactions, with type "volume" its
TotalVolumeSats is at least its recorded Threshold.  The write transaction of the
evaluator keeps this even when it runs on a store that other writers have changed since
the evaluator read its totals and candidates. -/
theorem C30_trigger_records_hold (cs : List Call) :
    (∀ t ∈ (runCalls Store.empty cs).triggers,
      (t.Typ = "transactions" → t.TotalTransactions ≥ t.Threshold) ∧
      (t.Typ = "volume" → t.TotalVolumeSats ≥ t.Threshold)) ∧
    (∀ (s : Store) (now : Time) (fault : Option Nat) (r : Int × Int × List candidate)
      (out : List MilestoneTrigger) (s1 : Store),
      (∀ t ∈ s.triggers, triggerHolds t) → writeTriggers s now fault r = .ok (out, s1) →
        ∀ t ∈ s1.triggers, triggerHolds t) :=
  ⟨holds_runCalls cs Store.empty (fun t ht => absurd ht (List.not_mem_nil t)),
    fun s now fault r out s1 hinv h => writeTriggers_holds s now fault r out s1 hinv h⟩

/-- Instance of C30: a volume milestone with threshold 500 triggers at a volume of 550;
its threshold is then raised to 5000.  The record in the log still carries the threshold
500 and the volume 550, and satisfies its predicate. -/
theorem C30_trigger_records_witness :
    (runCalls Store.empty
        [.upsertMilestone 2 volume500 none,
         .recordTransactions 3 "m2" sales250and300 none,
         .processMilestones 4 none,
         .updateMilestone 5 1 volume5000 false none]).triggers =
        [{ ID := 1, MilestoneID := 1, Name := "Volume 500", Typ := "volume", Threshold := 500,
           TriggeredAt := 4, TotalTransactions := 2, TotalVolumeSats := 550 }] ∧
      (∀ t ∈ (runCalls Store.empty
          [.upsertMilestone 2 volume500 none,
           .recordTransactions 3 "m2" sales250and300 none,
           .processMilestones 4 none,
           .updateMilestone 5 1 volume5000 false none]).triggers,
        (t.Typ = "transactions" → t.TotalTransactions ≥ t.Threshold) ∧
        (t.Typ = "volume" → t.TotalVolumeSats ≥ t.Threshold)) :=
  ⟨by decide,
    (C30_trigger_records_hold
      [.upsertMilestone 2 volume500 none,
       .recordTransactions 3 "m2" sales250and300 none,
       .processMilestones 4 none,
       .updateMilestone 5 1 volume5000 false none]).1⟩

/-! ## The poll cycle: the steps of one unit -/

theorem filterMap_set_some {α : Type} (u : α) : ∀ (l : List (Option α)) (i : Nat),
    l[i]? = some none →
      ((l.set i (some u)).filterMap (fun w => w)).Perm (u :: l.filterMap (fun w => w))
  | [], i, h => by simp at h
  | w :: ws, 0, h => by
    simp only [List.getElem?_cons_zero, Option.some.injEq] at h
    subst h
    simp only [List.set_cons_zero, List.filterMap_cons]
    exact List.Perm.refl _
  | w :: ws, i + 1, h => by
    simp only [List.getElem?_cons_succ] at h
    have ih := filterMap_set_some u ws i h
    simp only [List.set_cons_succ, List.filterMap_cons]
    cases w with
    | none => exact ih
    | some v => exact (ih.cons v).trans (List.Perm.swap u v _)

theorem filterMap_set_none {α : Type} (u : α) : ∀ (l : List (Option α)) (i : Nat),
    l[i]? = some (some u) →
      (l.filterMap (fun w => w)).Perm (u :: (l.set i none).filterMap (fun w => w))
  | [], i, h => by simp at h
  | w :: ws, 0, h => by
    simp only [List.getElem?_cons_zero, Option.some.injEq] at h
    subst h
    simp only [List.set_cons_zero, List.filterMap_cons]
    exact List.Perm.refl _
  | w :: ws, i + 1, h => by
    simp only [List.getElem?_cons_succ] at h
    have ih := filterMap_set_none u ws i h
    simp only [List.set_cons_succ, List.filterMap_cons]
    cases w with
    | none => exact ih
    | some v => exact (ih.cons v).trans (List.Perm.swap u v _)

theorem getElem?_set_none_self {α : Type} : ∀ (l : List (Option α)) (i : Nat) (w : Option α),
    l[i]? = some w → (l.set i none)[i]? = some none
  | [], i, w, h => by simp at h
  | x :: xs, 0, w, _ => by simp
  | x :: xs, i + 1, w, h => by
    simp only [List.getElem?_cons_succ] at h
    simpa using getElem?_set_none_self xs i w h

theorem filterMap_set_replace {α : Type} (u v : α) (l : List (Option α)) (i : Nat)
    (h : l[i]? = some (some u)) :
    ((l.set i (some v)).filterMap (fun w => w)).Perm
      (v :: (l.set i none).filterMap (fun w => w)) := by
  have h1 := filterMap_set_some v (l.set i none) i (getElem?_set_none_self l i _ h)
  rwa [List.set_set] at h1

theorem unitStep_same (parseTime : String → Option Time) (s : Store) (u : UnitState) :
    (unitStep parseTime s u).2.merchant = u.merchant ∧
      (unitStep parseTime s u).2.run = u.run := by
  unfold unitStep
  split
  · split <;> exact ⟨rfl, rfl⟩
  · split
    · exact ⟨rfl, rfl⟩
    · split
      · exact ⟨rfl, rfl⟩
      · split <;> exact ⟨rfl, rfl⟩
  · split
    · exact ⟨rfl, rfl⟩
    · split <;> exact ⟨rfl, rfl⟩
  · split <;> exact ⟨rfl, rfl⟩
  · split <;> exact ⟨rfl, rfl⟩
  · split <;> exact ⟨rfl, rfl⟩
  · split <;> exact ⟨rfl, rfl⟩

theorem unitStep_remaining (parseTime : String → Option Time) (s : Store) (u : UnitState)
    (h : u.result = none) :
    remaining (unitStep parseTime s u).2 < remaining u := by
  have hr : remaining u = 2 + (6 - u.pc) := by simp only [remaining, h]
  rw [hr]
  unfold unitStep
  split
  · rename_i h0
    split
    · simp only [remaining]; omega
    · simp only [remaining, h, h0]; omega
  · rename_i h0
    split
    · simp only [remaining]; omega
    · split
      · simp only [remaining]; omega
      · split
        · simp only [remaining]; omega
        · simp only [remaining, h, h0]; omega
  · rename_i h0
    split
    · simp only [remaining]; omega
    · split
      · simp only [remaining]; omega
      · simp only [remaining, h, h0]; omega
  · rename_i h0
    split
    · simp only [remaining]; omega
    · simp only [remaining, h, h0]; omega
  · rename_i h0
    split
    · simp only [remaining]; omega
    · simp only [remaining, h, h0]; omega
  · rename_i h0
    split
    · simp only [remaining]; omega
    · simp only [remaining, h, h0]; omega
  · split
    · simp only [remaining]; omega
    · simp only [remaining]; omega

theorem salesStored_mono (parseTime : String → Option Time) (s s1 : Store) (m : Merchant)
    (run : PollRun) (hT : ∀ r ∈ s.transactions, r ∈ s1.transactions)
    (h : salesStored parseTime s m run) : salesStored parseTime s1 m run := by
  obtain ⟨txs, h1, h2⟩ := h
  refine ⟨txs, h1, ?_⟩
  intro t ht
  obtain ⟨r, hr, hk⟩ := h2 t ht
  exact ⟨r, hT r hr, hk⟩

theorem productsStored_congr (s s1 : Store) (m : Merchant) (run : PollRun)
    (hP : ∀ r : ProductRow, r.merchant_id = m.ID → (r ∈ s1.products ↔ r ∈ s.products))
    (h : productsStored s m run) : productsStored s1 m run := by
  obtain ⟨snaps, h1, h2, h3⟩ := h
  refine ⟨snaps, h1, ?_, ?_⟩
  · intro p hp
    obtain ⟨r, hr, hk⟩ := h2 p hp
    exact ⟨r, (hP r hk.1).mpr hr, hk⟩
  · intro r hr hm
    exact h3 r ((hP r hm).mp hr) hm

theorem UnitInv_frame (parseTime : String → Option Time) (s s1 : Store) (v : UnitState)
    (hT : ∀ r ∈ s.transactions, r ∈ s1.transactions)
    (hP : ∀ r : ProductRow, r.merchant_id = v.merchant.ID →
      (r ∈ s1.products ↔ r ∈ s.products))
    (h : UnitInv parseTime s v) : UnitInv parseTime s1 v :=
  ⟨fun h2 => salesStored_mono parseTime s s1 _ _ hT (h.1 h2),
    fun h3 => productsStored_congr s s1 _ _ hP (h.2.1 h3), h.2.2⟩

/-- What `RecordTransactions` establishes. -/
theorem salesStored_record (parseTime : String → Option Time) (s : Store) (m : Merchant)
    (run : PollRun) (txs : List TransactionInput) (n : Int) (s1 : Store)
    (hf : fetchedSales parseTime run = .ok txs)
    (h : RecordTransactions s run.recordNow m.ID txs run.recordFault = .ok (n, s1)) :
    salesStored parseTime s1 m run := by
  refine ⟨txs, hf, ?_⟩
  intro t ht
  have hs := freshRows_stored m.ID run.recordNow txs s.transactions t ht
  rw [hasSale_iff] at hs
  rw [(RecordTransactions_ok _ _ _ _ _ _ _ h).1]
  exact hs

/-- What `UpsertProducts` establishes. -/
theorem productsStored_upsert (s : Store) (m : Merchant) (run : PollRun)
    (snaps : List ProductSnapshot) (s2 : Store)
    (hf : fetchedProducts run = .ok snaps)
    (h : UpsertProducts s run.upsertNow m.ID snaps run.upsertFault = .ok s2) :
    productsStored s2 m run := by
  have hs2 := UpsertProducts_ok_all _ _ _ _ _ _ h
  refine ⟨snaps, hf, ?_, ?_⟩
  · intro p hp
    have := upsertAll_key_mem m.ID run.upsertNow snaps s.products (m.ID, p.ProductID)
      (Or.inr ⟨p, hp, rfl⟩)
    obtain ⟨r, hr, hk⟩ := List.mem_map.mp this
    simp only [Prod.mk.injEq] at hk
    exact ⟨r, by rw [hs2]; exact hr, hk.1, hk.2⟩
  · intro r hr hm
    rw [hs2] at hr
    exact upsertAll_data m.ID run.upsertNow snaps s.products r hr hm

/-- The effect of a step of a unit on the transaction and product tables. -/
theorem unitStep_store (parseTime : String → Option Time) (s : Store) (u : UnitState) :
    (∀ r ∈ s.transactions, r ∈ (unitStep parseTime s u).1.transactions) ∧
    (∀ r : ProductRow, r.merchant_id ≠ u.merchant.ID →
      (r ∈ (unitStep parseTime s u).1.products ↔ r ∈ s.products)) ∧
    (u.pc ≠ 2 → (unitStep parseTime s u).1.products = s.products) := by
  have same : ∀ s1 : Store, s1.transactions = s.transactions → s1.products = s.products →
      (∀ r ∈ s.transactions, r ∈ s1.transactions) ∧
      (∀ r : ProductRow, r.merchant_id ≠ u.merchant.ID →
        (r ∈ s1.products ↔ r ∈ s.products)) ∧
      (u.pc ≠ 2 → s1.products = s.products) := by
    intro s1 h1 h2
    exact ⟨fun r hr => by rw [h1]; exact hr, fun r _ => by rw [h2], fun _ => h2⟩
  unfold unitStep
  split
  · split <;> exact same s rfl rfl
  · split
    · exact same s rfl rfl
    · split
      · exact same s rfl rfl
      · rename_i n s1 hrec
        have hs1 := (RecordTransactions_ok _ _ _ _ _ _ _ hrec).1
        have hres : (∀ r ∈ s.transactions, r ∈ s1.transactions) ∧
            (∀ r : ProductRow, r.merchant_id ≠ u.merchant.ID →
              (r ∈ s1.products ↔ r ∈ s.products)) ∧
            (u.pc ≠ 2 → s1.products = s.products) := by
          rw [hs1]
          exact ⟨fun r hr => List.mem_append_left _ hr, fun r _ => Iff.rfl, fun _ => rfl⟩
        split <;> exact hres
  · rename_i hpc
    split
    · exact same s rfl rfl
    · split
      · exact same s rfl rfl
      · rename_i snaps _ s2 hup
        have hs2 := UpsertProducts_ok_all _ _ _ _ _ _ hup
        rw [hs2]
        refine ⟨fun r hr => hr, ?_, fun h => absurd hpc h⟩
        intro r hr
        exact upsertAll_other _ _ _ _ r (fun hc => hr hc.1)
  · split
    · exact same s rfl rfl
    · rename_i s3 hpt
      unfold UpdateMerchantPollTime at hpt
      split at hpt
      · cases hpt
      · simp only [Except.ok.injEq] at hpt
        rw [← hpt]
        exact same _ rfl rfl
  · split <;> exact same s rfl rfl
  · split <;> exact same s rfl rfl
  · split
    · exact same s rfl rfl
    · rename_i out s4 hw
      have hs4 := (writeTriggers_ok s _ _ _ _ _ out s4 hw).2
      rw [hs4]
      exact same _ rfl rfl

/-- The two ways a step of a unit can go: it stays at its statement (and returns), or
it moves on to the next one. -/
theorem unitStep_cases (parseTime : String → Option Time) (s : Store) (u : UnitState)
    (hr : u.result = none) :
    ((unitStep parseTime s u).2.pc = u.pc ∧
      ((unitStep parseTime s u).2.result = some none → 6 ≤ u.pc)) ∨
    ((unitStep parseTime s u).2.pc = u.pc + 1 ∧ (unitStep parseTime s u).2.result = none ∧
      (u.pc = 1 → salesStored parseTime (unitStep parseTime s u).1 u.merchant u.run) ∧
      (u.pc = 2 → productsStored (unitStep parseTime s u).1 u.merchant u.run)) := by
  have stay : ∀ (e : PollError) (s1 : Store),
      ({ u with result := some (some e) } : UnitState).pc = u.pc ∧
        (({ u with result := some (some e) } : UnitState).result = some none → 6 ≤ u.pc) :=
    fun e _ => ⟨rfl, fun h => by simp at h⟩
  unfold unitStep
  split
  · rename_i h0
    split
    · exact Or.inl (stay _ s)
    · exact Or.inr ⟨by simp only [h0], hr, fun h => by omega, fun h => by omega⟩
  · rename_i h0
    split
    · exact Or.inl (stay _ s)
    · rename_i txs hfs
      split
      · exact Or.inl (stay _ s)
      · rename_i n s1 hrec
        split
        · exact Or.inl (stay _ s)
        · exact Or.inr ⟨by simp only [h0], hr,
            fun _ => salesStored_record parseTime s u.merchant u.run txs n s1 hfs hrec,
            fun h => by omega⟩
  · rename_i h0
    split
    · exact Or.inl (stay _ s)
    · rename_i snaps hfp
      split
      · exact Or.inl (stay _ s)
      · rename_i s2 hup
        exact Or.inr ⟨by simp only [h0], hr, fun h => by omega,
          fun _ => productsStored_upsert s u.merchant u.run snaps s2 hfp hup⟩
  · rename_i h0
    split
    · exact Or.inl (stay _ s)
    · exact Or.inr ⟨by simp only [h0], hr, fun h => by omega, fun h => by omega⟩
  · rename_i h0
    split
    · exact Or.inl (stay _ s)
    · exact Or.inr ⟨by simp only [h0], hr, fun h => by omega, fun h => by omega⟩
  · rename_i h0
    split
    · exact Or.inl (stay _ s)
    · exact Or.inr ⟨by simp only [h0], hr, fun h => by omega, fun h => by omega⟩
  · rename_i h0 h1 h2 h3 h4 h5
    have h0 : u.pc ≠ 0 := h0
    have h1 : u.pc ≠ 1 := h1
    have h2 : u.pc ≠ 2 := h2
    have h3 : u.pc ≠ 3 := h3
    have h4 : u.pc ≠ 4 := h4
    have h5 : u.pc ≠ 5 := h5
    split
    · exact Or.inl (stay _ s)
    · exact Or.inl ⟨rfl, fun _ => by omega⟩

/-- A step of a unit keeps what holds of the unit. -/
theorem unitStep_inv (parseTime : String → Option Time) (s : Store) (u : UnitState)
    (h : UnitInv parseTime s u) (hr : u.result = none) :
    UnitInv parseTime (unitStep parseTime s u).1 (unitStep parseTime s u).2 := by
  obtain ⟨hT, _, hown⟩ := unitStep_store parseTime s u
  obtain ⟨hm, hrun⟩ := unitStep_same parseTime s u
  have sales : 2 ≤ u.pc →
      salesStored parseTime (unitStep parseTime s u).1 u.merchant u.run :=
    fun h2 => salesStored_mono parseTime s _ _ _ hT (h.1 h2)
  have prods : 3 ≤ u.pc → productsStored (unitStep parseTime s u).1 u.merchant u.run :=
    fun h3 => productsStored_congr s _ _ _
      (fun r _ => by rw [hown (by omega)]) (h.2.1 h3)
  rcases unitStep_cases parseTime s u hr with ⟨hpc, hres⟩ | ⟨hpc, hres, hs, hp⟩
  · refine ⟨?_, ?_, ?_⟩
    · intro h2; rw [hm, hrun]; exact sales (by omega)
    · intro h3; rw [hm, hrun]; exact prods (by omega)
    · intro hn; have := hres hn; omega
  · refine ⟨?_, ?_, ?_⟩
    · intro h2
      rw [hm, hrun]
      by_cases h1 : u.pc = 1
      · exact hs h1
      · exact sales (by omega)
    · intro h3
      rw [hm, hrun]
      by_cases h2 : u.pc = 2
      · exact hp h2
      · exact prods (by omega)
    · intro hn; rw [hres] at hn; cases hn

/-- A step of a unit keeps what holds of the units of other merchants. -/
theorem unitStep_inv_other (parseTime : String → Option Time) (s : Store) (u v : UnitState)
    (hne : v.merchant.ID ≠ u.merchant.ID) (h : UnitInv parseTime s v) :
    UnitInv parseTime (unitStep parseTime s u).1 v := by
  obtain ⟨hT, hP, _⟩ := unitStep_store parseTime s u
  exact UnitInv_frame parseTime s _ v hT (fun r hr => hP r (by rw [hr]; exact hne)) h

/-! ## The poll cycle: what holds of every state of a cycle -/

theorem CycleInv.started_nodup {parseTime : String → Option Time} {runOf : Merchant → PollRun}
    {merchants : List Merchant} {c : Cycle} (h : CycleInv parseTime runOf merchants c)
    (hnd : (merchants.map (fun m => m.ID)).Nodup) : c.started.Nodup := by
  obtain ⟨taken, h1, h2⟩ := h.queue
  rw [h2]
  rw [h1, List.map_append] at hnd
  exact (List.nodup_append.mp hnd).1

theorem CycleInv.ids_nodup {parseTime : String → Option Time} {runOf : Merchant → PollRun}
    {merchants : List Merchant} {c : Cycle} (h : CycleInv parseTime runOf merchants c)
    (hnd : (merchants.map (fun m => m.ID)).Nodup) :
    (((busyUnits c).map (fun u => u.merchant.ID)) ++
      c.results.map (fun r => r.merchantID)).Nodup :=
  h.owners.nodup_iff.mpr (h.started_nodup hnd)

theorem startCycle_inv (parseTime : String → Option Time) (runOf : Merchant → PollRun)
    (s : Store) (merchants : List Merchant) (workers : Int) :
    CycleInv parseTime runOf merchants (startCycle s merchants workers) := by
  have hb : busyUnits (startCycle s merchants workers) = [] := by
    simp only [busyUnits, startCycle]
    rw [List.filterMap_eq_nil_iff]
    intro w hw
    rw [List.eq_of_mem_replicate hw]
  refine ⟨⟨[], rfl, rfl⟩, ?_, ?_, ?_⟩
  · rw [hb]; exact List.Perm.refl _
  · rw [hb]; intro u hu; cases hu
  · intro r hr; cases hr

theorem cycleStep_inv (parseTime : String → Option Time) (runOf : Merchant → PollRun)
    (merchants : List Merchant) (hnd : (merchants.map (fun m => m.ID)).Nodup)
    (c : Cycle) (i : Nat) (h : CycleInv parseTime runOf merchants c) :
    CycleInv parseTime runOf merchants (cycleStep parseTime runOf c i) := by
  have hids := h.ids_nodup hnd
  unfold cycleStep
  split
  · exact h
  · rename_i hw
    split
    · exact h
    · rename_i m rest hwork
      have hperm := filterMap_set_some (startUnit m (runOf m)) c.workers i hw
      obtain ⟨taken, hq1, hq2⟩ := h.queue
      refine ⟨⟨taken ++ [m], ?_, ?_⟩, ?_, ?_, h.stored⟩
      · rw [hq1, hwork]; simp only [List.append_assoc, List.singleton_append]
      · simp only [hq2, List.map_append, List.map_cons, List.map_nil]
      · show ((List.filterMap (fun w => w) (c.workers.set i (some (startUnit m (runOf m))))).map
          (fun u => u.merchant.ID) ++ c.results.map (fun r => r.merchantID)).Perm
            (c.started ++ [m.ID])
        have h1 := (hperm.map (fun u => u.merchant.ID)).append_right
          (c.results.map (fun r => r.merchantID))
        refine h1.trans ?_
        simp only [List.map_cons, List.cons_append]
        exact ((h.owners.cons m.ID).trans (List.perm_append_singleton m.ID c.started).symm)
      · intro v hv
        have hv : v ∈ startUnit m (runOf m) :: busyUnits c := hperm.subset hv
        rcases List.mem_cons.mp hv with rfl | hv
        · refine ⟨?_, rfl, ?_⟩
          · show m ∈ merchants
            rw [hq1, hwork]
            exact List.mem_append_right _ (List.mem_cons_self _ _)
          · exact ⟨fun h2 => by simp [startUnit] at h2, fun h3 => by simp [startUnit] at h3,
              fun hr => by simp [startUnit] at hr⟩
        · exact h.units v hv
  · rename_i u hw
    have hperm := filterMap_set_none u c.workers i hw
    have hu : u ∈ busyUnits c := hperm.symm.subset (List.mem_cons_self _ _)
    have hidsu : ((u.merchant.ID :: (List.filterMap (fun w => w) (c.workers.set i none)).map
        (fun u => u.merchant.ID)) ++ c.results.map (fun r => r.merchantID)).Nodup := by
      refine (List.Perm.nodup_iff ?_).mp hids
      exact (hperm.map (fun u => u.merchant.ID)).append_right _
    have hothers : ∀ v ∈ List.filterMap (fun w => w) (c.workers.set i none),
        v.merchant.ID ≠ u.merchant.ID := by
      intro v hv heq
      rw [List.cons_append, List.nodup_cons] at hidsu
      exact hidsu.1 (List.mem_append_left _ (List.mem_map.mpr ⟨v, hv, heq⟩))
    have hres : ∀ r ∈ c.results, r.merchantID ≠ u.merchant.ID := by
      intro r hr heq
      rw [List.cons_append, List.nodup_cons] at hidsu
      exact hidsu.1 (List.mem_append_right _ (List.mem_map.mpr ⟨r, hr, heq⟩))
    split
    · rename_i r hret
      refine ⟨h.queue, ?_, ?_, ?_⟩
      · show ((List.filterMap (fun w => w) (c.workers.set i none)).map (fun u => u.merchant.ID) ++
          (c.results ++ [({ merchantID := u.merchant.ID, err := r } : result)]).map
            (fun x => x.merchantID)).Perm c.started
        have h1 := ((hperm.map (fun u => u.merchant.ID)).append_right
          (c.results.map (fun r => r.merchantID))).symm.trans h.owners
        refine List.Perm.trans ?_ h1
        simp only [List.map_append, List.map_cons, List.map_nil, List.cons_append,
          ← List.append_assoc]
        exact List.perm_append_singleton _ _
      · intro v hv
        exact h.units v (hperm.symm.subset (List.mem_cons_of_mem _ hv))
      · intro r1 hr1 herr m hm hid
        rcases List.mem_append.mp hr1 with hr1 | hr1
        · exact h.stored r1 hr1 herr m hm hid
        · rw [List.mem_singleton] at hr1
          subst hr1
          obtain ⟨hum, hurun, huinv⟩ := h.units u hu
          have hmu : m = u.merchant := List.inj_on_of_nodup_map hnd hm hum hid
          have hnil : u.result = some none := by rw [hret]; exact congrArg some herr
          have h3 := huinv.2.2 hnil
          rw [hmu, ← hurun]
          exact ⟨huinv.1 (by omega), huinv.2.1 h3⟩
    · rename_i hrun
      have hperm2 := filterMap_set_replace u (unitStep parseTime c.store u).2 c.workers i hw
      obtain ⟨hsm, hsr⟩ := unitStep_same parseTime c.store u
      obtain ⟨hum, hurun, huinv⟩ := h.units u hu
      obtain ⟨hT, hP, _⟩ := unitStep_store parseTime c.store u
      refine ⟨h.queue, ?_, ?_, ?_⟩
      · show ((List.filterMap (fun w => w)
            (c.workers.set i (some (unitStep parseTime c.store u).2))).map
              (fun u => u.merchant.ID) ++ c.results.map (fun r => r.merchantID)).Perm c.started
        have h1 := (hperm2.map (fun u => u.merchant.ID)).append_right
          (c.results.map (fun r => r.merchantID))
        have h2 := ((hperm.map (fun u => u.merchant.ID)).append_right
          (c.results.map (fun r => r.merchantID))).symm.trans h.owners
        refine (h1.trans ?_).trans h2
        simp only [List.map_cons, hsm]
        exact List.Perm.refl _
      · intro v hv
        have hv : v ∈ (unitStep parseTime c.store u).2 ::
            List.filterMap (fun w => w) (c.workers.set i none) := hperm2.subset hv
        rcases List.mem_cons.mp hv with rfl | hv
        · exact ⟨by rw [hsm]; exact hum, by rw [hsm, hsr]; exact hurun,
            unitStep_inv parseTime c.store u huinv hrun⟩
        · obtain ⟨hvm, hvrun, hvinv⟩ :=
            h.units v (hperm.symm.subset (List.mem_cons_of_mem _ hv))
          exact ⟨hvm, hvrun, unitStep_inv_other parseTime c.store u v (hothers v hv) hvinv⟩
      · intro r hr herr m hm hid
        obtain ⟨hs1, hs2⟩ := h.stored r hr herr m hm hid
        have hne : m.ID ≠ u.merchant.ID := by rw [hid]; exact hres r hr
        exact ⟨salesStored_mono parseTime c.store _ m _ hT hs1,
          productsStored_congr c.store _ m _ (fun x hx => hP x (by rw [hx]; exact hne)) hs2⟩

theorem runSchedule_inv (parseTime : String → Option Time) (runOf : Merchant → PollRun)
    (merchants : List Merchant) (hnd : (merchants.map (fun m => m.ID)).Nodup)
    (sched : List Nat) : ∀ c : Cycle, CycleInv parseTime runOf merchants c →
      CycleInv parseTime runOf merchants (runSchedule parseTime runOf c sched) := by
  induction sched with
  | nil => intro c h; exact h
  | cons i rest ih =>
    intro c h
    exact ih _ (cycleStep_inv parseTime runOf merchants hnd c i h)

/-! ## The poll cycle: every fair schedule comes to an end -/

theorem cycleStep_workers_length (parseTime : String → Option Time) (runOf : Merchant → PollRun)
    (c : Cycle) (i : Nat) :
    (cycleStep parseTime runOf c i).workers.length = c.workers.length := by
  unfold cycleStep
  split
  · rfl
  · split
    · rfl
    · simp only [List.length_set]
  · split <;> simp only [List.length_set]

theorem cycleStep_other (parseTime : String → Option Time) (runOf : Merchant → PollRun)
    (c : Cycle) (i j : Nat) (hij : j ≠ i) :
    (cycleStep parseTime runOf c i).workers[j]? = c.workers[j]? := by
  unfold cycleStep
  split
  · rfl
  · split
    · rfl
    · simp only [List.getElem?_set_ne (Ne.symm hij)]
  · split <;> simp only [List.getElem?_set_ne (Ne.symm hij)]

theorem cycleStep_busy_lt (parseTime : String → Option Time) (runOf : Merchant → PollRun)
    (c : Cycle) (i : Nat) (u : UnitState) (hw : c.workers[i]? = some (some u)) :
    stepsLeft (cycleStep parseTime runOf c i) < stepsLeft c := by
  have hperm := filterMap_set_none u c.workers i hw
  have hsum : ((busyUnits c).map remaining).sum =
      remaining u + ((List.filterMap (fun w => w) (c.workers.set i none)).map remaining).sum := by
    rw [busyUnits, (hperm.map remaining).sum_eq, List.map_cons, List.sum_cons]
  unfold cycleStep
  simp only [hw]
  cases hr : u.result with
  | some r =>
    simp only [stepsLeft, busyUnits] at hsum ⊢
    have h1 : remaining u = 1 := by simp only [remaining, hr]
    omega
  | none =>
    have hperm2 := filterMap_set_replace u (unitStep parseTime c.store u).2 c.workers i hw
    have hlt := unitStep_remaining parseTime c.store u hr
    have hsum2 := (hperm2.map remaining).sum_eq
    simp only [List.map_cons, List.sum_cons] at hsum2
    simp only [stepsLeft, busyUnits] at hsum hsum2 ⊢
    omega

theorem cycleStep_take_lt (parseTime : String → Option Time) (runOf : Merchant → PollRun)
    (c : Cycle) (i : Nat) (hw : c.workers[i]? = some none) (hwork : c.work ≠ []) :
    stepsLeft (cycleStep parseTime runOf c i) < stepsLeft c := by
  unfold cycleStep
  simp only [hw]
  cases hq : c.work with
  | nil => exact absurd hq hwork
  | cons m rest =>
    have hperm := filterMap_set_some (startUnit m (runOf m)) c.workers i hw
    have hsum := (hperm.map remaining).sum_eq
    simp only [List.map_cons, List.sum_cons] at hsum
    have h8 : remaining (startUnit m (runOf m)) = 8 := rfl
    simp only [stepsLeft, busyUnits, hq, List.length_cons] at hsum ⊢
    omega

theorem cycleStep_le (parseTime : String → Option Time) (runOf : Merchant → PollRun)
    (c : Cycle) (i : Nat) :
    stepsLeft (cycleStep parseTime runOf c i) ≤ stepsLeft c := by
  cases hw : c.workers[i]? with
  | none => unfold cycleStep; simp only [hw]; exact le_refl _
  | some w =>
    cases w with
    | some u => exact le_of_lt (cycleStep_busy_lt parseTime runOf c i u hw)
    | none =>
      by_cases hwork : c.work = []
      · unfold cycleStep; simp only [hw, hwork]; exact le_refl _
      · exact le_of_lt (cycleStep_take_lt parseTime runOf c i hw hwork)

theorem runSchedule_le (parseTime : String → Option Time) (runOf : Merchant → PollRun)
    (l : List Nat) : ∀ c : Cycle,
      stepsLeft (runSchedule parseTime runOf c l) ≤ stepsLeft c := by
  induction l with
  | nil => intro c; exact le_refl _
  | cons i rest ih =>
    intro c
    exact le_trans (ih _) (cycleStep_le parseTime runOf c i)

theorem runSchedule_workers_length (parseTime : String → Option Time)
    (runOf : Merchant → PollRun) (l : List Nat) : ∀ c : Cycle,
      (runSchedule parseTime runOf c l).workers.length = c.workers.length := by
  induction l with
  | nil => intro c; rfl
  | cons i rest ih =>
    intro c
    exact (ih _).trans (cycleStep_workers_length parseTime runOf c i)

theorem runSchedule_append (parseTime : String → Option Time) (runOf : Merchant → PollRun)
    (a b : List Nat) : ∀ c : Cycle,
      runSchedule parseTime runOf c (a ++ b) =
        runSchedule parseTime runOf (runSchedule parseTime runOf c a) b := by
  induction a with
  | nil => intro c; rfl
  | cons i rest ih => intro c; exact ih _

theorem runSchedule_busy_lt (parseTime : String → Option Time) (runOf : Merchant → PollRun)
    (l : List Nat) : ∀ (c : Cycle) (j : Nat) (u : UnitState), j ∈ l →
      c.workers[j]? = some (some u) →
      stepsLeft (runSchedule parseTime runOf c l) < stepsLeft c := by
  induction l with
  | nil => intro c j u hj; cases hj
  | cons i rest ih =>
    intro c j u hj hw
    by_cases hij : j = i
    · subst hij
      exact lt_of_le_of_lt (runSchedule_le parseTime runOf rest _)
        (cycleStep_busy_lt parseTime runOf c j u hw)
    · have hj2 : j ∈ rest := (List.mem_cons.mp hj).resolve_left hij
      have hw2 : (cycleStep parseTime runOf c i).workers[j]? = some (some u) := by
        rw [cycleStep_other parseTime runOf c i j hij]; exact hw
      exact lt_of_lt_of_le (ih _ j u hj2 hw2) (cycleStep_le parseTime runOf c i)

theorem runSchedule_work_lt (parseTime : String → Option Time) (runOf : Merchant → PollRun)
    (l : List Nat) : ∀ (c : Cycle) (j : Nat), j ∈ l → j < c.workers.length → c.work ≠ [] →
      stepsLeft (runSchedule parseTime runOf c l) < stepsLeft c := by
  induction l with
  | nil => intro c j hj; cases hj
  | cons i rest ih =>
    intro c j hj hlen hwork
    cases hw : c.workers[i]? with
    | some w =>
      have hstep : stepsLeft (cycleStep parseTime runOf c i) < stepsLeft c := by
        cases w with
        | some u => exact cycleStep_busy_lt parseTime runOf c i u hw
        | none => exact cycleStep_take_lt parseTime runOf c i hw hwork
      exact lt_of_le_of_lt (runSchedule_le parseTime runOf rest _) hstep
    | none =>
      have hsame : cycleStep parseTime runOf c i = c := by
        unfold cycleStep; simp only [hw]
      have hij : j ≠ i := by
        intro h
        subst h
        rw [List.getElem?_eq_none_iff] at hw
        omega
      have hj2 : j ∈ rest := (List.mem_cons.mp hj).resolve_left hij
      show stepsLeft (runSchedule parseTime runOf (cycleStep parseTime runOf c i) rest) < _
      rw [hsame]
      exact ih c j hj2 hlen hwork

theorem finished_step (parseTime : String → Option Time) (runOf : Merchant → PollRun)
    (c : Cycle) (i : Nat) (h : finished c) : cycleStep parseTime runOf c i = c := by
  unfold cycleStep
  cases hw : c.workers[i]? with
  | none => rfl
  | some w =>
    cases w with
    | none => simp only [h.1]
    | some u =>
      have hu : u ∈ busyUnits c := by
        simp only [busyUnits, List.mem_filterMap]
        exact ⟨some u, List.getElem?_mem hw, rfl⟩
      rw [h.2] at hu
      cases hu

theorem finished_run (parseTime : String → Option Time) (runOf : Merchant → PollRun)
    (l : List Nat) : ∀ c : Cycle, finished c → runSchedule parseTime runOf c l = c := by
  induction l with
  | nil => intro c _; rfl
  | cons i rest ih =>
    intro c h
    show runSchedule parseTime runOf (cycleStep parseTime runOf c i) rest = c
    rw [finished_step parseTime runOf c i h]
    exact ih c h

theorem round_lt (parseTime : String → Option Time) (runOf : Merchant → PollRun)
    (c : Cycle) (hW : 0 < c.workers.length) (hn : ¬ finished c) :
    stepsLeft (runSchedule parseTime runOf c (List.range c.workers.length)) < stepsLeft c := by
  by_cases hwork : c.work = []
  · have hb : busyUnits c ≠ [] := fun hb => hn ⟨hwork, hb⟩
    obtain ⟨u, hu⟩ := List.exists_mem_of_ne_nil _ hb
    simp only [busyUnits, List.mem_filterMap] at hu
    obtain ⟨w, hw, hwu⟩ := hu
    subst hwu
    obtain ⟨j, hj⟩ := List.mem_iff_getElem?.mp hw
    have hjlt : j < c.workers.length := by
      by_contra hge
      rw [List.getElem?_eq_none (by omega)] at hj
      cases hj
    exact runSchedule_busy_lt parseTime runOf _ c j u (List.mem_range.mpr hjlt) hj
  · exact runSchedule_work_lt parseTime runOf _ c 0 (List.mem_range.mpr hW) hW hwork

theorem stepsLeft_zero (c : Cycle) (h : stepsLeft c = 0) : finished c := by
  simp only [stepsLeft] at h
  have h1 : c.work.length = 0 := by omega
  have h2 : ((busyUnits c).map remaining).sum = 0 := by omega
  refine ⟨List.length_eq_zero.mp h1, ?_⟩
  cases hb : busyUnits c with
  | nil => rfl
  | cons u rest =>
    rw [hb, List.map_cons, List.sum_cons] at h2
    have : 1 ≤ remaining u := by
      unfold remaining
      split <;> omega
    omega

theorem roundRobin_finishes (parseTime : String → Option Time) (runOf : Merchant → PollRun)
    (W : Nat) (hW : 0 < W) : ∀ (K : Nat) (c : Cycle), c.workers.length = W →
      stepsLeft c ≤ K → finished (runSchedule parseTime runOf c (roundRobin W K)) := by
  intro K
  induction K with
  | zero =>
    intro c _ h
    exact stepsLeft_zero c (by omega)
  | succ K ih =>
    intro c hlen h
    simp only [roundRobin]
    rw [runSchedule_append]
    by_cases hf : finished c
    · rw [finished_run parseTime runOf _ c hf, finished_run parseTime runOf _ c hf]
      exact hf
    · have hlt := round_lt parseTime runOf c (by omega) hf
      rw [hlen] at hlt
      exact ih _ ((runSchedule_workers_length parseTime runOf _ c).trans hlen) (by omega)

/-! ## The poll cycle: isolation of failures, and one unit per enabled merchant -/

theorem CycleInv.of_finished {parseTime : String → Option Time} {runOf : Merchant → PollRun}
    {merchants : List Merchant} {c : Cycle} (h : CycleInv parseTime runOf merchants c)
    (hf : finished c) :
    c.started = merchants.map (fun m => m.ID) ∧
      (c.results.map (fun r => r.merchantID)).Perm (merchants.map (fun m => m.ID)) ∧
      c.results.length = merchants.length := by
  obtain ⟨taken, h1, h2⟩ := h.queue
  rw [hf.1, List.append_nil] at h1
  have hs : c.started = merchants.map (fun m => m.ID) := by rw [h2, h1]
  have ho := h.owners
  rw [hf.2, List.map_nil, List.nil_append, hs] at ho
  refine ⟨hs, ho, ?_⟩
  have := ho.length_eq
  simpa using this

theorem CycleInv.finished_of_results {parseTime : String → Option Time}
    {runOf : Merchant → PollRun} {merchants : List Merchant} {c : Cycle}
    (h : CycleInv parseTime runOf merchants c) (hlen : c.results.length = merchants.length) :
    finished c := by
  obtain ⟨taken, h1, h2⟩ := h.queue
  have ho := h.owners.length_eq
  rw [h2] at ho
  simp only [List.length_append, List.length_map] at ho
  have hm : merchants.length = taken.length + c.work.length := by
    rw [h1, List.length_append]
  exact ⟨List.length_eq_zero.mp (by omega), List.length_eq_zero.mp (by omega)⟩

theorem ListMerchants_enabled (s : Store) (fault : Option Nat) (merchants : List Merchant)
    (h : ListMerchants s true fault = .ok merchants) :
    merchants.Perm (s.merchants.filter (fun m => m.Enabled)) ∧
      ListMerchants s true none = .ok merchants := by
  unfold ListMerchants at h ⊢
  split at h
  · cases h
  · simp only [if_true, Except.ok.injEq] at h
    rw [← h]
    exact ⟨List.perm_insertionSort _ _, by
      simp only [failsAt_none, Bool.false_eq_true, if_false, if_true]⟩

theorem ListMerchants_nodup (s : Store) (fault : Option Nat) (merchants : List Merchant)
    (hnd : (s.merchants.map (fun m => m.ID)).Nodup)
    (h : ListMerchants s true fault = .ok merchants) :
    (merchants.map (fun m => m.ID)).Nodup := by
  have hp := (ListMerchants_enabled s fault merchants h).1
  rw [(hp.map (fun m => m.ID)).nodup_iff]
  exact hnd.sublist ((List.filter_sublist _).map _)

theorem NewPoller_concurrency (cfg : ingest.Config) : 1 ≤ (NewPoller cfg).concurrency := by
  simp only [NewPoller]
  split <;> omega

theorem workerCount_pos (cfg : ingest.Config) (n : Nat) (hn : 0 < n) :
    0 < (workerCount (NewPoller cfg) (n : Int)).toNat := by
  have := NewPoller_concurrency cfg
  unfold workerCount
  split <;> omega

/-- The cycle `pollAll` runs when `ListMerchants` has returned merchants. -/
theorem pollAll_cycle (parseTime : String → Option Time) (p : Poller)
    (runOf : Merchant → PollRun) (s : Store) (listFault : Option Nat) (sched : List Nat)
    (merchants : List Merchant) (hl : ListMerchants s true listFault = .ok merchants)
    (hne : merchants ≠ []) :
    (pollAll parseTime p runOf s listFault sched).cycle =
        runSchedule parseTime runOf
          (startCycle s merchants (workerCount p (merchants.length : Int))) sched ∧
      (pollAll parseTime p runOf s listFault sched).returned =
        if (runSchedule parseTime runOf
              (startCycle s merchants (workerCount p (merchants.length : Int)))
              sched).results.length = merchants.length
        then some none else none := by
  have hlen : ¬ merchants.length = 0 := fun h => hne (List.length_eq_zero.mp h)
  unfold pollAll
  simp only [hl, hlen, if_false, and_self]

/-- The cycle of `pollAll` when there is no enabled merchant. -/
theorem pollAll_idle (parseTime : String → Option Time) (p : Poller)
    (runOf : Merchant → PollRun) (s : Store) (listFault : Option Nat) (sched : List Nat)
    (hl : ListMerchants s true listFault = .ok []) :
    (pollAll parseTime p runOf s listFault sched).cycle = startCycle s [] 0 ∧
      (pollAll parseTime p runOf s listFault sched).returned = some none := by
  unfold pollAll
  simp only [hl, List.length_nil, if_true, and_self]

/-- Every state of the cycle of `pollAll` has what holds of every state of a cycle. -/
theorem pollAll_inv (parseTime : String → Option Time) (p : Poller)
    (runOf : Merchant → PollRun) (s : Store) (listFault : Option Nat) (sched : List Nat)
    (merchants : List Merchant) (hnd : (s.merchants.map (fun m => m.ID)).Nodup)
    (hl : ListMerchants s true listFault = .ok merchants) :
    CycleInv parseTime runOf
      (if merchants.length = 0 then [] else merchants)
      (pollAll parseTime p runOf s listFault sched).cycle := by
  by_cases hne : merchants = []
  · subst hne
    rw [(pollAll_idle parseTime p runOf s listFault sched hl).1]
    exact startCycle_inv parseTime runOf s [] 0
  · have hlen : ¬ merchants.length = 0 := fun h => hne (List.length_eq_zero.mp h)
    rw [(pollAll_cycle parseTime p runOf s listFault sched merchants hl hne).1, if_neg hlen]
    exact runSchedule_inv parseTime runOf merchants
      (ListMerchants_nodup s listFault merchants hnd hl) sched _
      (startCycle_inv parseTime runOf s merchants _)

/-- After any schedule, enough rounds in which every worker takes a step make `pollAll`
return `nil`, with every merchant started and no unit in progress. -/
theorem pollAll_returns (parseTime : String → Option Time) (cfg : ingest.Config)
    (runOf : Merchant → PollRun) (s : Store) (sched : List Nat) (merchants : List Merchant)
    (hnd : (s.merchants.map (fun m => m.ID)).Nodup)
    (hl : ListMerchants s true none = .ok merchants) (K : Nat)
    (hK : 9 * merchants.length ≤ K) :
    (pollAll parseTime (NewPoller cfg) runOf s none
      (sched ++ roundRobin (workerCount (NewPoller cfg) (merchants.length : Int)).toNat K)).returned
        = some none ∧
    (pollAll parseTime (NewPoller cfg) runOf s none
      (sched ++ roundRobin (workerCount (NewPoller cfg) (merchants.length : Int)).toNat K)).cycle.started
        = merchants.map (fun m => m.ID) ∧
    finished (pollAll parseTime (NewPoller cfg) runOf s none
      (sched ++ roundRobin (workerCount (NewPoller cfg) (merchants.length : Int)).toNat K)).cycle
    := by
  by_cases hne : merchants = []
  · subst hne
    obtain ⟨h1, h2⟩ := pollAll_idle parseTime (NewPoller cfg) runOf s none
      (sched ++ roundRobin (workerCount (NewPoller cfg) (([] : List Merchant).length : Int)).toNat K) hl
    refine ⟨h2, by rw [h1]; rfl, ?_⟩
    rw [h1]
    exact ⟨rfl, rfl⟩
  · have hpos : 0 < merchants.length := List.length_pos.mpr hne
    obtain ⟨h1, h2⟩ := pollAll_cycle parseTime (NewPoller cfg) runOf s none
      (sched ++ roundRobin (workerCount (NewPoller cfg) (merchants.length : Int)).toNat K)
      merchants hl hne
    have hW := workerCount_pos cfg merchants.length hpos
    have hstart : stepsLeft (startCycle s merchants
        (workerCount (NewPoller cfg) (merchants.length : Int))) = 9 * merchants.length := by
      have hb : busyUnits (startCycle s merchants
          (workerCount (NewPoller cfg) (merchants.length : Int))) = [] := by
        simp only [busyUnits, startCycle]
        rw [List.filterMap_eq_nil_iff]
        intro w hw
        rw [List.eq_of_mem_replicate hw]
      simp only [stepsLeft, hb, List.map_nil, List.sum_nil, Nat.add_zero]
      rfl
    have hfin : finished (runSchedule parseTime runOf
        (startCycle s merchants (workerCount (NewPoller cfg) (merchants.length : Int)))
        (sched ++ roundRobin (workerCount (NewPoller cfg) (merchants.length : Int)).toNat K)) := by
      rw [runSchedule_append]
      apply roundRobin_finishes parseTime runOf _ hW K
      · rw [runSchedule_workers_length]
        simp only [startCycle, List.length_replicate]
      · exact le_trans (runSchedule_le parseTime runOf sched _) (by rw [hstart]; exact hK)
    have hinv := runSchedule_inv parseTime runOf merchants
      (ListMerchants_nodup s none merchants hnd hl)
      (sched ++ roundRobin (workerCount (NewPoller cfg) (merchants.length : Int)).toNat K) _
      (startCycle_inv parseTime runOf s merchants
        (workerCount (NewPoller cfg) (merchants.length : Int)))
    obtain ⟨hs, _, hlen⟩ := hinv.of_finished hfin
    rw [h1, h2]
    exact ⟨by rw [if_pos hlen], hs, hfin⟩

theorem listed_eq (merchants : List Merchant) :
    (if merchants.length = 0 then [] else merchants) = merchants := by
  split
  · rename_i h; exact (List.length_eq_zero.mp h).symm
  · rfl

/-- C22: in a cycle over the enabled merchants of a store with distinct merchant ids, the
units being those of any `runOf` (any of them may fail in the fetch, the normalisation or
a storage call) and the steps of the workers being taken in any order: `pollAll` returns
no error (an error is returned only when `ListMerchants` fails, before the cycle); after
any schedule, enough rounds in which every worker takes a step make it return `nil`; and
in every state of the cycle, the last one included, the store holds the sales and the
product snapshots of every merchant whose unit has returned `nil`. -/
theorem C22_failed_units_do_not_abort_the_cycle (parseTime : String → Option Time)
    (cfg : ingest.Config) (runOf : Merchant → PollRun) (s : Store) (sched : List Nat)
    (merchants : List Merchant) (hnd : (s.merchants.map (fun m => m.ID)).Nodup)
    (hl : ListMerchants s true none = .ok merchants) :
    ((pollAll parseTime (NewPoller cfg) runOf s none sched).returned = none ∨
      (pollAll parseTime (NewPoller cfg) runOf s none sched).returned = some none) ∧
    (∀ listFault e,
      (pollAll parseTime (NewPoller cfg) runOf s listFault sched).returned = some (some e) →
        ListMerchants s true listFault = .error e) ∧
    (∀ K, 9 * merchants.length ≤ K →
      (pollAll parseTime (NewPoller cfg) runOf s none
        (sched ++ roundRobin
          (workerCount (NewPoller cfg) (merchants.length : Int)).toNat K)).returned =
        some none) ∧
    (∀ r ∈ (pollAll parseTime (NewPoller cfg) runOf s none sched).cycle.results, r.err = none →
      ∀ m ∈ merchants, m.ID = r.merchantID →
        salesStored parseTime
          (pollAll parseTime (NewPoller cfg) runOf s none sched).cycle.store m (runOf m) ∧
        productsStored
          (pollAll parseTime (NewPoller cfg) runOf s none sched).cycle.store m (runOf m)) := by
  refine ⟨?_, ?_, ?_, ?_⟩
  · by_cases hne : merchants = []
    · subst hne
      exact Or.inr (pollAll_idle parseTime _ runOf s none sched hl).2
    · rw [(pollAll_cycle parseTime _ runOf s none sched merchants hl hne).2]
      split
      · exact Or.inr rfl
      · exact Or.inl rfl
  · intro listFault e he
    unfold pollAll at he
    cases hlf : ListMerchants s true listFault with
    | error e1 =>
      simp only [hlf, Option.some.injEq] at he
      rw [he]
    | ok ms =>
      simp only [hlf] at he
      split at he
      · simp only [Option.some.injEq, reduceCtorEq] at he
      · split at he
        · simp only [Option.some.injEq, reduceCtorEq] at he
        · simp only [reduceCtorEq] at he
  · intro K hK
    exact (pollAll_returns parseTime cfg runOf s sched merchants hnd hl K hK).1
  · have hinv := pollAll_inv parseTime (NewPoller cfg) runOf s none sched merchants hnd hl
    rw [listed_eq] at hinv
    exact hinv.stored

/-- C23: `ListMerchants(onlyEnabled = true)` returns the enabled merchants of the store.
In every state of a cycle of `pollAll` the ids `pollMerchant` has been called with are
those of the merchants received from the channel so far, an initial part of the list,
each of them once, all of them enabled merchants.  When `pollAll` has returned, every
listed merchant has been received, no unit is in progress, and there is one result per
listed merchant; and after any schedule, enough rounds in which every worker takes a step
lead to that state. -/
theorem C23_each_enabled_merchant_polled_once (parseTime : String → Option Time)
    (cfg : ingest.Config) (runOf : Merchant → PollRun) (s : Store) (sched : List Nat)
    (merchants : List Merchant) (hnd : (s.merchants.map (fun m => m.ID)).Nodup)
    (hl : ListMerchants s true none = .ok merchants) :
    merchants.Perm (s.merchants.filter (fun m => m.Enabled)) ∧
    (∃ taken, merchants = taken ++
        (pollAll parseTime (NewPoller cfg) runOf s none sched).cycle.work ∧
      (pollAll parseTime (NewPoller cfg) runOf s none sched).cycle.started =
        taken.map (fun m => m.ID)) ∧
    (pollAll parseTime (NewPoller cfg) runOf s none sched).cycle.started.Nodup ∧
    (∀ id ∈ (pollAll parseTime (NewPoller cfg) runOf s none sched).cycle.started,
      ∃ m ∈ s.merchants, m.ID = id ∧ m.Enabled = true) ∧
    ((pollAll parseTime (NewPoller cfg) runOf s none sched).returned = some none →
      (pollAll parseTime (NewPoller cfg) runOf s none sched).cycle.started =
        merchants.map (fun m => m.ID) ∧
      (pollAll parseTime (NewPoller cfg) runOf s none sched).cycle.work = [] ∧
      busyUnits (pollAll parseTime (NewPoller cfg) runOf s none sched).cycle = [] ∧
      ((pollAll parseTime (NewPoller cfg) runOf s none sched).cycle.results.map
        (fun r => r.merchantID)).Perm (merchants.map (fun m => m.ID))) ∧
    (∀ K, 9 * merchants.length ≤ K →
      (pollAll parseTime (NewPoller cfg) runOf s none
        (sched ++ roundRobin
          (workerCount (NewPoller cfg) (merchants.length : Int)).toNat K)).returned =
        some none ∧
      (pollAll parseTime (NewPoller cfg) runOf s none
        (sched ++ roundRobin
          (workerCount (NewPoller cfg) (merchants.length : Int)).toNat K)).cycle.started =
        merchants.map (fun m => m.ID)) := by
  have hperm := (ListMerchants_enabled s none merchants hl).1
  have hmnd := ListMerchants_nodup s none merchants hnd hl
  have hinv := pollAll_inv parseTime (NewPoller cfg) runOf s none sched merchants hnd hl
  rw [listed_eq] at hinv
  refine ⟨hperm, hinv.queue, hinv.started_nodup hmnd, ?_, ?_, ?_⟩
  · intro id hid
    obtain ⟨taken, h1, h2⟩ := hinv.queue
    rw [h2] at hid
    obtain ⟨m, hm, rfl⟩ := List.mem_map.mp hid
    have hmem : m ∈ merchants := by rw [h1]; exact List.mem_append_left _ hm
    obtain ⟨hm1, hm2⟩ := List.mem_filter.mp (hperm.subset hmem)
    exact ⟨m, hm1, rfl, hm2⟩
  · intro hret
    have hfin : finished (pollAll parseTime (NewPoller cfg) runOf s none sched).cycle := by
      by_cases hne : merchants = []
      · subst hne
        rw [(pollAll_idle parseTime _ runOf s none sched hl).1]
        exact ⟨rfl, rfl⟩
      · apply hinv.finished_of_results
        rw [(pollAll_cycle parseTime _ runOf s none sched merchants hl hne).2] at hret
        rw [(pollAll_cycle parseTime _ runOf s none sched merchants hl hne).1]
        split at hret
        · rename_i h; exact h
        · cases hret
    obtain ⟨h1, h2, _⟩ := hinv.of_finished hfin
    exact ⟨h1, hfin.1, hfin.2, h2⟩
  · intro K hK
    obtain ⟨h1, h2, _⟩ := pollAll_returns parseTime cfg runOf s sched merchants hnd hl K hK
    exact ⟨h1, h2⟩

set_option maxRecDepth 100000 in
/-- Instance of C22: a cycle over `storeCycle` with two workers that take turns.  The
unit of "m1" fails in the fetch and the unit of "m2" returns `nil`; `pollAll` returns
`nil`, and the sale and the product of "m2" are in the store. -/
theorem C22_cycle_witness :
    (pollAll parseTimeEpoch (NewPoller twoWorkers) runsCycle storeCycle none
        (roundRobin 2 9)).returned = some none ∧
      (pollAll parseTimeEpoch (NewPoller twoWorkers) runsCycle storeCycle none
        (roundRobin 2 9)).cycle.results =
          [{ merchantID := "m1", err := some .fetch }, { merchantID := "m2", err := none }] ∧
      (pollAll parseTimeEpoch (NewPoller twoWorkers) runsCycle storeCycle none
        (roundRobin 2 9)).cycle.store.transactions.map (fun r => (r.merchant_id, r.sale_id)) =
          [("m2", 9)] ∧
      (pollAll parseTimeEpoch (NewPoller twoWorkers) runsCycle storeCycle none
        (roundRobin 2 9)).cycle.store.products.map (fun r => (r.merchant_id, r.product_id)) =
          [("m2", 1)] ∧
      (∀ K, 9 * 2 ≤ K →
        (pollAll parseTimeEpoch (NewPoller twoWorkers) runsCycle storeCycle none
          ([1, 1, 0] ++ roundRobin 2 K)).returned = some none) :=
  ⟨by decide, by decide, by decide, by decide,
    (C22_failed_units_do_not_abort_the_cycle parseTimeEpoch twoWorkers runsCycle storeCycle
      [1, 1, 0]
      [{ ID := "m2", PublicKey := "pk2", Alias := "Alice", Enabled := true,
         LastPolledAt := none, CreatedAt := 1, UpdatedAt := 1 },
       { ID := "m1", PublicKey := "pk1", Alias := "Bob", Enabled := true,
         LastPolledAt := none, CreatedAt := 1, UpdatedAt := 1 }]
      (by decide) (by decide)).2.2.1⟩

set_option maxRecDepth 100000 in
/-- Instance of C23: in the same cycle `pollMerchant` is called for "m2" and for "m1",
once each, and not for the disabled "m3"; after one step of each worker both calls are
in progress and `pollAll` has not returned. -/
theorem C23_cycle_witness :
    (pollAll parseTimeEpoch (NewPoller twoWorkers) runsCycle storeCycle none
        (roundRobin 2 9)).cycle.started = ["m2", "m1"] ∧
      (pollAll parseTimeEpoch (NewPoller twoWorkers) runsCycle storeCycle none
        [0, 1]).cycle.started = ["m2", "m1"] ∧
      (pollAll parseTimeEpoch (NewPoller twoWorkers) runsCycle storeCycle none
        [0, 1]).returned = none ∧
      (pollAll parseTimeEpoch (NewPoller twoWorkers) runsCycle storeCycle none
        [0, 1]).cycle.started.Nodup :=
  ⟨by decide, by decide, by decide,
    (C23_each_enabled_merchant_polled_once parseTimeEpoch twoWorkers runsCycle storeCycle
      [0, 1]
      [{ ID := "m2", PublicKey := "pk2", Alias := "Alice", Enabled := true,
         LastPolledAt := none, CreatedAt := 1, UpdatedAt := 1 },
       { ID := "m1", PublicKey := "pk1", Alias := "Bob", Enabled := true,
         LastPolledAt := none, CreatedAt := 1, UpdatedAt := 1 }]
      (by decide) (by decide)).2.2.1⟩

/-! ## The poll cycle: a unit run on its own is `pollMerchant` -/

theorem unitSteps_step (parseTime : String → Option Time) (n : Nat) (s s1 : Store)
    (u u1 : UnitState) (hr : u.result = none) (hs : unitStep parseTime s u = (s1, u1)) :
    unitSteps parseTime (n + 1) s u = unitSteps parseTime n s1 u1 := by
  simp only [unitSteps, hr, hs]

theorem unitSteps_done (parseTime : String → Option Time) (n : Nat) (s : Store)
    (u : UnitState) (r : Option PollError) (hr : u.result = some r) :
    unitSteps parseTime n s u = (s, u) := by
  cases n with
  | zero => rfl
  | succ n => simp only [unitSteps, hr]

/-- The seven steps of a unit, taken one after the other on a store that nothing else
writes to, leave the store and return the error that `pollMerchant` does. -/
theorem unitSteps_eq_pollMerchant (parseTime : String → Option Time) (s : Store)
    (merchant : Merchant) (run : PollRun) :
    (unitSteps parseTime 7 s (startUnit merchant run)).1 =
        (pollMerchant parseTime s merchant run).1 ∧
      (unitSteps parseTime 7 s (startUnit merchant run)).2.result =
        some (pollMerchant parseTime s merchant run).2 := by
  cases hfs : fetchedSales parseTime run with
  | error e =>
    have h0 : unitStep parseTime s (startUnit merchant run) =
        (s, { startUnit merchant run with result := some (some e) }) := by
      simp only [unitStep, startUnit, hfs]
    rw [unitSteps_step parseTime 6 _ _ _ _ rfl h0, unitSteps_done parseTime 6 _ _ _ rfl]
    unfold fetchedSales at hfs
    unfold pollMerchant
    cases hf : run.fetched with
    | error e1 => rw [hf] at hfs; simp only [Except.error.injEq] at hfs; simp only [hfs, and_self]
    | ok payload =>
      rw [hf] at hfs
      have hn : normalizeSales parseTime payload.Sales = .error e := hfs
      simp only [hn, and_self]
  | ok txs =>
    have h0 : unitStep parseTime s (startUnit merchant run) =
        (s, { startUnit merchant run with pc := 1 }) := by
      simp only [unitStep, startUnit, hfs]
    rw [unitSteps_step parseTime 6 _ _ _ _ rfl h0]
    obtain ⟨payload, hf, hn⟩ : ∃ payload, run.fetched = .ok payload ∧
        normalizeSales parseTime payload.Sales = .ok txs := by
      unfold fetchedSales at hfs
      cases hf : run.fetched with
      | error e1 => rw [hf] at hfs; cases hfs
      | ok payload => rw [hf] at hfs; exact ⟨payload, rfl, hfs⟩
    have hfp : fetchedProducts run = normalizeProducts payload.Products := by
      simp only [fetchedProducts, hf]
    cases hr : RecordTransactions s run.recordNow merchant.ID txs run.recordFault with
    | error e =>
      have h1 : unitStep parseTime s { startUnit merchant run with pc := 1 } =
          (s, { startUnit merchant run with pc := 1, result := some (some (.store e)) }) := by
        simp only [unitStep, startUnit, hfs, hr]
      rw [unitSteps_step parseTime 5 _ _ _ _ rfl h1, unitSteps_done parseTime 5 _ _ _ rfl]
      simp only [pollMerchant, hf, hn, hr, and_self]
    | ok r1 =>
      obtain ⟨n, s1⟩ := r1
      cases hp : normalizeProducts payload.Products with
      | error e =>
        have h1 : unitStep parseTime s { startUnit merchant run with pc := 1 } =
            (s1, { startUnit merchant run with pc := 1, result := some (some e) }) := by
          simp only [unitStep, startUnit, hfs, hr, hfp, hp]
        rw [unitSteps_step parseTime 5 _ _ _ _ rfl h1, unitSteps_done parseTime 5 _ _ _ rfl]
        simp only [pollMerchant, hf, hn, hr, hp, and_self]
      | ok snaps =>
        have h1 : unitStep parseTime s { startUnit merchant run with pc := 1 } =
            (s1, { startUnit merchant run with pc := 2 }) := by
          simp only [unitStep, startUnit, hfs, hr, hfp, hp]
        rw [unitSteps_step parseTime 5 _ _ _ _ rfl h1]
        cases hu : UpsertProducts s1 run.upsertNow merchant.ID snaps run.upsertFault with
        | error e =>
          have h2 : unitStep parseTime s1 { startUnit merchant run with pc := 2 } =
              (s1, { startUnit merchant run with pc := 2,
                                                 result := some (some (.store e)) }) := by
            simp only [unitStep, startUnit, hfp, hp, hu]
          rw [unitSteps_step parseTime 4 _ _ _ _ rfl h2, unitSteps_done parseTime 4 _ _ _ rfl]
          simp only [pollMerchant, hf, hn, hr, hp, hu, and_self]
        | ok s2 =>
          have h2 : unitStep parseTime s1 { startUnit merchant run with pc := 2 } =
              (s2, { startUnit merchant run with pc := 3 }) := by
            simp only [unitStep, startUnit, hfp, hp, hu]
          rw [unitSteps_step parseTime 4 _ _ _ _ rfl h2]
          cases ht : UpdateMerchantPollTime s2 merchant.ID run.pollTime run.pollTimeFault with
          | error e =>
            have h3 : unitStep parseTime s2 { startUnit merchant run with pc := 3 } =
                (s2, { startUnit merchant run with pc := 3,
                                                   result := some (some (.store e)) }) := by
              simp only [unitStep, startUnit, ht]
            rw [unitSteps_step parseTime 3 _ _ _ _ rfl h3, unitSteps_done parseTime 3 _ _ _ rfl]
            simp only [pollMerchant, hf, hn, hr, hp, hu, ht, and_self]
          | ok s3 =>
            have h3 : unitStep parseTime s2 { startUnit merchant run with pc := 3 } =
                (s3, { startUnit merchant run with pc := 4 }) := by
              simp only [unitStep, startUnit, ht]
            rw [unitSteps_step parseTime 3 _ _ _ _ rfl h3]
            cases hc : currentTotals s3 run.milestoneFault with
            | error e =>
              have h4 : unitStep parseTime s3 { startUnit merchant run with pc := 4 } =
                  (s3, { startUnit merchant run with pc := 4,
                                                     result := some (some (.store e)) }) := by
                simp only [unitStep, startUnit, hc]
              rw [unitSteps_step parseTime 2 _ _ _ _ rfl h4,
                unitSteps_done parseTime 2 _ _ _ rfl]
              simp only [pollMerchant, ProcessMilestones, readCandidates, hf, hn, hr, hp, hu, ht,
                hc, and_self]
            | ok tot =>
              obtain ⟨tx, vol⟩ := tot
              have h4 : unitStep parseTime s3 { startUnit merchant run with pc := 4 } =
                  (s3, { startUnit merchant run with pc := 5, totalTx := tx,
                                                     totalVol := vol }) := by
                simp only [unitStep, startUnit, hc]
              rw [unitSteps_step parseTime 2 _ _ _ _ rfl h4]
              cases hq : failsAt run.milestoneFault 1 with
              | true =>
                have h5 : unitStep parseTime s3
                    { startUnit merchant run with pc := 5, totalTx := tx, totalVol := vol } =
                    (s3, { startUnit merchant run with
                      pc := 5, totalTx := tx, totalVol := vol,
                      result := some (some (.store .persistence)) }) := by
                  simp only [unitStep, startUnit, hq, if_true]
                rw [unitSteps_step parseTime 1 _ _ _ _ rfl h5,
                  unitSteps_done parseTime 1 _ _ _ rfl]
                simp only [pollMerchant, ProcessMilestones, readCandidates, hf, hn, hr, hp, hu,
                  ht, hc, hq, if_true, and_self]
              | false =>
                have h5 : unitStep parseTime s3
                    { startUnit merchant run with pc := 5, totalTx := tx, totalVol := vol } =
                    (s3, { startUnit merchant run with
                      pc := 6, totalTx := tx, totalVol := vol,
                      candidates := selectCandidates s3 }) := by
                  simp only [unitStep, startUnit, hq, Bool.false_eq_true, if_false]
                rw [unitSteps_step parseTime 1 _ _ _ _ rfl h5]
                cases hw : writeTriggers s3 run.milestoneNow run.milestoneFault
                    (tx, vol, selectCandidates s3) with
                | error e =>
                  have h6 : unitStep parseTime s3
                      { startUnit merchant run with pc := 6, totalTx := tx, totalVol := vol,
                                                    candidates := selectCandidates s3 } =
                      (s3, { startUnit merchant run with
                        pc := 6, totalTx := tx, totalVol := vol,
                        candidates := selectCandidates s3,
                        result := some (some (.store e)) }) := by
                    simp only [unitStep, startUnit, hw]
                  rw [unitSteps_step parseTime 0 _ _ _ _ rfl h6]
                  simp only [unitSteps, pollMerchant, ProcessMilestones, readCandidates, hf, hn,
                    hr, hp, hu, ht, hc, hq, hw, Bool.false_eq_true, if_false, and_self]
                | ok r4 =>
                  obtain ⟨out, s4⟩ := r4
                  have h6 : unitStep parseTime s3
                      { startUnit merchant run with pc := 6, totalTx := tx, totalVol := vol,
                                                    candidates := selectCandidates s3 } =
                      (s4, { startUnit merchant run with
                        pc := 6, totalTx := tx, totalVol := vol,
                        candidates := selectCandidates s3, result := some none }) := by
                    simp only [unitStep, startUnit, hw]
                  rw [unitSteps_step parseTime 0 _ _ _ _ rfl h6]
                  simp only [unitSteps, pollMerchant, ProcessMilestones, readCandidates, hf, hn,
                    hr, hp, hu, ht, hc, hq, hw, Bool.false_eq_true, if_false, and_self]

end Dashboard
